import Mathlib

/-!
# RVVMF: a bit-level model of the vector elementary-function kernels

Every kernel of the library is a straight-line, branch-free sequence of
lane-wise RVV intrinsics: lane `i` of the result depends on lane `i` of the
input only (the cross-lane `vcpop` calls only decide whether a floating-point
exception flag is raised, which is not part of the returned value).  The
embedding therefore works on ONE lane.  A lane is its IEEE-754 bit pattern, a
natural number below `2 ^ width`; floating-point intrinsics are modelled by an
exact soft-float (round-to-nearest-even, RISC-V canonical NaN), integer
intrinsics by arithmetic modulo `2 ^ width`.

The default build is modelled (`__FAST_MATH__` not defined).  The `m1`, `m2`
and `m4` variants of every function are textually identical up to the vector
type, so one lane function stands for all three.  The `m8` variants of `exp`,
`expm1`, `tanh` and `round` call the `m4` kernel on the two halves of the
register group; they are modelled on register groups in the last section of
the definitions.
-/

namespace RVVMF

/-! ## IEEE-754 binary formats -/

/-- A binary interchange format: `eb` exponent bits and `mb` stored mantissa bits. -/
structure Fmt where
  eb : Nat
  mb : Nat

/-- The binary64 format of `double`. -/
def FP64 : Fmt := ⟨11, 52⟩

/-- The binary32 format of `float`. -/
def FP32 : Fmt := ⟨8, 23⟩

/-- The binary16 format of `_Float16`. -/
def FP16 : Fmt := ⟨5, 10⟩

/-- Number of bits of a lane. -/
def Fmt.width (F : Fmt) : Nat := F.eb + F.mb + 1

/-- Exponent bias. -/
def Fmt.bias (F : Fmt) : Nat := 2 ^ (F.eb - 1) - 1

/-- The pattern with only the sign bit set (the encoding of `-0.0`). -/
def Fmt.signMask (F : Fmt) : Nat := 2 ^ (F.eb + F.mb)

/-- The pattern of `+Inf`: exponent field all ones, mantissa zero. -/
def Fmt.pinf (F : Fmt) : Nat := (2 ^ F.eb - 1) * 2 ^ F.mb

/-- The canonical quiet NaN that RISC-V arithmetic produces. -/
def Fmt.qnan (F : Fmt) : Nat := F.pinf + 2 ^ (F.mb - 1)

/-- Magnitude bits of a lane (sign bit cleared). -/
def magOf (F : Fmt) (x : Nat) : Nat := x % 2 ^ (F.eb + F.mb)

/-- Sign bit of a lane. -/
def signOf (F : Fmt) (x : Nat) : Bool := Nat.testBit x (F.eb + F.mb)

/-- A lane is a NaN when its magnitude bits exceed those of infinity. -/
def isNaN (F : Fmt) (x : Nat) : Bool := decide (F.pinf < magOf F x)

/-- A lane is an infinity when its magnitude bits are those of infinity. -/
def isInf (F : Fmt) (x : Nat) : Bool := decide (magOf F x = F.pinf)

/-- Biased exponent field. -/
def expField (F : Fmt) (x : Nat) : Nat := (x / 2 ^ F.mb) % 2 ^ F.eb

/-- Stored mantissa field. -/
def manField (F : Fmt) (x : Nat) : Nat := x % 2 ^ F.mb

/-- Magnitude of a finite lane as a multiple of the smallest subnormal
`2 ^ (2 - bias - mb - 1)`. -/
def natOf (F : Fmt) (x : Nat) : Nat :=
  if expField F x = 0 then manField F x
  else (2 ^ F.mb + manField F x) * 2 ^ (expField F x - 1)

/-- Signed value of a finite lane as a multiple of the smallest subnormal. -/
def intOf (F : Fmt) (x : Nat) : Int :=
  if signOf F x then -(natOf F x : Int) else (natOf F x : Int)

/-- Order key of a non-NaN lane: sign-magnitude bits read as a signed integer.
IEEE comparison of two non-NaN lanes is comparison of their keys (`+0` and
`-0` share the key `0`). -/
def key (F : Fmt) (x : Nat) : Int :=
  if signOf F x then -(magOf F x : Int) else (magOf F x : Int)

/-! ## Rounding -/

/-- Binary search for the position of the most significant set bit. -/
def ilog2Aux : Nat → Nat → Nat → Nat
  | 0, _, acc => acc
  | i + 1, n, acc =>
    if 2 ^ (2 ^ i) ≤ n then ilog2Aux i (n >>> (2 ^ i)) (acc + 2 ^ i) else ilog2Aux i n acc

/-- Position of the most significant set bit of `n` (for `n < 2 ^ 8192`, which
covers every exact sum and product of binary64 lanes). -/
def ilog2 (n : Nat) : Nat := ilog2Aux 13 n 0

/-- Drop the low `d` bits of `N`, rounding to nearest, ties to even. -/
def rne (N d : Nat) : Nat :=
  if d = 0 then N
  else
    let q := N >>> d
    let r := N % 2 ^ d
    let h := 2 ^ (d - 1)
    if h < r ∨ (r = h ∧ q % 2 = 1) then q + 1 else q

/-- Round the positive real `N / 2 ^ sh` (in units of the smallest subnormal)
to the format and pack it with sign `s`.  Below the second binade the spacing
is one unit; above, `mb + 1` significant bits are kept.  The encoding is
continuous across binades, so a mantissa carry lands in the next exponent, and
anything at or above the infinity pattern overflows to infinity. -/
def roundPack (F : Fmt) (s : Bool) (N sh : Nat) : Nat :=
  let l := ilog2 N
  let bits :=
    if l ≤ sh + F.mb then rne N sh
    else (l - F.mb - sh) * 2 ^ F.mb + rne N (l - F.mb)
  (if s then F.signMask else 0) + (if F.pinf ≤ bits then F.pinf else bits)

/-! ## Floating-point intrinsics (one lane, round-to-nearest-even) -/

/-- Lane of `vfneg.v`: flip the sign bit. -/
def vfneg_v (F : Fmt) (a : Nat) : Nat := a ^^^ F.signMask

/-- Lane of `vfadd.vv` / `vfadd.vf`: `a + b`. -/
def vfadd (F : Fmt) (a b : Nat) : Nat :=
  if isNaN F a || isNaN F b then F.qnan
  else if isInf F a then
    (if isInf F b && (signOf F a != signOf F b) then F.qnan else a)
  else if isInf F b then b
  else
    let S := intOf F a + intOf F b
    if S = 0 then (if signOf F a && signOf F b then F.signMask else 0)
    else roundPack F (decide (S < 0)) S.natAbs 0

/-- Lane of `vfsub.vv` / `vfsub.vf`: `a - b`. -/
def vfsub (F : Fmt) (a b : Nat) : Nat := vfadd F a (vfneg_v F b)

/-- Lane of `vfmul.vv`: `a * b`. -/
def vfmul (F : Fmt) (a b : Nat) : Nat :=
  if isNaN F a || isNaN F b then F.qnan
  else
    let sp := signOf F a != signOf F b
    if isInf F a || isInf F b then
      (if magOf F a = 0 ∨ magOf F b = 0 then F.qnan
       else (if sp then F.signMask else 0) + F.pinf)
    else
      let P := natOf F a * natOf F b
      if P = 0 then (if sp then F.signMask else 0)
      else roundPack F sp P (F.bias + F.mb - 1)

/-- Lane of `vfmadd.vv` / `vfmadd.vf`: the fused `vd * rs1 + vs2`, rounded once. -/
def vfmadd (F : Fmt) (vd rs1 vs2 : Nat) : Nat :=
  if isNaN F vd || isNaN F rs1 || isNaN F vs2 then F.qnan
  else
    let sp := signOf F vd != signOf F rs1
    if isInf F vd || isInf F rs1 then
      (if magOf F vd = 0 ∨ magOf F rs1 = 0 then F.qnan
       else if isInf F vs2 && (signOf F vs2 != sp) then F.qnan
       else (if sp then F.signMask else 0) + F.pinf)
    else if isInf F vs2 then vs2
    else
      let sh := F.bias + F.mb - 1
      let S := intOf F vd * intOf F rs1 + intOf F vs2 * 2 ^ sh
      if S = 0 then (if sp && signOf F vs2 then F.signMask else 0)
      else roundPack F (decide (S < 0)) S.natAbs sh

/-- Lane of `vfmsub.vv`: the fused `vd * rs1 - vs2`. -/
def vfmsub (F : Fmt) (vd rs1 vs2 : Nat) : Nat := vfmadd F vd rs1 (vfneg_v F vs2)

/-- Lane of `vmfeq`: quiet equality, false on NaN. -/
def vmfeq (F : Fmt) (a b : Nat) : Bool :=
  !isNaN F a && !isNaN F b && decide (key F a = key F b)

/-- Lane of `vmflt`: `a < b`, false on NaN. -/
def vmflt (F : Fmt) (a b : Nat) : Bool :=
  !isNaN F a && !isNaN F b && decide (key F a < key F b)

/-- Lane of `vmfgt`: `a > b`, false on NaN. -/
def vmfgt (F : Fmt) (a b : Nat) : Bool := vmflt F b a

/-- Lane of `vfmerge.vfm`: the scalar where the mask is set, else `op1`. -/
def vfmerge_vfm (op1 f : Nat) (mask : Bool) : Nat := if mask then f else op1

/-- Lane of `vmerge.vvm`: `op2` where the mask is set, else `op1`. -/
def vmerge_vvm (op1 op2 : Nat) (mask : Bool) : Nat := if mask then op2 else op1

/-! ## Integer intrinsics (one lane of `w` bits) -/

/-- Lane of `vadd`: addition modulo `2 ^ w`. -/
def vadd (w a b : Nat) : Nat := (a + b) % 2 ^ w

/-- Lane of `vmul`: multiplication modulo `2 ^ w`. -/
def vmul (w a b : Nat) : Nat := (a * b) % 2 ^ w

/-- Lane of `vneg`: two-complement negation modulo `2 ^ w`. -/
def vneg (w a : Nat) : Nat := (2 ^ w - a % 2 ^ w) % 2 ^ w

/-- Lane of `vsll.vx`: left shift, bits shifted out are lost. -/
def vsll (w a k : Nat) : Nat := (a <<< k) % 2 ^ w

/-- Lane of `vsrl.vx`: logical right shift. -/
def vsrl (a k : Nat) : Nat := a >>> k

/-- Lane of `vand`. -/
def vand (a b : Nat) : Nat := a &&& b

/-- Lane of `vor`. -/
def vor (a b : Nat) : Nat := a ||| b

/-- Lane of `vmsgtu.vx`: unsigned `a > b`. -/
def vmsgtu (a b : Nat) : Bool := decide (b < a)

/-- Lane of `vmseq.vx`. -/
def vmseq (a b : Nat) : Bool := decide (a = b)

/-! ## exp_macro.inl / exp_utilities.inl: double-FP arithmetic and polynomials

The macros are generic in the vector type; here they are generic in the format.
-/

/-- Lane of `fast_2_sum_vv` (`RVVMF_EXP_FAST2SUM_VV`): `(sh, sl)`. -/
def fast_2_sum_vv (F : Fmt) (a b : Nat) : Nat × Nat :=
  let sh := vfadd F a b
  let sl := vfsub F b (vfsub F sh a)
  (sh, sl)

/-- Lane of `fast_2_sum_fv` (`RVVMF_EXP_FAST2SUM_FV`), scalar first operand: `(sh, sl)`. -/
def fast_2_sum_fv (F : Fmt) (a b : Nat) : Nat × Nat :=
  let sh := vfadd F b a
  let sl := vfsub F b (vfsub F sh a)
  (sh, sl)

/-- Lane of `mul22_vv` (`RVVMF_EXP_MUL22_VV`): `(zh, zl)`. -/
def mul22_vv (F : Fmt) (ah al bh bl : Nat) : Nat × Nat :=
  let zh := vfmul F ah bh
  let zl := vfmsub F ah bh zh
  let zl := vfadd F zl (vfmadd F ah bl (vfmul F al bh))
  (zh, zl)

/-- Lane of `mul21_vv` (`RVVMF_EXP_MUL21_VV`): the collapsed product. -/
def mul21_vv (F : Fmt) (ah al bh bl : Nat) : Nat :=
  let z := mul22_vv F ah al bh bl
  vfadd F z.1 z.2

/-- Lane of `fma12_vv` / `fma12_vf` (`RVVMF_EXP_FMA12_VER1_*`): `(zh, zl)`. -/
def fma12 (F : Fmt) (ah bh ch : Nat) : Nat × Nat :=
  let zh := vfmadd F ah bh ch
  let zl := vfmadd F ah bh (vfsub F ch zh)
  (zh, zl)

/-- Lane of `fma12_ver2p1_vf` (`RVVMF_EXP_FMA12_VER2P1_VF`): `(zh, zl)`. -/
def fma12_ver2p1_vf (F : Fmt) (ah bh ch : Nat) : Nat × Nat :=
  let zh := vfmadd F ah bh ch
  let s := fast_2_sum_vv F (vfneg_v F zh) ch
  let zl := vfmadd F ah bh s.1
  let zl := vfadd F zl s.2
  (zh, zl)

/-- Lane of `fma12_ver2p2_vf` (`RVVMF_EXP_FMA12_VER2P2_VF`): `(zh, zl)`. -/
def fma12_ver2p2_vf (F : Fmt) (ah bh ch : Nat) : Nat × Nat :=
  let zh := vfmadd F ah bh ch
  let s := fast_2_sum_vv F ch (vfneg_v F zh)
  let zl := vfmadd F ah bh s.1
  let zl := vfadd F zl s.2
  (zh, zl)

/-- Lane of `calc_polynom_deg_1` (`RVVMF_EXP_CALC_POLYNOM_DEG_1`). -/
def calc_polynom_deg_1 (F : Fmt) (x a0 a1 : Nat) : Nat := vfmadd F x a1 a0

/-- Lane of `calc_polynom_deg_2` (`RVVMF_EXP_CALC_POLYNOM_DEG_2`). -/
def calc_polynom_deg_2 (F : Fmt) (x a0 a1 a2 : Nat) : Nat :=
  vfmadd F x (vfmadd F x a2 a1) a0

/-- Lane of `calc_polynom_deg_3_parallel`. -/
def calc_polynom_deg_3_parallel (F : Fmt) (x sqrx a0 a1 a2 a3 : Nat) : Nat :=
  vfmadd F x (calc_polynom_deg_1 F sqrx a1 a3) (calc_polynom_deg_1 F sqrx a0 a2)

/-- Lane of `calc_polynom_deg_4_parallel`. -/
def calc_polynom_deg_4_parallel (F : Fmt) (x sqrx a0 a1 a2 a3 a4 : Nat) : Nat :=
  vfmadd F x (calc_polynom_deg_1 F sqrx a1 a3) (calc_polynom_deg_2 F sqrx a0 a2 a4)

/-- Lane of `calc_polynom_deg_5_parallel`. -/
def calc_polynom_deg_5_parallel (F : Fmt) (x sqrx a0 a1 a2 a3 a4 a5 : Nat) : Nat :=
  vfmadd F x (calc_polynom_deg_2 F sqrx a1 a3 a5) (calc_polynom_deg_2 F sqrx a0 a2 a4)

/-- Lane of `calc_polynom_deg_6_parallel`. -/
def calc_polynom_deg_6_parallel (F : Fmt) (x sqrx a0 a1 a2 a3 a4 a5 a6 : Nat) : Nat :=
  vfmadd F x (calc_polynom_deg_2 F sqrx a1 a3 a5)
    (calc_polynom_deg_3_parallel F sqrx (vfmul F sqrx sqrx) a0 a2 a4 a6)

/-! ## dexp.inl: constants of the binary64 kernels (bit patterns of the literals) -/

/-- Pattern of `0.0`. -/
def ZERO_F64 : Nat := 0x0000000000000000
/-- Pattern of `1.0`. -/
def ONE_F64 : Nat := 0x3ff0000000000000
/-- Pattern of `0x1.62e42fefa39efp9`. -/
def EXP_EXPM1_OVERFLOW_THRESHOLD_F64 : Nat := 0x40862e42fefa39ef
/-- Pattern of `-0x1.6232bdd7abcd2p9`. -/
def EXP_SUBNORMAL_THRESHOLD_F64 : Nat := 0xc086232bdd7abcd2
/-- Pattern of `-0x1.74910d52d3051p9`. -/
def EXP_ZERO_THRESHOLD_F64 : Nat := 0xc0874910d52d3051
/-- Pattern of `0.0`. -/
def EXP_UNDERFLOW_VALUE_F64 : Nat := 0x0000000000000000
/-- Pattern of `-0x1.2b708872320e1p5`. -/
def EXPM1_UNDERFLOW_THRESHOLD_F64 : Nat := 0xc042b708872320e1
/-- Pattern of `0x1.6a09e667f3bcdp-53`. -/
def EXPM1_LINEAR_THRESHOLD_F64 : Nat := 0x3ca6a09e667f3bcd
/-- Pattern of `-1.0`. -/
def EXPM1_UNDERFLOW_VALUE_F64 : Nat := 0xbff0000000000000

/-- Table size degree `k`: the table has `2 ^ 6` rows. -/
def TABLE_SIZE_DEG_F64 : Nat := 6
/-- Mask of the table index bits. -/
def MASK_FI_BIT_F64 : Nat := 0x000000000000003f
/-- Mask of the quotient bits. -/
def MASK_HI_BIT_F64 : Nat := 0x000000000003ffff
/-- Pattern of `6755399441055744.0`. -/
def MAGIC_CONST_1_F64 : Nat := 0x4338000000000000
/-- Pattern of `0x1.71547652b82fep6`. -/
def INV_LOG2_2K_F64 : Nat := 0x40571547652b82fe
/-- Pattern of `-0x1.62e42fefap-7`. -/
def M_LOG2_2K_H_F64 : Nat := 0xbf862e42fefa0000
/-- Pattern of `-0x1.cf79abc9e3b3ap-46`. -/
def M_LOG2_2K_L_F64 : Nat := 0xbd1cf79abc9e3b3a
/-- Pattern of `-0x1.ff0342542fc33p-100`. -/
def M_LOG2_2K_LL_F64 : Nat := 0xb9bff0342542fc33

/-- Patterns of the 64 entries of `LOOK_UP_TABLE_HIGH_F64`, in source order. -/
def LOOK_UP_TABLE_HIGH_F64 : List Nat := [
  0x3ff0000000000000, 0x3ff02c9a3e778061, 0x3ff059b0d3158574, 0x3ff0874518759bc8,
  0x3ff0b5586cf9890f, 0x3ff0e3ec32d3d1a2, 0x3ff11301d0125b51, 0x3ff1429aaea92de0,
  0x3ff172b83c7d517b, 0x3ff1a35beb6fcb75, 0x3ff1d4873168b9aa, 0x3ff2063b88628cd6,
  0x3ff2387a6e756238, 0x3ff26b4565e27cdd, 0x3ff29e9df51fdee1, 0x3ff2d285a6e4030b,
  0x3ff306fe0a31b715, 0x3ff33c08b26416ff, 0x3ff371a7373aa9cb, 0x3ff3a7db34e59ff7,
  0x3ff3dea64c123422, 0x3ff4160a21f72e2a, 0x3ff44e086061892d, 0x3ff486a2b5c13cd0,
  0x3ff4bfdad5362a27, 0x3ff4f9b2769d2ca7, 0x3ff5342b569d4f82, 0x3ff56f4736b527da,
  0x3ff5ab07dd485429, 0x3ff5e76f15ad2148, 0x3ff6247eb03a5585, 0x3ff6623882552225,
  0x3ff6a09e667f3bcd, 0x3ff6dfb23c651a2f, 0x3ff71f75e8ec5f74, 0x3ff75feb564267c9,
  0x3ff7a11473eb0187, 0x3ff7e2f336cf4e62, 0x3ff82589994cce13, 0x3ff868d99b4492ed,
  0x3ff8ace5422aa0db, 0x3ff8f1ae99157736, 0x3ff93737b0cdc5e5, 0x3ff97d829fde4e50,
  0x3ff9c49182a3f090, 0x3ffa0c667b5de565, 0x3ffa5503b23e255d, 0x3ffa9e6b5579fdbf,
  0x3ffae89f995ad3ad, 0x3ffb33a2b84f15fb, 0x3ffb7f76f2fb5e47, 0x3ffbcc1e904bc1d2,
  0x3ffc199bdd85529c, 0x3ffc67f12e57d14b, 0x3ffcb720dcef9069, 0x3ffd072d4a07897c,
  0x3ffd5818dcfba487, 0x3ffda9e603db3285, 0x3ffdfc97337b9b5f, 0x3ffe502ee78b3ff6,
  0x3ffea4afa2a490da, 0x3ffefa1bee615a27, 0x3fff50765b6e4540, 0x3fffa7c1819e90d8]

/-- Patterns of the 64 entries of `LOOK_UP_TABLE_LOW_F64`, in source order. -/
def LOOK_UP_TABLE_LOW_F64 : List Nat := [
  0x0000000000000000, 0xbc719083535b085d, 0x3c8d73e2a475b465, 0x3c6186be4bb284ff,
  0x3c98a62e4adc610b, 0x3c403a1727c57b53, 0xbc96c51039449b3a, 0xbc932fbf9af1369e,
  0xbc819041b9d78a76, 0x3c8e5b4c7b4968e4, 0x3c9e016e00a2643c, 0x3c8dc775814a8495,
  0x3c99b07eb6c70573, 0x3c82bd339940e9d9, 0x3c8612e8afad1255, 0x3c90024754db41d5,
  0x3c86f46ad23182e4, 0x3c932721843659a6, 0xbc963aeabf42eae2, 0xbc75e436d661f5e3,
  0x3c8ada0911f09ebc, 0xbc5ef3691c309278, 0x3c489b7a04ef80d0, 0x3c73c1a3b69062f0,
  0x3c7d4397afec42e2, 0xbc94b309d25957e3, 0xbc807abe1db13cad, 0x3c99bb2c011d93ad,
  0x3c96324c054647ad, 0x3c9ba6f93080e65e, 0xbc9383c17e40b497, 0xbc9bb60987591c34,
  0xbc9bdd3413b26456, 0xbc6bbe3a683c88ab, 0xbc816e4786887a99, 0xbc90245957316dd3,
  0xbc841577ee04992f, 0x3c705d02ba15797e, 0xbc9d4c1dd41532d8, 0xbc9fc6f89bd4f6ba,
  0x3c96e9f156864b27, 0x3c85cc13a2e3976c, 0xbc675fc781b57ebc, 0xbc9d185b7c1b85d1,
  0x3c7c7c46b071f2be, 0xbc9359495d1cd533, 0xbc9d2f6edb8d41e1, 0x3c90fac90ef7fd31,
  0x3c97a1cd345dcc81, 0xbc62805e3084d708, 0xbc75584f7e54ac3b, 0x3c823dd07a2d9e84,
  0x3c811065895048dd, 0x3c92884dff483cad, 0x3c7503cbd1e949db, 0xbc9cbc3743797a9c,
  0x3c82ed02d75b3707, 0x3c9c2300696db532, 0xbc91a5cd4f184b5c, 0x3c839e8980a9cc8f,
  0xbc9e9c23179c2893, 0x3c9dc7f486a4b6b0, 0x3c99d3e12dd8a18b, 0x3c874853f3a5931e]

/-- Pattern of `0x1p-1`. -/
def EXP_POL_COEFF_2_F64 : Nat := 0x3fe0000000000000
/-- Pattern of `0x1.55555555548bap-3`. -/
def EXP_POL_COEFF_3_F64 : Nat := 0x3fc55555555548ba
/-- Pattern of `0x1.5555555555abcp-5`. -/
def EXP_POL_COEFF_4_F64 : Nat := 0x3fa5555555555abc
/-- Pattern of `0x1.111123cf189c3p-7`. -/
def EXP_POL_COEFF_5_F64 : Nat := 0x3f8111123cf189c3
/-- Pattern of `0x1.6c16c6a1679b3p-10`. -/
def EXP_POL_COEFF_6_F64 : Nat := 0x3f56c16c6a1679b3

/-! ## dexp.inl: the binary64 helper functions -/

/-- Lane of `check_special_cases_f64m1`: `(x, special, specialMask)` after the call. -/
def check_special_cases_f64m1 (x overflowThreshold : Nat) : Nat × Nat × Bool :=
  let pinf := 0x7ff0000000000000
  let specialMask := vmfeq FP64 x pinf
  let special := vfmerge_vfm x pinf specialMask
  let mask := vmfgt FP64 x overflowThreshold && vmflt FP64 x pinf
  let special := vfmerge_vfm special pinf mask
  let specialMask := specialMask || mask
  let x := vfmerge_vfm x ZERO_F64 specialMask
  (x, special, specialMask)

/-- Lane of `do_exp_argument_reduction_h_f64m1`: `(yh, ei, fi)`. -/
def do_exp_argument_reduction_h_f64m1 (x : Nat) : Nat × Nat × Nat :=
  let vmagicConst1 := MAGIC_CONST_1_F64
  let h := vfmadd FP64 x INV_LOG2_2K_F64 vmagicConst1
  let hi := vand h MASK_HI_BIT_F64
  let fi := vand hi MASK_FI_BIT_F64
  let ei := vsrl hi TABLE_SIZE_DEG_F64
  let h := vfsub FP64 h vmagicConst1
  let yh := vfmadd FP64 h M_LOG2_2K_L_F64 (vfmadd FP64 h M_LOG2_2K_H_F64 x)
  (yh, ei, fi)

/-- Lane of `get_table_values_hl_f64m1`: the indexed loads at byte offset
`index * sizeof(double)` read row `index` of the two tables: `(th, tl)`. -/
def get_table_values_hl_f64m1 (index : Nat) : Nat × Nat :=
  let index := vmul 64 index 8
  (LOOK_UP_TABLE_HIGH_F64.getD (index / 8) 0, LOOK_UP_TABLE_LOW_F64.getD (index / 8) 0)

/-- Lane of `calculate_exp_polynom_hl12_f64m1`: `(ph, pl)`. -/
def calculate_exp_polynom_hl12_f64m1 (yh : Nat) : Nat × Nat :=
  let sqryh := vfmul FP64 yh yh
  let r := calc_polynom_deg_4_parallel FP64 yh sqryh EXP_POL_COEFF_2_F64 EXP_POL_COEFF_3_F64
    EXP_POL_COEFF_4_F64 EXP_POL_COEFF_5_F64 EXP_POL_COEFF_6_F64
  fma12 FP64 sqryh r yh

/-- Lane of `update_exponent_f64m1`. -/
def update_exponent_f64m1 (ei res : Nat) : Nat := vadd 64 res (vsll 64 ei 52)

/-- Lane of `update_exponent_with_subnormal_f64m1`. -/
def update_exponent_with_subnormal_f64m1 (subnormalThreshold x ei res : Nat) : Nat :=
  let ninf := 0xfff0000000000000
  let subnormalMask := vmfgt FP64 x ninf && vmflt FP64 x subnormalThreshold
  let shiftNum := vneg 64 ei
  let shiftNum := vand (vadd 64 shiftNum 1) 0x0000000000000fff
  let shiftNum := vsll 64 shiftNum 52
  let subnormalRes := vfadd FP64 res shiftNum
  let subnormalRes := vand subnormalRes 0x800fffffffffffff
  let res := update_exponent_f64m1 ei res
  vmerge_vvm res subnormalRes subnormalMask

/-- Lane of `reconstruct_exp_hl_hl_f64m1`. -/
def reconstruct_exp_hl_hl_f64m1 (x ei th tl pm1h pm1l subnormalThreshold : Nat) : Nat :=
  let s := fast_2_sum_fv FP64 ONE_F64 pm1h
  let sh := s.1
  let sl := vfadd FP64 s.2 pm1l
  let res := mul21_vv FP64 th tl sh sl
  update_exponent_with_subnormal_f64m1 subnormalThreshold x ei res

/-- Lane of `reconstruct_expm1_f64m1`. -/
def reconstruct_expm1_f64m1 (th tl pm1h pm1l ei : Nat) : Nat :=
  let r := fast_2_sum_fv FP64 ONE_F64 pm1h
  let rh := r.1
  let rl := vfadd FP64 r.2 pm1l
  let s := mul22_vv FP64 th tl rh rl
  let power := vsll 64 ei 52
  let sh := vadd 64 s.1 power
  let slZeroMask := vmfeq FP64 s.2 ZERO_F64
  let sl := vadd 64 s.2 power
  let sl := vfmerge_vfm sl ZERO_F64 slZeroMask
  let sortMask := vmsgtu (vand sh 0x7ff0000000000000) 0x3ff0000000000000
  let maxs := vfmerge_vfm sh EXPM1_UNDERFLOW_VALUE_F64 (!sortMask)
  let mins := vfmerge_vfm sh EXPM1_UNDERFLOW_VALUE_F64 sortMask
  let r := fast_2_sum_vv FP64 maxs mins
  vfadd FP64 r.1 (vfadd FP64 sl r.2)

/-- Lane of `update_underflow_f64m1`. -/
def update_underflow_f64m1 (x res underflowThreshold underflowValue : Nat) : Nat :=
  let underflowMask := vmflt FP64 x underflowThreshold
  vfmerge_vfm res underflowValue underflowMask

/-- Lane of `set_sign_f64m1`; `~signMask` is `0x8000000000000000`. -/
def set_sign_f64m1 (x res : Nat) : Nat :=
  let signMask := 0x7fffffffffffffff
  let res := vand res signMask
  vor (vand x (0xffffffffffffffff - signMask)) res

/-- Lane of `process_linear_f64m1`. -/
def process_linear_f64m1 (x res : Nat) : Nat :=
  let signMask := 0x7fffffffffffffff
  let xabs := vand x signMask
  let linearMask := vmflt FP64 xabs EXPM1_LINEAR_THRESHOLD_F64
  vmerge_vvm res x linearMask

/-! ## exp.cpp / expm1.cpp: the binary64 kernels -/

/-- Lane of `__riscv_vexp_f64m1` (and of the identical `m2`, `m4` variants). -/
def __riscv_vexp_f64m1 (x : Nat) : Nat :=
  let zeroThreshold := EXP_ZERO_THRESHOLD_F64
  let c := check_special_cases_f64m1 x EXP_EXPM1_OVERFLOW_THRESHOLD_F64
  let x := c.1
  let special := c.2.1
  let specialMask := c.2.2
  let r := do_exp_argument_reduction_h_f64m1 x
  let yh := r.1
  let ei := r.2.1
  let fi := r.2.2
  let t := get_table_values_hl_f64m1 fi
  let p := calculate_exp_polynom_hl12_f64m1 yh
  let res := reconstruct_exp_hl_hl_f64m1 x ei t.1 t.2 p.1 p.2 EXP_SUBNORMAL_THRESHOLD_F64
  let res := update_underflow_f64m1 x res zeroThreshold EXP_UNDERFLOW_VALUE_F64
  vmerge_vvm res special specialMask

/-- Lane of `__riscv_vexpm1_f64m1` (and of the identical `m2`, `m4` variants);
the call of `process_linear_f64m1` is commented out in the source. -/
def __riscv_vexpm1_f64m1 (x : Nat) : Nat :=
  let c := check_special_cases_f64m1 x EXP_EXPM1_OVERFLOW_THRESHOLD_F64
  let x := c.1
  let special := c.2.1
  let specialMask := c.2.2
  let r := do_exp_argument_reduction_h_f64m1 x
  let yh := r.1
  let ei := r.2.1
  let fi := r.2.2
  let t := get_table_values_hl_f64m1 fi
  let p := calculate_exp_polynom_hl12_f64m1 yh
  let res := reconstruct_expm1_f64m1 t.1 t.2 p.1 p.2 ei
  let res := set_sign_f64m1 x res
  let res := update_underflow_f64m1 x res EXPM1_UNDERFLOW_THRESHOLD_F64 EXPM1_UNDERFLOW_VALUE_F64
  vmerge_vvm res special specialMask

/-! ## sexp.inl: constants of the binary32 kernels (bit patterns of the literals) -/

/-- Pattern of `0.0f`. -/
def ZERO_F32 : Nat := 0x00000000
/-- Pattern of `1.0f`. -/
def ONE_F32 : Nat := 0x3f800000
/-- Pattern of `0x1.62e42ep6f`. -/
def EXP_EXPM1_OVERFLOW_THRESHOLD_F32 : Nat := 0x42b17217
/-- Pattern of `-0x1.5d589ep6f`. -/
def EXP_SUBNORMAL_THRESHOLD_F32 : Nat := 0xc2aeac4f
/-- Pattern of `-0x1.9fe368p6f`. -/
def EXP_ZERO_THRESHOLD_F32 : Nat := 0xc2cff1b4
/-- Pattern of `0.0f`. -/
def EXP_UNDERFLOW_VALUE_F32 : Nat := 0x00000000
/-- Pattern of `-0x1.154244p4f`. -/
def EXPM1_UNDERFLOW_THRESHOLD_F32 : Nat := 0xc18aa122
/-- Pattern of `0x1.6a09e8p-24f`. -/
def EXPM1_LINEAR_THRESHOLD_F32 : Nat := 0x33b504f4
/-- Pattern of `-1.0f`. -/
def EXPM1_UNDERFLOW_VALUE_F32 : Nat := 0xbf800000

/-- Table size degree `k`: the table has `2 ^ 4` rows. -/
def TABLE_SIZE_DEG_F32 : Nat := 4
/-- Mask of the table index bits. -/
def MASK_FI_BIT_F32 : Nat := 0x0000000f
/-- Mask of the quotient bits. -/
def MASK_HI_BIT_F32 : Nat := 0x00001fff
/-- Pattern of `12582912.0f`. -/
def MAGIC_CONST_1_F32 : Nat := 0x4b400000
/-- Pattern of `0x1.715476p4f`. -/
def INV_LOG2_2K_F32 : Nat := 0x41b8aa3b
/-- Pattern of `-0x1.62ep-5f`. -/
def M_LOG2_2K_H_F32 : Nat := 0xbd317000
/-- Pattern of `-0x1.0bfbe8p-19f`. -/
def M_LOG2_2K_L_F32 : Nat := 0xb605fdf4
/-- Pattern of `-0x1.cf79acp-44f`. -/
def M_LOG2_2K_LL_F32 : Nat := 0xa9e7bcd6

/-- Patterns of the 16 entries of `LOOK_UP_TABLE_HIGH_F32`, in source order. -/
def LOOK_UP_TABLE_HIGH_F32 : List Nat := [
  0x3f800000, 0x3f85aac3, 0x3f8b95c2, 0x3f91c3d3,
  0x3f9837f0, 0x3f9ef532, 0x3fa5fed7, 0x3fad583f,
  0x3fb504f3, 0x3fbd08a4, 0x3fc5672a, 0x3fce248c,
  0x3fd744fd, 0x3fe0ccdf, 0x3feac0c7, 0x3ff5257d]

/-- Patterns of the 16 entries of `LOOK_UP_TABLE_LOW_F32`, in source order. -/
def LOOK_UP_TABLE_LOW_F32 : List Nat := [
  0x00000000, 0x334f9891, 0xb260aba1, 0x33675624,
  0x33231b71, 0x33412342, 0xb32c9d5e, 0xb22deaf6,
  0x32cfe77a, 0xb3414fe8, 0x320aa837, 0x3228fc24,
  0xb2d4a58a, 0xb21eab59, 0xb24116de, 0x32292436]

/-- Pattern of `0x1p-1f`. -/
def EXP_POL_COEFF_2_F32 : Nat := 0x3f000000
/-- Pattern of `0x1.5556dep-3f`. -/
def EXP_POL_COEFF_3_F32 : Nat := 0x3e2aab6f
/-- Pattern of `0x1.555696p-5f`. -/
def EXP_POL_COEFF_4_F32 : Nat := 0x3d2aab4b

/-! ## sexp.inl: the binary32 helper functions -/

/-- Lane of `check_special_cases_f32m1`: `(x, special, specialMask)` after the call. -/
def check_special_cases_f32m1 (x overflowThreshold : Nat) : Nat × Nat × Bool :=
  let pinf := 0x7f800000
  let specialMask := vmfeq FP32 x pinf
  let special := vfmerge_vfm x pinf specialMask
  let mask := vmfgt FP32 x overflowThreshold && vmflt FP32 x pinf
  let special := vfmerge_vfm special pinf mask
  let specialMask := specialMask || mask
  let x := vfmerge_vfm x ZERO_F32 specialMask
  (x, special, specialMask)

/-- Lane of `do_exp_argument_reduction_hl_f32m1`: `(yh, yl, ei, fi)`. -/
def do_exp_argument_reduction_hl_f32m1 (x : Nat) : Nat × Nat × Nat × Nat :=
  let vmagicConst1 := MAGIC_CONST_1_F32
  let h := vfmadd FP32 x INV_LOG2_2K_F32 vmagicConst1
  let hi := vand h MASK_HI_BIT_F32
  let fi := vand hi MASK_FI_BIT_F32
  let ei := vsrl hi TABLE_SIZE_DEG_F32
  let h := vfsub FP32 h vmagicConst1
  let y := fma12 FP32 h M_LOG2_2K_L_F32 (vfmadd FP32 h M_LOG2_2K_H_F32 x)
  let yh := y.1
  let yl := vfmadd FP32 h M_LOG2_2K_LL_F32 y.2
  let y := fast_2_sum_vv FP32 yh yl
  (y.1, y.2, ei, fi)

/-- Lane of `get_table_values_hl_f32m1`: the indexed loads at byte offset
`index * sizeof(float)` read row `index` of the two tables: `(th, tl)`. -/
def get_table_values_hl_f32m1 (index : Nat) : Nat × Nat :=
  let index := vmul 32 index 4
  (LOOK_UP_TABLE_HIGH_F32.getD (index / 4) 0, LOOK_UP_TABLE_LOW_F32.getD (index / 4) 0)

/-- Lane of `calculate_exp_polynom_hl_f32m1`: `(ph, pl)`. -/
def calculate_exp_polynom_hl_f32m1 (yh yl : Nat) : Nat × Nat :=
  let sqryh := vfmul FP32 yh yh
  let r := calc_polynom_deg_2 FP32 yh EXP_POL_COEFF_2_F32 EXP_POL_COEFF_3_F32 EXP_POL_COEFF_4_F32
  let p := fma12 FP32 sqryh r yh
  (p.1, vfadd FP32 p.2 yl)

/-- Lane of `update_exponent_f32m1`. -/
def update_exponent_f32m1 (ei res : Nat) : Nat := vadd 32 res (vsll 32 ei 23)

/-- Lane of `update_exponent_with_subnormal_f32m1`. -/
def update_exponent_with_subnormal_f32m1 (subnormalThreshold x ei res : Nat) : Nat :=
  let ninf := 0xff800000
  let subnormalMask := vmfgt FP32 x ninf && vmflt FP32 x subnormalThreshold
  let shiftNum := vneg 32 ei
  let shiftNum := vadd 32 (vand shiftNum 0x000001ff) 1
  let shiftNum := vsll 32 shiftNum 23
  let subnormalRes := vfadd FP32 res shiftNum
  let subnormalRes := vand subnormalRes 0x807fffff
  let res := update_exponent_f32m1 ei res
  vmerge_vvm res subnormalRes subnormalMask

/-- Lane of `reconstruct_exp_hl_hl_f32m1`. -/
def reconstruct_exp_hl_hl_f32m1 (x ei th tl pm1h pm1l subnormalThreshold : Nat) : Nat :=
  let s := fast_2_sum_fv FP32 ONE_F32 pm1h
  let sh := s.1
  let sl := vfadd FP32 s.2 pm1l
  let res := mul21_vv FP32 th tl sh sl
  update_exponent_with_subnormal_f32m1 subnormalThreshold x ei res

/-- Lane of `reconstruct_expm1_f32m1`. -/
def reconstruct_expm1_f32m1 (th tl pm1h pm1l ei : Nat) : Nat :=
  let r := fast_2_sum_fv FP32 ONE_F32 pm1h
  let rh := r.1
  let rl := vfadd FP32 r.2 pm1l
  let s := mul22_vv FP32 th tl rh rl
  let power := vsll 32 ei 23
  let sh := vadd 32 s.1 power
  let slZeroMask := vmfeq FP32 s.2 ZERO_F32
  let sl := vadd 32 s.2 power
  let sl := vfmerge_vfm sl ZERO_F32 slZeroMask
  let sortMask := vmsgtu (vand sh 0x7f800000) 0x3f800000
  let maxs := vfmerge_vfm sh EXPM1_UNDERFLOW_VALUE_F32 (!sortMask)
  let mins := vfmerge_vfm sh EXPM1_UNDERFLOW_VALUE_F32 sortMask
  let r := fast_2_sum_vv FP32 maxs mins
  vfadd FP32 r.1 (vfadd FP32 sl r.2)

/-- Lane of `update_underflow_f32m1`. -/
def update_underflow_f32m1 (x res underflowThreshold underflowValue : Nat) : Nat :=
  let underflowMask := vmflt FP32 x underflowThreshold
  vfmerge_vfm res underflowValue underflowMask

/-- Lane of `set_sign_f32m1`; `~signMask` is `0x80000000`. -/
def set_sign_f32m1 (x res : Nat) : Nat :=
  let signMask := 0x7fffffff
  let res := vand res signMask
  vor (vand x (0xffffffff - signMask)) res

/-- Lane of `process_linear_f32m1`. -/
def process_linear_f32m1 (x res : Nat) : Nat :=
  let signMask := 0x7fffffff
  let xabs := vand x signMask
  let linearMask := vmflt FP32 xabs EXPM1_LINEAR_THRESHOLD_F32
  vmerge_vvm res x linearMask

/-! ## exp.cpp / expm1.cpp: the binary32 kernels -/

/-- Lane of `__riscv_vexp_f32m1` (and of the identical `m2`, `m4` variants). -/
def __riscv_vexp_f32m1 (x : Nat) : Nat :=
  let zeroThreshold := EXP_ZERO_THRESHOLD_F32
  let c := check_special_cases_f32m1 x EXP_EXPM1_OVERFLOW_THRESHOLD_F32
  let x := c.1
  let special := c.2.1
  let specialMask := c.2.2
  let r := do_exp_argument_reduction_hl_f32m1 x
  let yh := r.1
  let yl := r.2.1
  let ei := r.2.2.1
  let fi := r.2.2.2
  let t := get_table_values_hl_f32m1 fi
  let p := calculate_exp_polynom_hl_f32m1 yh yl
  let res := reconstruct_exp_hl_hl_f32m1 x ei t.1 t.2 p.1 p.2 EXP_SUBNORMAL_THRESHOLD_F32
  let res := update_underflow_f32m1 x res zeroThreshold EXP_UNDERFLOW_VALUE_F32
  vmerge_vvm res special specialMask

/-- Lane of `__riscv_vexpm1_f32m1` (and of the identical `m2`, `m4` variants);
the call of `process_linear_f32m1` is commented out in the source. -/
def __riscv_vexpm1_f32m1 (x : Nat) : Nat :=
  let c := check_special_cases_f32m1 x EXP_EXPM1_OVERFLOW_THRESHOLD_F32
  let x := c.1
  let special := c.2.1
  let specialMask := c.2.2
  let r := do_exp_argument_reduction_hl_f32m1 x
  let yh := r.1
  let yl := r.2.1
  let ei := r.2.2.1
  let fi := r.2.2.2
  let t := get_table_values_hl_f32m1 fi
  let p := calculate_exp_polynom_hl_f32m1 yh yl
  let res := reconstruct_expm1_f32m1 t.1 t.2 p.1 p.2 ei
  let res := set_sign_f32m1 x res
  let res := update_underflow_f32m1 x res EXPM1_UNDERFLOW_THRESHOLD_F32 EXPM1_UNDERFLOW_VALUE_F32
  vmerge_vvm res special specialMask

/-! ## hexp.inl: constants of the binary16 kernels (bit patterns of the literals) -/

/-- Pattern of `0.0f16`. -/
def ZERO_F16 : Nat := 0x0000
/-- Pattern of `1.0f16`. -/
def ONE_F16 : Nat := 0x3c00
/-- Pattern of `0x1.62cp3f16`. -/
def EXP_EXPM1_OVERFLOW_THRESHOLD_F16 : Nat := 0x498b
/-- Pattern of `-0x1.368p3f16`. -/
def EXP_SUBNORMAL_THRESHOLD_F16 : Nat := 0xc8da
/-- Pattern of `-0x1.154p4f16`. -/
def EXP_ZERO_THRESHOLD_F16 : Nat := 0xcc55
/-- Pattern of `0.0f16`. -/
def EXP_UNDERFLOW_VALUE_F16 : Nat := 0x0000
/-- Pattern of `-0x1.0ap3f16`. -/
def EXPM1_UNDERFLOW_THRESHOLD_F16 : Nat := 0xc828
/-- Pattern of `0x1.6ap-11f16`. -/
def EXPM1_LINEAR_THRESHOLD_F16 : Nat := 0x11a8
/-- Pattern of `-1.0f16`. -/
def EXPM1_UNDERFLOW_VALUE_F16 : Nat := 0xbc00

/-- Table size degree `k`: the table has `2 ^ 3` rows. -/
def TABLE_SIZE_DEG_F16 : Nat := 3
/-- Mask of the table index bits. -/
def MASK_FI_BIT_F16 : Nat := 0x0007
/-- Mask of the quotient bits. -/
def MASK_HI_BIT_F16 : Nat := 0x01ff
/-- Pattern of `1536.0f16`. -/
def MAGIC_CONST_1_F16 : Nat := 0x6600
/-- Pattern of `0x1.714p3f16`. -/
def INV_LOG2_2K_F16 : Nat := 0x49c5
/-- Pattern of `-0x1.6p-4f16`. -/
def M_LOG2_2K_H_F16 : Nat := 0xad80
/-- Pattern of `-0x1.72p-11f16`. -/
def M_LOG2_2K_L_F16 : Nat := 0x91c8
/-- Pattern of `-0x1.8p-23f16`. -/
def M_LOG2_2K_LL_F16 : Nat := 0x8003

/-- Patterns of the 8 entries of `LOOK_UP_TABLE_HIGH_F16`, in source order. -/
def LOOK_UP_TABLE_HIGH_F16 : List Nat := [
  0x3c00, 0x3c5d, 0x3cc2, 0x3d30,
  0x3da8, 0x3e2b, 0x3eba, 0x3f56]

/-- Patterns of the 8 entries of `LOOK_UP_TABLE_LOW_F16`, in source order. -/
def LOOK_UP_TABLE_LOW_F16 : List Nat := [
  0x0000, 0x8d1f, 0x8c08, 0x8253,
  0x08f3, 0x0b2a, 0x08fd, 0x018e]

/-- Pattern of `0x1p-1f16`. -/
def EXP_POL_COEFF_2_F16 : Nat := 0x3800
/-- Pattern of `0x1.55p-3f16`. -/
def EXP_POL_COEFF_3_F16 : Nat := 0x3154

/-! ## hexp.inl: the binary16 helper functions -/

/-- Lane of `check_special_cases_f16m1`: `(x, special, specialMask)` after the call. -/
def check_special_cases_f16m1 (x overflowThreshold : Nat) : Nat × Nat × Bool :=
  let pinf := 0x7c00
  let specialMask := vmfeq FP16 x pinf
  let special := vfmerge_vfm x pinf specialMask
  let mask := vmfgt FP16 x overflowThreshold && vmflt FP16 x pinf
  let special := vfmerge_vfm special pinf mask
  let specialMask := specialMask || mask
  let x := vfmerge_vfm x ZERO_F16 specialMask
  (x, special, specialMask)

/-- Lane of `do_exp_argument_reduction_hl_f16m1`: `(yh, yl, ei, fi)`. -/
def do_exp_argument_reduction_hl_f16m1 (x : Nat) : Nat × Nat × Nat × Nat :=
  let vmagicConst1 := MAGIC_CONST_1_F16
  let h := vfmadd FP16 x INV_LOG2_2K_F16 vmagicConst1
  let hi := vand h MASK_HI_BIT_F16
  let fi := vand hi MASK_FI_BIT_F16
  let ei := vsrl hi TABLE_SIZE_DEG_F16
  let h := vfsub FP16 h vmagicConst1
  let y := fma12_ver2p2_vf FP16 h M_LOG2_2K_L_F16 (vfmadd FP16 h M_LOG2_2K_H_F16 x)
  let yh := y.1
  let yl := vfmadd FP16 h M_LOG2_2K_LL_F16 y.2
  let y := fast_2_sum_vv FP16 yh yl
  (y.1, y.2, ei, fi)

/-- Lane of `get_table_values_hl_f16m1`: the indexed loads at byte offset
`index * sizeof(FLOAT16_T)` read row `index` of the two tables: `(th, tl)`. -/
def get_table_values_hl_f16m1 (index : Nat) : Nat × Nat :=
  let index := vmul 16 index 2
  (LOOK_UP_TABLE_HIGH_F16.getD (index / 2) 0, LOOK_UP_TABLE_LOW_F16.getD (index / 2) 0)

/-- Lane of `calculate_exp_polynom_hl_f16m1`: `(ph, pl)`. -/
def calculate_exp_polynom_hl_f16m1 (yh yl : Nat) : Nat × Nat :=
  let sqryh := vfmul FP16 yh yh
  let r := calc_polynom_deg_1 FP16 yh EXP_POL_COEFF_2_F16 EXP_POL_COEFF_3_F16
  let p := fma12 FP16 sqryh r yh
  (p.1, vfadd FP16 p.2 yl)

/-- Lane of `update_exponent_f16m1`. -/
def update_exponent_f16m1 (ei res : Nat) : Nat := vadd 16 res (vsll 16 ei 10)

/-- Lane of `update_exponent_with_subnormal_f16m1`. -/
def update_exponent_with_subnormal_f16m1 (subnormalThreshold x ei res : Nat) : Nat :=
  let ninf := 0xfc00
  let subnormalMask := vmfgt FP16 x ninf && vmflt FP16 x subnormalThreshold
  let shiftNum := vneg 16 ei
  let shiftNum := vadd 16 (vand shiftNum 0x003f) 1
  let shiftNum := vsll 16 shiftNum 10
  let subnormalRes := vfadd FP16 res shiftNum
  let subnormalRes := vand subnormalRes 0x83ff
  let res := update_exponent_f16m1 ei res
  vmerge_vvm res subnormalRes subnormalMask

/-- Lane of `reconstruct_exp_hl_hl_f16m1`. -/
def reconstruct_exp_hl_hl_f16m1 (x ei th tl pm1h pm1l subnormalThreshold : Nat) : Nat :=
  let s := fast_2_sum_fv FP16 ONE_F16 pm1h
  let sh := s.1
  let sl := vfadd FP16 s.2 pm1l
  let res := mul21_vv FP16 th tl sh sl
  update_exponent_with_subnormal_f16m1 subnormalThreshold x ei res

/-- Lane of `reconstruct_expm1_f16m1`. -/
def reconstruct_expm1_f16m1 (th tl pm1h pm1l ei : Nat) : Nat :=
  let r := fast_2_sum_fv FP16 ONE_F16 pm1h
  let rh := r.1
  let rl := vfadd FP16 r.2 pm1l
  let s := mul22_vv FP16 th tl rh rl
  let power := vsll 16 ei 10
  let sh := vadd 16 s.1 power
  let power2 := vsll 16 (vadd 16 ei 15) 10
  let sl1 := vfmul FP16 power2 s.2
  let slZeroMask := vmfeq FP16 s.2 ZERO_F16
  let sl := vadd 16 s.2 power
  let sl := vfmerge_vfm sl ZERO_F16 slZeroMask
  let infPowerMask := vmseq power2 0x7c00
  let sl := vmerge_vvm sl1 sl infPowerMask
  let sortMask := vmsgtu (vand sh 0x7c00) 0x3c00
  let maxs := vfmerge_vfm sh EXPM1_UNDERFLOW_VALUE_F16 (!sortMask)
  let mins := vfmerge_vfm sh EXPM1_UNDERFLOW_VALUE_F16 sortMask
  let r := fast_2_sum_vv FP16 maxs mins
  vfadd FP16 r.1 (vfadd FP16 sl r.2)

/-- Lane of `update_underflow_f16m1`. -/
def update_underflow_f16m1 (x res underflowThreshold underflowValue : Nat) : Nat :=
  let underflowMask := vmflt FP16 x underflowThreshold
  vfmerge_vfm res underflowValue underflowMask

/-- Lane of `set_pos_sign_f16m1`. -/
def set_pos_sign_f16m1 (res : Nat) : Nat :=
  let signMask := 0x7fff
  vand res signMask

/-- Lane of `set_sign_f16m1`; `~signMask` is `0x8000`. -/
def set_sign_f16m1 (x res : Nat) : Nat :=
  let signMask := 0x7fff
  let res := vand res signMask
  vor (vand x (0xffff - signMask)) res

/-- Lane of `process_linear_f16m1`. -/
def process_linear_f16m1 (x res : Nat) : Nat :=
  let signMask := 0x7fff
  let xabs := vand x signMask
  let linearMask := vmflt FP16 xabs EXPM1_LINEAR_THRESHOLD_F16
  vmerge_vvm res x linearMask

/-! ## exp.cpp / expm1.cpp: the binary16 kernels -/

/-- Lane of `__riscv_vexp_f16m1` (and of the identical `m2`, `m4` variants). -/
def __riscv_vexp_f16m1 (x : Nat) : Nat :=
  let zeroThreshold := EXP_ZERO_THRESHOLD_F16
  let c := check_special_cases_f16m1 x EXP_EXPM1_OVERFLOW_THRESHOLD_F16
  let x := c.1
  let special := c.2.1
  let specialMask := c.2.2
  let r := do_exp_argument_reduction_hl_f16m1 x
  let yh := r.1
  let yl := r.2.1
  let ei := r.2.2.1
  let fi := r.2.2.2
  let t := get_table_values_hl_f16m1 fi
  let p := calculate_exp_polynom_hl_f16m1 yh yl
  let res := reconstruct_exp_hl_hl_f16m1 x ei t.1 t.2 p.1 p.2 EXP_SUBNORMAL_THRESHOLD_F16
  let res := update_underflow_f16m1 x res zeroThreshold EXP_UNDERFLOW_VALUE_F16
  let res := set_pos_sign_f16m1 res
  vmerge_vvm res special specialMask

/-- Lane of `__riscv_vexpm1_f16m1` (and of the identical `m2`, `m4` variants);
the call of `process_linear_f16m1` is commented out in the source. -/
def __riscv_vexpm1_f16m1 (x : Nat) : Nat :=
  let c := check_special_cases_f16m1 x EXP_EXPM1_OVERFLOW_THRESHOLD_F16
  let x := c.1
  let special := c.2.1
  let specialMask := c.2.2
  let r := do_exp_argument_reduction_hl_f16m1 x
  let yh := r.1
  let yl := r.2.1
  let ei := r.2.2.1
  let fi := r.2.2.2
  let t := get_table_values_hl_f16m1 fi
  let p := calculate_exp_polynom_hl_f16m1 yh yl
  let res := reconstruct_expm1_f16m1 t.1 t.2 p.1 p.2 ei
  let res := set_sign_f16m1 x res
  let res := update_underflow_f16m1 x res EXPM1_UNDERFLOW_THRESHOLD_F16 EXPM1_UNDERFLOW_VALUE_F16
  vmerge_vvm res special specialMask


/-! ## Width dispatch used to state properties for all three widths at once -/

/-- The three element widths of the library. -/
inductive Width where
  | f64
  | f32
  | f16
  deriving DecidableEq

/-- Format of a width. -/
def Width.fmt : Width → Fmt
  | .f64 => FP64
  | .f32 => FP32
  | .f16 => FP16

/-- Lane of `__riscv_vexp_*` at the given width. -/
def vexp : Width → Nat → Nat
  | .f64 => __riscv_vexp_f64m1
  | .f32 => __riscv_vexp_f32m1
  | .f16 => __riscv_vexp_f16m1

/-- Lane of `__riscv_vexpm1_*` at the given width. -/
def vexpm1 : Width → Nat → Nat
  | .f64 => __riscv_vexpm1_f64m1
  | .f32 => __riscv_vexpm1_f32m1
  | .f16 => __riscv_vexpm1_f16m1

/-- `EXP_EXPM1_OVERFLOW_THRESHOLD_*` at the given width. -/
def EXP_EXPM1_OVERFLOW_THRESHOLD : Width → Nat
  | .f64 => EXP_EXPM1_OVERFLOW_THRESHOLD_F64
  | .f32 => EXP_EXPM1_OVERFLOW_THRESHOLD_F32
  | .f16 => EXP_EXPM1_OVERFLOW_THRESHOLD_F16

/-- `EXP_ZERO_THRESHOLD_*` at the given width. -/
def EXP_ZERO_THRESHOLD : Width → Nat
  | .f64 => EXP_ZERO_THRESHOLD_F64
  | .f32 => EXP_ZERO_THRESHOLD_F32
  | .f16 => EXP_ZERO_THRESHOLD_F16

/-- `EXPM1_UNDERFLOW_THRESHOLD_*` at the given width. -/
def EXPM1_UNDERFLOW_THRESHOLD : Width → Nat
  | .f64 => EXPM1_UNDERFLOW_THRESHOLD_F64
  | .f32 => EXPM1_UNDERFLOW_THRESHOLD_F32
  | .f16 => EXPM1_UNDERFLOW_THRESHOLD_F16

/-- `EXPM1_UNDERFLOW_VALUE_*` (the pattern of `-1.0`) at the given width. -/
def EXPM1_UNDERFLOW_VALUE : Width → Nat
  | .f64 => EXPM1_UNDERFLOW_VALUE_F64
  | .f32 => EXPM1_UNDERFLOW_VALUE_F32
  | .f16 => EXPM1_UNDERFLOW_VALUE_F16

/-- `EXPM1_LINEAR_THRESHOLD_*` at the given width. -/
def EXPM1_LINEAR_THRESHOLD : Width → Nat
  | .f64 => EXPM1_LINEAR_THRESHOLD_F64
  | .f32 => EXPM1_LINEAR_THRESHOLD_F32
  | .f16 => EXPM1_LINEAR_THRESHOLD_F16

/-- `ONE_*` (the pattern of `1.0`) at the given width. -/
def ONE : Width → Nat
  | .f64 => ONE_F64
  | .f32 => ONE_F32
  | .f16 => ONE_F16

/-- `EXP_SUBNORMAL_THRESHOLD_*` at the given width. -/
def EXP_SUBNORMAL_THRESHOLD : Width → Nat
  | .f64 => EXP_SUBNORMAL_THRESHOLD_F64
  | .f32 => EXP_SUBNORMAL_THRESHOLD_F32
  | .f16 => EXP_SUBNORMAL_THRESHOLD_F16

/-- Lane of `check_special_cases_*` at the given width. -/
def check_special_cases : Width → Nat → Nat → Nat × Nat × Bool
  | .f64 => check_special_cases_f64m1
  | .f32 => check_special_cases_f32m1
  | .f16 => check_special_cases_f16m1

/-- Lane of `process_linear_*` at the given width. -/
def process_linear : Width → Nat → Nat → Nat
  | .f64 => process_linear_f64m1
  | .f32 => process_linear_f32m1
  | .f16 => process_linear_f16m1

/-- The lane `__riscv_vexpm1_*` holds right after `set_sign_*`, before the
underflow and special overlays, when `check_special_cases_*` left `x` alone:
reduction, table lookup, polynomial, `reconstruct_expm1_*`, `set_sign_*`. -/
def expm1_after_set_sign : Width → Nat → Nat
  | .f64 => fun x =>
    let r := do_exp_argument_reduction_h_f64m1 x
    let t := get_table_values_hl_f64m1 r.2.2
    let p := calculate_exp_polynom_hl12_f64m1 r.1
    set_sign_f64m1 x (reconstruct_expm1_f64m1 t.1 t.2 p.1 p.2 r.2.1)
  | .f32 => fun x =>
    let r := do_exp_argument_reduction_hl_f32m1 x
    let t := get_table_values_hl_f32m1 r.2.2.2
    let p := calculate_exp_polynom_hl_f32m1 r.1 r.2.1
    set_sign_f32m1 x (reconstruct_expm1_f32m1 t.1 t.2 p.1 p.2 r.2.2.1)
  | .f16 => fun x =>
    let r := do_exp_argument_reduction_hl_f16m1 x
    let t := get_table_values_hl_f16m1 r.2.2.2
    let p := calculate_exp_polynom_hl_f16m1 r.1 r.2.1
    set_sign_f16m1 x (reconstruct_expm1_f16m1 t.1 t.2 p.1 p.2 r.2.2.1)


/-! ## Further intrinsics used by `sqrt.c`, `round.c`, `fabs.c` and `tanh.cpp` -/

/-- Lane of `vsub.vx`: `a - b` modulo `2 ^ w`. -/
def vsub (w a b : Nat) : Nat := (a % 2 ^ w + (2 ^ w - b % 2 ^ w)) % 2 ^ w

/-- Lane of `vrsub.vx`: `c - a` modulo `2 ^ w`. -/
def vrsub (w a c : Nat) : Nat := vsub w c a

/-- Lane of `vmsgeu`: unsigned `a >= b`. -/
def vmsgeu (a b : Nat) : Bool := decide (b ≤ a)

/-- Lane of `vmsltu`: unsigned `a < b`. -/
def vmsltu (a b : Nat) : Bool := decide (a < b)

/-- Lane of `vmerge.vxm`: the scalar where the mask is set, else `op1`. -/
def vmerge_vxm (op1 c : Nat) (mask : Bool) : Nat := if mask then c else op1

/-- Lane of `vfmacc.vv`: the fused `vs1 * vs2 + vd`, rounded once. -/
def vfmacc (F : Fmt) (vd vs1 vs2 : Nat) : Nat := vfmadd F vs1 vs2 vd

/-- Lane of `vfrsub.vf`: `f - a`. -/
def vfrsub (F : Fmt) (a f : Nat) : Nat := vfsub F f a

/-- Lane of an indexed load `vloxei(base + off, index)` from a table of
elements of `sz` bytes: `index` is a byte offset, so the element read is
`off + index / sz`. -/
def vloxei (sz : Nat) (base : List Nat) (off index : Nat) : Nat :=
  base.getD (off + index / sz) 0

/-! ## fabs.c -/

/-- Lane of `__riscv_vfabs_f64m1` (and of the identical `m2`, `m4`, `m8` variants). -/
def __riscv_vfabs_f64m1 (v : Nat) : Nat := vand v 0x7fffffffffffffff

/-- Lane of `__riscv_vfabs_f32m1` (and of the identical `m2`, `m4`, `m8` variants). -/
def __riscv_vfabs_f32m1 (v : Nat) : Nat := vand v 0x7fffffff

/-- Lane of `__riscv_vfabs_f16m1` (and of the identical `m2`, `m4`, `m8` variants). -/
def __riscv_vfabs_f16m1 (v : Nat) : Nat := vand v 0x7fff

/-! ## round/round.c -/

/-- Lane of `__riscv_vround_f64m1` (and of the identical `m2`, `m4` variants).
The signalling-NaN test of the source only raises a floating-point exception. -/
def __riscv_vround_f64m1 (x : Nat) : Nat :=
  let ix := vand x 0x7fffffffffffffff
  let mask := vmsgeu ix 0x4330000000000000
  let maskedx := vfmerge_vfm ix 0x0000000000000000 mask
  let mx := maskedx
  let maskedx := vfadd FP64 maskedx 0x4330000000000000
  let maskedx := vfsub FP64 maskedx 0x4330000000000000
  let mask2 := vmsltu ix maskedx
  let maskedx := vmerge_vvm maskedx (vfsub FP64 maskedx 0x3ff0000000000000) mask2
  let mask2 := vmfgt FP64 (vfsub FP64 mx maskedx) 0x3fdfffffffffffff
  let maskedx := vmerge_vvm maskedx (vfadd FP64 maskedx 0x3ff0000000000000) mask2
  let signx := vand x 0x8000000000000000
  let maskedx := vor maskedx signx
  vmerge_vvm maskedx x mask

/-- Lane of `__riscv_vround_f32m1` (and of the identical `m2`, `m4` variants).
The signalling-NaN test of the source only raises a floating-point exception. -/
def __riscv_vround_f32m1 (x : Nat) : Nat :=
  let ix := vand x 0x7fffffff
  let mask := vmsgeu ix 0x4b000000
  let maskedx := vfmerge_vfm ix 0x00000000 mask
  let mx := maskedx
  let maskedx := vfadd FP32 maskedx 0x4b000000
  let maskedx := vfsub FP32 maskedx 0x4b000000
  let mask2 := vmsltu ix maskedx
  let maskedx := vmerge_vvm maskedx (vfsub FP32 maskedx 0x3f800000) mask2
  let mask2 := vmfgt FP32 (vfsub FP32 mx maskedx) 0x3effffff
  let maskedx := vmerge_vvm maskedx (vfadd FP32 maskedx 0x3f800000) mask2
  let signx := vand x 0x80000000
  let maskedx := vor maskedx signx
  vmerge_vvm maskedx x mask

/-- Lane of `__riscv_vround_f16m1` (and of the identical `m2`, `m4` variants).
The signalling-NaN test of the source only raises a floating-point exception. -/
def __riscv_vround_f16m1 (x : Nat) : Nat :=
  let ix := vand x 0x7fff
  let mask := vmsgeu ix 0x6400
  let maskedx := vfmerge_vfm ix 0x0000 mask
  let mx := maskedx
  let maskedx := vfadd FP16 maskedx 0x6400
  let maskedx := vfsub FP16 maskedx 0x6400
  let mask2 := vmsltu ix maskedx
  let maskedx := vmerge_vvm maskedx (vfsub FP16 maskedx 0x3c00) mask2
  let mask2 := vmfgt FP16 (vfsub FP16 mx maskedx) 0x37ff
  let maskedx := vmerge_vvm maskedx (vfadd FP16 maskedx 0x3c00) mask2
  let signx := vand x 0x8000
  let maskedx := vor maskedx signx
  vmerge_vvm maskedx x mask

/-! ## round/rint.c

`rint.c` calls `__riscv_vtrunc_*`, `__riscv_vfloor_*` and `__riscv_vceil_*`,
which `rounding.h` only declares; they are parameters of the model. -/

/-- Value returned by `fegetround()`: one of the four `<fenv.h>` rounding
modes, or any other value. -/
inductive FeRound where
  | FE_TONEAREST
  | FE_DOWNWARD
  | FE_UPWARD
  | FE_TOWARDZERO
  | other
  deriving DecidableEq

/-- Lane of `__riscv_vrint_f64m1` (and of the identical `m2`, `m4`, `m8`
variants): the `switch` on `fegetround()`; `none` when no `case` matches (the
function then returns without a value). -/
def __riscv_vrint_f64m1 (vtrunc vfloor vceil : Nat → Nat) (mode : FeRound) (x : Nat) :
    Option Nat :=
  match mode with
  | .FE_TONEAREST => some (vtrunc x)
  | .FE_DOWNWARD => some (vfloor x)
  | .FE_UPWARD => some (vceil x)
  | .FE_TOWARDZERO => some (__riscv_vround_f64m1 x)
  | .other => none

/-- Lane of `__riscv_vrint_f32m1` (and of the identical `m2`, `m4`, `m8`
variants): the `switch` on `fegetround()`; `none` when no `case` matches (the
function then returns without a value). -/
def __riscv_vrint_f32m1 (vtrunc vfloor vceil : Nat → Nat) (mode : FeRound) (x : Nat) :
    Option Nat :=
  match mode with
  | .FE_TONEAREST => some (vtrunc x)
  | .FE_DOWNWARD => some (vfloor x)
  | .FE_UPWARD => some (vceil x)
  | .FE_TOWARDZERO => some (__riscv_vround_f32m1 x)
  | .other => none

/-- Lane of `__riscv_vrint_f16m1` (and of the identical `m2`, `m4`, `m8`
variants): the `switch` on `fegetround()`; `none` when no `case` matches (the
function then returns without a value). -/
def __riscv_vrint_f16m1 (vtrunc vfloor vceil : Nat → Nat) (mode : FeRound) (x : Nat) :
    Option Nat :=
  match mode with
  | .FE_TONEAREST => some (vtrunc x)
  | .FE_DOWNWARD => some (vfloor x)
  | .FE_UPWARD => some (vceil x)
  | .FE_TOWARDZERO => some (__riscv_vround_f16m1 x)
  | .other => none

/-! ## dexp.inl / sexp.inl / hexp.inl: the `exp2` argument reduction -/

/-- `EXP2_TABLE_SIZE_DEG_F64 = 0x1p6`. -/
def EXP2_TABLE_SIZE_DEG_F64 : Nat := 0x4050000000000000
/-- `M_EXP2_M_TABLE_SIZE_DEG_F64 = -0x1p-6`. -/
def M_EXP2_M_TABLE_SIZE_DEG_F64 : Nat := 0xbf90000000000000

/-- Lane of `do_exp2_argument_reduction_f64m1`: `(y, ei, fi)`. -/
def do_exp2_argument_reduction_f64m1 (x : Nat) : Nat × Nat × Nat :=
  let vmagicConst1 := MAGIC_CONST_1_F64
  let h := vfmadd FP64 x EXP2_TABLE_SIZE_DEG_F64 vmagicConst1
  let hi := vand h MASK_HI_BIT_F64
  let fi := vand hi MASK_FI_BIT_F64
  let ei := vsrl hi TABLE_SIZE_DEG_F64
  let h := vfsub FP64 h vmagicConst1
  let y := vfmadd FP64 h M_EXP2_M_TABLE_SIZE_DEG_F64 x
  (y, ei, fi)

/-- `EXP2_TABLE_SIZE_DEG_F32 = 0x1p4`. -/
def EXP2_TABLE_SIZE_DEG_F32 : Nat := 0x41800000
/-- `M_EXP2_M_TABLE_SIZE_DEG_F32 = -0x1p-4`. -/
def M_EXP2_M_TABLE_SIZE_DEG_F32 : Nat := 0xbd800000

/-- Lane of `do_exp2_argument_reduction_f32m1`: `(y, ei, fi)`. -/
def do_exp2_argument_reduction_f32m1 (x : Nat) : Nat × Nat × Nat :=
  let vmagicConst1 := MAGIC_CONST_1_F32
  let h := vfmadd FP32 x EXP2_TABLE_SIZE_DEG_F32 vmagicConst1
  let hi := vand h MASK_HI_BIT_F32
  let fi := vand hi MASK_FI_BIT_F32
  let ei := vsrl hi TABLE_SIZE_DEG_F32
  let h := vfsub FP32 h vmagicConst1
  let y := vfmadd FP32 h M_EXP2_M_TABLE_SIZE_DEG_F32 x
  (y, ei, fi)

/-- `EXP2_TABLE_SIZE_DEG_F16 = 0x1p3`. -/
def EXP2_TABLE_SIZE_DEG_F16 : Nat := 0x4800
/-- `M_EXP2_M_TABLE_SIZE_DEG_F16 = -0x1p-3`. -/
def M_EXP2_M_TABLE_SIZE_DEG_F16 : Nat := 0xb000

/-- Lane of `do_exp2_argument_reduction_f16m1`: `(y, ei, fi)`. -/
def do_exp2_argument_reduction_f16m1 (x : Nat) : Nat × Nat × Nat :=
  let vmagicConst1 := MAGIC_CONST_1_F16
  let h := vfmadd FP16 x EXP2_TABLE_SIZE_DEG_F16 vmagicConst1
  let hi := vand h MASK_HI_BIT_F16
  let fi := vand hi MASK_FI_BIT_F16
  let ei := vsrl hi TABLE_SIZE_DEG_F16
  let h := vfsub FP16 h vmagicConst1
  let y := vfmadd FP16 h M_EXP2_M_TABLE_SIZE_DEG_F16 x
  (y, ei, fi)

/-! ## sqrt.c (bit patterns of the table literals, rounded to the element type) -/

/-- Table `order_tab_high_f16[2]`: the powers of two `0x1.0p+0` .. `0x1.0p+8`. -/
def order_tab_high_f16 : List Nat := [
  0x3c00, 0x5c00]

/-- Table `order_tab_low_f16[16]`: `0x1.6a0p-8`, `0x1.0p-7`, .. `0x1.0p+0`. -/
def order_tab_low_f16 : List Nat := [
  0x1da8, 0x2000, 0x21a8, 0x2400,
  0x25a8, 0x2800, 0x29a8, 0x2c00,
  0x2da8, 0x3000, 0x31a8, 0x3400,
  0x35a8, 0x3800, 0x39a8, 0x3c00]

/-- Table `order_tab_low_f16_[16]`: `0x0.9e6p-19`, `0`, .. (low parts of the odd-exponent rows). -/
def order_tab_low_f16_ : List Nat := [
  0x0014, 0x0000, 0x0028, 0x0000,
  0x004f, 0x0000, 0x009e, 0x0000,
  0x013d, 0x0000, 0x027a, 0x0000,
  0x04f3, 0x0000, 0x08f3, 0x0000]

/-- Table `order_tab_high_flt[16]`: the powers of two `0x1.0p-56` .. `0x1.0p+64`. -/
def order_tab_high_flt : List Nat := [
  0x23800000, 0x27800000, 0x2b800000, 0x2f800000,
  0x33800000, 0x37800000, 0x3b800000, 0x3f800000,
  0x43800000, 0x47800000, 0x4b800000, 0x4f800000,
  0x53800000, 0x57800000, 0x5b800000, 0x5f800000]

/-- Table `order_tab_low_flt[16]`: `0x1.6a09e6p-8`, `0x1.0p-7`, .. `0x1.0p+0`. -/
def order_tab_low_flt : List Nat := [
  0x3bb504f3, 0x3c000000, 0x3c3504f3, 0x3c800000,
  0x3cb504f3, 0x3d000000, 0x3d3504f3, 0x3d800000,
  0x3db504f3, 0x3e000000, 0x3e3504f3, 0x3e800000,
  0x3eb504f3, 0x3f000000, 0x3f3504f3, 0x3f800000]

/-- Table `order_tab_low_flt_[16]`: `0x0.67f3bcdp-32`, `0`, .. (low parts of the odd-exponent rows). -/
def order_tab_low_flt_ : List Nat := [
  0x2ecfe77a, 0x00000000, 0x2f4fe77a, 0x00000000,
  0x2fcfe77a, 0x00000000, 0x304fe77a, 0x00000000,
  0x30cfe77a, 0x00000000, 0x314fe77a, 0x00000000,
  0x31cfe77a, 0x00000000, 0x324fe77a, 0x00000000]

/-- Table `order_tab_high[8]`: the powers of two `0x1.0p-384` .. `0x1.0p+512`. -/
def order_tab_high : List Nat := [
  0x27f0000000000000, 0x2ff0000000000000, 0x37f0000000000000, 0x3ff0000000000000,
  0x47f0000000000000, 0x4ff0000000000000, 0x57f0000000000000, 0x5ff0000000000000]

/-- Table `order_tab_mid[16]`: the powers of two `0x1.0p-120` .. `0x1.0p+0`. -/
def order_tab_mid : List Nat := [
  0x3870000000000000, 0x38f0000000000000, 0x3970000000000000, 0x39f0000000000000,
  0x3a70000000000000, 0x3af0000000000000, 0x3b70000000000000, 0x3bf0000000000000,
  0x3c70000000000000, 0x3cf0000000000000, 0x3d70000000000000, 0x3df0000000000000,
  0x3e70000000000000, 0x3ef0000000000000, 0x3f70000000000000, 0x3ff0000000000000]

/-- Table `order_tab_low[16]`: `0x1.6a09e667f3bccp-8`, `0x1.0p-7`, .. `0x1.0p+0`. -/
def order_tab_low : List Nat := [
  0x3f76a09e667f3bcc, 0x3f80000000000000, 0x3f86a09e667f3bcc, 0x3f90000000000000,
  0x3f96a09e667f3bcc, 0x3fa0000000000000, 0x3fa6a09e667f3bcc, 0x3fb0000000000000,
  0x3fb6a09e667f3bcc, 0x3fc0000000000000, 0x3fc6a09e667f3bcc, 0x3fd0000000000000,
  0x3fd6a09e667f3bcc, 0x3fe0000000000000, 0x3fe6a09e667f3bcc, 0x3ff0000000000000]

/-- Table `order_tab_low_[16]`: `0x1.21165f626cdd5p-61`, `0`, .. (low parts of the odd-exponent rows). -/
def order_tab_low_ : List Nat := [
  0x3c221165f626cdd5, 0x0000000000000000, 0x3c321165f626cdd5, 0x0000000000000000,
  0x3c421165f626cdd5, 0x0000000000000000, 0x3c521165f626cdd5, 0x0000000000000000,
  0x3c621165f626cdd5, 0x0000000000000000, 0x3c721165f626cdd5, 0x0000000000000000,
  0x3c821165f626cdd5, 0x0000000000000000, 0x3c921165f626cdd5, 0x0000000000000000]

set_option linter.unusedVariables false in
/-- Lane of `__riscv_vsqrt_f16m1` (and of the identical `m2`, `m4`, `m8` variants). -/
def __riscv_vsqrt_f16m1 (x : Nat) : Nat :=
  let nan := 0x7e00
  let inf := 0x7c00
  let zero_less_mask := vmflt FP16 x 0x0000
  let inf_mask := vmfeq FP16 x inf
  let x_int := vand x 0x7fff
  let nan_mask := vmsgtu x_int 0x7e00
  let special_mask := zero_less_mask || inf_mask
  let special_mask := special_mask || nan_mask
  let x_spec := vfmerge_vfm x 0x0000 special_mask
  let x_int := x_spec
  let mantissa_in_x := vand x_int 0x03ff
  let reduced_x_int := vor mantissa_in_x 0x3c00
  let reduced_x := reduced_x_int
  let order_in_x := vand x_int 0x7c00
  let order_in_x := vsrl order_in_x 10
  let high_ind := vsrl order_in_x 4
  let low_ind := vand order_in_x 0xf
  let y0 := vrsub 16 (vsrl reduced_x_int 1) 0x59d8
  let xx := vfmul FP16 y0 reduced_x
  let h := vfmul FP16 y0 0x3800
  let r := vfrsub FP16 (vfmul FP16 xx h) 0x3800
  let xx := vfmacc FP16 xx xx r
  let h := vfmacc FP16 h h r
  let r := vfrsub FP16 (vfmul FP16 xx h) 0x3800
  let xx := vfmacc FP16 xx xx r
  let h := vfmacc FP16 h h r
  let r := vfrsub FP16 (vfmul FP16 xx h) 0x3800
  let r := vfmacc FP16 reduced_x (vfmul FP16 xx 0xbc00) xx
  let zh := vfmacc FP16 xx r h
  let sh := vfsub FP16 xx zh
  let sl := vfadd FP16 sh zh
  let sl := vfsub FP16 xx sl
  let zl := vfmacc FP16 sh r h
  let zl := vfadd FP16 zl sl
  let high_ind := vmul 16 high_ind 2
  let low_ind := vmul 16 low_ind 2
  let order_high := vloxei 2 order_tab_high_f16 0 high_ind
  let order_low := vloxei 2 order_tab_low_f16 0 low_ind
  let order_low_ := vloxei 2 order_tab_low_f16_ 0 low_ind
  let zzh := vfmul FP16 zh order_high
  let zzl := vfmul FP16 zl order_high
  let sh := vfmul FP16 zzh order_low
  let sl := vfmacc FP16 (vfmul FP16 sh 0xbc00) zzh order_low
  let part1 := vfmul FP16 zzl order_low
  let part2 := vfmacc FP16 part1 zzh order_low_
  let sl := vfadd FP16 sl part2
  let sqrt_value := vfadd FP16 sh sl
  let sqrt_value := vfmerge_vfm sqrt_value nan zero_less_mask
  let sqrt_value := vfmerge_vfm sqrt_value inf inf_mask
  let sqrt_value := vfmerge_vfm sqrt_value nan nan_mask
  sqrt_value

set_option linter.unusedVariables false in
/-- Lane of `__riscv_vsqrt_f32m1` (and of the identical `m2`, `m4`, `m8` variants). -/
def __riscv_vsqrt_f32m1 (x : Nat) : Nat :=
  let nan := 0x7fc00000
  let inf := 0x7f800000
  let zero_less_mask := vmflt FP32 x 0x00000000
  let inf_mask := vmfeq FP32 x inf
  let x_int := vand x 0x7fffffff
  let nan_mask := vmsgtu x_int 0x7f800000
  let special_mask := zero_less_mask || inf_mask
  let special_mask := special_mask || nan_mask
  let x_spec := vfmerge_vfm x 0x00000000 special_mask
  let x_int := x_spec
  let mantissa_in_x := vand x_int 0x007fffff
  let reduced_x_int := vor mantissa_in_x 0x3f800000
  let reduced_x := reduced_x_int
  let order_in_x := vand x_int 0x7f800000
  let order_in_x := vsrl order_in_x 23
  let high_ind := vsrl order_in_x 4
  let low_ind := vand order_in_x 0xf
  let y0 := vrsub 32 (vsrl reduced_x_int 1) 0x5f3759df
  let xx := vfmul FP32 y0 reduced_x
  let h := vfmul FP32 y0 0x3f000000
  let r := vfrsub FP32 (vfmul FP32 xx h) 0x3f000000
  let xx := vfmacc FP32 xx xx r
  let h := vfmacc FP32 h h r
  let r := vfrsub FP32 (vfmul FP32 xx h) 0x3f000000
  let xx := vfmacc FP32 xx xx r
  let h := vfmacc FP32 h h r
  let r := vfrsub FP32 (vfmul FP32 xx h) 0x3f000000
  let xx := vfmacc FP32 xx xx r
  let h := vfmacc FP32 h h r
  let r := vfrsub FP32 (vfmul FP32 xx h) 0x3f000000
  let r := vfmacc FP32 reduced_x (vfmul FP32 xx 0xbf800000) xx
  let zh := vfmacc FP32 xx r h
  let sh := vfsub FP32 xx zh
  let sl := vfadd FP32 sh zh
  let sl := vfsub FP32 xx sl
  let zl := vfmacc FP32 sh r h
  let zl := vfadd FP32 zl sl
  let high_ind := vmul 32 high_ind 4
  let low_ind := vmul 32 low_ind 4
  let order_high := vloxei 4 order_tab_high_flt 0 high_ind
  let order_low := vloxei 4 order_tab_low_flt 0 low_ind
  let order_low_ := vloxei 4 order_tab_low_flt_ 0 low_ind
  let zzh := vfmul FP32 zh order_high
  let zzl := vfmul FP32 zl order_high
  let sh := vfmul FP32 zzh order_low
  let sl := vfmacc FP32 (vfmul FP32 sh 0xbf800000) zzh order_low
  let part1 := vfmul FP32 zzl order_low
  let part2 := vfmacc FP32 part1 zzh order_low_
  let sl := vfadd FP32 sl part2
  let sqrt_value := vfadd FP32 sh sl
  let sqrt_value := vfmerge_vfm sqrt_value nan zero_less_mask
  let sqrt_value := vfmerge_vfm sqrt_value inf inf_mask
  let sqrt_value := vfmerge_vfm sqrt_value nan nan_mask
  sqrt_value

set_option linter.unusedVariables false in
/-- Lane of `__riscv_vsqrt_f64m1` (and of the identical `m2`, `m4`, `m8` variants). -/
def __riscv_vsqrt_f64m1 (x : Nat) : Nat :=
  let nan := 0x7ff8000000000000
  let inf := 0x7ff0000000000000
  let zero_less_mask := vmflt FP64 x 0x0000000000000000
  let inf_mask := vmfeq FP64 x inf
  let x_int := vand x 0x7fffffffffffffff
  let nan_mask := vmsgtu x_int 0x7ff0000000000000
  let special_mask := zero_less_mask || inf_mask
  let special_mask := special_mask || nan_mask
  let x_spec := vfmerge_vfm x 0x0000000000000000 special_mask
  let x_int := x_spec
  let mantissa_in_x := vand x_int 0x000fffffffffffff
  let reduced_x_int := vor mantissa_in_x 0x3ff0000000000000
  let reduced_x := reduced_x_int
  let order_in_x := vand x_int 0x7ff0000000000000
  let order_in_x := vsrl order_in_x 52
  let high_ind := vsrl order_in_x 8
  let low_ind := vand order_in_x 0xf
  let mid_ind := vsrl (vand order_in_x 0xf0) 4
  let y0 := vrsub 64 (vsrl reduced_x_int 1) 0x5fe6eb50c7b537a9
  let xx := vfmul FP64 y0 reduced_x
  let h := vfmul FP64 y0 0x3fe0000000000000
  let r := vfrsub FP64 (vfmul FP64 xx h) 0x3fe0000000000000
  let xx := vfmacc FP64 xx xx r
  let h := vfmacc FP64 h h r
  let r := vfrsub FP64 (vfmul FP64 xx h) 0x3fe0000000000000
  let xx := vfmacc FP64 xx xx r
  let h := vfmacc FP64 h h r
  let r := vfrsub FP64 (vfmul FP64 xx h) 0x3fe0000000000000
  let xx := vfmacc FP64 xx xx r
  let h := vfmacc FP64 h h r
  let r := vfrsub FP64 (vfmul FP64 xx h) 0x3fe0000000000000
  let xx := vfmacc FP64 xx xx r
  let h := vfmacc FP64 h h r
  let r := vfrsub FP64 (vfmul FP64 xx h) 0x3fe0000000000000
  let r := vfmacc FP64 reduced_x (vfmul FP64 xx 0xbff0000000000000) xx
  let zh := vfmacc FP64 xx r h
  let sh := vfsub FP64 xx zh
  let sl := vfadd FP64 sh zh
  let sl := vfsub FP64 xx sl
  let zl := vfmacc FP64 sh r h
  let zl := vfadd FP64 zl sl
  let high_ind := vmul 64 high_ind 8
  let mid_ind := vmul 64 mid_ind 8
  let low_ind := vmul 64 low_ind 8
  let order_high := vloxei 8 order_tab_high 0 high_ind
  let order_mid := vloxei 8 order_tab_mid 0 mid_ind
  let order_low := vloxei 8 order_tab_low 0 low_ind
  let order_low_ := vloxei 8 order_tab_low_ 0 low_ind
  let zzh := vfmul FP64 zh order_high
  let zzh := vfmul FP64 zzh order_mid
  let zzl := vfmul FP64 zl order_high
  let zzl := vfmul FP64 zzl order_mid
  let sh := vfmul FP64 zzh order_low
  let sl := vfmacc FP64 (vfmul FP64 sh 0xbff0000000000000) zzh order_low
  let part1 := vfmul FP64 zzl order_low
  let part2 := vfmacc FP64 part1 zzh order_low_
  let sl := vfadd FP64 sl part2
  let sqrt_value := vfadd FP64 sh sl
  let sqrt_value := vfmerge_vfm sqrt_value nan zero_less_mask
  let sqrt_value := vfmerge_vfm sqrt_value inf inf_mask
  let sqrt_value := vfmerge_vfm sqrt_value nan nan_mask
  sqrt_value

/-! ## tanh/tanh.cpp

The coefficient tables `tanhdp[1520]`, `tanhsp[672]` and `tanhhp[88]` come
from included data files; they are parameters of the model. -/

/-- Lane of `__riscv_vtanh_f64m1` (and of the identical `m2`, `m4` variants).
The lanes of a signalling NaN receive the runtime value of `0.0 / 0.0`,
the canonical quiet NaN. -/
def __riscv_vtanh_f64m1 (tanhdp : List Nat) (x : Nat) : Nat :=
  let ix := vand x 0x7fffffffffffffff
  let index := vsrl ix 50
  let index := vsub 64 index 4015
  let mask := vmsltu ix 0x3ec0000000000000
  let index := vmerge_vxm index 0x0000000000000000 mask
  let mask := vmsgtu ix 0x40330fc1931f09c9
  let y := vmerge_vxm ix 0x0000000000000000 mask
  let index := vmerge_vxm index 94 mask
  let index := vsll 64 index 7
  let p0H := vloxei 8 tanhdp 0 index
  let p0L := vloxei 8 tanhdp 1 index
  let p1 := vloxei 8 tanhdp 2 index
  let p2 := vloxei 8 tanhdp 3 index
  let p3 := vloxei 8 tanhdp 4 index
  let p4 := vloxei 8 tanhdp 5 index
  let p5 := vloxei 8 tanhdp 6 index
  let p6 := vloxei 8 tanhdp 7 index
  let p7 := vloxei 8 tanhdp 8 index
  let p8 := vloxei 8 tanhdp 9 index
  let p9 := vloxei 8 tanhdp 10 index
  let p10 := vloxei 8 tanhdp 11 index
  let p11 := vloxei 8 tanhdp 12 index
  let p12 := vloxei 8 tanhdp 13 index
  let p13 := vloxei 8 tanhdp 14 index
  let x_m := vloxei 8 tanhdp 15 index
  let y := vfadd FP64 y x_m
  let px := vfmadd FP64 y p13 p12
  let px := vfmadd FP64 px y p11
  let px := vfmadd FP64 px y p10
  let px := vfmadd FP64 px y p9
  let px := vfmadd FP64 px y p8
  let px := vfmadd FP64 px y p7
  let px := vfmadd FP64 px y p6
  let px := vfmadd FP64 px y p5
  let px := vfmadd FP64 px y p4
  let px := vfmadd FP64 px y p3
  let px := vfmadd FP64 px y p2
  let px := vfmadd FP64 px y p1
  let px := vfmadd FP64 px y p0L
  let px := vfadd FP64 px p0H
  let signx := vand x 0x8000000000000000
  let px := vor px signx
  let mask_sNaN := vmsgtu ix 0x7ff0000000000000
  let px := vmerge_vvm px x mask_sNaN
  let mask_sNaN := mask_sNaN && vmsltu ix 0x7ff8000000000000
  let x1 := FP64.qnan
  vfmerge_vfm px x1 mask_sNaN

/-- Lane of `__riscv_vtanh_f32m1` (and of the identical `m2`, `m4` variants).
The lanes of a signalling NaN receive the runtime value of `0.0 / 0.0`,
the canonical quiet NaN. -/
def __riscv_vtanh_f32m1 (tanhsp : List Nat) (x : Nat) : Nat :=
  let ix := vand x 0x7fffffff
  let index := vsrl ix 20
  let index := vsub 32 index 959
  let mask := vmsltu ix 0x3c000000
  let index := vmerge_vxm index 0x00000000 mask
  let mask := vmsgtu ix 0x41102cb3
  let y := vmerge_vxm ix 0x00000000 mask
  let index := vmerge_vxm index 83 mask
  let index := vsll 32 index 5
  let p0H := vloxei 4 tanhsp 0 index
  let p0L := vloxei 4 tanhsp 1 index
  let p1 := vloxei 4 tanhsp 2 index
  let p2 := vloxei 4 tanhsp 3 index
  let p3 := vloxei 4 tanhsp 4 index
  let p4 := vloxei 4 tanhsp 5 index
  let p5 := vloxei 4 tanhsp 6 index
  let x_m := vloxei 4 tanhsp 7 index
  let y := vfadd FP32 y x_m
  let px := vfmadd FP32 y p5 p4
  let px := vfmadd FP32 px y p3
  let px := vfmadd FP32 px y p2
  let px := vfmadd FP32 px y p1
  let px := vfmadd FP32 px y p0L
  let px := vfadd FP32 px p0H
  let signx := vand x 0x80000000
  let px := vor px signx
  let mask_sNaN := vmsgtu ix 0x7f800000
  let px := vmerge_vvm px x mask_sNaN
  let mask_sNaN := mask_sNaN && vmsltu ix 0x7fc00000
  let x1 := FP32.qnan
  vfmerge_vfm px x1 mask_sNaN

/-- Lane of `__riscv_vtanh_f16m1` (and of the identical `m2`, `m4` variants).
The lanes of a signalling NaN receive the runtime value of `0.0 / 0.0`,
the canonical quiet NaN. -/
def __riscv_vtanh_f16m1 (tanhhp : List Nat) (x : Nat) : Nat :=
  let ix := vand x 0x7fff
  let index := vsrl ix 9
  let index := vsub 16 index 25
  let mask := vmsltu ix 0x3400
  let index := vmerge_vxm index 0x0000 mask
  let mask := vmsgtu ix 0x4429
  let y := vmerge_vxm ix 0x0000 mask
  let index := vmerge_vxm index 10 mask
  let index := vsll 16 index 4
  let p0H := vloxei 2 tanhhp 0 index
  let p0L := vloxei 2 tanhhp 1 index
  let p1 := vloxei 2 tanhhp 2 index
  let p2 := vloxei 2 tanhhp 3 index
  let p3 := vloxei 2 tanhhp 4 index
  let p4 := vloxei 2 tanhhp 5 index
  let p5 := vloxei 2 tanhhp 6 index
  let x_m := vloxei 2 tanhhp 7 index
  let y := vfadd FP16 y x_m
  let px := vfmadd FP16 y p5 p4
  let px := vfmadd FP16 px y p3
  let px := vfmadd FP16 px y p2
  let px := vfmadd FP16 px y p1
  let px := vfmadd FP16 px y p0L
  let px := vfadd FP16 px p0H
  let signx := vand x 0x8000
  let px := vor px signx
  let mask_sNaN := vmsgtu ix 0x7c00
  let px := vmerge_vvm px x mask_sNaN
  let mask_sNaN := mask_sNaN && vmsltu ix 0x7e00
  let x1 := FP16.qnan
  vfmerge_vfm px x1 mask_sNaN


/-! ## Width dispatch of the remaining functions -/

/-- Lane of `__riscv_vfabs_*` at the given width. -/
def vfabs : Width → Nat → Nat
  | .f64 => __riscv_vfabs_f64m1
  | .f32 => __riscv_vfabs_f32m1
  | .f16 => __riscv_vfabs_f16m1

/-- Lane of `__riscv_vround_*` at the given width. -/
def vround : Width → Nat → Nat
  | .f64 => __riscv_vround_f64m1
  | .f32 => __riscv_vround_f32m1
  | .f16 => __riscv_vround_f16m1

/-- Lane of `__riscv_vrint_*` at the given width. -/
def vrint : Width → (Nat → Nat) → (Nat → Nat) → (Nat → Nat) → FeRound → Nat → Option Nat
  | .f64 => __riscv_vrint_f64m1
  | .f32 => __riscv_vrint_f32m1
  | .f16 => __riscv_vrint_f16m1

/-- Lane of `__riscv_vsqrt_*` at the given width. -/
def vsqrt : Width → Nat → Nat
  | .f64 => __riscv_vsqrt_f64m1
  | .f32 => __riscv_vsqrt_f32m1
  | .f16 => __riscv_vsqrt_f16m1

/-- Lane of `__riscv_vtanh_*` at the given width, over the coefficient table. -/
def vtanh : Width → List Nat → Nat → Nat
  | .f64 => __riscv_vtanh_f64m1
  | .f32 => __riscv_vtanh_f32m1
  | .f16 => __riscv_vtanh_f16m1

/-- `MASK_HI_BIT_*` at the given width. -/
def MASK_HI_BIT : Width → Nat
  | .f64 => MASK_HI_BIT_F64
  | .f32 => MASK_HI_BIT_F32
  | .f16 => MASK_HI_BIT_F16

/-- `MASK_FI_BIT_*` at the given width. -/
def MASK_FI_BIT : Width → Nat
  | .f64 => MASK_FI_BIT_F64
  | .f32 => MASK_FI_BIT_F32
  | .f16 => MASK_FI_BIT_F16

/-- `TABLE_SIZE_DEG_*` at the given width. -/
def TABLE_SIZE_DEG : Width → Nat
  | .f64 => TABLE_SIZE_DEG_F64
  | .f32 => TABLE_SIZE_DEG_F32
  | .f16 => TABLE_SIZE_DEG_F16

/-- `MAGIC_CONST_1_*` at the given width. -/
def MAGIC_CONST_1 : Width → Nat
  | .f64 => MAGIC_CONST_1_F64
  | .f32 => MAGIC_CONST_1_F32
  | .f16 => MAGIC_CONST_1_F16

/-- `INV_LOG2_2K_*` at the given width. -/
def INV_LOG2_2K : Width → Nat
  | .f64 => INV_LOG2_2K_F64
  | .f32 => INV_LOG2_2K_F32
  | .f16 => INV_LOG2_2K_F16

/-- `EXP2_TABLE_SIZE_DEG_*` at the given width. -/
def EXP2_TABLE_SIZE_DEG : Width → Nat
  | .f64 => EXP2_TABLE_SIZE_DEG_F64
  | .f32 => EXP2_TABLE_SIZE_DEG_F32
  | .f16 => EXP2_TABLE_SIZE_DEG_F16

/-- `LOOK_UP_TABLE_HIGH_*` at the given width. -/
def LOOK_UP_TABLE_HIGH : Width → List Nat
  | .f64 => LOOK_UP_TABLE_HIGH_F64
  | .f32 => LOOK_UP_TABLE_HIGH_F32
  | .f16 => LOOK_UP_TABLE_HIGH_F16

/-- `LOOK_UP_TABLE_LOW_*` at the given width. -/
def LOOK_UP_TABLE_LOW : Width → List Nat
  | .f64 => LOOK_UP_TABLE_LOW_F64
  | .f32 => LOOK_UP_TABLE_LOW_F32
  | .f16 => LOOK_UP_TABLE_LOW_F16

/-- Lane of `get_table_values_hl_*` at the given width. -/
def get_table_values_hl : Width → Nat → Nat × Nat
  | .f64 => get_table_values_hl_f64m1
  | .f32 => get_table_values_hl_f32m1
  | .f16 => get_table_values_hl_f16m1

/-- Lane of `update_exponent_*` at the given width. -/
def update_exponent : Width → Nat → Nat → Nat
  | .f64 => update_exponent_f64m1
  | .f32 => update_exponent_f32m1
  | .f16 => update_exponent_f16m1

/-- Lane of `update_exponent_with_subnormal_*` at the given width. -/
def update_exponent_with_subnormal : Width → Nat → Nat → Nat → Nat → Nat
  | .f64 => update_exponent_with_subnormal_f64m1
  | .f32 => update_exponent_with_subnormal_f32m1
  | .f16 => update_exponent_with_subnormal_f16m1

/-- The `(ei, fi)` outputs of `do_exp_argument_reduction_*` at the given width. -/
def do_exp_argument_reduction_ei_fi : Width → Nat → Nat × Nat
  | .f64 => fun x => ((do_exp_argument_reduction_h_f64m1 x).2.1, (do_exp_argument_reduction_h_f64m1 x).2.2)
  | .f32 => fun x => ((do_exp_argument_reduction_hl_f32m1 x).2.2.1, (do_exp_argument_reduction_hl_f32m1 x).2.2.2)
  | .f16 => fun x => ((do_exp_argument_reduction_hl_f16m1 x).2.2.1, (do_exp_argument_reduction_hl_f16m1 x).2.2.2)

/-- The `(ei, fi)` outputs of `do_exp2_argument_reduction_*` at the given width. -/
def do_exp2_argument_reduction_ei_fi : Width → Nat → Nat × Nat
  | .f64 => fun x => ((do_exp2_argument_reduction_f64m1 x).2.1, (do_exp2_argument_reduction_f64m1 x).2.2)
  | .f32 => fun x => ((do_exp2_argument_reduction_f32m1 x).2.1, (do_exp2_argument_reduction_f32m1 x).2.2)
  | .f16 => fun x => ((do_exp2_argument_reduction_f16m1 x).2.1, (do_exp2_argument_reduction_f16m1 x).2.2)

/-! ## Register groups: the `m4` kernels on vectors and the `m8` shims

A register group is the sequence of its lanes.  An input group is a function
from the lane index to the bit pattern; a result group maps a lane index to
`some` pattern, or to `none` where the content is unspecified (tail lanes past
`vl`, and lanes of the uninitialised `res` that no `vset` wrote).  `VLMAX` is
the number of lanes of an `m4` group; an `m8` group has `2 * VLMAX` lanes. -/

/-- Result of `__riscv_vsetvl_e*m4(avl)`: `min avl VLMAX`. -/
def vsetvl_m4 (VLMAX avl : Nat) : Nat := min avl VLMAX

/-- Result of `__riscv_vget_v_*m8_*m4(x, idx)`: half `idx` of an `m8` group. -/
def vget_m8_m4 (VLMAX : Nat) (x : Nat → Nat) (idx : Nat) : Nat → Nat :=
  fun i => x (idx * VLMAX + i)

/-- Result of `__riscv_vset_v_*m4_*m8(dest, idx, v)`: `dest` with half `idx`
replaced by the `m4` group `v`. -/
def vset_m4_m8 (VLMAX : Nat) (dest : Nat → Option Nat) (idx : Nat) (v : Nat → Option Nat) :
    Nat → Option Nat :=
  fun i => if idx * VLMAX ≤ i ∧ i < (idx + 1) * VLMAX then v (i - idx * VLMAX) else dest i

/-- An `m4` kernel on a register group: `vl = vsetvl(avl)`, then the lane
function on every lane below `vl`. -/
def kernel_m4 (lane : Nat → Nat) (VLMAX : Nat) (x : Nat → Nat) (avl : Nat) : Nat → Option Nat :=
  let vl := vsetvl_m4 VLMAX avl
  fun i => if i < vl then some (lane (x i)) else none

/-- Body shared by every `m8` kernel: the low half through the `m4` kernel
with `vl = vsetvl(avl)`, and, if `avl > vl`, the high half with
`vl = vsetvl(avl - vl)`. -/
def kernel_m8 (m4 : (Nat → Nat) → Nat → Nat → Option Nat) (VLMAX : Nat) (x : Nat → Nat)
    (avl : Nat) : Nat → Option Nat :=
  let res : Nat → Option Nat := fun _ => none
  let vl := vsetvl_m4 VLMAX avl
  let x1 := vget_m8_m4 VLMAX x 0
  let x1 := m4 x1 vl
  let res := vset_m4_m8 VLMAX res 0 x1
  if avl > vl then
    let vl := vsetvl_m4 VLMAX (avl - vl)
    let x1 := vget_m8_m4 VLMAX x 1
    let x1 := m4 x1 vl
    vset_m4_m8 VLMAX res 1 x1
  else res

/-- `__riscv_vexp_f64m4` on a register group. -/
def __riscv_vexp_f64m4 (VLMAX : Nat) (x : Nat → Nat) (avl : Nat) : Nat → Option Nat :=
  kernel_m4 __riscv_vexp_f64m1 VLMAX x avl

/-- `__riscv_vexp_f64m8` on a register group. -/
def __riscv_vexp_f64m8 (VLMAX : Nat) (x : Nat → Nat) (avl : Nat) : Nat → Option Nat :=
  kernel_m8 (__riscv_vexp_f64m4 VLMAX) VLMAX x avl

/-- `__riscv_vexp_f32m4` on a register group. -/
def __riscv_vexp_f32m4 (VLMAX : Nat) (x : Nat → Nat) (avl : Nat) : Nat → Option Nat :=
  kernel_m4 __riscv_vexp_f32m1 VLMAX x avl

/-- `__riscv_vexp_f32m8` on a register group. -/
def __riscv_vexp_f32m8 (VLMAX : Nat) (x : Nat → Nat) (avl : Nat) : Nat → Option Nat :=
  kernel_m8 (__riscv_vexp_f32m4 VLMAX) VLMAX x avl

/-- `__riscv_vexp_f16m4` on a register group. -/
def __riscv_vexp_f16m4 (VLMAX : Nat) (x : Nat → Nat) (avl : Nat) : Nat → Option Nat :=
  kernel_m4 __riscv_vexp_f16m1 VLMAX x avl

/-- `__riscv_vexp_f16m8` on a register group. -/
def __riscv_vexp_f16m8 (VLMAX : Nat) (x : Nat → Nat) (avl : Nat) : Nat → Option Nat :=
  kernel_m8 (__riscv_vexp_f16m4 VLMAX) VLMAX x avl

/-- `__riscv_vexpm1_f64m4` on a register group. -/
def __riscv_vexpm1_f64m4 (VLMAX : Nat) (x : Nat → Nat) (avl : Nat) : Nat → Option Nat :=
  kernel_m4 __riscv_vexpm1_f64m1 VLMAX x avl

/-- `__riscv_vexpm1_f64m8` on a register group. -/
def __riscv_vexpm1_f64m8 (VLMAX : Nat) (x : Nat → Nat) (avl : Nat) : Nat → Option Nat :=
  kernel_m8 (__riscv_vexpm1_f64m4 VLMAX) VLMAX x avl

/-- `__riscv_vexpm1_f32m4` on a register group. -/
def __riscv_vexpm1_f32m4 (VLMAX : Nat) (x : Nat → Nat) (avl : Nat) : Nat → Option Nat :=
  kernel_m4 __riscv_vexpm1_f32m1 VLMAX x avl

/-- `__riscv_vexpm1_f32m8` on a register group. -/
def __riscv_vexpm1_f32m8 (VLMAX : Nat) (x : Nat → Nat) (avl : Nat) : Nat → Option Nat :=
  kernel_m8 (__riscv_vexpm1_f32m4 VLMAX) VLMAX x avl

/-- `__riscv_vexpm1_f16m4` on a register group. -/
def __riscv_vexpm1_f16m4 (VLMAX : Nat) (x : Nat → Nat) (avl : Nat) : Nat → Option Nat :=
  kernel_m4 __riscv_vexpm1_f16m1 VLMAX x avl

/-- `__riscv_vexpm1_f16m8` on a register group. -/
def __riscv_vexpm1_f16m8 (VLMAX : Nat) (x : Nat → Nat) (avl : Nat) : Nat → Option Nat :=
  kernel_m8 (__riscv_vexpm1_f16m4 VLMAX) VLMAX x avl

/-- `__riscv_vtanh_f64m4` on a register group. -/
def __riscv_vtanh_f64m4 (tanhdp : List Nat) (VLMAX : Nat) (x : Nat → Nat) (avl : Nat) :
    Nat → Option Nat :=
  kernel_m4 (__riscv_vtanh_f64m1 tanhdp) VLMAX x avl

/-- `__riscv_vtanh_f64m8` on a register group. -/
def __riscv_vtanh_f64m8 (tanhdp : List Nat) (VLMAX : Nat) (x : Nat → Nat) (avl : Nat) :
    Nat → Option Nat :=
  kernel_m8 (__riscv_vtanh_f64m4 tanhdp VLMAX) VLMAX x avl

/-- `__riscv_vtanh_f32m4` on a register group. -/
def __riscv_vtanh_f32m4 (tanhsp : List Nat) (VLMAX : Nat) (x : Nat → Nat) (avl : Nat) :
    Nat → Option Nat :=
  kernel_m4 (__riscv_vtanh_f32m1 tanhsp) VLMAX x avl

/-- `__riscv_vtanh_f32m8` on a register group. -/
def __riscv_vtanh_f32m8 (tanhsp : List Nat) (VLMAX : Nat) (x : Nat → Nat) (avl : Nat) :
    Nat → Option Nat :=
  kernel_m8 (__riscv_vtanh_f32m4 tanhsp VLMAX) VLMAX x avl

/-- `__riscv_vtanh_f16m4` on a register group. -/
def __riscv_vtanh_f16m4 (tanhhp : List Nat) (VLMAX : Nat) (x : Nat → Nat) (avl : Nat) :
    Nat → Option Nat :=
  kernel_m4 (__riscv_vtanh_f16m1 tanhhp) VLMAX x avl

/-- `__riscv_vtanh_f16m8` on a register group. -/
def __riscv_vtanh_f16m8 (tanhhp : List Nat) (VLMAX : Nat) (x : Nat → Nat) (avl : Nat) :
    Nat → Option Nat :=
  kernel_m8 (__riscv_vtanh_f16m4 tanhhp VLMAX) VLMAX x avl

/-- `__riscv_vround_f64m4` on a register group. -/
def __riscv_vround_f64m4 (VLMAX : Nat) (x : Nat → Nat) (avl : Nat) : Nat → Option Nat :=
  kernel_m4 __riscv_vround_f64m1 VLMAX x avl

/-- `__riscv_vround_f64m8` on a register group. -/
def __riscv_vround_f64m8 (VLMAX : Nat) (x : Nat → Nat) (avl : Nat) : Nat → Option Nat :=
  kernel_m8 (__riscv_vround_f64m4 VLMAX) VLMAX x avl

/-- `__riscv_vround_f32m4` on a register group. -/
def __riscv_vround_f32m4 (VLMAX : Nat) (x : Nat → Nat) (avl : Nat) : Nat → Option Nat :=
  kernel_m4 __riscv_vround_f32m1 VLMAX x avl

/-- `__riscv_vround_f32m8` on a register group. -/
def __riscv_vround_f32m8 (VLMAX : Nat) (x : Nat → Nat) (avl : Nat) : Nat → Option Nat :=
  kernel_m8 (__riscv_vround_f32m4 VLMAX) VLMAX x avl

/-- `__riscv_vround_f16m4` on a register group. -/
def __riscv_vround_f16m4 (VLMAX : Nat) (x : Nat → Nat) (avl : Nat) : Nat → Option Nat :=
  kernel_m4 __riscv_vround_f16m1 VLMAX x avl

/-- `__riscv_vround_f16m8` on a register group. -/
def __riscv_vround_f16m8 (VLMAX : Nat) (x : Nat → Nat) (avl : Nat) : Nat → Option Nat :=
  kernel_m8 (__riscv_vround_f16m4 VLMAX) VLMAX x avl

/-- The four kernel families that have an `m8` shim built from two `m4` calls. -/
inductive Family where
  | exp
  | expm1
  | tanh
  | round
  deriving DecidableEq

/-- The `m4` kernel of a family at a width (the tanh tables are parameters). -/
def Family.m4 (tab : List Nat) : Family → Width → Nat → (Nat → Nat) → Nat → Nat → Option Nat
  | .exp, .f64 => __riscv_vexp_f64m4
  | .exp, .f32 => __riscv_vexp_f32m4
  | .exp, .f16 => __riscv_vexp_f16m4
  | .expm1, .f64 => __riscv_vexpm1_f64m4
  | .expm1, .f32 => __riscv_vexpm1_f32m4
  | .expm1, .f16 => __riscv_vexpm1_f16m4
  | .tanh, .f64 => __riscv_vtanh_f64m4 tab
  | .tanh, .f32 => __riscv_vtanh_f32m4 tab
  | .tanh, .f16 => __riscv_vtanh_f16m4 tab
  | .round, .f64 => __riscv_vround_f64m4
  | .round, .f32 => __riscv_vround_f32m4
  | .round, .f16 => __riscv_vround_f16m4

/-- The `m8` kernel of a family at a width (the tanh tables are parameters). -/
def Family.m8 (tab : List Nat) : Family → Width → Nat → (Nat → Nat) → Nat → Nat → Option Nat
  | .exp, .f64 => __riscv_vexp_f64m8
  | .exp, .f32 => __riscv_vexp_f32m8
  | .exp, .f16 => __riscv_vexp_f16m8
  | .expm1, .f64 => __riscv_vexpm1_f64m8
  | .expm1, .f32 => __riscv_vexpm1_f32m8
  | .expm1, .f16 => __riscv_vexpm1_f16m8
  | .tanh, .f64 => __riscv_vtanh_f64m8 tab
  | .tanh, .f32 => __riscv_vtanh_f32m8 tab
  | .tanh, .f16 => __riscv_vtanh_f16m8 tab
  | .round, .f64 => __riscv_vround_f64m8
  | .round, .f32 => __riscv_vround_f32m8
  | .round, .f16 => __riscv_vround_f16m8

/-- The lane function of a family at a width (the tanh tables are parameters). -/
def Family.lane (tab : List Nat) : Family → Width → Nat → Nat
  | .exp, .f64 => __riscv_vexp_f64m1
  | .exp, .f32 => __riscv_vexp_f32m1
  | .exp, .f16 => __riscv_vexp_f16m1
  | .expm1, .f64 => __riscv_vexpm1_f64m1
  | .expm1, .f32 => __riscv_vexpm1_f32m1
  | .expm1, .f16 => __riscv_vexpm1_f16m1
  | .tanh, .f64 => __riscv_vtanh_f64m1 tab
  | .tanh, .f32 => __riscv_vtanh_f32m1 tab
  | .tanh, .f16 => __riscv_vtanh_f16m1 tab
  | .round, .f64 => __riscv_vround_f64m1
  | .round, .f32 => __riscv_vround_f32m1
  | .round, .f16 => __riscv_vround_f16m1

/-- The lane values `(x, ei, res)` that `reconstruct_exp_hl_hl_*` hands to
`update_exponent_with_subnormal_*` inside `__riscv_vexp_*`: the input after
`check_special_cases_*`, the exponent `ei` of the reduction, and the product
`res` of the table value and `1 + p`. -/
def exp_before_exponent : Width → Nat → Nat × Nat × Nat
  | .f64 => fun x =>
    let x := (check_special_cases_f64m1 x EXP_EXPM1_OVERFLOW_THRESHOLD_F64).1
    let r := do_exp_argument_reduction_h_f64m1 x
    let t := get_table_values_hl_f64m1 r.2.2
    let p := calculate_exp_polynom_hl12_f64m1 r.1
    let s := fast_2_sum_fv FP64 ONE_F64 p.1
    let sh := s.1
    let sl := vfadd FP64 s.2 p.2
    (x, r.2.1, mul21_vv FP64 t.1 t.2 sh sl)
  | .f32 => fun x =>
    let x := (check_special_cases_f32m1 x EXP_EXPM1_OVERFLOW_THRESHOLD_F32).1
    let r := do_exp_argument_reduction_hl_f32m1 x
    let t := get_table_values_hl_f32m1 r.2.2.2
    let p := calculate_exp_polynom_hl_f32m1 r.1 r.2.1
    let s := fast_2_sum_fv FP32 ONE_F32 p.1
    let sh := s.1
    let sl := vfadd FP32 s.2 p.2
    (x, r.2.2.1, mul21_vv FP32 t.1 t.2 sh sl)
  | .f16 => fun x =>
    let x := (check_special_cases_f16m1 x EXP_EXPM1_OVERFLOW_THRESHOLD_F16).1
    let r := do_exp_argument_reduction_hl_f16m1 x
    let t := get_table_values_hl_f16m1 r.2.2.2
    let p := calculate_exp_polynom_hl_f16m1 r.1 r.2.1
    let s := fast_2_sum_fv FP16 ONE_F16 p.1
    let sh := s.1
    let sl := vfadd FP16 s.2 p.2
    (x, r.2.2.1, mul21_vv FP16 t.1 t.2 sh sl)

/-- The value `subnormalRes` of `update_exponent_with_subnormal_*`: `res` plus
the pattern with exponent field `1 - ei`, with the exponent field masked off. -/
def subnormal_path : Width → Nat → Nat → Nat
  | .f64 => fun ei res =>
    let shiftNum := vneg 64 ei
    let shiftNum := vand (vadd 64 shiftNum 1) 0x0000000000000fff
    let shiftNum := vsll 64 shiftNum 52
    let subnormalRes := vfadd FP64 res shiftNum
    vand subnormalRes 0x800fffffffffffff
  | .f32 => fun ei res =>
    let shiftNum := vneg 32 ei
    let shiftNum := vadd 32 (vand shiftNum 0x000001ff) 1
    let shiftNum := vsll 32 shiftNum 23
    let subnormalRes := vfadd FP32 res shiftNum
    vand subnormalRes 0x807fffff
  | .f16 => fun ei res =>
    let shiftNum := vneg 16 ei
    let shiftNum := vadd 16 (vand shiftNum 0x003f) 1
    let shiftNum := vsll 16 shiftNum 10
    let subnormalRes := vfadd FP16 res shiftNum
    vand subnormalRes 0x83ff

/-- What `__riscv_vexp_*` does to the reconstructed lane before the final
overlay: nothing in f64 and f32, `set_pos_sign_f16m1` in f16. -/
def exp_after_exponent : Width → Nat → Nat
  | .f64 => fun res => res
  | .f32 => fun res => res
  | .f16 => set_pos_sign_f16m1


/-- The body shared by the three `__riscv_vround_*` kernels, with the constants
written through the format: the pattern of `2 ^ mb` is `(bias + mb) * 2 ^ mb`,
that of `1.0` is `bias * 2 ^ mb`, and that of the largest value below `0.5` is
`(bias - 1) * 2 ^ mb - 1`. -/
def vround_lane (F : Fmt) (x : Nat) : Nat :=
  let ix := vand x (2 ^ (F.eb + F.mb) - 1)
  let mask := vmsgeu ix ((F.bias + F.mb) * 2 ^ F.mb)
  let maskedx := vfmerge_vfm ix 0 mask
  let mx := maskedx
  let maskedx := vfadd F maskedx ((F.bias + F.mb) * 2 ^ F.mb)
  let maskedx := vfsub F maskedx ((F.bias + F.mb) * 2 ^ F.mb)
  let mask2 := vmsltu ix maskedx
  let maskedx := vmerge_vvm maskedx (vfsub F maskedx (F.bias * 2 ^ F.mb)) mask2
  let mask2 := vmfgt F (vfsub F mx maskedx) ((F.bias - 1) * 2 ^ F.mb - 1)
  let maskedx := vmerge_vvm maskedx (vfadd F maskedx (F.bias * 2 ^ F.mb)) mask2
  let signx := vand x F.signMask
  let maskedx := vor maskedx signx
  vmerge_vvm maskedx x mask

/-! ## exp_macro.inl: the polynomial macros over an arbitrary multiply-add

The macros take the vector type as a token (`postfix`) that selects the
intrinsics `__riscv_vfmadd_*` and `__riscv_vfmul_*`; here the two operations
are arguments, so the same macro bodies can be read over the soft-float lanes
and over exact rational arithmetic. -/

/-- Macro `RVVMF_EXP_CALC_POLYNOM_DEG_1`: `vfmadd(x, a1, a0)`. -/
def RVVMF_EXP_CALC_POLYNOM_DEG_1 {α : Type} (vfmadd : α → α → α → α) (x a0 a1 : α) : α :=
  vfmadd x a1 a0

/-- Macro `RVVMF_EXP_CALC_POLYNOM_DEG_2`. -/
def RVVMF_EXP_CALC_POLYNOM_DEG_2 {α : Type} (vfmadd : α → α → α → α) (x a0 a1 a2 : α) : α :=
  vfmadd x (vfmadd x a2 a1) a0

/-- Macro `RVVMF_EXP_CALC_POLYNOM_DEG_3`, the plain Horner chain of the source. -/
def RVVMF_EXP_CALC_POLYNOM_DEG_3 {α : Type} (vfmadd : α → α → α → α) (x a0 a1 a2 a3 : α) : α :=
  vfmadd x (vfmadd x (vfmadd x a3 a2) a1) a0

/-- Macro `RVVMF_EXP_CALC_POLYNOM_DEG_3_PARALLEL`. -/
def RVVMF_EXP_CALC_POLYNOM_DEG_3_PARALLEL {α : Type} (vfmadd : α → α → α → α)
    (x sqrx a0 a1 a2 a3 : α) : α :=
  vfmadd x (RVVMF_EXP_CALC_POLYNOM_DEG_1 vfmadd sqrx a1 a3)
    (RVVMF_EXP_CALC_POLYNOM_DEG_1 vfmadd sqrx a0 a2)

/-- Macro `RVVMF_EXP_CALC_POLYNOM_DEG_4_PARALLEL`. -/
def RVVMF_EXP_CALC_POLYNOM_DEG_4_PARALLEL {α : Type} (vfmadd : α → α → α → α)
    (x sqrx a0 a1 a2 a3 a4 : α) : α :=
  vfmadd x (RVVMF_EXP_CALC_POLYNOM_DEG_1 vfmadd sqrx a1 a3)
    (RVVMF_EXP_CALC_POLYNOM_DEG_2 vfmadd sqrx a0 a2 a4)

/-- Macro `RVVMF_EXP_CALC_POLYNOM_DEG_5_PARALLEL`. -/
def RVVMF_EXP_CALC_POLYNOM_DEG_5_PARALLEL {α : Type} (vfmadd : α → α → α → α)
    (x sqrx a0 a1 a2 a3 a4 a5 : α) : α :=
  vfmadd x (RVVMF_EXP_CALC_POLYNOM_DEG_2 vfmadd sqrx a1 a3 a5)
    (RVVMF_EXP_CALC_POLYNOM_DEG_2 vfmadd sqrx a0 a2 a4)

/-- Macro `RVVMF_EXP_CALC_POLYNOM_DEG_6_PARALLEL`. -/
def RVVMF_EXP_CALC_POLYNOM_DEG_6_PARALLEL {α : Type} (vfmadd : α → α → α → α)
    (vfmul : α → α → α) (x sqrx a0 a1 a2 a3 a4 a5 a6 : α) : α :=
  vfmadd x (RVVMF_EXP_CALC_POLYNOM_DEG_2 vfmadd sqrx a1 a3 a5)
    (RVVMF_EXP_CALC_POLYNOM_DEG_3_PARALLEL vfmadd sqrx (vfmul sqrx sqrx) a0 a2 a4 a6)

/-- The multiply-add `vd * rs1 + vs2` without rounding, over the rationals. -/
def exact_vfmadd (vd rs1 vs2 : ℚ) : ℚ := vd * rs1 + vs2

/-- The product without rounding, over the rationals. -/
def exact_vfmul (a b : ℚ) : ℚ := a * b

/-- Plain Horner evaluation of the polynomial with the coefficients `cs`
(constant term first) at `x`. -/
def horner (cs : List ℚ) (x : ℚ) : ℚ := cs.foldr (fun a acc => a + x * acc) 0

/-- Real value of a finite lane: its signed count of units times the unit
`2 ^ (2 - bias - mb - 1)`, the smallest subnormal. -/
def ratOf (F : Fmt) (x : Nat) : ℚ := (intOf F x : ℚ) / 2 ^ (F.bias + F.mb - 1)

/-! ## reconstruct_expm1_*: the stages around the `fast_2_sum_vv` call -/

/-- The exponent-injected `sh` of `reconstruct_expm1_f64m1`: the high part of
the double-FP product with `ei` added to its exponent field. -/
def reconstruct_expm1_f64m1_sh (th tl pm1h pm1l ei : Nat) : Nat :=
  let r := fast_2_sum_fv FP64 ONE_F64 pm1h
  let rh := r.1
  let rl := vfadd FP64 r.2 pm1l
  let s := mul22_vv FP64 th tl rh rl
  let power := vsll 64 ei 52
  vadd 64 s.1 power

/-- The scaled low part `sl` of `reconstruct_expm1_f64m1`. -/
def reconstruct_expm1_f64m1_sl (th tl pm1h pm1l ei : Nat) : Nat :=
  let r := fast_2_sum_fv FP64 ONE_F64 pm1h
  let rh := r.1
  let rl := vfadd FP64 r.2 pm1l
  let s := mul22_vv FP64 th tl rh rl
  let power := vsll 64 ei 52
  let slZeroMask := vmfeq FP64 s.2 ZERO_F64
  let sl := vadd 64 s.2 power
  vfmerge_vfm sl ZERO_F64 slZeroMask

/-- The operands `(maxs, mins)` that `reconstruct_expm1_f64m1` passes to
`fast_2_sum_vv`, computed from the exponent-injected `sh` by `sortMask`. -/
def reconstruct_expm1_f64m1_sort (sh : Nat) : Nat × Nat :=
  let sortMask := vmsgtu (vand sh 0x7ff0000000000000) 0x3ff0000000000000
  let maxs := vfmerge_vfm sh EXPM1_UNDERFLOW_VALUE_F64 (!sortMask)
  let mins := vfmerge_vfm sh EXPM1_UNDERFLOW_VALUE_F64 sortMask
  (maxs, mins)

/-- The exponent-injected `sh` of `reconstruct_expm1_f32m1`: the high part of
the double-FP product with `ei` added to its exponent field. -/
def reconstruct_expm1_f32m1_sh (th tl pm1h pm1l ei : Nat) : Nat :=
  let r := fast_2_sum_fv FP32 ONE_F32 pm1h
  let rh := r.1
  let rl := vfadd FP32 r.2 pm1l
  let s := mul22_vv FP32 th tl rh rl
  let power := vsll 32 ei 23
  vadd 32 s.1 power

/-- The scaled low part `sl` of `reconstruct_expm1_f32m1`. -/
def reconstruct_expm1_f32m1_sl (th tl pm1h pm1l ei : Nat) : Nat :=
  let r := fast_2_sum_fv FP32 ONE_F32 pm1h
  let rh := r.1
  let rl := vfadd FP32 r.2 pm1l
  let s := mul22_vv FP32 th tl rh rl
  let power := vsll 32 ei 23
  let slZeroMask := vmfeq FP32 s.2 ZERO_F32
  let sl := vadd 32 s.2 power
  vfmerge_vfm sl ZERO_F32 slZeroMask

/-- The operands `(maxs, mins)` that `reconstruct_expm1_f32m1` passes to
`fast_2_sum_vv`, computed from the exponent-injected `sh` by `sortMask`. -/
def reconstruct_expm1_f32m1_sort (sh : Nat) : Nat × Nat :=
  let sortMask := vmsgtu (vand sh 0x7f800000) 0x3f800000
  let maxs := vfmerge_vfm sh EXPM1_UNDERFLOW_VALUE_F32 (!sortMask)
  let mins := vfmerge_vfm sh EXPM1_UNDERFLOW_VALUE_F32 sortMask
  (maxs, mins)

/-- The exponent-injected `sh` of `reconstruct_expm1_f16m1`: the high part of
the double-FP product with `ei` added to its exponent field. -/
def reconstruct_expm1_f16m1_sh (th tl pm1h pm1l ei : Nat) : Nat :=
  let r := fast_2_sum_fv FP16 ONE_F16 pm1h
  let rh := r.1
  let rl := vfadd FP16 r.2 pm1l
  let s := mul22_vv FP16 th tl rh rl
  let power := vsll 16 ei 10
  vadd 16 s.1 power

/-- The scaled low part `sl` of `reconstruct_expm1_f16m1`. -/
def reconstruct_expm1_f16m1_sl (th tl pm1h pm1l ei : Nat) : Nat :=
  let r := fast_2_sum_fv FP16 ONE_F16 pm1h
  let rh := r.1
  let rl := vfadd FP16 r.2 pm1l
  let s := mul22_vv FP16 th tl rh rl
  let power := vsll 16 ei 10
  let power2 := vsll 16 (vadd 16 ei 15) 10
  let sl1 := vfmul FP16 power2 s.2
  let slZeroMask := vmfeq FP16 s.2 ZERO_F16
  let sl := vadd 16 s.2 power
  let sl := vfmerge_vfm sl ZERO_F16 slZeroMask
  let infPowerMask := vmseq power2 0x7c00
  vmerge_vvm sl1 sl infPowerMask

/-- The operands `(maxs, mins)` that `reconstruct_expm1_f16m1` passes to
`fast_2_sum_vv`, computed from the exponent-injected `sh` by `sortMask`. -/
def reconstruct_expm1_f16m1_sort (sh : Nat) : Nat × Nat :=
  let sortMask := vmsgtu (vand sh 0x7c00) 0x3c00
  let maxs := vfmerge_vfm sh EXPM1_UNDERFLOW_VALUE_F16 (!sortMask)
  let mins := vfmerge_vfm sh EXPM1_UNDERFLOW_VALUE_F16 sortMask
  (maxs, mins)

/-- Lane of `reconstruct_expm1_*` at the given width. -/
def reconstruct_expm1 : Width → Nat → Nat → Nat → Nat → Nat → Nat
  | .f64 => reconstruct_expm1_f64m1
  | .f32 => reconstruct_expm1_f32m1
  | .f16 => reconstruct_expm1_f16m1

/-- The exponent-injected `sh` of `reconstruct_expm1_*` at the given width. -/
def reconstruct_expm1_sh : Width → Nat → Nat → Nat → Nat → Nat → Nat
  | .f64 => reconstruct_expm1_f64m1_sh
  | .f32 => reconstruct_expm1_f32m1_sh
  | .f16 => reconstruct_expm1_f16m1_sh

/-- The scaled low part `sl` of `reconstruct_expm1_*` at the given width. -/
def reconstruct_expm1_sl : Width → Nat → Nat → Nat → Nat → Nat → Nat
  | .f64 => reconstruct_expm1_f64m1_sl
  | .f32 => reconstruct_expm1_f32m1_sl
  | .f16 => reconstruct_expm1_f16m1_sl

/-- The operands `(maxs, mins)` of the `fast_2_sum_vv` call of
`reconstruct_expm1_*` at the given width. -/
def reconstruct_expm1_sort : Width → Nat → Nat × Nat
  | .f64 => reconstruct_expm1_f64m1_sort
  | .f32 => reconstruct_expm1_f32m1_sort
  | .f16 => reconstruct_expm1_f16m1_sort

/-! ## sqrt.c: the NaN mask and the exponent tables -/

/-- The mask `nan_mask` of `__riscv_vsqrt_f64m1`. -/
def vsqrt_nan_mask_f64m1 (x : Nat) : Bool :=
  let x_int := vand x 0x7fffffffffffffff
  vmsgtu x_int 0x7ff0000000000000

/-- The mask `nan_mask` of `__riscv_vsqrt_f32m1`. -/
def vsqrt_nan_mask_f32m1 (x : Nat) : Bool :=
  let x_int := vand x 0x7fffffff
  vmsgtu x_int 0x7f800000

/-- The mask `nan_mask` of `__riscv_vsqrt_f16m1`. -/
def vsqrt_nan_mask_f16m1 (x : Nat) : Bool :=
  let x_int := vand x 0x7fff
  vmsgtu x_int 0x7e00

/-- The mask `nan_mask` of `__riscv_vsqrt_*` at the given width. -/
def vsqrt_nan_mask : Width → Nat → Bool
  | .f64 => vsqrt_nan_mask_f64m1
  | .f32 => vsqrt_nan_mask_f32m1
  | .f16 => vsqrt_nan_mask_f16m1

/-- Index split of `__riscv_vsqrt_f64m1` on the pattern `x_int` fed to the
pipeline: `(high_ind, mid_ind, low_ind)` before the scaling to byte offsets. -/
def vsqrt_indices_f64m1 (x_int : Nat) : Nat × Nat × Nat :=
  let order_in_x := vand x_int 0x7ff0000000000000
  let order_in_x := vsrl order_in_x 52
  let high_ind := vsrl order_in_x 8
  let low_ind := vand order_in_x 0xf
  let mid_ind := vsrl (vand order_in_x (0xf <<< 4)) 4
  (high_ind, mid_ind, low_ind)

/-- The table entries `(order_high, order_mid, order_low, order_low_)` that
`__riscv_vsqrt_f64m1` gathers for the pattern `x_int` fed to the pipeline. -/
def vsqrt_order_f64m1 (x_int : Nat) : Nat × Nat × Nat × Nat :=
  let i := vsqrt_indices_f64m1 x_int
  let high_ind := vmul 64 i.1 8
  let mid_ind := vmul 64 i.2.1 8
  let low_ind := vmul 64 i.2.2 8
  let order_high := vloxei 8 order_tab_high 0 high_ind
  let order_mid := vloxei 8 order_tab_mid 0 mid_ind
  let order_low := vloxei 8 order_tab_low 0 low_ind
  let order_low_ := vloxei 8 order_tab_low_ 0 low_ind
  (order_high, order_mid, order_low, order_low_)

/-- Index split of `__riscv_vsqrt_f32m1`: `(high_ind, low_ind)` before the
scaling to byte offsets. -/
def vsqrt_indices_f32m1 (x_int : Nat) : Nat × Nat :=
  let order_in_x := vand x_int 0x7f800000
  let order_in_x := vsrl order_in_x 23
  let high_ind := vsrl order_in_x 4
  let low_ind := vand order_in_x 0xf
  (high_ind, low_ind)

/-- The table entries `(order_high, order_low, order_low_)` that
`__riscv_vsqrt_f32m1` gathers for the pattern `x_int` fed to the pipeline. -/
def vsqrt_order_f32m1 (x_int : Nat) : Nat × Nat × Nat :=
  let i := vsqrt_indices_f32m1 x_int
  let high_ind := vmul 32 i.1 4
  let low_ind := vmul 32 i.2 4
  let order_high := vloxei 4 order_tab_high_flt 0 high_ind
  let order_low := vloxei 4 order_tab_low_flt 0 low_ind
  let order_low_ := vloxei 4 order_tab_low_flt_ 0 low_ind
  (order_high, order_low, order_low_)

/-- Index split of `__riscv_vsqrt_f16m1`: `(high_ind, low_ind)` before the
scaling to byte offsets. -/
def vsqrt_indices_f16m1 (x_int : Nat) : Nat × Nat :=
  let order_in_x := vand x_int 0x7c00
  let order_in_x := vsrl order_in_x 10
  let high_ind := vsrl order_in_x 4
  let low_ind := vand order_in_x 0xf
  (high_ind, low_ind)

/-- The table entries `(order_high, order_low, order_low_)` that
`__riscv_vsqrt_f16m1` gathers for the pattern `x_int` fed to the pipeline. -/
def vsqrt_order_f16m1 (x_int : Nat) : Nat × Nat × Nat :=
  let i := vsqrt_indices_f16m1 x_int
  let high_ind := vmul 16 i.1 2
  let low_ind := vmul 16 i.2 2
  let order_high := vloxei 2 order_tab_high_f16 0 high_ind
  let order_low := vloxei 2 order_tab_low_f16 0 low_ind
  let order_low_ := vloxei 2 order_tab_low_f16_ 0 low_ind
  (order_high, order_low, order_low_)

/-! ## sqrt.c: the stages of the pipeline -/

/-- The pattern `x_int` that `__riscv_vsqrt_f64m1` feeds to its pipeline: the
input with the lanes of `special_mask` replaced by zero. -/
def vsqrt_x_int_f64m1 (x : Nat) : Nat :=
  let inf := 0x7ff0000000000000
  let zero_less_mask := vmflt FP64 x 0x0000000000000000
  let inf_mask := vmfeq FP64 x inf
  let x_int := vand x 0x7fffffffffffffff
  let nan_mask := vmsgtu x_int 0x7ff0000000000000
  let special_mask := zero_less_mask || inf_mask
  let special_mask := special_mask || nan_mask
  let x_spec := vfmerge_vfm x 0x0000000000000000 special_mask
  let x_int := x_spec
  x_int

set_option linter.unusedVariables false in
/-- The pair `(zh, zl)` of `__riscv_vsqrt_f64m1`: the square root of the
mantissa `reduced_x` of the pattern `x_int`, as a high and a low part. -/
def vsqrt_zh_zl_f64m1 (x_int : Nat) : Nat × Nat :=
  let mantissa_in_x := vand x_int 0x000fffffffffffff
  let reduced_x_int := vor mantissa_in_x 0x3ff0000000000000
  let reduced_x := reduced_x_int
  let y0 := vrsub 64 (vsrl reduced_x_int 1) 0x5fe6eb50c7b537a9
  let xx := vfmul FP64 y0 reduced_x
  let h := vfmul FP64 y0 0x3fe0000000000000
  let r := vfrsub FP64 (vfmul FP64 xx h) 0x3fe0000000000000
  let xx := vfmacc FP64 xx xx r
  let h := vfmacc FP64 h h r
  let r := vfrsub FP64 (vfmul FP64 xx h) 0x3fe0000000000000
  let xx := vfmacc FP64 xx xx r
  let h := vfmacc FP64 h h r
  let r := vfrsub FP64 (vfmul FP64 xx h) 0x3fe0000000000000
  let xx := vfmacc FP64 xx xx r
  let h := vfmacc FP64 h h r
  let r := vfrsub FP64 (vfmul FP64 xx h) 0x3fe0000000000000
  let xx := vfmacc FP64 xx xx r
  let h := vfmacc FP64 h h r
  let r := vfrsub FP64 (vfmul FP64 xx h) 0x3fe0000000000000
  let r := vfmacc FP64 reduced_x (vfmul FP64 xx 0xbff0000000000000) xx
  let zh := vfmacc FP64 xx r h
  let sh := vfsub FP64 xx zh
  let sl := vfadd FP64 sh zh
  let sl := vfsub FP64 xx sl
  let zl := vfmacc FP64 sh r h
  let zl := vfadd FP64 zl sl
  (zh, zl)

/-- The value `sqrt_value` of `__riscv_vsqrt_f64m1` before the final merges: the
pair `(zh, zl)` scaled by the gathered table entries. -/
def vsqrt_scaled_f64m1 (zh zl : Nat) (order : Nat × Nat × Nat × Nat) : Nat :=
  let order_high := order.1
  let order_mid := order.2.1
  let order_low := order.2.2.1
  let order_low_ := order.2.2.2
  let zzh := vfmul FP64 zh order_high
  let zzh := vfmul FP64 zzh order_mid
  let zzl := vfmul FP64 zl order_high
  let zzl := vfmul FP64 zzl order_mid
  let sh := vfmul FP64 zzh order_low
  let sl := vfmacc FP64 (vfmul FP64 sh 0xbff0000000000000) zzh order_low
  let part1 := vfmul FP64 zzl order_low
  let part2 := vfmacc FP64 part1 zzh order_low_
  let sl := vfadd FP64 sl part2
  let sqrt_value := vfadd FP64 sh sl
  sqrt_value

/-- The three final merges of `__riscv_vsqrt_f64m1` over the value `sqrt_value`
of the pipeline. -/
def vsqrt_merges_f64m1 (x sqrt_value : Nat) : Nat :=
  let nan := 0x7ff8000000000000
  let inf := 0x7ff0000000000000
  let zero_less_mask := vmflt FP64 x 0x0000000000000000
  let inf_mask := vmfeq FP64 x inf
  let x_int := vand x 0x7fffffffffffffff
  let nan_mask := vmsgtu x_int 0x7ff0000000000000
  let sqrt_value := vfmerge_vfm sqrt_value nan zero_less_mask
  let sqrt_value := vfmerge_vfm sqrt_value inf inf_mask
  let sqrt_value := vfmerge_vfm sqrt_value nan nan_mask
  sqrt_value

/-- The pattern `x_int` that `__riscv_vsqrt_f32m1` feeds to its pipeline: the
input with the lanes of `special_mask` replaced by zero. -/
def vsqrt_x_int_f32m1 (x : Nat) : Nat :=
  let inf := 0x7f800000
  let zero_less_mask := vmflt FP32 x 0x00000000
  let inf_mask := vmfeq FP32 x inf
  let x_int := vand x 0x7fffffff
  let nan_mask := vmsgtu x_int 0x7f800000
  let special_mask := zero_less_mask || inf_mask
  let special_mask := special_mask || nan_mask
  let x_spec := vfmerge_vfm x 0x00000000 special_mask
  let x_int := x_spec
  x_int

set_option linter.unusedVariables false in
/-- The pair `(zh, zl)` of `__riscv_vsqrt_f32m1`: the square root of the
mantissa `reduced_x` of the pattern `x_int`, as a high and a low part. -/
def vsqrt_zh_zl_f32m1 (x_int : Nat) : Nat × Nat :=
  let mantissa_in_x := vand x_int 0x007fffff
  let reduced_x_int := vor mantissa_in_x 0x3f800000
  let reduced_x := reduced_x_int
  let y0 := vrsub 32 (vsrl reduced_x_int 1) 0x5f3759df
  let xx := vfmul FP32 y0 reduced_x
  let h := vfmul FP32 y0 0x3f000000
  let r := vfrsub FP32 (vfmul FP32 xx h) 0x3f000000
  let xx := vfmacc FP32 xx xx r
  let h := vfmacc FP32 h h r
  let r := vfrsub FP32 (vfmul FP32 xx h) 0x3f000000
  let xx := vfmacc FP32 xx xx r
  let h := vfmacc FP32 h h r
  let r := vfrsub FP32 (vfmul FP32 xx h) 0x3f000000
  let xx := vfmacc FP32 xx xx r
  let h := vfmacc FP32 h h r
  let r := vfrsub FP32 (vfmul FP32 xx h) 0x3f000000
  let r := vfmacc FP32 reduced_x (vfmul FP32 xx 0xbf800000) xx
  let zh := vfmacc FP32 xx r h
  let sh := vfsub FP32 xx zh
  let sl := vfadd FP32 sh zh
  let sl := vfsub FP32 xx sl
  let zl := vfmacc FP32 sh r h
  let zl := vfadd FP32 zl sl
  (zh, zl)

/-- The value `sqrt_value` of `__riscv_vsqrt_f32m1` before the final merges: the
pair `(zh, zl)` scaled by the gathered table entries. -/
def vsqrt_scaled_f32m1 (zh zl : Nat) (order : Nat × Nat × Nat) : Nat :=
  let order_high := order.1
  let order_low := order.2.1
  let order_low_ := order.2.2
  let zzh := vfmul FP32 zh order_high
  let zzl := vfmul FP32 zl order_high
  let sh := vfmul FP32 zzh order_low
  let sl := vfmacc FP32 (vfmul FP32 sh 0xbf800000) zzh order_low
  let part1 := vfmul FP32 zzl order_low
  let part2 := vfmacc FP32 part1 zzh order_low_
  let sl := vfadd FP32 sl part2
  let sqrt_value := vfadd FP32 sh sl
  sqrt_value

/-- The three final merges of `__riscv_vsqrt_f32m1` over the value `sqrt_value`
of the pipeline. -/
def vsqrt_merges_f32m1 (x sqrt_value : Nat) : Nat :=
  let nan := 0x7fc00000
  let inf := 0x7f800000
  let zero_less_mask := vmflt FP32 x 0x00000000
  let inf_mask := vmfeq FP32 x inf
  let x_int := vand x 0x7fffffff
  let nan_mask := vmsgtu x_int 0x7f800000
  let sqrt_value := vfmerge_vfm sqrt_value nan zero_less_mask
  let sqrt_value := vfmerge_vfm sqrt_value inf inf_mask
  let sqrt_value := vfmerge_vfm sqrt_value nan nan_mask
  sqrt_value

/-- The pattern `x_int` that `__riscv_vsqrt_f16m1` feeds to its pipeline: the
input with the lanes of `special_mask` replaced by zero. -/
def vsqrt_x_int_f16m1 (x : Nat) : Nat :=
  let inf := 0x7c00
  let zero_less_mask := vmflt FP16 x 0x0000
  let inf_mask := vmfeq FP16 x inf
  let x_int := vand x 0x7fff
  let nan_mask := vmsgtu x_int 0x7e00
  let special_mask := zero_less_mask || inf_mask
  let special_mask := special_mask || nan_mask
  let x_spec := vfmerge_vfm x 0x0000 special_mask
  let x_int := x_spec
  x_int

set_option linter.unusedVariables false in
/-- The pair `(zh, zl)` of `__riscv_vsqrt_f16m1`: the square root of the
mantissa `reduced_x` of the pattern `x_int`, as a high and a low part. -/
def vsqrt_zh_zl_f16m1 (x_int : Nat) : Nat × Nat :=
  let mantissa_in_x := vand x_int 0x03ff
  let reduced_x_int := vor mantissa_in_x 0x3c00
  let reduced_x := reduced_x_int
  let y0 := vrsub 16 (vsrl reduced_x_int 1) 0x59d8
  let xx := vfmul FP16 y0 reduced_x
  let h := vfmul FP16 y0 0x3800
  let r := vfrsub FP16 (vfmul FP16 xx h) 0x3800
  let xx := vfmacc FP16 xx xx r
  let h := vfmacc FP16 h h r
  let r := vfrsub FP16 (vfmul FP16 xx h) 0x3800
  let xx := vfmacc FP16 xx xx r
  let h := vfmacc FP16 h h r
  let r := vfrsub FP16 (vfmul FP16 xx h) 0x3800
  let r := vfmacc FP16 reduced_x (vfmul FP16 xx 0xbc00) xx
  let zh := vfmacc FP16 xx r h
  let sh := vfsub FP16 xx zh
  let sl := vfadd FP16 sh zh
  let sl := vfsub FP16 xx sl
  let zl := vfmacc FP16 sh r h
  let zl := vfadd FP16 zl sl
  (zh, zl)

/-- The value `sqrt_value` of `__riscv_vsqrt_f16m1` before the final merges: the
pair `(zh, zl)` scaled by the gathered table entries. -/
def vsqrt_scaled_f16m1 (zh zl : Nat) (order : Nat × Nat × Nat) : Nat :=
  let order_high := order.1
  let order_low := order.2.1
  let order_low_ := order.2.2
  let zzh := vfmul FP16 zh order_high
  let zzl := vfmul FP16 zl order_high
  let sh := vfmul FP16 zzh order_low
  let sl := vfmacc FP16 (vfmul FP16 sh 0xbc00) zzh order_low
  let part1 := vfmul FP16 zzl order_low
  let part2 := vfmacc FP16 part1 zzh order_low_
  let sl := vfadd FP16 sl part2
  let sqrt_value := vfadd FP16 sh sl
  sqrt_value

/-- The three final merges of `__riscv_vsqrt_f16m1` over the value `sqrt_value`
of the pipeline. -/
def vsqrt_merges_f16m1 (x sqrt_value : Nat) : Nat :=
  let nan := 0x7e00
  let inf := 0x7c00
  let zero_less_mask := vmflt FP16 x 0x0000
  let inf_mask := vmfeq FP16 x inf
  let x_int := vand x 0x7fff
  let nan_mask := vmsgtu x_int 0x7e00
  let sqrt_value := vfmerge_vfm sqrt_value nan zero_less_mask
  let sqrt_value := vfmerge_vfm sqrt_value inf inf_mask
  let sqrt_value := vfmerge_vfm sqrt_value nan nan_mask
  sqrt_value

/-! ## tanh.cpp: the segment index -/

/-- The segment index of `__riscv_vtanh_f64m1` (the value of `index` before
the shift to a byte offset). -/
def tanh_index_f64m1 (x : Nat) : Nat :=
  let ix := vand x 0x7fffffffffffffff
  let index := vsrl ix 50
  let index := vsub 64 index 4015
  let mask := vmsltu ix 0x3ec0000000000000
  let index := vmerge_vxm index 0x0000000000000000 mask
  let mask := vmsgtu ix 0x40330fc1931f09c9
  vmerge_vxm index 94 mask

/-- The segment index of `__riscv_vtanh_f32m1`. -/
def tanh_index_f32m1 (x : Nat) : Nat :=
  let ix := vand x 0x7fffffff
  let index := vsrl ix 20
  let index := vsub 32 index 959
  let mask := vmsltu ix 0x3c000000
  let index := vmerge_vxm index 0x00000000 mask
  let mask := vmsgtu ix 0x41102cb3
  vmerge_vxm index 83 mask

/-- The segment index of `__riscv_vtanh_f16m1`. -/
def tanh_index_f16m1 (x : Nat) : Nat :=
  let ix := vand x 0x7fff
  let index := vsrl ix 9
  let index := vsub 16 index 25
  let mask := vmsltu ix 0x3400
  let index := vmerge_vxm index 0x0000 mask
  let mask := vmsgtu ix 0x4429
  vmerge_vxm index 10 mask

/-- The segment index of `__riscv_vtanh_*` at the given width. -/
def tanh_index : Width → Nat → Nat
  | .f64 => tanh_index_f64m1
  | .f32 => tanh_index_f32m1
  | .f16 => tanh_index_f16m1

/-- Number of coefficients of one segment row: 16 for binary64, 8 otherwise. -/
def tanh_row : Width → Nat
  | .f64 => 16
  | .f32 => 8
  | .f16 => 8

/-- Index of the last segment row: 94, 83, 10. -/
def tanh_last : Width → Nat
  | .f64 => 94
  | .f32 => 83
  | .f16 => 10

/-- Number of elements of the coefficient array: `tanhdp[1520]`,
`tanhsp[672]`, `tanhhp[88]`. -/
def tanh_table_size : Width → Nat
  | .f64 => 1520
  | .f32 => 672
  | .f16 => 88

/-- Bit pattern of the first segment bound. -/
def tanh_first_bound : Width → Nat
  | .f64 => 0x3ec0000000000000
  | .f32 => 0x3c000000
  | .f16 => 0x3400

/-- Bit pattern of the saturation bound. -/
def tanh_saturation_bound : Width → Nat
  | .f64 => 0x40330fc1931f09c9
  | .f32 => 0x41102cb3
  | .f16 => 0x4429

/-! ## expm1.cpp: the `sh` that reaches the sort inside the kernels -/

/-- The exponent-injected `sh` that `__riscv_vexpm1_f64m1` computes for the
lane `x`: the kernel up to the call of `reconstruct_expm1_f64m1`, then the
first stage of that function. -/
def vexpm1_sh_f64m1 (x : Nat) : Nat :=
  let c := check_special_cases_f64m1 x EXP_EXPM1_OVERFLOW_THRESHOLD_F64
  let x := c.1
  let r := do_exp_argument_reduction_h_f64m1 x
  let yh := r.1
  let ei := r.2.1
  let fi := r.2.2
  let t := get_table_values_hl_f64m1 fi
  let p := calculate_exp_polynom_hl12_f64m1 yh
  reconstruct_expm1_f64m1_sh t.1 t.2 p.1 p.2 ei

/-- The exponent-injected `sh` that `__riscv_vexpm1_f32m1` computes for the lane `x`. -/
def vexpm1_sh_f32m1 (x : Nat) : Nat :=
  let c := check_special_cases_f32m1 x EXP_EXPM1_OVERFLOW_THRESHOLD_F32
  let x := c.1
  let r := do_exp_argument_reduction_hl_f32m1 x
  let yh := r.1
  let yl := r.2.1
  let ei := r.2.2.1
  let fi := r.2.2.2
  let t := get_table_values_hl_f32m1 fi
  let p := calculate_exp_polynom_hl_f32m1 yh yl
  reconstruct_expm1_f32m1_sh t.1 t.2 p.1 p.2 ei

/-- The exponent-injected `sh` that `__riscv_vexpm1_f16m1` computes for the lane `x`. -/
def vexpm1_sh_f16m1 (x : Nat) : Nat :=
  let c := check_special_cases_f16m1 x EXP_EXPM1_OVERFLOW_THRESHOLD_F16
  let x := c.1
  let r := do_exp_argument_reduction_hl_f16m1 x
  let yh := r.1
  let yl := r.2.1
  let ei := r.2.2.1
  let fi := r.2.2.2
  let t := get_table_values_hl_f16m1 fi
  let p := calculate_exp_polynom_hl_f16m1 yh yl
  reconstruct_expm1_f16m1_sh t.1 t.2 p.1 p.2 ei

/-- The exponent-injected `sh` inside `__riscv_vexpm1_*` at the given width. -/
def vexpm1_sh : Width → Nat → Nat
  | .f64 => vexpm1_sh_f64m1
  | .f32 => vexpm1_sh_f32m1
  | .f16 => vexpm1_sh_f16m1

/-! # Theorems -/

/-! ## The leading-bit search -/

/-- Invariant of the binary search: with `n` below `2 ^ 2 ^ i`, the remaining
`i` rounds add the position of the leading bit of `n`. -/
theorem ilog2Aux_eq (i : Nat) : ∀ n acc : Nat, 0 < n → n < 2 ^ (2 ^ i) →
    ilog2Aux i n acc = acc + Nat.log 2 n := by
  induction i with
  | zero =>
    intro n acc h0 h1
    have : n = 1 := by simp at h1; omega
    subst this
    simp [ilog2Aux]
  | succ i ih =>
    intro n acc h0 h1
    unfold ilog2Aux
    have hpow : 2 ^ (2 ^ (i + 1)) = 2 ^ (2 ^ i) * 2 ^ (2 ^ i) := by
      rw [← pow_add]; congr 1; ring
    split
    · rename_i hle
      have hpos : 0 < n >>> (2 ^ i) := by
        rw [Nat.shiftRight_eq_div_pow]
        exact Nat.div_pos hle (by positivity)
      have hlt : n >>> (2 ^ i) < 2 ^ (2 ^ i) := by
        rw [Nat.shiftRight_eq_div_pow]
        apply Nat.div_lt_of_lt_mul
        rw [← hpow]; exact h1
      rw [ih _ _ hpos hlt, Nat.shiftRight_eq_div_pow]
      have hm0 : n / 2 ^ (2 ^ i) ≠ 0 := by
        rw [Nat.shiftRight_eq_div_pow] at hpos; omega
      have hlo := Nat.pow_log_le_self 2 hm0
      have hhi := Nat.lt_pow_succ_log_self (by norm_num : 1 < 2) (n / 2 ^ (2 ^ i))
      have hB : 0 < 2 ^ (2 ^ i) := by positivity
      have h1 : 2 ^ (2 ^ i + Nat.log 2 (n / 2 ^ (2 ^ i))) ≤ n := by
        rw [pow_add]
        calc 2 ^ (2 ^ i) * 2 ^ Nat.log 2 (n / 2 ^ (2 ^ i))
            ≤ 2 ^ (2 ^ i) * (n / 2 ^ (2 ^ i)) := Nat.mul_le_mul_left _ hlo
          _ ≤ n := Nat.mul_div_le n _
      have h2 : n < 2 ^ (2 ^ i + Nat.log 2 (n / 2 ^ (2 ^ i)) + 1) := by
        have h3 : n / 2 ^ (2 ^ i) + 1 ≤ 2 ^ (Nat.log 2 (n / 2 ^ (2 ^ i)) + 1) := hhi
        have h4 : n < 2 ^ (2 ^ i) * (n / 2 ^ (2 ^ i) + 1) := Nat.lt_mul_div_succ n hB
        calc n < 2 ^ (2 ^ i) * (n / 2 ^ (2 ^ i) + 1) := h4
          _ ≤ 2 ^ (2 ^ i) * 2 ^ (Nat.log 2 (n / 2 ^ (2 ^ i)) + 1) := Nat.mul_le_mul_left _ h3
          _ = 2 ^ (2 ^ i + Nat.log 2 (n / 2 ^ (2 ^ i)) + 1) := by rw [← pow_add]; rfl
      rw [Nat.log_eq_of_pow_le_of_lt_pow h1 h2]
      omega
    · rename_i hle
      exact ih n acc h0 (by omega)

/-- The binary search finds the position of the leading bit of every positive
number below `2 ^ 8192`. -/
theorem ilog2_eq_log (n : Nat) (h0 : 0 < n) (h1 : n < 2 ^ 2 ^ 13) : ilog2 n = Nat.log 2 n := by
  unfold ilog2
  rw [ilog2Aux_eq 13 n 0 h0 h1]
  simp

/-! ## Comparison lemmas -/

theorem vmflt_key {F : Fmt} {a b : Nat} (h : vmflt F a b = true) : key F a < key F b := by
  simp only [vmflt, Bool.and_eq_true, decide_eq_true_eq] at h
  exact h.2

theorem vmflt_notNaN {F : Fmt} {a b : Nat} (h : vmflt F a b = true) :
    isNaN F a = false ∧ isNaN F b = false := by
  simp only [vmflt, Bool.and_eq_true, decide_eq_true_eq, Bool.not_eq_true_eq_eq_false] at h
  simp [h.1.1, h.1.2]

theorem vmfeq_key {F : Fmt} {a b : Nat} (h : vmfeq F a b = true) : key F a = key F b := by
  simp only [vmfeq, Bool.and_eq_true, decide_eq_true_eq] at h
  exact h.2

theorem vmflt_of_key {F : Fmt} {a b : Nat} (ha : isNaN F a = false) (hb : isNaN F b = false)
    (h : key F a < key F b) : vmflt F a b = true := by
  simp [vmflt, ha, hb, h]

theorem vmfeq_of_key {F : Fmt} {a b : Nat} (ha : isNaN F a = false) (hb : isNaN F b = false)
    (h : key F a = key F b) : vmfeq F a b = true := by
  simp [vmfeq, ha, hb, h]

theorem vmflt_false_of_key {F : Fmt} {a b : Nat} (h : key F b ≤ key F a) :
    vmflt F a b = false := by
  simp only [vmflt, Bool.and_eq_false_iff, decide_eq_false_iff_not]
  right; omega

theorem vmfeq_false_of_key {F : Fmt} {a b : Nat} (h : key F a ≠ key F b) :
    vmfeq F a b = false := by
  simp only [vmfeq, Bool.and_eq_false_iff, decide_eq_false_iff_not]
  right; exact h

theorem vmflt_nan_left {F : Fmt} {a b : Nat} (h : isNaN F a = true) : vmflt F a b = false := by
  simp [vmflt, h]

theorem vmflt_nan_right {F : Fmt} {a b : Nat} (h : isNaN F b = true) : vmflt F a b = false := by
  simp [vmflt, h]

theorem vmfeq_nan_left {F : Fmt} {a b : Nat} (h : isNaN F a = true) : vmfeq F a b = false := by
  simp [vmfeq, h]

theorem key_neg_sign {F : Fmt} {a : Nat} (h : key F a < 0) : signOf F a = true := by
  unfold key at h
  by_cases hs : signOf F a = true
  · exact hs
  · simp only [hs] at h
    simp at h
    omega

theorem key_pos_sign {F : Fmt} {a : Nat} (h : 0 < key F a) : signOf F a = false := by
  unfold key at h
  by_cases hs : signOf F a = true
  · simp only [hs, if_true] at h
    omega
  · simpa using hs

/-- A lane below the sign bit is non-negative: its key is the pattern itself. -/
theorem key_of_lt {F : Fmt} {x : Nat} (h : x < 2 ^ (F.eb + F.mb)) :
    signOf F x = false ∧ magOf F x = x ∧ key F x = (x : Int) := by
  have hs : signOf F x = false := Nat.testBit_lt_two_pow h
  have hm : magOf F x = x := Nat.mod_eq_of_lt h
  refine ⟨hs, hm, ?_⟩
  simp [key, hs, hm]

/-- A lane with the sign bit set: its key is minus the magnitude bits. -/
theorem key_of_ge {F : Fmt} {x : Nat} (h1 : 2 ^ (F.eb + F.mb) ≤ x)
    (h2 : x < 2 ^ (F.eb + F.mb + 1)) :
    signOf F x = true ∧ magOf F x = x - 2 ^ (F.eb + F.mb) ∧
      key F x = -((x - 2 ^ (F.eb + F.mb) : Nat) : Int) := by
  have hp : 2 ^ (F.eb + F.mb + 1) = 2 * 2 ^ (F.eb + F.mb) := by ring
  have hs : signOf F x = true := by
    unfold signOf
    rw [Nat.testBit_to_div_mod, decide_eq_true_eq]
    have : x / 2 ^ (F.eb + F.mb) = 1 := by
      apply Nat.div_eq_of_lt_le
      · omega
      · omega
    omega
  have hm : magOf F x = x - 2 ^ (F.eb + F.mb) := by
    unfold magOf
    rw [Nat.mod_eq_sub_mod h1]
    exact Nat.mod_eq_of_lt (by omega)
  refine ⟨hs, hm, ?_⟩
  simp [key, hs, hm]

/-- The special-case mask is clear for every negative lane. -/
theorem special_mask_of_neg {F : Fmt} {x thr pinf : Nat} (hx : key F x < 0)
    (hp : 0 < key F pinf) (ht : 0 < key F thr) :
    (vmfeq F x pinf || (vmfgt F x thr && vmflt F x pinf)) = false := by
  have h1 : vmfeq F x pinf = false := vmfeq_false_of_key (by omega)
  have h2 : vmfgt F x thr = false := vmflt_false_of_key (by omega)
  simp [h1, h2]

/-- The special-case mask is clear for every NaN lane. -/
theorem special_mask_of_nan {F : Fmt} {x thr pinf : Nat} (hx : isNaN F x = true) :
    (vmfeq F x pinf || (vmfgt F x thr && vmflt F x pinf)) = false := by
  simp [vmfeq_nan_left hx, vmflt_nan_left hx]

/-- A lane on which the special-case mask is set is positive. -/
theorem special_mask_pos {F : Fmt} {x thr pinf : Nat} (hp : 0 < key F pinf) (ht : 0 < key F thr)
    (h : (vmfeq F x pinf || (vmfgt F x thr && vmflt F x pinf)) = true) : 0 < key F x := by
  simp only [Bool.or_eq_true, Bool.and_eq_true] at h
  rcases h with h | ⟨h, _⟩
  · have := vmfeq_key h
    omega
  · have := vmflt_key h
    omega

/-! ## NaN propagation through the arithmetic intrinsics -/

theorem vfmadd_nan1 {F : Fmt} {a : Nat} (b c : Nat) (h : isNaN F a = true) :
    vfmadd F a b c = F.qnan := by
  simp [vfmadd, h]

theorem vfmadd_nan3 {F : Fmt} {c : Nat} (a b : Nat) (h : isNaN F c = true) :
    vfmadd F a b c = F.qnan := by
  simp [vfmadd, h]


/-! ## f64: overlays of the kernels -/

theorem pinf_f64 : FP64.pinf = 0x7ff0000000000000 := by decide

theorem qnan_f64 : FP64.qnan = 0x7ff8000000000000 := by decide

theorem signMask_f64 : FP64.signMask = 0x8000000000000000 := by decide

theorem key_pinf_f64 : key FP64 0x7ff0000000000000 = 0x7ff0000000000000 := by decide!

theorem key_ovf_f64 : key FP64 EXP_EXPM1_OVERFLOW_THRESHOLD_F64 = 0x40862e42fefa39ef := by decide!

theorem key_zthr_f64 : key FP64 EXP_ZERO_THRESHOLD_F64 = -0x40874910d52d3051 := by decide!

theorem key_m1thr_f64 : key FP64 EXPM1_UNDERFLOW_THRESHOLD_F64 = -0x4042b708872320e1 := by
  decide!

theorem check_special_cases_f64m1_eq (x thr : Nat) :
    check_special_cases_f64m1 x thr =
      (if (vmfeq FP64 x 0x7ff0000000000000 || (vmfgt FP64 x thr && vmflt FP64 x 0x7ff0000000000000))
        then ZERO_F64 else x,
       if (vmfeq FP64 x 0x7ff0000000000000 || (vmfgt FP64 x thr && vmflt FP64 x 0x7ff0000000000000))
        then 0x7ff0000000000000 else x,
       (vmfeq FP64 x 0x7ff0000000000000 || (vmfgt FP64 x thr && vmflt FP64 x 0x7ff0000000000000))) := by
  simp only [check_special_cases_f64m1, vfmerge_vfm]
  generalize vmfeq FP64 x 0x7ff0000000000000 = a
  generalize (vmfgt FP64 x thr && vmflt FP64 x 0x7ff0000000000000) = b
  cases a <;> cases b <;> rfl

theorem vexp_f64m1_special (x : Nat)
    (h : (vmfeq FP64 x 0x7ff0000000000000 ||
      (vmfgt FP64 x EXP_EXPM1_OVERFLOW_THRESHOLD_F64 && vmflt FP64 x 0x7ff0000000000000)) = true) :
    __riscv_vexp_f64m1 x = 0x7ff0000000000000 := by
  unfold __riscv_vexp_f64m1
  simp only [check_special_cases_f64m1_eq, h, vmerge_vvm, if_true]

theorem vexpm1_f64m1_special (x : Nat)
    (h : (vmfeq FP64 x 0x7ff0000000000000 ||
      (vmfgt FP64 x EXP_EXPM1_OVERFLOW_THRESHOLD_F64 && vmflt FP64 x 0x7ff0000000000000)) = true) :
    __riscv_vexpm1_f64m1 x = 0x7ff0000000000000 := by
  unfold __riscv_vexpm1_f64m1
  simp only [check_special_cases_f64m1_eq, h, vmerge_vvm, if_true]

theorem vexp_f64m1_underflow (x : Nat) (h : vmflt FP64 x EXP_ZERO_THRESHOLD_F64 = true) :
    __riscv_vexp_f64m1 x = 0 := by
  have hk := vmflt_key h
  have hm : (vmfeq FP64 x 0x7ff0000000000000 ||
      (vmfgt FP64 x EXP_EXPM1_OVERFLOW_THRESHOLD_F64 && vmflt FP64 x 0x7ff0000000000000)) = false :=
    special_mask_of_neg (by rw [key_zthr_f64] at hk; omega) (by rw [key_pinf_f64]; omega)
      (by rw [key_ovf_f64]; omega)
  unfold __riscv_vexp_f64m1
  simp only [check_special_cases_f64m1_eq, hm, vmerge_vvm, update_underflow_f64m1, vfmerge_vfm, h,
    if_true, Bool.false_eq_true, if_false]
  decide

theorem vexpm1_f64m1_underflow (x : Nat) (h : vmflt FP64 x EXPM1_UNDERFLOW_THRESHOLD_F64 = true) :
    __riscv_vexpm1_f64m1 x = 0xbff0000000000000 := by
  have hk := vmflt_key h
  have hm : (vmfeq FP64 x 0x7ff0000000000000 ||
      (vmfgt FP64 x EXP_EXPM1_OVERFLOW_THRESHOLD_F64 && vmflt FP64 x 0x7ff0000000000000)) = false :=
    special_mask_of_neg (by rw [key_m1thr_f64] at hk; omega) (by rw [key_pinf_f64]; omega)
      (by rw [key_ovf_f64]; omega)
  unfold __riscv_vexpm1_f64m1
  simp only [check_special_cases_f64m1_eq, hm, vmerge_vvm, update_underflow_f64m1, vfmerge_vfm, h,
    if_true, Bool.false_eq_true, if_false]
  decide

theorem vexp_f64m1_nan (x : Nat) (h : isNaN FP64 x = true) :
    __riscv_vexp_f64m1 x = 0x7ff8000000000000 := by
  have hm : (vmfeq FP64 x 0x7ff0000000000000 ||
      (vmfgt FP64 x EXP_EXPM1_OVERFLOW_THRESHOLD_F64 && vmflt FP64 x 0x7ff0000000000000)) = false :=
    special_mask_of_nan h
  have hr : do_exp_argument_reduction_h_f64m1 x = (0x7ff8000000000000, 0, 0) := by
    unfold do_exp_argument_reduction_h_f64m1
    simp only [vfmadd_nan1 _ _ h, vfmadd_nan3 _ _ h]
    decide!
  unfold __riscv_vexp_f64m1
  simp only [check_special_cases_f64m1_eq, hm, Bool.false_eq_true, if_false, hr]
  simp only [reconstruct_exp_hl_hl_f64m1, update_exponent_with_subnormal_f64m1,
    update_underflow_f64m1, vmerge_vvm, vfmerge_vfm, vmfgt, vmflt_nan_left h, vmflt_nan_right h,
    Bool.and_false, Bool.false_and, Bool.false_eq_true, if_false]
  decide!

theorem set_sign_f64m1_sign (x r : Nat) : signOf FP64 (set_sign_f64m1 x r) = signOf FP64 x := by
  simp only [set_sign_f64m1, signOf, vor, vand, FP64, Nat.testBit_or, Nat.testBit_and]
  have h1 : Nat.testBit (0xffffffffffffffff - 0x7fffffffffffffff) (11 + 52) = true := by decide
  have h2 : Nat.testBit 0x7fffffffffffffff (11 + 52) = false := by decide
  simp [h1, h2]

theorem vexpm1_f64m1_sign (x : Nat) :
    signOf FP64 (__riscv_vexpm1_f64m1 x) = signOf FP64 x := by
  by_cases hm : (vmfeq FP64 x 0x7ff0000000000000 ||
      (vmfgt FP64 x EXP_EXPM1_OVERFLOW_THRESHOLD_F64 && vmflt FP64 x 0x7ff0000000000000)) = true
  · rw [vexpm1_f64m1_special x hm]
    have hp := special_mask_pos (by rw [key_pinf_f64]; omega) (by rw [key_ovf_f64]; omega) hm
    have hs : signOf FP64 x = false := key_pos_sign hp
    rw [hs]
    decide
  · have hm : (vmfeq FP64 x 0x7ff0000000000000 ||
      (vmfgt FP64 x EXP_EXPM1_OVERFLOW_THRESHOLD_F64 && vmflt FP64 x 0x7ff0000000000000)) = false := by
      simpa using hm
    by_cases hu : vmflt FP64 x EXPM1_UNDERFLOW_THRESHOLD_F64 = true
    · rw [vexpm1_f64m1_underflow x hu]
      have hk := vmflt_key hu
      rw [key_m1thr_f64] at hk
      have hs : signOf FP64 x = true := key_neg_sign (by omega)
      rw [hs]
      decide
    · have hu : vmflt FP64 x EXPM1_UNDERFLOW_THRESHOLD_F64 = false := by simpa using hu
      unfold __riscv_vexpm1_f64m1
      simp only [check_special_cases_f64m1_eq, hm, vmerge_vvm, update_underflow_f64m1, vfmerge_vfm,
        hu, Bool.false_eq_true, if_false]
      exact set_sign_f64m1_sign _ _

/-- A non-NaN lane at or above the overflow threshold is the threshold itself
or has the special-case mask set. -/
theorem ge_ovf_cases_f64 (x : Nat) (hx : x < 18446744073709551616) (hn : isNaN FP64 x = false)
    (hk : key FP64 EXP_EXPM1_OVERFLOW_THRESHOLD_F64 ≤ key FP64 x) :
    x = EXP_EXPM1_OVERFLOW_THRESHOLD_F64 ∨
      (vmfeq FP64 x 0x7ff0000000000000 ||
      (vmfgt FP64 x EXP_EXPM1_OVERFLOW_THRESHOLD_F64 && vmflt FP64 x 0x7ff0000000000000)) = true := by
  rw [key_ovf_f64] at hk
  rcases Nat.lt_or_ge x 9223372036854775808 with h | h
  · obtain ⟨_, hmag, hkx⟩ := key_of_lt (F := FP64) (x := x) h
    have hle : magOf FP64 x ≤ 0x7ff0000000000000 := by
      have := hn
      simp only [isNaN, decide_eq_false_iff_not, not_lt, pinf_f64] at this
      exact this
    rw [hmag] at hle
    rw [hkx] at hk
    by_cases he : x = 0x40862e42fefa39ef
    · left; exact he
    · right
      have h1 : vmfgt FP64 x EXP_EXPM1_OVERFLOW_THRESHOLD_F64 = true :=
        vmflt_of_key (by decide) hn (by rw [key_ovf_f64, hkx]; omega)
      by_cases hp : x = 0x7ff0000000000000
      · subst hp
        decide!
      · have h2 : vmflt FP64 x 0x7ff0000000000000 = true :=
          vmflt_of_key hn (by decide) (by rw [key_pinf_f64, hkx]; omega)
        simp [h1, h2]
  · obtain ⟨_, _, hkx⟩ := key_of_ge (F := FP64) (x := x) h hx
    rw [hkx] at hk
    exfalso
    omega

/-- A non-NaN lane at or below the zero threshold is the threshold itself or
compares below it. -/
theorem le_zthr_cases_f64 (x : Nat) (hx : x < 18446744073709551616) (hk : key FP64 x ≤ key FP64 EXP_ZERO_THRESHOLD_F64) :
    x = EXP_ZERO_THRESHOLD_F64 ∨ key FP64 x < key FP64 EXP_ZERO_THRESHOLD_F64 := by
  rw [key_zthr_f64] at hk ⊢
  rcases Nat.lt_or_ge x 9223372036854775808 with h | h
  · obtain ⟨_, _, hkx⟩ := key_of_lt (F := FP64) (x := x) h
    rw [hkx] at hk
    exfalso
    omega
  · obtain ⟨_, _, hkx⟩ := key_of_ge (F := FP64) (x := x) h hx
    rw [hkx] at hk ⊢
    have hpow : (2 : Nat) ^ (FP64.eb + FP64.mb) = 9223372036854775808 := by decide
    rw [hpow] at hk ⊢
    by_cases he : x = 0xc0874910d52d3051
    · left; exact he
    · right
      omega

theorem key_lin_f64 : key FP64 EXPM1_LINEAR_THRESHOLD_F64 = 0x3ca6a09e667f3bcd := by decide!

/-- In the linear region of `expm1` neither the special-case mask nor the
underflow mask is set. -/
theorem linear_region_masks_f64 (x : Nat)
    (h : vmflt FP64 (magOf FP64 x) EXPM1_LINEAR_THRESHOLD_F64 = true) :
    (vmfeq FP64 x 0x7ff0000000000000 ||
      (vmfgt FP64 x EXP_EXPM1_OVERFLOW_THRESHOLD_F64 && vmflt FP64 x 0x7ff0000000000000)) = false ∧
    vmflt FP64 x EXPM1_UNDERFLOW_THRESHOLD_F64 = false := by
  have hk := vmflt_key h
  have hlt : magOf FP64 x < 2 ^ (FP64.eb + FP64.mb) := Nat.mod_lt _ (by positivity)
  obtain ⟨_, _, hkm⟩ := key_of_lt (F := FP64) (x := magOf FP64 x) hlt
  rw [hkm, key_lin_f64] at hk
  have hkx : key FP64 x = (magOf FP64 x : Int) ∨ key FP64 x = -(magOf FP64 x : Int) := by
    unfold key
    split
    · right; rfl
    · left; rfl
  have h1 : vmfeq FP64 x 0x7ff0000000000000 = false :=
    vmfeq_false_of_key (by rw [key_pinf_f64]; omega)
  have h2 : vmfgt FP64 x EXP_EXPM1_OVERFLOW_THRESHOLD_F64 = false :=
    vmflt_false_of_key (by rw [key_ovf_f64]; omega)
  refine ⟨by simp [h1, h2], vmflt_false_of_key (by rw [key_m1thr_f64]; omega)⟩

theorem vexpm1_f64m1_linear_region (x : Nat)
    (h : vmflt FP64 (magOf FP64 x) EXPM1_LINEAR_THRESHOLD_F64 = true) :
    __riscv_vexpm1_f64m1 x = expm1_after_set_sign Width.f64 x := by
  obtain ⟨hm, hu⟩ := linear_region_masks_f64 x h
  unfold __riscv_vexpm1_f64m1 expm1_after_set_sign
  simp only [check_special_cases_f64m1_eq, hm, vmerge_vvm, update_underflow_f64m1, vfmerge_vfm,
    hu, Bool.false_eq_true, if_false]

/-! ## f32: overlays of the kernels -/

theorem pinf_f32 : FP32.pinf = 0x7f800000 := by decide

theorem qnan_f32 : FP32.qnan = 0x7fc00000 := by decide

theorem signMask_f32 : FP32.signMask = 0x80000000 := by decide

theorem key_pinf_f32 : key FP32 0x7f800000 = 0x7f800000 := by decide!

theorem key_ovf_f32 : key FP32 EXP_EXPM1_OVERFLOW_THRESHOLD_F32 = 0x42b17217 := by decide!

theorem key_zthr_f32 : key FP32 EXP_ZERO_THRESHOLD_F32 = -0x42cff1b4 := by decide!

theorem key_m1thr_f32 : key FP32 EXPM1_UNDERFLOW_THRESHOLD_F32 = -0x418aa122 := by
  decide!

theorem check_special_cases_f32m1_eq (x thr : Nat) :
    check_special_cases_f32m1 x thr =
      (if (vmfeq FP32 x 0x7f800000 || (vmfgt FP32 x thr && vmflt FP32 x 0x7f800000))
        then ZERO_F32 else x,
       if (vmfeq FP32 x 0x7f800000 || (vmfgt FP32 x thr && vmflt FP32 x 0x7f800000))
        then 0x7f800000 else x,
       (vmfeq FP32 x 0x7f800000 || (vmfgt FP32 x thr && vmflt FP32 x 0x7f800000))) := by
  simp only [check_special_cases_f32m1, vfmerge_vfm]
  generalize vmfeq FP32 x 0x7f800000 = a
  generalize (vmfgt FP32 x thr && vmflt FP32 x 0x7f800000) = b
  cases a <;> cases b <;> rfl

theorem vexp_f32m1_special (x : Nat)
    (h : (vmfeq FP32 x 0x7f800000 ||
      (vmfgt FP32 x EXP_EXPM1_OVERFLOW_THRESHOLD_F32 && vmflt FP32 x 0x7f800000)) = true) :
    __riscv_vexp_f32m1 x = 0x7f800000 := by
  unfold __riscv_vexp_f32m1
  simp only [check_special_cases_f32m1_eq, h, vmerge_vvm, if_true]

theorem vexpm1_f32m1_special (x : Nat)
    (h : (vmfeq FP32 x 0x7f800000 ||
      (vmfgt FP32 x EXP_EXPM1_OVERFLOW_THRESHOLD_F32 && vmflt FP32 x 0x7f800000)) = true) :
    __riscv_vexpm1_f32m1 x = 0x7f800000 := by
  unfold __riscv_vexpm1_f32m1
  simp only [check_special_cases_f32m1_eq, h, vmerge_vvm, if_true]

theorem vexp_f32m1_underflow (x : Nat) (h : vmflt FP32 x EXP_ZERO_THRESHOLD_F32 = true) :
    __riscv_vexp_f32m1 x = 0 := by
  have hk := vmflt_key h
  have hm : (vmfeq FP32 x 0x7f800000 ||
      (vmfgt FP32 x EXP_EXPM1_OVERFLOW_THRESHOLD_F32 && vmflt FP32 x 0x7f800000)) = false :=
    special_mask_of_neg (by rw [key_zthr_f32] at hk; omega) (by rw [key_pinf_f32]; omega)
      (by rw [key_ovf_f32]; omega)
  unfold __riscv_vexp_f32m1
  simp only [check_special_cases_f32m1_eq, hm, vmerge_vvm, update_underflow_f32m1, vfmerge_vfm, h,
    if_true, Bool.false_eq_true, if_false]
  decide

theorem vexpm1_f32m1_underflow (x : Nat) (h : vmflt FP32 x EXPM1_UNDERFLOW_THRESHOLD_F32 = true) :
    __riscv_vexpm1_f32m1 x = 0xbf800000 := by
  have hk := vmflt_key h
  have hm : (vmfeq FP32 x 0x7f800000 ||
      (vmfgt FP32 x EXP_EXPM1_OVERFLOW_THRESHOLD_F32 && vmflt FP32 x 0x7f800000)) = false :=
    special_mask_of_neg (by rw [key_m1thr_f32] at hk; omega) (by rw [key_pinf_f32]; omega)
      (by rw [key_ovf_f32]; omega)
  unfold __riscv_vexpm1_f32m1
  simp only [check_special_cases_f32m1_eq, hm, vmerge_vvm, update_underflow_f32m1, vfmerge_vfm, h,
    if_true, Bool.false_eq_true, if_false]
  decide

theorem vexp_f32m1_nan (x : Nat) (h : isNaN FP32 x = true) :
    __riscv_vexp_f32m1 x = 0x7fc00000 := by
  have hm : (vmfeq FP32 x 0x7f800000 ||
      (vmfgt FP32 x EXP_EXPM1_OVERFLOW_THRESHOLD_F32 && vmflt FP32 x 0x7f800000)) = false :=
    special_mask_of_nan h
  have hr : do_exp_argument_reduction_hl_f32m1 x = (0x7fc00000, 0x7fc00000, 0, 0) := by
    unfold do_exp_argument_reduction_hl_f32m1
    simp only [vfmadd_nan1 _ _ h, vfmadd_nan3 _ _ h]
    decide!
  unfold __riscv_vexp_f32m1
  simp only [check_special_cases_f32m1_eq, hm, Bool.false_eq_true, if_false, hr]
  simp only [reconstruct_exp_hl_hl_f32m1, update_exponent_with_subnormal_f32m1,
    update_underflow_f32m1, vmerge_vvm, vfmerge_vfm, vmfgt, vmflt_nan_left h, vmflt_nan_right h,
    Bool.and_false, Bool.false_and, Bool.false_eq_true, if_false]
  decide!

theorem set_sign_f32m1_sign (x r : Nat) : signOf FP32 (set_sign_f32m1 x r) = signOf FP32 x := by
  simp only [set_sign_f32m1, signOf, vor, vand, FP32, Nat.testBit_or, Nat.testBit_and]
  have h1 : Nat.testBit (0xffffffff - 0x7fffffff) (8 + 23) = true := by decide
  have h2 : Nat.testBit 0x7fffffff (8 + 23) = false := by decide
  simp [h1, h2]

theorem vexpm1_f32m1_sign (x : Nat) :
    signOf FP32 (__riscv_vexpm1_f32m1 x) = signOf FP32 x := by
  by_cases hm : (vmfeq FP32 x 0x7f800000 ||
      (vmfgt FP32 x EXP_EXPM1_OVERFLOW_THRESHOLD_F32 && vmflt FP32 x 0x7f800000)) = true
  · rw [vexpm1_f32m1_special x hm]
    have hp := special_mask_pos (by rw [key_pinf_f32]; omega) (by rw [key_ovf_f32]; omega) hm
    have hs : signOf FP32 x = false := key_pos_sign hp
    rw [hs]
    decide
  · have hm : (vmfeq FP32 x 0x7f800000 ||
      (vmfgt FP32 x EXP_EXPM1_OVERFLOW_THRESHOLD_F32 && vmflt FP32 x 0x7f800000)) = false := by
      simpa using hm
    by_cases hu : vmflt FP32 x EXPM1_UNDERFLOW_THRESHOLD_F32 = true
    · rw [vexpm1_f32m1_underflow x hu]
      have hk := vmflt_key hu
      rw [key_m1thr_f32] at hk
      have hs : signOf FP32 x = true := key_neg_sign (by omega)
      rw [hs]
      decide
    · have hu : vmflt FP32 x EXPM1_UNDERFLOW_THRESHOLD_F32 = false := by simpa using hu
      unfold __riscv_vexpm1_f32m1
      simp only [check_special_cases_f32m1_eq, hm, vmerge_vvm, update_underflow_f32m1, vfmerge_vfm,
        hu, Bool.false_eq_true, if_false]
      exact set_sign_f32m1_sign _ _

/-- A non-NaN lane at or above the overflow threshold is the threshold itself
or has the special-case mask set. -/
theorem ge_ovf_cases_f32 (x : Nat) (hx : x < 4294967296) (hn : isNaN FP32 x = false)
    (hk : key FP32 EXP_EXPM1_OVERFLOW_THRESHOLD_F32 ≤ key FP32 x) :
    x = EXP_EXPM1_OVERFLOW_THRESHOLD_F32 ∨
      (vmfeq FP32 x 0x7f800000 ||
      (vmfgt FP32 x EXP_EXPM1_OVERFLOW_THRESHOLD_F32 && vmflt FP32 x 0x7f800000)) = true := by
  rw [key_ovf_f32] at hk
  rcases Nat.lt_or_ge x 2147483648 with h | h
  · obtain ⟨_, hmag, hkx⟩ := key_of_lt (F := FP32) (x := x) h
    have hle : magOf FP32 x ≤ 0x7f800000 := by
      have := hn
      simp only [isNaN, decide_eq_false_iff_not, not_lt, pinf_f32] at this
      exact this
    rw [hmag] at hle
    rw [hkx] at hk
    by_cases he : x = 0x42b17217
    · left; exact he
    · right
      have h1 : vmfgt FP32 x EXP_EXPM1_OVERFLOW_THRESHOLD_F32 = true :=
        vmflt_of_key (by decide) hn (by rw [key_ovf_f32, hkx]; omega)
      by_cases hp : x = 0x7f800000
      · subst hp
        decide!
      · have h2 : vmflt FP32 x 0x7f800000 = true :=
          vmflt_of_key hn (by decide) (by rw [key_pinf_f32, hkx]; omega)
        simp [h1, h2]
  · obtain ⟨_, _, hkx⟩ := key_of_ge (F := FP32) (x := x) h hx
    rw [hkx] at hk
    exfalso
    omega

/-- A non-NaN lane at or below the zero threshold is the threshold itself or
compares below it. -/
theorem le_zthr_cases_f32 (x : Nat) (hx : x < 4294967296) (hk : key FP32 x ≤ key FP32 EXP_ZERO_THRESHOLD_F32) :
    x = EXP_ZERO_THRESHOLD_F32 ∨ key FP32 x < key FP32 EXP_ZERO_THRESHOLD_F32 := by
  rw [key_zthr_f32] at hk ⊢
  rcases Nat.lt_or_ge x 2147483648 with h | h
  · obtain ⟨_, _, hkx⟩ := key_of_lt (F := FP32) (x := x) h
    rw [hkx] at hk
    exfalso
    omega
  · obtain ⟨_, _, hkx⟩ := key_of_ge (F := FP32) (x := x) h hx
    rw [hkx] at hk ⊢
    have hpow : (2 : Nat) ^ (FP32.eb + FP32.mb) = 2147483648 := by decide
    rw [hpow] at hk ⊢
    by_cases he : x = 0xc2cff1b4
    · left; exact he
    · right
      omega

theorem key_lin_f32 : key FP32 EXPM1_LINEAR_THRESHOLD_F32 = 0x33b504f4 := by decide!

/-- In the linear region of `expm1` neither the special-case mask nor the
underflow mask is set. -/
theorem linear_region_masks_f32 (x : Nat)
    (h : vmflt FP32 (magOf FP32 x) EXPM1_LINEAR_THRESHOLD_F32 = true) :
    (vmfeq FP32 x 0x7f800000 ||
      (vmfgt FP32 x EXP_EXPM1_OVERFLOW_THRESHOLD_F32 && vmflt FP32 x 0x7f800000)) = false ∧
    vmflt FP32 x EXPM1_UNDERFLOW_THRESHOLD_F32 = false := by
  have hk := vmflt_key h
  have hlt : magOf FP32 x < 2 ^ (FP32.eb + FP32.mb) := Nat.mod_lt _ (by positivity)
  obtain ⟨_, _, hkm⟩ := key_of_lt (F := FP32) (x := magOf FP32 x) hlt
  rw [hkm, key_lin_f32] at hk
  have hkx : key FP32 x = (magOf FP32 x : Int) ∨ key FP32 x = -(magOf FP32 x : Int) := by
    unfold key
    split
    · right; rfl
    · left; rfl
  have h1 : vmfeq FP32 x 0x7f800000 = false :=
    vmfeq_false_of_key (by rw [key_pinf_f32]; omega)
  have h2 : vmfgt FP32 x EXP_EXPM1_OVERFLOW_THRESHOLD_F32 = false :=
    vmflt_false_of_key (by rw [key_ovf_f32]; omega)
  refine ⟨by simp [h1, h2], vmflt_false_of_key (by rw [key_m1thr_f32]; omega)⟩

theorem vexpm1_f32m1_linear_region (x : Nat)
    (h : vmflt FP32 (magOf FP32 x) EXPM1_LINEAR_THRESHOLD_F32 = true) :
    __riscv_vexpm1_f32m1 x = expm1_after_set_sign Width.f32 x := by
  obtain ⟨hm, hu⟩ := linear_region_masks_f32 x h
  unfold __riscv_vexpm1_f32m1 expm1_after_set_sign
  simp only [check_special_cases_f32m1_eq, hm, vmerge_vvm, update_underflow_f32m1, vfmerge_vfm,
    hu, Bool.false_eq_true, if_false]

/-! ## f16: overlays of the kernels -/

theorem pinf_f16 : FP16.pinf = 0x7c00 := by decide

theorem qnan_f16 : FP16.qnan = 0x7e00 := by decide

theorem signMask_f16 : FP16.signMask = 0x8000 := by decide

theorem key_pinf_f16 : key FP16 0x7c00 = 0x7c00 := by decide!

theorem key_ovf_f16 : key FP16 EXP_EXPM1_OVERFLOW_THRESHOLD_F16 = 0x498b := by decide!

theorem key_zthr_f16 : key FP16 EXP_ZERO_THRESHOLD_F16 = -0x4c55 := by decide!

theorem key_m1thr_f16 : key FP16 EXPM1_UNDERFLOW_THRESHOLD_F16 = -0x4828 := by
  decide!

theorem check_special_cases_f16m1_eq (x thr : Nat) :
    check_special_cases_f16m1 x thr =
      (if (vmfeq FP16 x 0x7c00 || (vmfgt FP16 x thr && vmflt FP16 x 0x7c00))
        then ZERO_F16 else x,
       if (vmfeq FP16 x 0x7c00 || (vmfgt FP16 x thr && vmflt FP16 x 0x7c00))
        then 0x7c00 else x,
       (vmfeq FP16 x 0x7c00 || (vmfgt FP16 x thr && vmflt FP16 x 0x7c00))) := by
  simp only [check_special_cases_f16m1, vfmerge_vfm]
  generalize vmfeq FP16 x 0x7c00 = a
  generalize (vmfgt FP16 x thr && vmflt FP16 x 0x7c00) = b
  cases a <;> cases b <;> rfl

theorem vexp_f16m1_special (x : Nat)
    (h : (vmfeq FP16 x 0x7c00 ||
      (vmfgt FP16 x EXP_EXPM1_OVERFLOW_THRESHOLD_F16 && vmflt FP16 x 0x7c00)) = true) :
    __riscv_vexp_f16m1 x = 0x7c00 := by
  unfold __riscv_vexp_f16m1
  simp only [check_special_cases_f16m1_eq, h, vmerge_vvm, if_true]

theorem vexpm1_f16m1_special (x : Nat)
    (h : (vmfeq FP16 x 0x7c00 ||
      (vmfgt FP16 x EXP_EXPM1_OVERFLOW_THRESHOLD_F16 && vmflt FP16 x 0x7c00)) = true) :
    __riscv_vexpm1_f16m1 x = 0x7c00 := by
  unfold __riscv_vexpm1_f16m1
  simp only [check_special_cases_f16m1_eq, h, vmerge_vvm, if_true]

theorem vexp_f16m1_underflow (x : Nat) (h : vmflt FP16 x EXP_ZERO_THRESHOLD_F16 = true) :
    __riscv_vexp_f16m1 x = 0 := by
  have hk := vmflt_key h
  have hm : (vmfeq FP16 x 0x7c00 ||
      (vmfgt FP16 x EXP_EXPM1_OVERFLOW_THRESHOLD_F16 && vmflt FP16 x 0x7c00)) = false :=
    special_mask_of_neg (by rw [key_zthr_f16] at hk; omega) (by rw [key_pinf_f16]; omega)
      (by rw [key_ovf_f16]; omega)
  unfold __riscv_vexp_f16m1
  simp only [check_special_cases_f16m1_eq, hm, vmerge_vvm, update_underflow_f16m1, vfmerge_vfm, h,
    if_true, Bool.false_eq_true, if_false, set_pos_sign_f16m1]
  decide

theorem vexpm1_f16m1_underflow (x : Nat) (h : vmflt FP16 x EXPM1_UNDERFLOW_THRESHOLD_F16 = true) :
    __riscv_vexpm1_f16m1 x = 0xbc00 := by
  have hk := vmflt_key h
  have hm : (vmfeq FP16 x 0x7c00 ||
      (vmfgt FP16 x EXP_EXPM1_OVERFLOW_THRESHOLD_F16 && vmflt FP16 x 0x7c00)) = false :=
    special_mask_of_neg (by rw [key_m1thr_f16] at hk; omega) (by rw [key_pinf_f16]; omega)
      (by rw [key_ovf_f16]; omega)
  unfold __riscv_vexpm1_f16m1
  simp only [check_special_cases_f16m1_eq, hm, vmerge_vvm, update_underflow_f16m1, vfmerge_vfm, h,
    if_true, Bool.false_eq_true, if_false]
  decide

theorem vexp_f16m1_nan (x : Nat) (h : isNaN FP16 x = true) :
    __riscv_vexp_f16m1 x = 0x7e00 := by
  have hm : (vmfeq FP16 x 0x7c00 ||
      (vmfgt FP16 x EXP_EXPM1_OVERFLOW_THRESHOLD_F16 && vmflt FP16 x 0x7c00)) = false :=
    special_mask_of_nan h
  have hr : do_exp_argument_reduction_hl_f16m1 x = (0x7e00, 0x7e00, 0, 0) := by
    unfold do_exp_argument_reduction_hl_f16m1
    simp only [vfmadd_nan1 _ _ h, vfmadd_nan3 _ _ h]
    decide!
  unfold __riscv_vexp_f16m1
  simp only [check_special_cases_f16m1_eq, hm, Bool.false_eq_true, if_false, hr]
  simp only [reconstruct_exp_hl_hl_f16m1, update_exponent_with_subnormal_f16m1,
    update_underflow_f16m1, vmerge_vvm, vfmerge_vfm, vmfgt, vmflt_nan_left h, vmflt_nan_right h,
    Bool.and_false, Bool.false_and, Bool.false_eq_true, if_false]
  decide!

theorem set_sign_f16m1_sign (x r : Nat) : signOf FP16 (set_sign_f16m1 x r) = signOf FP16 x := by
  simp only [set_sign_f16m1, signOf, vor, vand, FP16, Nat.testBit_or, Nat.testBit_and]
  have h1 : Nat.testBit (0xffff - 0x7fff) (5 + 10) = true := by decide
  have h2 : Nat.testBit 0x7fff (5 + 10) = false := by decide
  simp [h1, h2]

theorem vexpm1_f16m1_sign (x : Nat) :
    signOf FP16 (__riscv_vexpm1_f16m1 x) = signOf FP16 x := by
  by_cases hm : (vmfeq FP16 x 0x7c00 ||
      (vmfgt FP16 x EXP_EXPM1_OVERFLOW_THRESHOLD_F16 && vmflt FP16 x 0x7c00)) = true
  · rw [vexpm1_f16m1_special x hm]
    have hp := special_mask_pos (by rw [key_pinf_f16]; omega) (by rw [key_ovf_f16]; omega) hm
    have hs : signOf FP16 x = false := key_pos_sign hp
    rw [hs]
    decide
  · have hm : (vmfeq FP16 x 0x7c00 ||
      (vmfgt FP16 x EXP_EXPM1_OVERFLOW_THRESHOLD_F16 && vmflt FP16 x 0x7c00)) = false := by
      simpa using hm
    by_cases hu : vmflt FP16 x EXPM1_UNDERFLOW_THRESHOLD_F16 = true
    · rw [vexpm1_f16m1_underflow x hu]
      have hk := vmflt_key hu
      rw [key_m1thr_f16] at hk
      have hs : signOf FP16 x = true := key_neg_sign (by omega)
      rw [hs]
      decide
    · have hu : vmflt FP16 x EXPM1_UNDERFLOW_THRESHOLD_F16 = false := by simpa using hu
      unfold __riscv_vexpm1_f16m1
      simp only [check_special_cases_f16m1_eq, hm, vmerge_vvm, update_underflow_f16m1, vfmerge_vfm,
        hu, Bool.false_eq_true, if_false]
      exact set_sign_f16m1_sign _ _

/-- A non-NaN lane at or above the overflow threshold is the threshold itself
or has the special-case mask set. -/
theorem ge_ovf_cases_f16 (x : Nat) (hx : x < 65536) (hn : isNaN FP16 x = false)
    (hk : key FP16 EXP_EXPM1_OVERFLOW_THRESHOLD_F16 ≤ key FP16 x) :
    x = EXP_EXPM1_OVERFLOW_THRESHOLD_F16 ∨
      (vmfeq FP16 x 0x7c00 ||
      (vmfgt FP16 x EXP_EXPM1_OVERFLOW_THRESHOLD_F16 && vmflt FP16 x 0x7c00)) = true := by
  rw [key_ovf_f16] at hk
  rcases Nat.lt_or_ge x 32768 with h | h
  · obtain ⟨_, hmag, hkx⟩ := key_of_lt (F := FP16) (x := x) h
    have hle : magOf FP16 x ≤ 0x7c00 := by
      have := hn
      simp only [isNaN, decide_eq_false_iff_not, not_lt, pinf_f16] at this
      exact this
    rw [hmag] at hle
    rw [hkx] at hk
    by_cases he : x = 0x498b
    · left; exact he
    · right
      have h1 : vmfgt FP16 x EXP_EXPM1_OVERFLOW_THRESHOLD_F16 = true :=
        vmflt_of_key (by decide) hn (by rw [key_ovf_f16, hkx]; omega)
      by_cases hp : x = 0x7c00
      · subst hp
        decide!
      · have h2 : vmflt FP16 x 0x7c00 = true :=
          vmflt_of_key hn (by decide) (by rw [key_pinf_f16, hkx]; omega)
        simp [h1, h2]
  · obtain ⟨_, _, hkx⟩ := key_of_ge (F := FP16) (x := x) h hx
    rw [hkx] at hk
    exfalso
    omega

/-- A non-NaN lane at or below the zero threshold is the threshold itself or
compares below it. -/
theorem le_zthr_cases_f16 (x : Nat) (hx : x < 65536) (hk : key FP16 x ≤ key FP16 EXP_ZERO_THRESHOLD_F16) :
    x = EXP_ZERO_THRESHOLD_F16 ∨ key FP16 x < key FP16 EXP_ZERO_THRESHOLD_F16 := by
  rw [key_zthr_f16] at hk ⊢
  rcases Nat.lt_or_ge x 32768 with h | h
  · obtain ⟨_, _, hkx⟩ := key_of_lt (F := FP16) (x := x) h
    rw [hkx] at hk
    exfalso
    omega
  · obtain ⟨_, _, hkx⟩ := key_of_ge (F := FP16) (x := x) h hx
    rw [hkx] at hk ⊢
    have hpow : (2 : Nat) ^ (FP16.eb + FP16.mb) = 32768 := by decide
    rw [hpow] at hk ⊢
    by_cases he : x = 0xcc55
    · left; exact he
    · right
      omega

theorem key_lin_f16 : key FP16 EXPM1_LINEAR_THRESHOLD_F16 = 0x11a8 := by decide!

/-- In the linear region of `expm1` neither the special-case mask nor the
underflow mask is set. -/
theorem linear_region_masks_f16 (x : Nat)
    (h : vmflt FP16 (magOf FP16 x) EXPM1_LINEAR_THRESHOLD_F16 = true) :
    (vmfeq FP16 x 0x7c00 ||
      (vmfgt FP16 x EXP_EXPM1_OVERFLOW_THRESHOLD_F16 && vmflt FP16 x 0x7c00)) = false ∧
    vmflt FP16 x EXPM1_UNDERFLOW_THRESHOLD_F16 = false := by
  have hk := vmflt_key h
  have hlt : magOf FP16 x < 2 ^ (FP16.eb + FP16.mb) := Nat.mod_lt _ (by positivity)
  obtain ⟨_, _, hkm⟩ := key_of_lt (F := FP16) (x := magOf FP16 x) hlt
  rw [hkm, key_lin_f16] at hk
  have hkx : key FP16 x = (magOf FP16 x : Int) ∨ key FP16 x = -(magOf FP16 x : Int) := by
    unfold key
    split
    · right; rfl
    · left; rfl
  have h1 : vmfeq FP16 x 0x7c00 = false :=
    vmfeq_false_of_key (by rw [key_pinf_f16]; omega)
  have h2 : vmfgt FP16 x EXP_EXPM1_OVERFLOW_THRESHOLD_F16 = false :=
    vmflt_false_of_key (by rw [key_ovf_f16]; omega)
  refine ⟨by simp [h1, h2], vmflt_false_of_key (by rw [key_m1thr_f16]; omega)⟩

theorem vexpm1_f16m1_linear_region (x : Nat)
    (h : vmflt FP16 (magOf FP16 x) EXPM1_LINEAR_THRESHOLD_F16 = true) :
    __riscv_vexpm1_f16m1 x = expm1_after_set_sign Width.f16 x := by
  obtain ⟨hm, hu⟩ := linear_region_masks_f16 x h
  unfold __riscv_vexpm1_f16m1 expm1_after_set_sign
  simp only [check_special_cases_f16m1_eq, hm, vmerge_vvm, update_underflow_f16m1, vfmerge_vfm,
    hu, Bool.false_eq_true, if_false]


/-! ## The claims about `exp` and `expm1` -/

/-- C1: in the default build, for every width, a lane whose input is `+Inf` or
lies strictly between `EXP_EXPM1_OVERFLOW_THRESHOLD` and `+Inf` is returned as
exactly the `+Inf` pattern by both `__riscv_vexp_*` and `__riscv_vexpm1_*`,
whatever the reduction, polynomial and reconstruction stages computed. -/
theorem exp_expm1_overflow_lane_is_pinf (w : Width) (x : Nat)
    (h : x = w.fmt.pinf ∨
      (vmfgt w.fmt x (EXP_EXPM1_OVERFLOW_THRESHOLD w) = true ∧ vmflt w.fmt x w.fmt.pinf = true)) :
    vexp w x = w.fmt.pinf ∧ vexpm1 w x = w.fmt.pinf := by
  cases w
  · simp only [Width.fmt, vexp, vexpm1, EXP_EXPM1_OVERFLOW_THRESHOLD, pinf_f64] at h ⊢
    have hm : (vmfeq FP64 x 0x7ff0000000000000 ||
        (vmfgt FP64 x EXP_EXPM1_OVERFLOW_THRESHOLD_F64 && vmflt FP64 x 0x7ff0000000000000))
        = true := by
      rcases h with h | ⟨h1, h2⟩
      · subst h
        decide!
      · simp [h1, h2]
    exact ⟨vexp_f64m1_special x hm, vexpm1_f64m1_special x hm⟩
  · simp only [Width.fmt, vexp, vexpm1, EXP_EXPM1_OVERFLOW_THRESHOLD, pinf_f32] at h ⊢
    have hm : (vmfeq FP32 x 0x7f800000 ||
        (vmfgt FP32 x EXP_EXPM1_OVERFLOW_THRESHOLD_F32 && vmflt FP32 x 0x7f800000)) = true := by
      rcases h with h | ⟨h1, h2⟩
      · subst h
        decide!
      · simp [h1, h2]
    exact ⟨vexp_f32m1_special x hm, vexpm1_f32m1_special x hm⟩
  · simp only [Width.fmt, vexp, vexpm1, EXP_EXPM1_OVERFLOW_THRESHOLD, pinf_f16] at h ⊢
    have hm : (vmfeq FP16 x 0x7c00 ||
        (vmfgt FP16 x EXP_EXPM1_OVERFLOW_THRESHOLD_F16 && vmflt FP16 x 0x7c00)) = true := by
      rcases h with h | ⟨h1, h2⟩
      · subst h
        decide!
      · simp [h1, h2]
    exact ⟨vexp_f16m1_special x hm, vexpm1_f16m1_special x hm⟩

/-- C1 at `exp64(710.0)` and `expm1_64(710.0)`: the input `0x4086300000000000`
is above the threshold and below `+Inf`, and both kernels return `+Inf`. -/
theorem exp_expm1_overflow_lane_is_pinf_witness :
    (vmfgt FP64 0x4086300000000000 EXP_EXPM1_OVERFLOW_THRESHOLD_F64 = true ∧
      vmflt FP64 0x4086300000000000 FP64.pinf = true) ∧
    vexp Width.f64 0x4086300000000000 = 0x7ff0000000000000 ∧
    vexpm1 Width.f64 0x4086300000000000 = 0x7ff0000000000000 :=
  ⟨⟨by decide!, by decide!⟩,
    exp_expm1_overflow_lane_is_pinf Width.f64 0x4086300000000000
      (Or.inr ⟨by decide!, by decide!⟩)⟩

/-- C2: in the default build, for every width, a lane with
`x < EXP_ZERO_THRESHOLD` (`-Inf` included) is returned as `+0.0` by
`__riscv_vexp_*`, and a lane with `x < EXPM1_UNDERFLOW_THRESHOLD` (`-Inf`
included) is returned as `-1.0` by `__riscv_vexpm1_*`, whatever the pipeline
produced for it. -/
theorem exp_expm1_underflow_lane (w : Width) (x : Nat) :
    (vmflt w.fmt x (EXP_ZERO_THRESHOLD w) = true → vexp w x = 0) ∧
    (vmflt w.fmt x (EXPM1_UNDERFLOW_THRESHOLD w) = true →
      vexpm1 w x = EXPM1_UNDERFLOW_VALUE w) := by
  cases w
  · exact ⟨vexp_f64m1_underflow x, vexpm1_f64m1_underflow x⟩
  · exact ⟨vexp_f32m1_underflow x, vexpm1_f32m1_underflow x⟩
  · exact ⟨vexp_f16m1_underflow x, vexpm1_f16m1_underflow x⟩

/-- C2 at `exp64(-750.0) = 0.0`, `exp64(-Inf) = 0.0` and `expm1_64(-Inf) = -1.0`. -/
theorem exp_expm1_underflow_lane_witness :
    vmflt FP64 0xc087700000000000 EXP_ZERO_THRESHOLD_F64 = true ∧
    vexp Width.f64 0xc087700000000000 = 0 ∧
    vmflt FP64 0xfff0000000000000 EXP_ZERO_THRESHOLD_F64 = true ∧
    vexp Width.f64 0xfff0000000000000 = 0 ∧
    vmflt FP64 0xfff0000000000000 EXPM1_UNDERFLOW_THRESHOLD_F64 = true ∧
    vexpm1 Width.f64 0xfff0000000000000 = 0xbff0000000000000 :=
  ⟨by decide!,
    (exp_expm1_underflow_lane Width.f64 0xc087700000000000).1 (by decide!),
    by decide!,
    (exp_expm1_underflow_lane Width.f64 0xfff0000000000000).1 (by decide!),
    by decide!,
    (exp_expm1_underflow_lane Width.f64 0xfff0000000000000).2 (by decide!)⟩

/-- C3: `exp(NaN) = NaN`.  For every width and every NaN lane (any sign, any
payload) `__riscv_vexp_*` returns a NaN (the canonical quiet NaN that the
first fused multiply-add produces): the special-case mask, the subnormal mask
and the underflow mask are all clear for the lane, and the bit extraction of
`ei`, `fi` and the exponent injection leave the value a NaN. -/
theorem exp_nan_is_nan (w : Width) (x : Nat) (h : isNaN w.fmt x = true) :
    isNaN w.fmt (vexp w x) = true ∧ vexp w x = w.fmt.qnan ∧
    (check_special_cases w x (EXP_EXPM1_OVERFLOW_THRESHOLD w)).2.2 = false ∧
    (vmfgt w.fmt x (w.fmt.signMask + w.fmt.pinf) &&
      vmflt w.fmt x (EXP_SUBNORMAL_THRESHOLD w)) = false ∧
    vmflt w.fmt x (EXP_ZERO_THRESHOLD w) = false := by
  cases w
  · simp only [Width.fmt, vexp, check_special_cases] at h ⊢
    refine ⟨?_, ?_, ?_, ?_, vmflt_nan_left h⟩
    · rw [vexp_f64m1_nan x h]
      decide
    · rw [vexp_f64m1_nan x h, qnan_f64]
    · rw [check_special_cases_f64m1_eq]
      exact special_mask_of_nan h
    · simp [vmfgt, vmflt_nan_left h, vmflt_nan_right h]
  · simp only [Width.fmt, vexp, check_special_cases] at h ⊢
    refine ⟨?_, ?_, ?_, ?_, vmflt_nan_left h⟩
    · rw [vexp_f32m1_nan x h]
      decide
    · rw [vexp_f32m1_nan x h, qnan_f32]
    · rw [check_special_cases_f32m1_eq]
      exact special_mask_of_nan h
    · simp [vmfgt, vmflt_nan_left h, vmflt_nan_right h]
  · simp only [Width.fmt, vexp, check_special_cases] at h ⊢
    refine ⟨?_, ?_, ?_, ?_, vmflt_nan_left h⟩
    · rw [vexp_f16m1_nan x h]
      decide
    · rw [vexp_f16m1_nan x h, qnan_f16]
    · rw [check_special_cases_f16m1_eq]
      exact special_mask_of_nan h
    · simp [vmfgt, vmflt_nan_left h, vmflt_nan_right h]

/-- C3 at the negative signalling NaN `0xfff0000000000001` of binary64 and the
NaN `0x7c01` of binary16. -/
theorem exp_nan_is_nan_witness :
    isNaN FP64 0xfff0000000000001 = true ∧
    isNaN FP64 (vexp Width.f64 0xfff0000000000001) = true ∧
    isNaN FP16 0x7c01 = true ∧
    isNaN FP16 (vexp Width.f16 0x7c01) = true :=
  ⟨by decide, (exp_nan_is_nan Width.f64 0xfff0000000000001 (by decide)).1,
    by decide, (exp_nan_is_nan Width.f16 0x7c01 (by decide)).1⟩

/-- C4: `exp` of zero is exactly one.  For every width, `__riscv_vexp_*`
returns the pattern of `1.0` for `x = +0.0` and for `x = -0.0`; in the
binary64 kernel the reduction of `+0.0` gives `yh = 0`, `ei = 0`, `fi = 0`,
row 0 of the table is `(1, 0)`, the polynomial correction is `(0, 0)` and
neither the special, the subnormal nor the underflow mask is set. -/
theorem exp_zero_is_one (w : Width) :
    vexp w 0 = ONE w ∧ vexp w w.fmt.signMask = ONE w ∧
    do_exp_argument_reduction_h_f64m1 0 = (0, 0, 0) ∧
    get_table_values_hl_f64m1 0 = (ONE_F64, 0) ∧
    calculate_exp_polynom_hl12_f64m1 0 = (0, 0) ∧
    (check_special_cases_f64m1 0 EXP_EXPM1_OVERFLOW_THRESHOLD_F64).2.2 = false ∧
    vmflt FP64 0 EXP_SUBNORMAL_THRESHOLD_F64 = false ∧
    vmflt FP64 0 EXP_ZERO_THRESHOLD_F64 = false := by
  cases w <;> decide!

/-- C5: for every width and every input bit pattern (finite, subnormal,
zero, infinite or NaN), the sign bit of the lane returned by
`__riscv_vexpm1_*` equals the sign bit of the input; the underflow overlay
(`-1.0`) fires only for lanes with the sign bit set and the special overlay
(`+Inf`) only for lanes with the sign bit clear. -/
theorem expm1_sign_follows_input (w : Width) (x : Nat) :
    signOf w.fmt (vexpm1 w x) = signOf w.fmt x ∧
    (vmflt w.fmt x (EXPM1_UNDERFLOW_THRESHOLD w) = true → signOf w.fmt x = true) ∧
    ((check_special_cases w x (EXP_EXPM1_OVERFLOW_THRESHOLD w)).2.2 = true →
      signOf w.fmt x = false) := by
  cases w
  · simp only [Width.fmt, vexpm1, EXPM1_UNDERFLOW_THRESHOLD, check_special_cases,
      EXP_EXPM1_OVERFLOW_THRESHOLD, check_special_cases_f64m1_eq]
    refine ⟨vexpm1_f64m1_sign x, fun hu => ?_, fun hm => ?_⟩
    · have hk := vmflt_key hu
      rw [key_m1thr_f64] at hk
      exact key_neg_sign (by omega)
    · exact key_pos_sign
        (special_mask_pos (by rw [key_pinf_f64]; omega) (by rw [key_ovf_f64]; omega) hm)
  · simp only [Width.fmt, vexpm1, EXPM1_UNDERFLOW_THRESHOLD, check_special_cases,
      EXP_EXPM1_OVERFLOW_THRESHOLD, check_special_cases_f32m1_eq]
    refine ⟨vexpm1_f32m1_sign x, fun hu => ?_, fun hm => ?_⟩
    · have hk := vmflt_key hu
      rw [key_m1thr_f32] at hk
      exact key_neg_sign (by omega)
    · exact key_pos_sign
        (special_mask_pos (by rw [key_pinf_f32]; omega) (by rw [key_ovf_f32]; omega) hm)
  · simp only [Width.fmt, vexpm1, EXPM1_UNDERFLOW_THRESHOLD, check_special_cases,
      EXP_EXPM1_OVERFLOW_THRESHOLD, check_special_cases_f16m1_eq]
    refine ⟨vexpm1_f16m1_sign x, fun hu => ?_, fun hm => ?_⟩
    · have hk := vmflt_key hu
      rw [key_m1thr_f16] at hk
      exact key_neg_sign (by omega)
    · exact key_pos_sign
        (special_mask_pos (by rw [key_pinf_f16]; omega) (by rw [key_ovf_f16]; omega) hm)

/-- C6: `expm1` preserves signed zero bit-exactly: for every width
`__riscv_vexpm1_*(+0.0)` is the pattern of `+0.0` and `__riscv_vexpm1_*(-0.0)`
is the pattern of `-0.0`; the reconstruction of table row `(1, 0)` with a zero
correction and `ei = 0` yields a zero before `set_sign_*` copies the sign. -/
theorem expm1_signed_zero (w : Width) :
    vexpm1 w 0 = 0 ∧ vexpm1 w w.fmt.signMask = w.fmt.signMask ∧
    reconstruct_expm1_f64m1 ONE_F64 0 0 0 0 = 0 ∧
    reconstruct_expm1_f32m1 ONE_F32 0 0 0 0 = 0 ∧
    reconstruct_expm1_f16m1 ONE_F16 0 0 0 0 = 0 := by
  cases w <;> decide!

/-- C7, as stated, fails at the threshold itself: for the input exactly equal
to `EXP_EXPM1_OVERFLOW_THRESHOLD` the kernels return the largest finite
binade value computed by the pipeline (`0x7fefffffffffff2a`, `0x7f7fff84`,
`0x7bf7`), not `+Inf`. -/
theorem exp_at_overflow_threshold_is_finite :
    vexp Width.f64 (EXP_EXPM1_OVERFLOW_THRESHOLD Width.f64) = 0x7fefffffffffff2a ∧
    vexp Width.f64 (EXP_EXPM1_OVERFLOW_THRESHOLD Width.f64) ≠ FP64.pinf ∧
    vexp Width.f32 (EXP_EXPM1_OVERFLOW_THRESHOLD Width.f32) = 0x7f7fff84 ∧
    vexp Width.f32 (EXP_EXPM1_OVERFLOW_THRESHOLD Width.f32) ≠ FP32.pinf ∧
    vexp Width.f16 (EXP_EXPM1_OVERFLOW_THRESHOLD Width.f16) = 0x7bf7 ∧
    vexp Width.f16 (EXP_EXPM1_OVERFLOW_THRESHOLD Width.f16) ≠ FP16.pinf := by
  decide!

/-- C7 amended: for every width and every non-NaN lane `x` at or above the
overflow threshold, `__riscv_vexp_*` returns `+Inf` when `x` is strictly above
`EXP_EXPM1_OVERFLOW_THRESHOLD` (`+Inf` included), and the finite value of the
pipeline when `x` is exactly the threshold. -/
theorem exp_overflow_strictly_above_threshold (w : Width) (x : Nat)
    (hx : x < 2 ^ w.fmt.width) (hn : isNaN w.fmt x = false)
    (hk : key w.fmt (EXP_EXPM1_OVERFLOW_THRESHOLD w) ≤ key w.fmt x) :
    (x ≠ EXP_EXPM1_OVERFLOW_THRESHOLD w → vexp w x = w.fmt.pinf) ∧
    (x = EXP_EXPM1_OVERFLOW_THRESHOLD w →
      vexp w x = match w with
        | Width.f64 => 0x7fefffffffffff2a
        | Width.f32 => 0x7f7fff84
        | Width.f16 => 0x7bf7) := by
  cases w
  · simp only [Width.fmt, vexp, EXP_EXPM1_OVERFLOW_THRESHOLD, pinf_f64] at hx hn hk ⊢
    refine ⟨fun hne => ?_, fun he => ?_⟩
    · rcases ge_ovf_cases_f64 x hx hn hk with h | h
      · exact absurd h hne
      · exact vexp_f64m1_special x h
    · subst he
      decide!
  · simp only [Width.fmt, vexp, EXP_EXPM1_OVERFLOW_THRESHOLD, pinf_f32] at hx hn hk ⊢
    refine ⟨fun hne => ?_, fun he => ?_⟩
    · rcases ge_ovf_cases_f32 x hx hn hk with h | h
      · exact absurd h hne
      · exact vexp_f32m1_special x h
    · subst he
      decide!
  · simp only [Width.fmt, vexp, EXP_EXPM1_OVERFLOW_THRESHOLD, pinf_f16] at hx hn hk ⊢
    refine ⟨fun hne => ?_, fun he => ?_⟩
    · rcases ge_ovf_cases_f16 x hx hn hk with h | h
      · exact absurd h hne
      · exact vexp_f16m1_special x h
    · subst he
      decide!

/-- C7 amended, at the binary64 lane just above the threshold
(`0x40862e42fefa39f0`), which overflows. -/
theorem exp_overflow_strictly_above_threshold_witness :
    0x40862e42fefa39f0 < 2 ^ (Width.f64).fmt.width ∧
    isNaN (Width.f64).fmt 0x40862e42fefa39f0 = false ∧
    key (Width.f64).fmt (EXP_EXPM1_OVERFLOW_THRESHOLD Width.f64) ≤
      key (Width.f64).fmt 0x40862e42fefa39f0 ∧
    0x40862e42fefa39f0 ≠ EXP_EXPM1_OVERFLOW_THRESHOLD Width.f64 ∧
    vexp Width.f64 0x40862e42fefa39f0 = (Width.f64).fmt.pinf :=
  ⟨by decide, by decide, by decide!, by decide,
    (exp_overflow_strictly_above_threshold Width.f64 0x40862e42fefa39f0
      (by decide) (by decide) (by decide!)).1 (by decide)⟩

/-- C8, as stated, fails at the threshold itself: for the input exactly equal
to `EXP_ZERO_THRESHOLD` the kernels return the smallest positive subnormal
(pattern `1`), not zero. -/
theorem exp_at_zero_threshold_is_min_subnormal :
    vexp Width.f64 (EXP_ZERO_THRESHOLD Width.f64) = 1 ∧
    vexp Width.f32 (EXP_ZERO_THRESHOLD Width.f32) = 1 ∧
    vexp Width.f16 (EXP_ZERO_THRESHOLD Width.f16) = 1 := by
  decide!

/-- C8 amended: for every width and every non-NaN lane `x` at or below the
zero threshold, `__riscv_vexp_*` returns `+0.0` when `x` is strictly below
`EXP_ZERO_THRESHOLD` (`-Inf` included), and the smallest positive subnormal
when `x` is exactly the threshold. -/
theorem exp_zero_strictly_below_threshold (w : Width) (x : Nat)
    (hx : x < 2 ^ w.fmt.width) (hn : isNaN w.fmt x = false)
    (hk : key w.fmt x ≤ key w.fmt (EXP_ZERO_THRESHOLD w)) :
    (x ≠ EXP_ZERO_THRESHOLD w → vexp w x = 0) ∧
    (x = EXP_ZERO_THRESHOLD w → vexp w x = 1) := by
  cases w
  · simp only [Width.fmt, vexp, EXP_ZERO_THRESHOLD] at hx hn hk ⊢
    refine ⟨fun hne => ?_, fun he => ?_⟩
    · rcases le_zthr_cases_f64 x hx hk with h | h
      · exact absurd h hne
      · exact vexp_f64m1_underflow x (vmflt_of_key hn (by decide) h)
    · subst he
      decide!
  · simp only [Width.fmt, vexp, EXP_ZERO_THRESHOLD] at hx hn hk ⊢
    refine ⟨fun hne => ?_, fun he => ?_⟩
    · rcases le_zthr_cases_f32 x hx hk with h | h
      · exact absurd h hne
      · exact vexp_f32m1_underflow x (vmflt_of_key hn (by decide) h)
    · subst he
      decide!
  · simp only [Width.fmt, vexp, EXP_ZERO_THRESHOLD] at hx hn hk ⊢
    refine ⟨fun hne => ?_, fun he => ?_⟩
    · rcases le_zthr_cases_f16 x hx hk with h | h
      · exact absurd h hne
      · exact vexp_f16m1_underflow x (vmflt_of_key hn (by decide) h)
    · subst he
      decide!

/-- C8 amended, at the binary64 lane just below the threshold
(`0xc0874910d52d3052`), which flushes to zero. -/
theorem exp_zero_strictly_below_threshold_witness :
    0xc0874910d52d3052 < 2 ^ (Width.f64).fmt.width ∧
    isNaN (Width.f64).fmt 0xc0874910d52d3052 = false ∧
    key (Width.f64).fmt 0xc0874910d52d3052 ≤
      key (Width.f64).fmt (EXP_ZERO_THRESHOLD Width.f64) ∧
    0xc0874910d52d3052 ≠ EXP_ZERO_THRESHOLD Width.f64 ∧
    vexp Width.f64 0xc0874910d52d3052 = 0 :=
  ⟨by decide, by decide, by decide!, by decide,
    (exp_zero_strictly_below_threshold Width.f64 0xc0874910d52d3052
      (by decide) (by decide) (by decide!)).1 (by decide)⟩

/-- C10, as stated, fails: the kernels do not call `process_linear_*` (the
call is commented out in every width), and inside the linear region the
pipeline can return a neighbour of `x`: binary16 `0x0e55` gives `0x0e56`,
binary32 `0x33b1f7b5` gives `0x33b1f7b6`, binary64 `0x3ca6a09e667c2e8d` gives
`0x3ca6a09e667c2e8e`. -/
theorem expm1_linear_region_not_identity :
    (vmflt FP16 (magOf FP16 0x0e55) (EXPM1_LINEAR_THRESHOLD Width.f16) = true ∧
      vexpm1 Width.f16 0x0e55 = 0x0e56 ∧ vexpm1 Width.f16 0x0e55 ≠ 0x0e55) ∧
    (vmflt FP32 (magOf FP32 0x33b1f7b5) (EXPM1_LINEAR_THRESHOLD Width.f32) = true ∧
      vexpm1 Width.f32 0x33b1f7b5 = 0x33b1f7b6 ∧ vexpm1 Width.f32 0x33b1f7b5 ≠ 0x33b1f7b5) ∧
    (vmflt FP64 (magOf FP64 0x3ca6a09e667c2e8d) (EXPM1_LINEAR_THRESHOLD Width.f64) = true ∧
      vexpm1 Width.f64 0x3ca6a09e667c2e8d = 0x3ca6a09e667c2e8e ∧
      vexpm1 Width.f64 0x3ca6a09e667c2e8d ≠ 0x3ca6a09e667c2e8d) := by
  decide!

/-- C10 amended: for every width, `process_linear_*` returns `x` unchanged
(bit-identical) on a lane with `|x| < EXPM1_LINEAR_THRESHOLD` (subnormals and
zeros included) and leaves `res` unchanged on every other lane; the kernel
`__riscv_vexpm1_*` does not apply it: on such a lane neither overlay fires and
the kernel returns the reconstructed value with the sign of `x` set by
`set_sign_*`. -/
theorem process_linear_returns_input (w : Width) (x res : Nat) :
    (vmflt w.fmt (magOf w.fmt x) (EXPM1_LINEAR_THRESHOLD w) = true →
      process_linear w x res = x ∧ vexpm1 w x = expm1_after_set_sign w x) ∧
    (vmflt w.fmt (magOf w.fmt x) (EXPM1_LINEAR_THRESHOLD w) = false →
      process_linear w x res = res) := by
  cases w
  · have hm : vand x 0x7fffffffffffffff = magOf FP64 x :=
      Nat.and_pow_two_sub_one_eq_mod x 63
    simp only [Width.fmt, process_linear, process_linear_f64m1, EXPM1_LINEAR_THRESHOLD,
      vmerge_vvm, hm, vexpm1]
    refine ⟨fun h => ⟨by simp [h], vexpm1_f64m1_linear_region x h⟩, fun h => by simp [h]⟩
  · have hm : vand x 0x7fffffff = magOf FP32 x :=
      Nat.and_pow_two_sub_one_eq_mod x 31
    simp only [Width.fmt, process_linear, process_linear_f32m1, EXPM1_LINEAR_THRESHOLD,
      vmerge_vvm, hm, vexpm1]
    refine ⟨fun h => ⟨by simp [h], vexpm1_f32m1_linear_region x h⟩, fun h => by simp [h]⟩
  · have hm : vand x 0x7fff = magOf FP16 x :=
      Nat.and_pow_two_sub_one_eq_mod x 15
    simp only [Width.fmt, process_linear, process_linear_f16m1, EXPM1_LINEAR_THRESHOLD,
      vmerge_vvm, hm, vexpm1]
    refine ⟨fun h => ⟨by simp [h], vexpm1_f16m1_linear_region x h⟩, fun h => by simp [h]⟩

/-- C10 amended, at the binary16 lane `0x8e55` (`|x|` below the threshold):
`process_linear_f16m1` gives back `x` whatever `res` holds, while the kernel
returns the reconstructed `0x8e54`. -/
theorem process_linear_returns_input_witness :
    vmflt FP16 (magOf FP16 0x8e55) (EXPM1_LINEAR_THRESHOLD Width.f16) = true ∧
    process_linear Width.f16 0x8e55 0x8e54 = 0x8e55 ∧
    vexpm1 Width.f16 0x8e55 = expm1_after_set_sign Width.f16 0x8e55 ∧
    expm1_after_set_sign Width.f16 0x8e55 = 0x8e54 :=
  ⟨by decide!,
    ((process_linear_returns_input Width.f16 0x8e55 0x8e54).1 (by decide!)).1,
    ((process_linear_returns_input Width.f16 0x8e55 0x8e54).1 (by decide!)).2,
    by decide!⟩

theorem and_absmask (n v : Nat) : v &&& (2 ^ n - 1) = v % 2 ^ n :=
  Nat.and_pow_two_sub_one_eq_mod v n

theorem vfabs_eq_mag (w : Width) (v : Nat) : vfabs w v = magOf w.fmt v := by
  cases w
  · exact and_absmask 63 v
  · exact and_absmask 31 v
  · exact and_absmask 15 v

/-- C14: in every width the lane returned by `__riscv_vfabs_*` is the input
AND-ed with `0x7ff...f`: the sign bit of the result is clear, every bit below
the sign bit is the input bit, and so the exponent and mantissa fields (NaN
payloads and the infinity pattern included) are those of the input. -/
theorem fabs_clears_only_the_sign_bit (w : Width) (v : Nat) :
    vfabs .f64 v = v &&& 0x7fffffffffffffff ∧ vfabs .f32 v = v &&& 0x7fffffff ∧
    vfabs .f16 v = v &&& 0x7fff ∧
    signOf w.fmt (vfabs w v) = false ∧
    (∀ i, i < w.fmt.eb + w.fmt.mb → Nat.testBit (vfabs w v) i = Nat.testBit v i) ∧
    (∀ i, w.fmt.eb + w.fmt.mb ≤ i → Nat.testBit (vfabs w v) i = false) ∧
    expField w.fmt (vfabs w v) = expField w.fmt v ∧
    manField w.fmt (vfabs w v) = manField w.fmt v ∧
    isNaN w.fmt (vfabs w v) = isNaN w.fmt v ∧
    isInf w.fmt (vfabs w v) = isInf w.fmt v := by
  refine ⟨rfl, rfl, rfl, ?_, ?_, ?_, ?_, ?_, ?_, ?_⟩
  · rw [vfabs_eq_mag]; unfold signOf magOf
    rw [Nat.testBit_mod_two_pow]; simp
  · intro i hi
    rw [vfabs_eq_mag]; unfold magOf
    rw [Nat.testBit_mod_two_pow]; simp [hi]
  · intro i hi
    rw [vfabs_eq_mag]; unfold magOf
    rw [Nat.testBit_mod_two_pow]; simp; intro h; omega
  · rw [vfabs_eq_mag]; unfold expField magOf
    rw [Nat.add_comm, Nat.pow_add, Nat.mod_mul_right_div_self, Nat.mod_mod]
  · rw [vfabs_eq_mag]; unfold manField magOf
    rw [Nat.pow_add]
    exact Nat.mod_mul_left_mod v (2 ^ w.fmt.eb) (2 ^ w.fmt.mb)
  · rw [vfabs_eq_mag]; unfold isNaN magOf; rw [Nat.mod_mod]
  · rw [vfabs_eq_mag]; unfold isInf magOf; rw [Nat.mod_mod]

/-- C13: `__riscv_vrint_*` returns, in every width, the result of
`__riscv_vtrunc_*` under `FE_TONEAREST` and of `__riscv_vround_*` under
`FE_TOWARDZERO` (the reverse of the direction each mode names), of
`__riscv_vfloor_*` under `FE_DOWNWARD` and of `__riscv_vceil_*` under
`FE_UPWARD`; for any other mode no `case` returns a value.  So the result
under `FE_TONEAREST` is that of `__riscv_vround_*` only on lanes where
truncation and rounding to nearest agree; they differ on `0.75`, which
`__riscv_vround_f64m1` takes to `1.0`. -/
theorem rint_dispatch_nearest_and_towardzero_swapped (w : Width)
    (vtrunc vfloor vceil : Nat → Nat) (x : Nat) :
    vrint w vtrunc vfloor vceil .FE_TONEAREST x = some (vtrunc x) ∧
    vrint w vtrunc vfloor vceil .FE_TOWARDZERO x = some (vround w x) ∧
    vrint w vtrunc vfloor vceil .FE_DOWNWARD x = some (vfloor x) ∧
    vrint w vtrunc vfloor vceil .FE_UPWARD x = some (vceil x) ∧
    vrint w vtrunc vfloor vceil .other x = none ∧
    (vrint w vtrunc vfloor vceil .FE_TONEAREST x = some (vround w x) ↔ vtrunc x = vround w x) ∧
    (vrint w vtrunc vfloor vceil .FE_TOWARDZERO x = some (vtrunc x) ↔ vround w x = vtrunc x) ∧
    vround .f64 0x3fe8000000000000 = 0x3ff0000000000000 := by
  have h1 : vrint w vtrunc vfloor vceil .FE_TONEAREST x = some (vtrunc x) := by
    cases w <;> rfl
  have h2 : vrint w vtrunc vfloor vceil .FE_TOWARDZERO x = some (vround w x) := by
    cases w <;> rfl
  refine ⟨h1, h2, by cases w <;> rfl, by cases w <;> rfl, by cases w <;> rfl, ?_, ?_, by decide!⟩
  · rw [h1]; exact Option.some_inj
  · rw [h2]; exact Option.some_inj

theorem key_zero (F : Fmt) : key F 0 = 0 := by
  simp [key, signOf, magOf]

theorem isNaN_zero (F : Fmt) : isNaN F 0 = false := by
  simp [isNaN, magOf]

theorem vmflt_zero_of_neg {F : Fmt} {x : Nat} (hs : signOf F x = true) (hm : 0 < magOf F x)
    (hn : magOf F x ≤ F.pinf) : vmflt F x 0 = true := by
  apply vmflt_of_key
  · simp [isNaN]; omega
  · exact isNaN_zero F
  · rw [key_zero]; simp only [key, hs, if_true]; omega

theorem vmfeq_false_of_neg {F : Fmt} {x p : Nat} (hs : signOf F x = true) (hm : 0 < magOf F x)
    (hp : 0 ≤ key F p) : vmfeq F x p = false := by
  apply vmfeq_false_of_key
  have hk : key F x = -(magOf F x : Int) := by simp only [key, hs, if_true]
  omega

theorem vsqrt_f64m1_neg {x : Nat} (h : vmflt FP64 x 0 = true)
    (h2 : vmfeq FP64 x 0x7ff0000000000000 = false) :
    __riscv_vsqrt_f64m1 x = 0x7ff8000000000000 := by
  simp only [__riscv_vsqrt_f64m1, vfmerge_vfm, h, h2, if_true, Bool.false_eq_true, if_false,
    ite_self]

theorem vsqrt_f32m1_neg {x : Nat} (h : vmflt FP32 x 0 = true)
    (h2 : vmfeq FP32 x 0x7f800000 = false) :
    __riscv_vsqrt_f32m1 x = 0x7fc00000 := by
  simp only [__riscv_vsqrt_f32m1, vfmerge_vfm, h, h2, if_true, Bool.false_eq_true, if_false,
    ite_self]

theorem vsqrt_f16m1_neg {x : Nat} (h : vmflt FP16 x 0 = true)
    (h2 : vmfeq FP16 x 0x7c00 = false) :
    __riscv_vsqrt_f16m1 x = 0x7e00 := by
  simp only [__riscv_vsqrt_f16m1, vfmerge_vfm, h, h2, if_true, Bool.false_eq_true, if_false,
    ite_self]

/-- C15: in every width, a lane whose sign bit is set and whose magnitude bits
are non-zero and not above the infinity pattern (a negative normal, a negative
subnormal or `-Inf`; `-0.0` is excluded) compares below zero, and
`__riscv_vsqrt_*` returns the quiet-NaN constant (`0x7ff8000000000000`,
`0x7fc00000`, `0x7e00`) for it, whatever the pipeline computed. -/
theorem sqrt_negative_is_qnan (w : Width) (x : Nat) (hs : signOf w.fmt x = true)
    (hm : 0 < magOf w.fmt x) (hn : magOf w.fmt x ≤ w.fmt.pinf) :
    vmflt w.fmt x 0 = true ∧
    vsqrt w x = (match w with
      | .f64 => 0x7ff8000000000000
      | .f32 => 0x7fc00000
      | .f16 => 0x7e00) := by
  have h := vmflt_zero_of_neg hs hm hn
  refine ⟨h, ?_⟩
  cases w
  · exact vsqrt_f64m1_neg h (vmfeq_false_of_neg hs hm (by decide))
  · exact vsqrt_f32m1_neg h (vmfeq_false_of_neg hs hm (by decide))
  · exact vsqrt_f16m1_neg h (vmfeq_false_of_neg hs hm (by decide))

theorem sqrt_negative_is_qnan_witness :
    vmflt Width.f64.fmt 0xbff0000000000000 0 = true ∧
    vsqrt .f64 0xbff0000000000000 = 0x7ff8000000000000 :=
  sqrt_negative_is_qnan .f64 0xbff0000000000000 (by decide) (by decide) (by decide)

/-- C16: for the input lane `+0.0` (and `-0.0`) `__riscv_vsqrt_*` does not return
a zero: no mask is set, the pipeline runs on the exponent field `0` with
mantissa `1.0`, and the result is `sqrt(2) * 2^-512` (f64), `sqrt(2) * 2^-64`
(f32), `sqrt(2) * 2^-8` (f16). -/
theorem sqrt_of_zero_is_not_zero :
    vsqrt .f64 0x0000000000000000 = 0x1ff6a09e667f3bcd ∧
    vsqrt .f32 0x00000000 = 0x1fb504f3 ∧
    vsqrt .f16 0x0000 = 0x1da8 ∧
    vsqrt .f64 0x8000000000000000 = 0x1ff6a09e667f3bcd ∧
    vsqrt .f32 0x80000000 = 0x1fb504f3 ∧
    vsqrt .f16 0x8000 = 0x1da8 := by
  refine ⟨?_, ?_, ?_, ?_, ?_, ?_⟩ <;> decide!

theorem split_hi (h n k : Nat) (hk : k ≤ n) :
    (h &&& (2 ^ n - 1)) &&& (2 ^ k - 1) = (h &&& (2 ^ n - 1)) % 2 ^ k ∧
    (h &&& (2 ^ n - 1)) >>> k = (h &&& (2 ^ n - 1)) / 2 ^ k ∧
    h &&& (2 ^ n - 1) =
      ((h &&& (2 ^ n - 1)) >>> k) * 2 ^ k + ((h &&& (2 ^ n - 1)) &&& (2 ^ k - 1)) ∧
    (h &&& (2 ^ n - 1)) &&& (2 ^ k - 1) < 2 ^ k ∧
    (h &&& (2 ^ n - 1)) >>> k < 2 ^ (n - k) := by
  have e1 := and_absmask k (h &&& (2 ^ n - 1))
  have e2 := Nat.shiftRight_eq_div_pow (h &&& (2 ^ n - 1)) k
  refine ⟨e1, e2, ?_, ?_, ?_⟩
  · rw [e1, e2]; exact (Nat.div_add_mod' _ _).symm
  · rw [e1]; exact Nat.mod_lt _ (by positivity)
  · rw [e2, and_absmask, Nat.div_lt_iff_lt_mul (by positivity), ← Nat.pow_add,
      Nat.sub_add_cancel hk]
    exact Nat.mod_lt _ (by positivity)

theorem table_row (w s fi : Nat) (T U : List Nat) (hs : 0 < s) (hw : fi * s < 2 ^ w) :
    vmul w fi s = fi * s ∧
    (T.getD (vmul w fi s / s) 0, U.getD (vmul w fi s / s) 0) = (T.getD fi 0, U.getD fi 0) := by
  have hv : vmul w fi s = fi * s := Nat.mod_eq_of_lt hw
  refine ⟨hv, ?_⟩
  rw [hv, Nat.mul_div_cancel fi hs]

/-- C17: for every input pattern, with `hi = bits(h) AND MASK_HI_BIT` of the
fused `h = x * c + MAGIC` (`c = INV_LOG2_2K` for `exp`, `EXP2_TABLE_SIZE_DEG`
for `exp2`), both reductions return `fi = hi mod 2^k` and `ei = hi div 2^k`,
so `hi = ei * 2^k + fi`, `fi < 2^k` and `ei < 2^12 / 2^9 / 2^6`; for every
`fi < 2^k` the byte offset `fi * sizeof(element)` does not wrap and
`get_table_values_hl_*` reads row `fi`, which exists in the `2^k`-row tables
`LOOK_UP_TABLE_HIGH/LOW`. -/
theorem reduction_index_exponent_split (w : Width) (x : Nat) :
    let k := TABLE_SIZE_DEG w
    let hi := vfmadd w.fmt x (INV_LOG2_2K w) (MAGIC_CONST_1 w) &&& MASK_HI_BIT w
    let hi2 := vfmadd w.fmt x (EXP2_TABLE_SIZE_DEG w) (MAGIC_CONST_1 w) &&& MASK_HI_BIT w
    let r := do_exp_argument_reduction_ei_fi w x
    let r2 := do_exp2_argument_reduction_ei_fi w x
    (k = match w with | .f64 => 6 | .f32 => 4 | .f16 => 3) ∧
    (r.2 = hi % 2 ^ k ∧ r.1 = hi / 2 ^ k ∧ hi = r.1 * 2 ^ k + r.2 ∧ r.2 < 2 ^ k ∧
      r.1 < match w with | .f64 => 2 ^ 12 | .f32 => 2 ^ 9 | .f16 => 2 ^ 6) ∧
    (r2.2 = hi2 % 2 ^ k ∧ r2.1 = hi2 / 2 ^ k ∧ hi2 = r2.1 * 2 ^ k + r2.2 ∧ r2.2 < 2 ^ k ∧
      r2.1 < match w with | .f64 => 2 ^ 12 | .f32 => 2 ^ 9 | .f16 => 2 ^ 6) ∧
    (LOOK_UP_TABLE_HIGH w).length = 2 ^ k ∧ (LOOK_UP_TABLE_LOW w).length = 2 ^ k ∧
    (∀ fi, fi < 2 ^ k →
      vmul w.fmt.width fi (w.fmt.width / 8) = fi * (w.fmt.width / 8) ∧
      get_table_values_hl w fi =
        ((LOOK_UP_TABLE_HIGH w).getD fi 0, (LOOK_UP_TABLE_LOW w).getD fi 0)) := by
  cases w
  · exact ⟨rfl, split_hi (vfmadd FP64 x INV_LOG2_2K_F64 MAGIC_CONST_1_F64) 18 6 (by decide),
      split_hi (vfmadd FP64 x EXP2_TABLE_SIZE_DEG_F64 MAGIC_CONST_1_F64) 18 6 (by decide),
      rfl, rfl, fun fi hfi =>
        table_row 64 8 fi LOOK_UP_TABLE_HIGH_F64 LOOK_UP_TABLE_LOW_F64 (by decide)
          (by have h6 : fi < 64 := hfi
              have h64 : (2 : Nat) ^ 64 = 18446744073709551616 := rfl
              omega)⟩
  · exact ⟨rfl, split_hi (vfmadd FP32 x INV_LOG2_2K_F32 MAGIC_CONST_1_F32) 13 4 (by decide),
      split_hi (vfmadd FP32 x EXP2_TABLE_SIZE_DEG_F32 MAGIC_CONST_1_F32) 13 4 (by decide),
      rfl, rfl, fun fi hfi =>
        table_row 32 4 fi LOOK_UP_TABLE_HIGH_F32 LOOK_UP_TABLE_LOW_F32 (by decide)
          (by have h6 : fi < 16 := hfi
              have h64 : (2 : Nat) ^ 32 = 4294967296 := rfl
              omega)⟩
  · exact ⟨rfl, split_hi (vfmadd FP16 x INV_LOG2_2K_F16 MAGIC_CONST_1_F16) 9 3 (by decide),
      split_hi (vfmadd FP16 x EXP2_TABLE_SIZE_DEG_F16 MAGIC_CONST_1_F16) 9 3 (by decide),
      rfl, rfl, fun fi hfi =>
        table_row 16 2 fi LOOK_UP_TABLE_HIGH_F16 LOOK_UP_TABLE_LOW_F16 (by decide)
          (by have h6 : fi < 8 := hfi
              have h64 : (2 : Nat) ^ 16 = 65536 := rfl
              omega)⟩

theorem update_exponent_f64m1_exact (res : Nat) (e : Int) (hres : res < 2 ^ 64)
    (hE : 0 < expField FP64 res) (he1 : 0 < (expField FP64 res : Int) + e)
    (he2 : (expField FP64 res : Int) + e < 2 ^ 11 - 1) :
    update_exponent_f64m1 (e % 2 ^ 12).toNat res < 2 ^ 64 ∧
    signOf FP64 (update_exponent_f64m1 (e % 2 ^ 12).toNat res) = signOf FP64 res ∧
    manField FP64 (update_exponent_f64m1 (e % 2 ^ 12).toNat res) = manField FP64 res ∧
    (expField FP64 (update_exponent_f64m1 (e % 2 ^ 12).toNat res) : Int) =
      (expField FP64 res : Int) + e := by
  have hr : update_exponent_f64m1 (e % 2 ^ 12).toNat res =
      res / 2 ^ 63 * 2 ^ 63 + ((expField FP64 res : Int) + e).toNat * 2 ^ 52 +
        res % 2 ^ 52 := by
    unfold update_exponent_f64m1 vadd vsll
    rw [Nat.shiftLeft_eq]
    simp only [expField, FP64, FP32, FP16] at *
    norm_num at *
    omega
  rw [hr]
  simp only [signOf, manField, expField, FP64, FP32, FP16, Nat.testBit_to_div_mod] at *
  norm_num at *
  refine ⟨by omega, ?_, by omega, by omega⟩
  constructor <;> intro h <;> omega

theorem update_exponent_f32m1_exact (res : Nat) (e : Int) (hres : res < 2 ^ 32)
    (hE : 0 < expField FP32 res) (he1 : 0 < (expField FP32 res : Int) + e)
    (he2 : (expField FP32 res : Int) + e < 2 ^ 8 - 1) :
    update_exponent_f32m1 (e % 2 ^ 9).toNat res < 2 ^ 32 ∧
    signOf FP32 (update_exponent_f32m1 (e % 2 ^ 9).toNat res) = signOf FP32 res ∧
    manField FP32 (update_exponent_f32m1 (e % 2 ^ 9).toNat res) = manField FP32 res ∧
    (expField FP32 (update_exponent_f32m1 (e % 2 ^ 9).toNat res) : Int) =
      (expField FP32 res : Int) + e := by
  have hr : update_exponent_f32m1 (e % 2 ^ 9).toNat res =
      res / 2 ^ 31 * 2 ^ 31 + ((expField FP32 res : Int) + e).toNat * 2 ^ 23 +
        res % 2 ^ 23 := by
    unfold update_exponent_f32m1 vadd vsll
    rw [Nat.shiftLeft_eq]
    simp only [expField, FP64, FP32, FP16] at *
    norm_num at *
    omega
  rw [hr]
  simp only [signOf, manField, expField, FP64, FP32, FP16, Nat.testBit_to_div_mod] at *
  norm_num at *
  refine ⟨by omega, ?_, by omega, by omega⟩
  constructor <;> intro h <;> omega

theorem update_exponent_f16m1_exact (res : Nat) (e : Int) (hres : res < 2 ^ 16)
    (hE : 0 < expField FP16 res) (he1 : 0 < (expField FP16 res : Int) + e)
    (he2 : (expField FP16 res : Int) + e < 2 ^ 5 - 1) :
    update_exponent_f16m1 (e % 2 ^ 6).toNat res < 2 ^ 16 ∧
    signOf FP16 (update_exponent_f16m1 (e % 2 ^ 6).toNat res) = signOf FP16 res ∧
    manField FP16 (update_exponent_f16m1 (e % 2 ^ 6).toNat res) = manField FP16 res ∧
    (expField FP16 (update_exponent_f16m1 (e % 2 ^ 6).toNat res) : Int) =
      (expField FP16 res : Int) + e := by
  have hr : update_exponent_f16m1 (e % 2 ^ 6).toNat res =
      res / 2 ^ 15 * 2 ^ 15 + ((expField FP16 res : Int) + e).toNat * 2 ^ 10 +
        res % 2 ^ 10 := by
    unfold update_exponent_f16m1 vadd vsll
    rw [Nat.shiftLeft_eq]
    simp only [expField, FP64, FP32, FP16] at *
    norm_num at *
    omega
  rw [hr]
  simp only [signOf, manField, expField, FP64, FP32, FP16, Nat.testBit_to_div_mod] at *
  norm_num at *
  refine ⟨by omega, ?_, by omega, by omega⟩
  constructor <;> intro h <;> omega

theorem natOf_scale (F : Fmt) (a b : Nat) (e : Int) (ha : 0 < expField F a)
    (hm : manField F b = manField F a) (hb : (expField F b : Int) = (expField F a : Int) + e)
    (hb0 : 0 < (expField F a : Int) + e) :
    natOf F b * 2 ^ (-e).toNat = natOf F a * 2 ^ e.toNat := by
  have hb1 : expField F b ≠ 0 := by omega
  have ha1 : expField F a ≠ 0 := by omega
  unfold natOf
  rw [if_neg hb1, if_neg ha1, hm, Nat.mul_assoc, Nat.mul_assoc, ← Nat.pow_add, ← Nat.pow_add]
  congr 2
  omega

/-- C19: in every width, for a lane `res` with a non-zero biased exponent field
`E` and every integer `e` with `0 < E + e < 2^(w-m-1) - 1`, passed as
`ei = e mod 2^(w-m)`, `update_exponent_*` returns a `w`-bit lane with the sign
bit and the mantissa field of `res` and the exponent field `E + e`; its value
is exactly `res * 2^e` (stated without division for negative `e`). -/
theorem exponent_injection_is_exact (w : Width) (res : Nat) (e : Int)
    (hres : res < 2 ^ w.fmt.width) (hE : 0 < expField w.fmt res)
    (he1 : 0 < (expField w.fmt res : Int) + e)
    (he2 : (expField w.fmt res : Int) + e < 2 ^ w.fmt.eb - 1) :
    update_exponent w (e % 2 ^ (w.fmt.eb + 1)).toNat res < 2 ^ w.fmt.width ∧
    signOf w.fmt (update_exponent w (e % 2 ^ (w.fmt.eb + 1)).toNat res) = signOf w.fmt res ∧
    manField w.fmt (update_exponent w (e % 2 ^ (w.fmt.eb + 1)).toNat res) =
      manField w.fmt res ∧
    (expField w.fmt (update_exponent w (e % 2 ^ (w.fmt.eb + 1)).toNat res) : Int) =
      (expField w.fmt res : Int) + e ∧
    natOf w.fmt (update_exponent w (e % 2 ^ (w.fmt.eb + 1)).toNat res) * 2 ^ (-e).toNat =
      natOf w.fmt res * 2 ^ e.toNat := by
  have key : update_exponent w (e % 2 ^ (w.fmt.eb + 1)).toNat res < 2 ^ w.fmt.width ∧
      signOf w.fmt (update_exponent w (e % 2 ^ (w.fmt.eb + 1)).toNat res) = signOf w.fmt res ∧
      manField w.fmt (update_exponent w (e % 2 ^ (w.fmt.eb + 1)).toNat res) =
        manField w.fmt res ∧
      (expField w.fmt (update_exponent w (e % 2 ^ (w.fmt.eb + 1)).toNat res) : Int) =
        (expField w.fmt res : Int) + e := by
    cases w
    · exact update_exponent_f64m1_exact res e hres hE he1 he2
    · exact update_exponent_f32m1_exact res e hres hE he1 he2
    · exact update_exponent_f16m1_exact res e hres hE he1 he2
  exact ⟨key.1, key.2.1, key.2.2.1, key.2.2.2,
    natOf_scale w.fmt res _ e hE key.2.2.1 key.2.2.2 he1⟩

theorem exponent_injection_is_exact_witness :
    update_exponent .f64 ((-3 : Int) % 2 ^ (Width.f64.fmt.eb + 1)).toNat 0xbff8000000000000
      = 0xbfc8000000000000 ∧
    natOf Width.f64.fmt
        (update_exponent .f64 ((-3 : Int) % 2 ^ (Width.f64.fmt.eb + 1)).toNat
          0xbff8000000000000) * 2 ^ (-(-3 : Int)).toNat =
      natOf Width.f64.fmt 0xbff8000000000000 * 2 ^ (-3 : Int).toNat :=
  ⟨by decide, (exponent_injection_is_exact .f64 0xbff8000000000000 (-3) (by decide) (by decide)
    (by decide) (by decide)).2.2.2.2⟩

theorem expField_of_and_zero {F : Fmt} {y : Nat} (h : y &&& F.pinf = 0) : expField F y = 0 := by
  unfold expField
  apply Nat.eq_of_testBit_eq
  intro i
  rw [Nat.testBit_mod_two_pow, ← Nat.shiftRight_eq_div_pow, Nat.testBit_shiftRight,
    Nat.zero_testBit]
  by_cases hi : i < F.eb
  · have h2 : Nat.testBit (y &&& F.pinf) (F.mb + i) = false := by
      rw [h]; exact Nat.zero_testBit _
    rw [Nat.testBit_and] at h2
    have h3 : Nat.testBit F.pinf (F.mb + i) = true := by
      unfold Fmt.pinf
      rw [Nat.mul_comm, Nat.testBit_mul_pow_two]
      simp [Nat.testBit_two_pow_sub_one, hi]
    rw [h3, Bool.and_true] at h2
    simp [h2]
  · simp [hi]

theorem mag_lt_of_expField_zero {F : Fmt} {y : Nat} (h : expField F y = 0) :
    magOf F y < 2 ^ F.mb := by
  unfold expField at h
  unfold magOf
  rw [Nat.add_comm, Nat.pow_add, Nat.mod_mul, h, Nat.mul_zero, Nat.add_zero]
  exact Nat.mod_lt _ (by positivity)

theorem key_subn_f64 : key FP64 EXP_SUBNORMAL_THRESHOLD_F64 = -0x4086232bdd7abcd2 := by decide!

theorem key_ninf_f64 : key FP64 0xfff0000000000000 = -0x7ff0000000000000 := by decide!

theorem vexp_f64m1_subnormal_range (x : Nat) (hn : isNaN FP64 x = false)
    (h1 : key FP64 EXP_ZERO_THRESHOLD_F64 ≤ key FP64 x)
    (h2 : key FP64 x < key FP64 EXP_SUBNORMAL_THRESHOLD_F64) :
    __riscv_vexp_f64m1 x = exp_after_exponent .f64 (subnormal_path .f64
      (exp_before_exponent .f64 x).2.1 (exp_before_exponent .f64 x).2.2) := by
  have hm : (vmfeq FP64 x 0x7ff0000000000000 ||
      (vmfgt FP64 x EXP_EXPM1_OVERFLOW_THRESHOLD_F64 && vmflt FP64 x 0x7ff0000000000000)) = false :=
    special_mask_of_neg (by rw [key_subn_f64] at h2; omega) (by rw [key_pinf_f64]; omega)
      (by rw [key_ovf_f64]; omega)
  have hu : vmflt FP64 x EXP_ZERO_THRESHOLD_F64 = false := vmflt_false_of_key h1
  have hs1 : vmfgt FP64 x 0xfff0000000000000 = true :=
    vmflt_of_key (by decide) hn (by rw [key_ninf_f64]; rw [key_zthr_f64] at h1; omega)
  have hs2 : vmflt FP64 x EXP_SUBNORMAL_THRESHOLD_F64 = true := vmflt_of_key hn (by decide) h2
  unfold __riscv_vexp_f64m1
  simp only [exp_before_exponent, subnormal_path, exp_after_exponent,
    check_special_cases_f64m1_eq, hm, vmerge_vvm,
    update_underflow_f64m1, reconstruct_exp_hl_hl_f64m1, update_exponent_with_subnormal_f64m1,
    vfmerge_vfm, hu, hs1, hs2, Bool.and_self, if_true, Bool.false_eq_true, if_false]

theorem subnormal_path_f64_fields (ei res : Nat) :
    exp_after_exponent .f64 (subnormal_path .f64 ei res) &&& 0x7ff0000000000000 = 0 ∧
    expField FP64 (exp_after_exponent .f64 (subnormal_path .f64 ei res)) = 0 ∧
    isNaN FP64 (exp_after_exponent .f64 (subnormal_path .f64 ei res)) = false ∧
    isInf FP64 (exp_after_exponent .f64 (subnormal_path .f64 ei res)) = false := by
  have h0 : exp_after_exponent .f64 (subnormal_path .f64 ei res) &&& 0x7ff0000000000000 = 0 := by
    simp only [exp_after_exponent, subnormal_path, vand, Nat.and_assoc]
    exact Nat.and_zero _
  have he : expField FP64 (exp_after_exponent .f64 (subnormal_path .f64 ei res)) = 0 :=
    expField_of_and_zero h0
  have hmag := mag_lt_of_expField_zero he
  refine ⟨h0, he, ?_, ?_⟩
  · simp only [isNaN, decide_eq_false_iff_not]
    norm_num [Fmt.pinf, FP64, FP32, FP16] at hmag ⊢
    omega
  · simp only [isInf, decide_eq_false_iff_not]
    norm_num [Fmt.pinf, FP64, FP32, FP16] at hmag ⊢
    omega

theorem key_subn_f32 : key FP32 EXP_SUBNORMAL_THRESHOLD_F32 = -0x42aeac4f := by decide!

theorem key_ninf_f32 : key FP32 0xff800000 = -0x7f800000 := by decide!

theorem vexp_f32m1_subnormal_range (x : Nat) (hn : isNaN FP32 x = false)
    (h1 : key FP32 EXP_ZERO_THRESHOLD_F32 ≤ key FP32 x)
    (h2 : key FP32 x < key FP32 EXP_SUBNORMAL_THRESHOLD_F32) :
    __riscv_vexp_f32m1 x = exp_after_exponent .f32 (subnormal_path .f32
      (exp_before_exponent .f32 x).2.1 (exp_before_exponent .f32 x).2.2) := by
  have hm : (vmfeq FP32 x 0x7f800000 ||
      (vmfgt FP32 x EXP_EXPM1_OVERFLOW_THRESHOLD_F32 && vmflt FP32 x 0x7f800000)) = false :=
    special_mask_of_neg (by rw [key_subn_f32] at h2; omega) (by rw [key_pinf_f32]; omega)
      (by rw [key_ovf_f32]; omega)
  have hu : vmflt FP32 x EXP_ZERO_THRESHOLD_F32 = false := vmflt_false_of_key h1
  have hs1 : vmfgt FP32 x 0xff800000 = true :=
    vmflt_of_key (by decide) hn (by rw [key_ninf_f32]; rw [key_zthr_f32] at h1; omega)
  have hs2 : vmflt FP32 x EXP_SUBNORMAL_THRESHOLD_F32 = true := vmflt_of_key hn (by decide) h2
  unfold __riscv_vexp_f32m1
  simp only [exp_before_exponent, subnormal_path, exp_after_exponent,
    check_special_cases_f32m1_eq, hm, vmerge_vvm,
    update_underflow_f32m1, reconstruct_exp_hl_hl_f32m1, update_exponent_with_subnormal_f32m1,
    vfmerge_vfm, hu, hs1, hs2, Bool.and_self, if_true, Bool.false_eq_true, if_false]

theorem subnormal_path_f32_fields (ei res : Nat) :
    exp_after_exponent .f32 (subnormal_path .f32 ei res) &&& 0x7f800000 = 0 ∧
    expField FP32 (exp_after_exponent .f32 (subnormal_path .f32 ei res)) = 0 ∧
    isNaN FP32 (exp_after_exponent .f32 (subnormal_path .f32 ei res)) = false ∧
    isInf FP32 (exp_after_exponent .f32 (subnormal_path .f32 ei res)) = false := by
  have h0 : exp_after_exponent .f32 (subnormal_path .f32 ei res) &&& 0x7f800000 = 0 := by
    simp only [exp_after_exponent, subnormal_path, vand, Nat.and_assoc]
    exact Nat.and_zero _
  have he : expField FP32 (exp_after_exponent .f32 (subnormal_path .f32 ei res)) = 0 :=
    expField_of_and_zero h0
  have hmag := mag_lt_of_expField_zero he
  refine ⟨h0, he, ?_, ?_⟩
  · simp only [isNaN, decide_eq_false_iff_not]
    norm_num [Fmt.pinf, FP64, FP32, FP16] at hmag ⊢
    omega
  · simp only [isInf, decide_eq_false_iff_not]
    norm_num [Fmt.pinf, FP64, FP32, FP16] at hmag ⊢
    omega

theorem key_subn_f16 : key FP16 EXP_SUBNORMAL_THRESHOLD_F16 = -0x48da := by decide!

theorem key_ninf_f16 : key FP16 0xfc00 = -0x7c00 := by decide!

theorem vexp_f16m1_subnormal_range (x : Nat) (hn : isNaN FP16 x = false)
    (h1 : key FP16 EXP_ZERO_THRESHOLD_F16 ≤ key FP16 x)
    (h2 : key FP16 x < key FP16 EXP_SUBNORMAL_THRESHOLD_F16) :
    __riscv_vexp_f16m1 x = exp_after_exponent .f16 (subnormal_path .f16
      (exp_before_exponent .f16 x).2.1 (exp_before_exponent .f16 x).2.2) := by
  have hm : (vmfeq FP16 x 0x7c00 ||
      (vmfgt FP16 x EXP_EXPM1_OVERFLOW_THRESHOLD_F16 && vmflt FP16 x 0x7c00)) = false :=
    special_mask_of_neg (by rw [key_subn_f16] at h2; omega) (by rw [key_pinf_f16]; omega)
      (by rw [key_ovf_f16]; omega)
  have hu : vmflt FP16 x EXP_ZERO_THRESHOLD_F16 = false := vmflt_false_of_key h1
  have hs1 : vmfgt FP16 x 0xfc00 = true :=
    vmflt_of_key (by decide) hn (by rw [key_ninf_f16]; rw [key_zthr_f16] at h1; omega)
  have hs2 : vmflt FP16 x EXP_SUBNORMAL_THRESHOLD_F16 = true := vmflt_of_key hn (by decide) h2
  unfold __riscv_vexp_f16m1
  simp only [exp_before_exponent, subnormal_path, exp_after_exponent,
    check_special_cases_f16m1_eq, hm, vmerge_vvm,
    update_underflow_f16m1, reconstruct_exp_hl_hl_f16m1, update_exponent_with_subnormal_f16m1,
    vfmerge_vfm, hu, hs1, hs2, Bool.and_self, if_true, Bool.false_eq_true, if_false]

theorem subnormal_path_f16_fields (ei res : Nat) :
    exp_after_exponent .f16 (subnormal_path .f16 ei res) &&& 0x7c00 = 0 ∧
    expField FP16 (exp_after_exponent .f16 (subnormal_path .f16 ei res)) = 0 ∧
    isNaN FP16 (exp_after_exponent .f16 (subnormal_path .f16 ei res)) = false ∧
    isInf FP16 (exp_after_exponent .f16 (subnormal_path .f16 ei res)) = false := by
  have h0 : exp_after_exponent .f16 (subnormal_path .f16 ei res) &&& 0x7c00 = 0 := by
    simp only [exp_after_exponent, subnormal_path, set_pos_sign_f16m1, vand, Nat.and_assoc]
    exact Nat.and_zero _
  have he : expField FP16 (exp_after_exponent .f16 (subnormal_path .f16 ei res)) = 0 :=
    expField_of_and_zero h0
  have hmag := mag_lt_of_expField_zero he
  refine ⟨h0, he, ?_, ?_⟩
  · simp only [isNaN, decide_eq_false_iff_not]
    norm_num [Fmt.pinf, FP64, FP32, FP16] at hmag ⊢
    omega
  · simp only [isInf, decide_eq_false_iff_not]
    norm_num [Fmt.pinf, FP64, FP32, FP16] at hmag ⊢
    omega

theorem update_exponent_with_subnormal_f64m1_plain (thr x ei res : Nat)
    (h : vmflt FP64 x thr = false) :
    update_exponent_with_subnormal_f64m1 thr x ei res = update_exponent_f64m1 ei res := by
  simp only [update_exponent_with_subnormal_f64m1, h, Bool.and_false, vmerge_vvm,
    Bool.false_eq_true, if_false]

theorem exp_before_exponent_f64_not_below (x : Nat)
    (h : key FP64 EXP_SUBNORMAL_THRESHOLD_F64 ≤ key FP64 x) :
    vmflt FP64 (exp_before_exponent .f64 x).1 EXP_SUBNORMAL_THRESHOLD_F64 = false := by
  simp only [exp_before_exponent, check_special_cases_f64m1_eq]
  split
  · exact vmflt_false_of_key (by rw [key_subn_f64]; decide)
  · exact vmflt_false_of_key h

theorem vexp_f64m1_plain_range (x : Nat)
    (h1 : key FP64 EXP_SUBNORMAL_THRESHOLD_F64 ≤ key FP64 x)
    (h2 : key FP64 x ≤ key FP64 EXP_EXPM1_OVERFLOW_THRESHOLD_F64) :
    __riscv_vexp_f64m1 x = exp_after_exponent .f64 (update_exponent_f64m1
      (exp_before_exponent .f64 x).2.1 (exp_before_exponent .f64 x).2.2) := by
  have e1 : vmfeq FP64 x 0x7ff0000000000000 = false :=
    vmfeq_false_of_key (by rw [key_pinf_f64]; rw [key_ovf_f64] at h2; omega)
  have e2 : vmfgt FP64 x EXP_EXPM1_OVERFLOW_THRESHOLD_F64 = false := vmflt_false_of_key h2
  have hm : (vmfeq FP64 x 0x7ff0000000000000 ||
      (vmfgt FP64 x EXP_EXPM1_OVERFLOW_THRESHOLD_F64 && vmflt FP64 x 0x7ff0000000000000)) = false := by
    rw [e1, e2]; rfl
  have hu : vmflt FP64 x EXP_ZERO_THRESHOLD_F64 = false :=
    vmflt_false_of_key (by rw [key_zthr_f64]; rw [key_subn_f64] at h1; omega)
  have hs2 : vmflt FP64 x EXP_SUBNORMAL_THRESHOLD_F64 = false := vmflt_false_of_key h1
  unfold __riscv_vexp_f64m1
  simp only [exp_before_exponent, exp_after_exponent,
    check_special_cases_f64m1_eq, hm, vmerge_vvm,
    update_underflow_f64m1, reconstruct_exp_hl_hl_f64m1, update_exponent_with_subnormal_f64m1,
    vfmerge_vfm, hu, hs2, Bool.and_false, if_true, Bool.false_eq_true, if_false]

theorem update_exponent_with_subnormal_f32m1_plain (thr x ei res : Nat)
    (h : vmflt FP32 x thr = false) :
    update_exponent_with_subnormal_f32m1 thr x ei res = update_exponent_f32m1 ei res := by
  simp only [update_exponent_with_subnormal_f32m1, h, Bool.and_false, vmerge_vvm,
    Bool.false_eq_true, if_false]

theorem exp_before_exponent_f32_not_below (x : Nat)
    (h : key FP32 EXP_SUBNORMAL_THRESHOLD_F32 ≤ key FP32 x) :
    vmflt FP32 (exp_before_exponent .f32 x).1 EXP_SUBNORMAL_THRESHOLD_F32 = false := by
  simp only [exp_before_exponent, check_special_cases_f32m1_eq]
  split
  · exact vmflt_false_of_key (by rw [key_subn_f32]; decide)
  · exact vmflt_false_of_key h

theorem vexp_f32m1_plain_range (x : Nat)
    (h1 : key FP32 EXP_SUBNORMAL_THRESHOLD_F32 ≤ key FP32 x)
    (h2 : key FP32 x ≤ key FP32 EXP_EXPM1_OVERFLOW_THRESHOLD_F32) :
    __riscv_vexp_f32m1 x = exp_after_exponent .f32 (update_exponent_f32m1
      (exp_before_exponent .f32 x).2.1 (exp_before_exponent .f32 x).2.2) := by
  have e1 : vmfeq FP32 x 0x7f800000 = false :=
    vmfeq_false_of_key (by rw [key_pinf_f32]; rw [key_ovf_f32] at h2; omega)
  have e2 : vmfgt FP32 x EXP_EXPM1_OVERFLOW_THRESHOLD_F32 = false := vmflt_false_of_key h2
  have hm : (vmfeq FP32 x 0x7f800000 ||
      (vmfgt FP32 x EXP_EXPM1_OVERFLOW_THRESHOLD_F32 && vmflt FP32 x 0x7f800000)) = false := by
    rw [e1, e2]; rfl
  have hu : vmflt FP32 x EXP_ZERO_THRESHOLD_F32 = false :=
    vmflt_false_of_key (by rw [key_zthr_f32]; rw [key_subn_f32] at h1; omega)
  have hs2 : vmflt FP32 x EXP_SUBNORMAL_THRESHOLD_F32 = false := vmflt_false_of_key h1
  unfold __riscv_vexp_f32m1
  simp only [exp_before_exponent, exp_after_exponent,
    check_special_cases_f32m1_eq, hm, vmerge_vvm,
    update_underflow_f32m1, reconstruct_exp_hl_hl_f32m1, update_exponent_with_subnormal_f32m1,
    vfmerge_vfm, hu, hs2, Bool.and_false, if_true, Bool.false_eq_true, if_false]

theorem update_exponent_with_subnormal_f16m1_plain (thr x ei res : Nat)
    (h : vmflt FP16 x thr = false) :
    update_exponent_with_subnormal_f16m1 thr x ei res = update_exponent_f16m1 ei res := by
  simp only [update_exponent_with_subnormal_f16m1, h, Bool.and_false, vmerge_vvm,
    Bool.false_eq_true, if_false]

theorem exp_before_exponent_f16_not_below (x : Nat)
    (h : key FP16 EXP_SUBNORMAL_THRESHOLD_F16 ≤ key FP16 x) :
    vmflt FP16 (exp_before_exponent .f16 x).1 EXP_SUBNORMAL_THRESHOLD_F16 = false := by
  simp only [exp_before_exponent, check_special_cases_f16m1_eq]
  split
  · exact vmflt_false_of_key (by rw [key_subn_f16]; decide)
  · exact vmflt_false_of_key h

theorem vexp_f16m1_plain_range (x : Nat)
    (h1 : key FP16 EXP_SUBNORMAL_THRESHOLD_F16 ≤ key FP16 x)
    (h2 : key FP16 x ≤ key FP16 EXP_EXPM1_OVERFLOW_THRESHOLD_F16) :
    __riscv_vexp_f16m1 x = exp_after_exponent .f16 (update_exponent_f16m1
      (exp_before_exponent .f16 x).2.1 (exp_before_exponent .f16 x).2.2) := by
  have e1 : vmfeq FP16 x 0x7c00 = false :=
    vmfeq_false_of_key (by rw [key_pinf_f16]; rw [key_ovf_f16] at h2; omega)
  have e2 : vmfgt FP16 x EXP_EXPM1_OVERFLOW_THRESHOLD_F16 = false := vmflt_false_of_key h2
  have hm : (vmfeq FP16 x 0x7c00 ||
      (vmfgt FP16 x EXP_EXPM1_OVERFLOW_THRESHOLD_F16 && vmflt FP16 x 0x7c00)) = false := by
    rw [e1, e2]; rfl
  have hu : vmflt FP16 x EXP_ZERO_THRESHOLD_F16 = false :=
    vmflt_false_of_key (by rw [key_zthr_f16]; rw [key_subn_f16] at h1; omega)
  have hs2 : vmflt FP16 x EXP_SUBNORMAL_THRESHOLD_F16 = false := vmflt_false_of_key h1
  unfold __riscv_vexp_f16m1
  simp only [exp_before_exponent, exp_after_exponent,
    check_special_cases_f16m1_eq, hm, vmerge_vvm,
    update_underflow_f16m1, reconstruct_exp_hl_hl_f16m1, update_exponent_with_subnormal_f16m1,
    vfmerge_vfm, hu, hs2, Bool.and_false, if_true, Bool.false_eq_true, if_false]

/-- C20: in every width, for a non-NaN lane `x` with
`EXP_ZERO_THRESHOLD <= x < EXP_SUBNORMAL_THRESHOLD` the value returned by
`__riscv_vexp_*` is the `subnormalRes` value of
`update_exponent_with_subnormal_*` (with the sign bit cleared in f16), its
exponent field is all zero (`bits AND 0x7ff0000000000000 / 0x7f800000 / 0x7c00
= 0`) and it is neither a NaN nor an infinity; for a lane with
`x >= EXP_SUBNORMAL_THRESHOLD` the merge inside
`update_exponent_with_subnormal_*` takes the value of `update_exponent_*`, and
that value (sign bit cleared in f16) is what `__riscv_vexp_*` returns when `x`
is not above the overflow threshold. -/
theorem exp_subnormal_range_has_zero_exponent_field (w : Width) (x : Nat)
    (hn : isNaN w.fmt x = false) :
    (key w.fmt (EXP_ZERO_THRESHOLD w) ≤ key w.fmt x →
      key w.fmt x < key w.fmt (EXP_SUBNORMAL_THRESHOLD w) →
      vexp w x = exp_after_exponent w (subnormal_path w (exp_before_exponent w x).2.1
        (exp_before_exponent w x).2.2) ∧
      vexp w x &&& w.fmt.pinf = 0 ∧
      expField w.fmt (vexp w x) = 0 ∧
      isNaN w.fmt (vexp w x) = false ∧ isInf w.fmt (vexp w x) = false) ∧
    (key w.fmt (EXP_SUBNORMAL_THRESHOLD w) ≤ key w.fmt x →
      update_exponent_with_subnormal w (EXP_SUBNORMAL_THRESHOLD w) (exp_before_exponent w x).1
          (exp_before_exponent w x).2.1 (exp_before_exponent w x).2.2 =
        update_exponent w (exp_before_exponent w x).2.1 (exp_before_exponent w x).2.2 ∧
      (key w.fmt x ≤ key w.fmt (EXP_EXPM1_OVERFLOW_THRESHOLD w) →
        vexp w x = exp_after_exponent w (update_exponent w (exp_before_exponent w x).2.1
          (exp_before_exponent w x).2.2))) ∧
    (FP64.pinf = 0x7ff0000000000000 ∧ FP32.pinf = 0x7f800000 ∧ FP16.pinf = 0x7c00) := by
  refine ⟨?_, ?_, by decide⟩
  · intro h1 h2
    cases w
    · have e : vexp .f64 x = exp_after_exponent .f64 (subnormal_path .f64
          (exp_before_exponent .f64 x).2.1 (exp_before_exponent .f64 x).2.2) :=
        vexp_f64m1_subnormal_range x hn h1 h2
      rw [e]
      exact ⟨rfl, subnormal_path_f64_fields (exp_before_exponent .f64 x).2.1
        (exp_before_exponent .f64 x).2.2⟩
    · have e : vexp .f32 x = exp_after_exponent .f32 (subnormal_path .f32
          (exp_before_exponent .f32 x).2.1 (exp_before_exponent .f32 x).2.2) :=
        vexp_f32m1_subnormal_range x hn h1 h2
      rw [e]
      exact ⟨rfl, subnormal_path_f32_fields (exp_before_exponent .f32 x).2.1
        (exp_before_exponent .f32 x).2.2⟩
    · have e : vexp .f16 x = exp_after_exponent .f16 (subnormal_path .f16
          (exp_before_exponent .f16 x).2.1 (exp_before_exponent .f16 x).2.2) :=
        vexp_f16m1_subnormal_range x hn h1 h2
      rw [e]
      exact ⟨rfl, subnormal_path_f16_fields (exp_before_exponent .f16 x).2.1
        (exp_before_exponent .f16 x).2.2⟩
  · intro h1
    cases w
    · exact ⟨update_exponent_with_subnormal_f64m1_plain _ _ _ _
        (exp_before_exponent_f64_not_below x h1), fun h2 => vexp_f64m1_plain_range x h1 h2⟩
    · exact ⟨update_exponent_with_subnormal_f32m1_plain _ _ _ _
        (exp_before_exponent_f32_not_below x h1), fun h2 => vexp_f32m1_plain_range x h1 h2⟩
    · exact ⟨update_exponent_with_subnormal_f16m1_plain _ _ _ _
        (exp_before_exponent_f16_not_below x h1), fun h2 => vexp_f16m1_plain_range x h1 h2⟩

theorem exp_subnormal_range_has_zero_exponent_field_witness :
    vexp .f64 0xc086300000000000 &&& Width.f64.fmt.pinf = 0 ∧
    vexp .f64 0x3ff0000000000000 = exp_after_exponent .f64 (update_exponent .f64
      (exp_before_exponent .f64 0x3ff0000000000000).2.1
      (exp_before_exponent .f64 0x3ff0000000000000).2.2) :=
  ⟨((exp_subnormal_range_has_zero_exponent_field .f64 0xc086300000000000 (by decide!)).1
      (by decide!) (by decide!)).2.1,
   ((exp_subnormal_range_has_zero_exponent_field .f64 0x3ff0000000000000 (by decide!)).2.1
      (by decide!)).2 (by decide!)⟩

theorem kernel_m8_lane (lane : Nat → Nat) (VLMAX : Nat) (x : Nat → Nat) (avl i : Nat) :
    kernel_m8 (kernel_m4 lane VLMAX) VLMAX x avl i =
      if i < avl ∧ i < 2 * VLMAX then some (lane (x i)) else none := by
  unfold kernel_m8 kernel_m4 vset_m4_m8 vget_m8_m4 vsetvl_m4
  simp only [Nat.zero_mul, Nat.zero_add, Nat.one_mul, Nat.sub_zero, Nat.zero_le, true_and,
    Nat.min_self, Nat.min_assoc]
  by_cases h1 : avl > min avl VLMAX
  · rw [if_pos h1]
    have hv : VLMAX < avl := by
      rcases Nat.le_total avl VLMAX with h | h
      · rw [Nat.min_eq_left h] at h1; omega
      · rw [Nat.min_eq_right h] at h1; exact h1
    have hm : min avl VLMAX = VLMAX := Nat.min_eq_right (Nat.le_of_lt hv)
    simp only [hm]
    by_cases h2 : VLMAX ≤ i ∧ i < (1 + 1) * VLMAX
    · rw [if_pos h2]
      have e : VLMAX + (i - VLMAX) = i := by omega
      rw [e]
      by_cases h3 : i - VLMAX < min (avl - VLMAX) VLMAX
      · rw [if_pos h3, if_pos]
        constructor
        · have := Nat.min_le_left (avl - VLMAX) VLMAX; omega
        · omega
      · rw [if_neg h3, if_neg]
        intro h4
        apply h3
        rw [Nat.lt_min]; omega
    · rw [if_neg h2]
      by_cases h3 : i < VLMAX
      · rw [if_pos h3, if_pos h3, if_pos]; omega
      · rw [if_neg h3, if_neg]; omega
  · rw [if_neg h1]
    have hv : avl ≤ VLMAX := by
      rcases Nat.le_total avl VLMAX with h | h
      · exact h
      · rw [Nat.min_eq_right h] at h1; omega
    have hm : min avl VLMAX = avl := Nat.min_eq_left hv
    simp only [hm]
    by_cases h3 : i < VLMAX
    · rw [if_pos h3]
      by_cases h4 : i < avl
      · rw [if_pos h4, if_pos]; omega
      · rw [if_neg h4, if_neg]; omega
    · rw [if_neg h3, if_neg]; omega

theorem kernel_m4_lane (lane : Nat → Nat) (VLMAX : Nat) (x : Nat → Nat) (avl i : Nat) :
    kernel_m4 lane VLMAX x avl i = if i < min avl VLMAX then some (lane (x i)) else none := rfl

theorem family_m8_eq (tab : List Nat) (fam : Family) (w : Width) (VLMAX : Nat) :
    Family.m8 tab fam w VLMAX = kernel_m8 (kernel_m4 (Family.lane tab fam w) VLMAX) VLMAX := by
  cases fam <;> cases w <;> rfl

theorem family_m4_eq (tab : List Nat) (fam : Family) (w : Width) (VLMAX : Nat) :
    Family.m4 tab fam w VLMAX = kernel_m4 (Family.lane tab fam w) VLMAX := by
  cases fam <;> cases w <;> rfl

/-- C11: with `vsetvl_e*m4(n) = min(n, VLMAX)`, for every `avl <= 2 * VLMAX`
and every lane `i < avl`, lane `i` of every `m8` kernel (`exp`, `expm1`,
`tanh`, `round`, in each width) is the lane function applied to input element
`i`, which is the lane the `m4` kernel computes for that element: the low half
is the `m4` kernel on half 0 with active length `min(avl, VLMAX)`, the high
half is the `m4` kernel on half 1 with active length `avl - VLMAX` when
`avl > VLMAX`, and stays unwritten when `avl <= VLMAX`. -/
theorem m8_kernel_is_two_m4_halves (tab : List Nat) (fam : Family) (w : Width)
    (VLMAX avl : Nat) (x : Nat → Nat) (h : avl ≤ 2 * VLMAX) :
    (∀ i, i < avl → Family.m8 tab fam w VLMAX x avl i = some (Family.lane tab fam w (x i))) ∧
    (∀ i, i < VLMAX → Family.m8 tab fam w VLMAX x avl i =
      Family.m4 tab fam w VLMAX (vget_m8_m4 VLMAX x 0) (min avl VLMAX) i) ∧
    (VLMAX < avl → ∀ i, i < VLMAX → Family.m8 tab fam w VLMAX x avl (VLMAX + i) =
      Family.m4 tab fam w VLMAX (vget_m8_m4 VLMAX x 1) (avl - VLMAX) i) ∧
    (avl ≤ VLMAX → ∀ i, VLMAX ≤ i → Family.m8 tab fam w VLMAX x avl i = none) := by
  rw [family_m8_eq, family_m4_eq]
  refine ⟨?_, ?_, ?_, ?_⟩
  · intro i hi
    rw [kernel_m8_lane, if_pos]; omega
  · intro i hi
    rw [kernel_m8_lane, kernel_m4_lane]
    simp only [vget_m8_m4, Nat.zero_mul, Nat.zero_add, Nat.min_self, Nat.min_assoc]
    by_cases h1 : i < avl
    · rw [if_pos, if_pos]
      · rw [Nat.lt_min]; omega
      · omega
    · rw [if_neg, if_neg]
      · rw [Nat.lt_min]; omega
      · omega
  · intro hv i hi
    rw [kernel_m8_lane, kernel_m4_lane]
    simp only [vget_m8_m4, Nat.one_mul]
    by_cases h1 : VLMAX + i < avl
    · rw [if_pos, if_pos]
      · rw [Nat.lt_min]; omega
      · omega
    · rw [if_neg, if_neg]
      · rw [Nat.lt_min]; omega
      · omega
  · intro hv i hi
    rw [kernel_m8_lane, if_neg]; omega

theorem m8_kernel_is_two_m4_halves_witness :
    Family.m8 [] .round .f64 4 (fun i => 0x3ff8000000000000 + i) 6 5 =
      some (Family.lane [] .round .f64 ((fun i => 0x3ff8000000000000 + i) 5)) :=
  (m8_kernel_is_two_m4_halves [] .round .f64 4 6 (fun i => 0x3ff8000000000000 + i)
    (by decide)).1 5 (by decide)

/-! ## Rounding lemmas -/

theorem ilog2_of_bounds {N l : Nat} (h1 : 2 ^ l ≤ N) (h2 : N < 2 ^ (l + 1))
    (h3 : l + 1 ≤ 2 ^ 13) : ilog2 N = l := by
  have h0 : 0 < N := lt_of_lt_of_le (by positivity) h1
  have hb : N < 2 ^ 2 ^ 13 := lt_of_lt_of_le h2 (Nat.pow_le_pow_right (by norm_num) h3)
  rw [ilog2_eq_log N h0 hb]
  exact Nat.log_eq_of_pow_le_of_lt_pow h1 h2

theorem rne_zero (N : Nat) : rne N 0 = N := by simp [rne]

theorem rne_succ (N d : Nat) :
    rne N (d + 1) =
      if 2 ^ d < N % 2 ^ (d + 1) ∨ (N % 2 ^ (d + 1) = 2 ^ d ∧ N / 2 ^ (d + 1) % 2 = 1)
      then N / 2 ^ (d + 1) + 1 else N / 2 ^ (d + 1) := by
  simp [rne, Nat.shiftRight_eq_div_pow]

/-- The value `rne N d` is a nearest multiple of `2 ^ d`, the even one at a tie. -/
theorem rne_spec (N d : Nat) :
    2 * N ≤ 2 * (rne N d * 2 ^ d) + 2 ^ d ∧ 2 * (rne N d * 2 ^ d) ≤ 2 * N + 2 ^ d ∧
    (2 * (rne N d * 2 ^ d) = 2 * N + 2 ^ d → rne N d % 2 = 0) ∧
    (2 * N = 2 * (rne N d * 2 ^ d) + 2 ^ d → rne N d % 2 = 0) := by
  cases d with
  | zero => rw [rne_zero]; simp
  | succ d =>
    rw [rne_succ]
    have hD : 2 ^ (d + 1) = 2 * 2 ^ d := by rw [pow_succ]; ring
    have hpos : 0 < 2 ^ d := by positivity
    have hdm := Nat.div_add_mod N (2 ^ (d + 1))
    have hlt := Nat.mod_lt N (show 0 < 2 ^ (d + 1) by positivity)
    generalize N / 2 ^ (d + 1) = q at *
    generalize N % 2 ^ (d + 1) = r at *
    rw [hD] at hdm hlt ⊢
    generalize 2 ^ d = h at *
    have e1 : (q + 1) * (2 * h) = 2 * h * q + 2 * h := by ring
    have e2 : q * (2 * h) = 2 * h * q := by ring
    split
    · rename_i hc
      rw [e1]
      generalize 2 * h * q = qD at *
      refine ⟨by omega, by omega, ?_, ?_⟩
      · intro he
        rcases hc with hc | hc
        · omega
        · omega
      · intro he; omega
    · rename_i hc
      rw [e2]
      generalize 2 * h * q = qD at *
      have hc1 : ¬ h < r := fun x => hc (Or.inl x)
      refine ⟨by omega, by omega, ?_, ?_⟩
      · intro he; omega
      · intro he
        have hr : r = h := by omega
        have : ¬ q % 2 = 1 := fun x => hc (Or.inr ⟨hr, x⟩)
        omega

theorem rne_mul (a d : Nat) : rne (a * 2 ^ d) d = a := by
  cases d with
  | zero => simp [rne_zero]
  | succ d =>
    rw [rne_succ]
    have hpos : 0 < 2 ^ (d + 1) := by positivity
    rw [Nat.mul_mod_left, Nat.mul_div_cancel _ hpos]
    have : 0 < 2 ^ d := by positivity
    rw [if_neg]
    rintro (h | ⟨h, _⟩) <;> omega

theorem rne_add_mul (A a d : Nat) (hA : A % 2 = 0) : rne (A * 2 ^ d + a) d = A + rne a d := by
  cases d with
  | zero => simp [rne_zero]
  | succ d =>
    rw [rne_succ, rne_succ]
    have hpos : 0 < 2 ^ (d + 1) := by positivity
    have e1 : (A * 2 ^ (d + 1) + a) % 2 ^ (d + 1) = a % 2 ^ (d + 1) := by
      rw [Nat.add_comm, Nat.add_mul_mod_self_right]
    have e2 : (A * 2 ^ (d + 1) + a) / 2 ^ (d + 1) = A + a / 2 ^ (d + 1) := by
      rw [Nat.add_comm, Nat.add_mul_div_right _ _ hpos, Nat.add_comm]
    rw [e1, e2]
    have e3 : (A + a / 2 ^ (d + 1)) % 2 = a / 2 ^ (d + 1) % 2 := by omega
    rw [e3]
    split <;> omega

theorem rne_le_of_le {a d c : Nat} (h : a ≤ c * 2 ^ d) : rne a d ≤ c := by
  have hs := (rne_spec a d).2.1
  by_contra hc
  have h1 : c + 1 ≤ rne a d := by omega
  have h2 := Nat.mul_le_mul_right (2 ^ d) h1
  have hpos : 0 < 2 ^ d := by positivity
  have e : (c + 1) * 2 ^ d = c * 2 ^ d + 2 ^ d := by ring
  rw [e] at h2
  omega

theorem le_rne_of_le {a d c : Nat} (h : c * 2 ^ d ≤ a) : c ≤ rne a d := by
  have hs := (rne_spec a d).1
  by_contra hc
  have h1 : rne a d + 1 ≤ c := by omega
  have h2 := Nat.mul_le_mul_right (2 ^ d) h1
  have hpos : 0 < 2 ^ d := by positivity
  have e : (rne a d + 1) * 2 ^ d = rne a d * 2 ^ d + 2 ^ d := by ring
  rw [e] at h2
  omega

/-! ## Packing and unpacking of the fields -/

theorem fields_of_pack (F : Fmt) {E m : Nat} (hE : E < 2 ^ F.eb) (hm : m < 2 ^ F.mb) :
    expField F (E * 2 ^ F.mb + m) = E ∧ manField F (E * 2 ^ F.mb + m) = m ∧
    E * 2 ^ F.mb + m < 2 ^ (F.eb + F.mb) := by
  have hpos : 0 < 2 ^ F.mb := by positivity
  refine ⟨?_, ?_, ?_⟩
  · unfold expField
    rw [Nat.add_comm, Nat.add_mul_div_right _ _ hpos, Nat.div_eq_of_lt hm, Nat.zero_add,
      Nat.mod_eq_of_lt hE]
  · unfold manField
    rw [Nat.add_comm, Nat.add_mul_mod_self_right, Nat.mod_eq_of_lt hm]
  · have h1 : (E + 1) * 2 ^ F.mb ≤ 2 ^ F.eb * 2 ^ F.mb := Nat.mul_le_mul_right _ hE
    rw [Nat.add_mul, Nat.one_mul, ← Nat.pow_add] at h1
    omega

theorem natOf_pack (F : Fmt) {E m : Nat} (hE : E < 2 ^ F.eb) (hm : m < 2 ^ F.mb) :
    natOf F (E * 2 ^ F.mb + m) = if E = 0 then m else (2 ^ F.mb + m) * 2 ^ (E - 1) := by
  obtain ⟨h1, h2, _⟩ := fields_of_pack F hE hm
  unfold natOf
  rw [h1, h2]

theorem expField_magOf (F : Fmt) (x : Nat) : expField F (magOf F x) = expField F x := by
  unfold expField magOf
  rw [Nat.add_comm, Nat.pow_add, Nat.mod_mul_right_div_self, Nat.mod_mod]

theorem manField_magOf (F : Fmt) (x : Nat) : manField F (magOf F x) = manField F x := by
  unfold manField magOf
  rw [Nat.pow_add]
  exact Nat.mod_mul_left_mod x (2 ^ F.eb) (2 ^ F.mb)

theorem natOf_magOf (F : Fmt) (x : Nat) : natOf F (magOf F x) = natOf F x := by
  unfold natOf
  rw [expField_magOf, manField_magOf]

theorem magOf_decomp (F : Fmt) (x : Nat) :
    magOf F x = expField F x * 2 ^ F.mb + manField F x := by
  unfold magOf expField manField
  rw [Nat.add_comm F.eb, Nat.pow_add, Nat.mod_mul, Nat.mul_comm, Nat.add_comm]

theorem expField_lt (F : Fmt) (x : Nat) : expField F x < 2 ^ F.eb :=
  Nat.mod_lt _ (by positivity)

theorem manField_lt (F : Fmt) (x : Nat) : manField F x < 2 ^ F.mb :=
  Nat.mod_lt _ (by positivity)

theorem sign_mag_of_pack (F : Fmt) (s : Bool) {b : Nat} (hb : b < 2 ^ (F.eb + F.mb)) :
    signOf F ((if s then F.signMask else 0) + b) = s ∧
    magOf F ((if s then F.signMask else 0) + b) = b ∧
    (if s then F.signMask else 0) + b < 2 ^ (F.eb + F.mb + 1) := by
  cases s
  · simp only [Bool.false_eq_true, if_false, Nat.zero_add]
    refine ⟨Nat.testBit_lt_two_pow hb, Nat.mod_eq_of_lt hb, ?_⟩
    rw [Nat.pow_succ]; omega
  · simp only [if_true, Fmt.signMask]
    refine ⟨?_, ?_, ?_⟩
    · unfold signOf
      rw [Nat.testBit_to_div_mod, Nat.add_comm, Nat.add_div_right _ (by positivity),
        Nat.div_eq_of_lt hb]
      rfl
    · unfold magOf
      rw [Nat.add_comm, Nat.add_mod_right, Nat.mod_eq_of_lt hb]
    · rw [Nat.pow_succ]; omega

theorem intOf_of_pack (F : Fmt) (s : Bool) {b : Nat} (hb : b < 2 ^ (F.eb + F.mb)) :
    intOf F ((if s then F.signMask else 0) + b) =
      if s then -(natOf F b : Int) else (natOf F b : Int) := by
  obtain ⟨h1, h2, _⟩ := sign_mag_of_pack F s hb
  unfold intOf
  rw [h1, ← natOf_magOf, h2]

/-! ## Rounding into a known binade -/

theorem roundPack_normal (F : Fmt) (s : Bool) {N sh l : Nat} (h1 : 2 ^ l ≤ N)
    (h2 : N < 2 ^ (l + 1)) (h3 : l + 1 ≤ 2 ^ 13) (h4 : sh + F.mb < l)
    (hov : (l - F.mb - sh) * 2 ^ F.mb + rne N (l - F.mb) < F.pinf) :
    roundPack F s N sh =
      (if s then F.signMask else 0) + ((l - F.mb - sh) * 2 ^ F.mb + rne N (l - F.mb)) := by
  unfold roundPack
  simp only [ilog2_of_bounds h1 h2 h3, if_neg (show ¬ l ≤ sh + F.mb by omega),
    if_neg (not_le.2 hov)]

theorem roundPack_small (F : Fmt) (s : Bool) {N sh l : Nat} (h1 : 2 ^ l ≤ N)
    (h2 : N < 2 ^ (l + 1)) (h3 : l + 1 ≤ 2 ^ 13) (h4 : l ≤ sh + F.mb)
    (hov : rne N sh < F.pinf) :
    roundPack F s N sh = (if s then F.signMask else 0) + rne N sh := by
  unfold roundPack
  simp only [ilog2_of_bounds h1 h2 h3, if_pos h4, if_neg (not_le.2 hov)]

theorem pinf_lt (F : Fmt) : F.pinf < 2 ^ (F.eb + F.mb) := by
  unfold Fmt.pinf
  have h : 0 < 2 ^ F.eb := by positivity
  have h2 : 0 < 2 ^ F.mb := by positivity
  rw [Nat.pow_add, Nat.sub_mul, Nat.one_mul]
  have : 2 ^ F.mb ≤ 2 ^ F.eb * 2 ^ F.mb := Nat.le_mul_of_pos_left _ h
  omega

/-- A positive number that needs at most `mb + 1` significant bits and whose
exponent is in range is its own rounding: the result has that magnitude and
the requested sign. -/
theorem roundPack_exact (F : Fmt) (heb : 2 < 2 ^ F.eb) (s : Bool) {N l : Nat} (h1 : 2 ^ l ≤ N)
    (h2 : N < 2 ^ (l + 1)) (h3 : l + 1 ≤ 2 ^ 13) (hdiv : 2 ^ (l - F.mb) ∣ N)
    (hov : l + 2 < F.mb + 2 ^ F.eb) :
    natOf F (roundPack F s N 0) = N ∧ signOf F (roundPack F s N 0) = s ∧
    magOf F (roundPack F s N 0) < F.pinf ∧
    roundPack F s N 0 < 2 ^ (F.eb + F.mb + 1) ∧
    intOf F (roundPack F s N 0) = (if s then -(N : Int) else (N : Int)) := by
  have hpm : 0 < 2 ^ F.mb := by positivity
  -- the magnitude pattern
  have key : ∃ b, roundPack F s N 0 = (if s then F.signMask else 0) + b ∧ b < F.pinf ∧
      natOf F b = N := by
    rcases Nat.lt_or_ge F.mb l with hl | hl
    · -- above the second binade
      obtain ⟨c, hc⟩ := hdiv
      have hd : 0 < 2 ^ (l - F.mb) := by positivity
      have hc' : N = c * 2 ^ (l - F.mb) := by rw [hc, Nat.mul_comm]
      have hrn : rne N (l - F.mb) = c := by rw [hc', rne_mul]
      have el : 2 ^ l = 2 ^ F.mb * 2 ^ (l - F.mb) := by
        rw [← Nat.pow_add]; congr 1; omega
      have el1 : 2 ^ (l + 1) = 2 ^ (F.mb + 1) * 2 ^ (l - F.mb) := by
        rw [← Nat.pow_add]; congr 1; omega
      have hc1 : 2 ^ F.mb ≤ c := by
        rw [el, hc'] at h1
        exact Nat.le_of_mul_le_mul_right h1 hd
      have hc2 : c < 2 ^ (F.mb + 1) := by
        rw [el1, hc'] at h2
        exact Nat.lt_of_mul_lt_mul_right h2
      have hE : l - F.mb + 1 < 2 ^ F.eb := by omega
      have hm : c - 2 ^ F.mb < 2 ^ F.mb := by rw [Nat.pow_succ] at hc2; omega
      have eb : (l - F.mb - 0) * 2 ^ F.mb + rne N (l - F.mb) =
          (l - F.mb + 1) * 2 ^ F.mb + (c - 2 ^ F.mb) := by
        rw [hrn, Nat.sub_zero, Nat.add_mul, Nat.one_mul]; omega
      have hlt : (l - F.mb + 1) * 2 ^ F.mb + (c - 2 ^ F.mb) < F.pinf := by
        unfold Fmt.pinf
        have h5 : (l - F.mb + 2) * 2 ^ F.mb ≤ (2 ^ F.eb - 1) * 2 ^ F.mb :=
          Nat.mul_le_mul_right _ (by omega)
        have e5 : (l - F.mb + 2) * 2 ^ F.mb = (l - F.mb + 1) * 2 ^ F.mb + 2 ^ F.mb := by ring
        omega
      refine ⟨(l - F.mb + 1) * 2 ^ F.mb + (c - 2 ^ F.mb), ?_, hlt, ?_⟩
      · rw [roundPack_normal F s h1 h2 h3 (by omega) (by rw [eb]; exact hlt), eb]
      · rw [natOf_pack F hE hm, if_neg (by omega), hc']
        congr 1
        omega
    · -- at most `mb + 1` bits: the pattern is the number
      have hN : N < 2 ^ (F.mb + 1) :=
        lt_of_lt_of_le h2 (Nat.pow_le_pow_right (by norm_num) (by omega))
      have hpinf : 2 ^ (F.mb + 1) ≤ F.pinf := by
        unfold Fmt.pinf
        have h2e : 2 < 2 ^ F.eb := heb
        have : 2 * 2 ^ F.mb ≤ (2 ^ F.eb - 1) * 2 ^ F.mb := Nat.mul_le_mul_right _ (by omega)
        rw [Nat.pow_succ]; omega
      refine ⟨N, ?_, by omega, ?_⟩
      · rw [roundPack_small F s h1 h2 h3 (by omega) (by rw [rne_zero]; omega), rne_zero]
      · have h2e : 2 < 2 ^ F.eb := heb
        rcases Nat.lt_or_ge N (2 ^ F.mb) with hs | hs
        · have := natOf_pack F (E := 0) (m := N) (by omega) hs
          simpa using this
        · have hm : N - 2 ^ F.mb < 2 ^ F.mb := by rw [Nat.pow_succ] at hN; omega
          have := natOf_pack F (E := 1) (m := N - 2 ^ F.mb) (by omega) hm
          rw [Nat.one_mul, if_neg (by omega)] at this
          have e : 2 ^ F.mb + (N - 2 ^ F.mb) = N := by omega
          rw [e] at this
          simpa using this
  obtain ⟨b, hb1, hb2, hb3⟩ := key
  have hb4 : b < 2 ^ (F.eb + F.mb) := lt_trans hb2 (pinf_lt F)
  obtain ⟨g1, g2, g3⟩ := sign_mag_of_pack F s hb4
  rw [hb1]
  refine ⟨?_, g1, by rw [g2]; exact hb2, g3, ?_⟩
  · rw [← natOf_magOf, g2, hb3]
  · rw [intOf_of_pack F s hb4, hb3]

/-- Every number `c * 2 ^ k` with `c` of at most `mb + 1` bits and `k` in the
exponent range is representable: rounding returns it. -/
theorem roundPack_exact_mul (F : Fmt) (heb : 2 < 2 ^ F.eb) (s : Bool) {c k : Nat} (hc : 0 < c)
    (hc2 : c < 2 ^ (F.mb + 1)) (hk : k + 2 < 2 ^ F.eb) (hk2 : k + F.mb + 2 ≤ 2 ^ 13) :
    natOf F (roundPack F s (c * 2 ^ k) 0) = c * 2 ^ k ∧
    signOf F (roundPack F s (c * 2 ^ k) 0) = s ∧
    magOf F (roundPack F s (c * 2 ^ k) 0) < F.pinf ∧
    roundPack F s (c * 2 ^ k) 0 < 2 ^ (F.eb + F.mb + 1) ∧
    intOf F (roundPack F s (c * 2 ^ k) 0) =
      (if s then -((c * 2 ^ k : Nat) : Int) else ((c * 2 ^ k : Nat) : Int)) := by
  have hlo := Nat.pow_log_le_self 2 (Nat.pos_iff_ne_zero.1 hc)
  have hhi := Nat.lt_pow_succ_log_self (by norm_num : 1 < 2) c
  have hlog : Nat.log 2 c ≤ F.mb := by
    have := lt_of_le_of_lt hlo hc2
    have := (Nat.pow_lt_pow_iff_right (by norm_num : 1 < 2)).1 this
    omega
  have h1 : 2 ^ (Nat.log 2 c + k) ≤ c * 2 ^ k := by
    rw [Nat.pow_add]; exact Nat.mul_le_mul_right _ hlo
  have h2 : c * 2 ^ k < 2 ^ (Nat.log 2 c + k + 1) := by
    have e : 2 ^ (Nat.log 2 c + k + 1) = 2 ^ (Nat.log 2 c + 1) * 2 ^ k := by
      rw [← Nat.pow_add]; congr 1; omega
    rw [e]
    exact Nat.mul_lt_mul_of_pos_right hhi (by positivity)
  have hdiv : 2 ^ (Nat.log 2 c + k - F.mb) ∣ c * 2 ^ k :=
    Dvd.dvd.mul_left (Nat.pow_dvd_pow 2 (by omega)) c
  exact roundPack_exact F heb s h1 h2 (by omega) hdiv (by omega)

theorem isNaN_of_lt {F : Fmt} {a : Nat} (h : magOf F a < F.pinf) : isNaN F a = false := by
  simp only [isNaN, decide_eq_false_iff_not]; omega

theorem isInf_of_lt {F : Fmt} {a : Nat} (h : magOf F a < F.pinf) : isInf F a = false := by
  simp only [isInf, decide_eq_false_iff_not]; omega

/-- The sum of two finite lanes. -/
theorem vfadd_finite (F : Fmt) {a b : Nat} (ha : magOf F a < F.pinf) (hb : magOf F b < F.pinf) :
    vfadd F a b =
      if intOf F a + intOf F b = 0 then (if signOf F a && signOf F b then F.signMask else 0)
      else roundPack F (decide (intOf F a + intOf F b < 0)) (intOf F a + intOf F b).natAbs 0 := by
  unfold vfadd
  simp only [isNaN_of_lt ha, isNaN_of_lt hb, isInf_of_lt ha, isInf_of_lt hb, Bool.or_self,
    Bool.false_eq_true, if_false]

/-- The fused multiply-add of three finite lanes. -/
theorem vfmadd_finite (F : Fmt) {a b c : Nat} (ha : magOf F a < F.pinf)
    (hb : magOf F b < F.pinf) (hc : magOf F c < F.pinf) :
    vfmadd F a b c =
      if intOf F a * intOf F b + intOf F c * 2 ^ (F.bias + F.mb - 1) = 0 then
        (if (signOf F a != signOf F b) && signOf F c then F.signMask else 0)
      else roundPack F (decide (intOf F a * intOf F b + intOf F c * 2 ^ (F.bias + F.mb - 1) < 0))
        (intOf F a * intOf F b + intOf F c * 2 ^ (F.bias + F.mb - 1)).natAbs
        (F.bias + F.mb - 1) := by
  unfold vfmadd
  simp only [isNaN_of_lt ha, isNaN_of_lt hb, isNaN_of_lt hc, isInf_of_lt ha, isInf_of_lt hb,
    isInf_of_lt hc, Bool.or_self, Bool.false_eq_true, if_false]

theorem magOf_neg (F : Fmt) (a : Nat) : magOf F (vfneg_v F a) = magOf F a := by
  unfold magOf vfneg_v Fmt.signMask
  apply Nat.eq_of_testBit_eq
  intro i
  simp only [Nat.testBit_mod_two_pow, Nat.testBit_xor, Nat.testBit_two_pow]
  by_cases h : i < F.eb + F.mb
  · have : ¬ (F.eb + F.mb = i) := by omega
    simp [h, this]
  · simp [h]

theorem signOf_neg (F : Fmt) (a : Nat) : signOf F (vfneg_v F a) = !signOf F a := by
  unfold signOf vfneg_v Fmt.signMask
  simp [Nat.testBit_xor, Nat.testBit_two_pow]

theorem natOf_neg (F : Fmt) (a : Nat) : natOf F (vfneg_v F a) = natOf F a := by
  rw [← natOf_magOf, magOf_neg, natOf_magOf]

theorem intOf_neg (F : Fmt) (a : Nat) : intOf F (vfneg_v F a) = -intOf F a := by
  unfold intOf
  rw [signOf_neg, natOf_neg]
  cases signOf F a <;> simp

/-- The difference of two finite lanes. -/
theorem vfsub_finite (F : Fmt) {a b : Nat} (ha : magOf F a < F.pinf) (hb : magOf F b < F.pinf) :
    vfsub F a b =
      if intOf F a - intOf F b = 0 then (if signOf F a && !signOf F b then F.signMask else 0)
      else roundPack F (decide (intOf F a - intOf F b < 0)) (intOf F a - intOf F b).natAbs 0 := by
  unfold vfsub
  rw [vfadd_finite F ha (by rw [magOf_neg]; exact hb), intOf_neg, signOf_neg]
  rfl

theorem intOf_pos_pack (F : Fmt) {E m : Nat} (hE : 0 < E) (hE2 : E < 2 ^ F.eb)
    (hm : m < 2 ^ F.mb) :
    intOf F (E * 2 ^ F.mb + m) = (((2 ^ F.mb + m) * 2 ^ (E - 1) : Nat) : Int) ∧
    signOf F (E * 2 ^ F.mb + m) = false ∧ magOf F (E * 2 ^ F.mb + m) = E * 2 ^ F.mb + m := by
  obtain ⟨_, _, h3⟩ := fields_of_pack F hE2 hm
  have h := intOf_of_pack F false h3
  obtain ⟨g1, g2, _⟩ := sign_mag_of_pack F false h3
  simp only [Bool.false_eq_true, if_false, Nat.zero_add] at h g1 g2
  rw [h, natOf_pack F hE2 hm, if_neg (by omega)]
  exact ⟨rfl, g1, g2⟩

theorem magOf_signMask (F : Fmt) : magOf F F.signMask = 0 := by
  unfold magOf Fmt.signMask
  exact Nat.mod_self _

theorem natOf_zero (F : Fmt) : natOf F 0 = 0 := by
  simp [natOf, expField, manField]

theorem intOf_zero (F : Fmt) : intOf F 0 = 0 := by
  simp [intOf, natOf_zero]

theorem intOf_signMask (F : Fmt) : intOf F F.signMask = 0 := by
  have h : natOf F F.signMask = 0 := by rw [← natOf_magOf, magOf_signMask, natOf_zero]
  unfold intOf
  rw [h]; simp

theorem pinf_pos (F : Fmt) (heb : 2 < 2 ^ F.eb) : 0 < F.pinf := by
  unfold Fmt.pinf
  exact Nat.mul_pos (by omega) (by positivity)

theorem natAbs_intOf (F : Fmt) (a : Nat) : (intOf F a).natAbs = natOf F a := by
  unfold intOf
  split <;> simp

/-- An exactly representable sum: the addition does not round. -/
theorem vfadd_exact (F : Fmt) (heb : 2 < 2 ^ F.eb) {a b : Nat} (ha : magOf F a < F.pinf)
    (hb : magOf F b < F.pinf) {z : Int} {k : Nat} (hz : intOf F a + intOf F b = z * 2 ^ k)
    (hz2 : z.natAbs < 2 ^ (F.mb + 1)) (hk : k + 2 < 2 ^ F.eb) (hk2 : k + F.mb + 2 ≤ 2 ^ 13) :
    intOf F (vfadd F a b) = z * 2 ^ k ∧ natOf F (vfadd F a b) = z.natAbs * 2 ^ k ∧
    magOf F (vfadd F a b) < F.pinf ∧
    vfadd F a b < 2 ^ (F.eb + F.mb + 1) ∧
    (z ≠ 0 → signOf F (vfadd F a b) = decide (z < 0)) ∧
    (z = 0 → vfadd F a b = if signOf F a && signOf F b then F.signMask else 0) := by
  rw [vfadd_finite F ha hb, hz]
  have hpk : (0 : Int) < 2 ^ k := by positivity
  by_cases h0 : z = 0
  · subst h0
    simp only [zero_mul, if_true, Int.natAbs_zero, Nat.zero_mul, ne_eq, not_true_eq_false,
      false_implies, true_implies, true_and]
    split
    · refine ⟨intOf_signMask F, ?_, ?_, ?_⟩
      · rw [← natOf_magOf, magOf_signMask, natOf_zero]
      · rw [magOf_signMask]; exact pinf_pos F heb
      · unfold Fmt.signMask
        exact ⟨Nat.pow_lt_pow_right (by norm_num : 1 < 2) (Nat.lt_succ_self _), trivial⟩
    · refine ⟨intOf_zero F, natOf_zero F, ?_, Nat.two_pow_pos _, trivial⟩
      simp only [magOf, Nat.zero_mod]; exact pinf_pos F heb
  · have hT : z * 2 ^ k ≠ 0 := mul_ne_zero h0 (ne_of_gt hpk)
    have hna : (z * 2 ^ k).natAbs = z.natAbs * 2 ^ k := by
      rw [Int.natAbs_mul, Int.natAbs_pow]; rfl
    have hsg : decide (z * 2 ^ k < 0) = decide (z < 0) := by
      congr 1
      apply propext
      constructor
      · intro h
        by_contra hc
        have : 0 ≤ z * 2 ^ k := mul_nonneg (by omega) (le_of_lt hpk)
        omega
      · intro h
        exact mul_neg_of_neg_of_pos h hpk
    rw [if_neg hT, hna, hsg]
    obtain ⟨r1, r2, r3, r4, r5⟩ := roundPack_exact_mul F heb (decide (z < 0)) (c := z.natAbs)
      (k := k) (by omega) hz2 hk hk2
    refine ⟨?_, r1, r3, r4, fun _ => r2, fun h => absurd h h0⟩
    rw [r5, Nat.cast_mul, Nat.cast_pow, Nat.cast_ofNat]
    by_cases hneg : z < 0
    · simp only [hneg, decide_True, if_true]
      rw [Int.ofNat_natAbs_of_nonpos (le_of_lt hneg)]; ring
    · simp only [hneg, decide_False, Bool.false_eq_true, if_false]
      rw [Int.natAbs_of_nonneg (by omega)]

/-- An exactly representable difference: the subtraction does not round. -/
theorem vfsub_exact (F : Fmt) (heb : 2 < 2 ^ F.eb) {a b : Nat} (ha : magOf F a < F.pinf)
    (hb : magOf F b < F.pinf) {z : Int} {k : Nat} (hz : intOf F a - intOf F b = z * 2 ^ k)
    (hz2 : z.natAbs < 2 ^ (F.mb + 1)) (hk : k + 2 < 2 ^ F.eb) (hk2 : k + F.mb + 2 ≤ 2 ^ 13) :
    intOf F (vfsub F a b) = z * 2 ^ k ∧ natOf F (vfsub F a b) = z.natAbs * 2 ^ k ∧
    magOf F (vfsub F a b) < F.pinf ∧
    vfsub F a b < 2 ^ (F.eb + F.mb + 1) ∧
    (z ≠ 0 → signOf F (vfsub F a b) = decide (z < 0)) ∧
    (z = 0 → vfsub F a b = if signOf F a && !signOf F b then F.signMask else 0) := by
  have h := vfadd_exact F heb ha (show magOf F (vfneg_v F b) < F.pinf by rw [magOf_neg]; exact hb)
    (z := z) (k := k) (by rw [intOf_neg]; rw [← hz]; ring) hz2 hk hk2
  rw [signOf_neg] at h
  exact h

/-- A fused multiply-add of finite lanes whose exact value `N / 2 ^ sh` lies in
binade `l` above the subnormal range. -/
theorem vfmadd_in_binade (F : Fmt) {a b c : Nat} (ha : magOf F a < F.pinf)
    (hb : magOf F b < F.pinf) (hc : magOf F c < F.pinf) {N l : Nat}
    (hN : (N : Int) = intOf F a * intOf F b + intOf F c * 2 ^ (F.bias + F.mb - 1))
    (h1 : 2 ^ l ≤ N) (h2 : N < 2 ^ (l + 1)) (h3 : l + 1 ≤ 2 ^ 13)
    (h4 : F.bias + F.mb - 1 + F.mb < l)
    (hov : (l - F.mb - (F.bias + F.mb - 1)) * 2 ^ F.mb + rne N (l - F.mb) < F.pinf) :
    vfmadd F a b c = (l - F.mb - (F.bias + F.mb - 1)) * 2 ^ F.mb + rne N (l - F.mb) := by
  rw [vfmadd_finite F ha hb hc, ← hN]
  have hpos : 0 < N := lt_of_lt_of_le (by positivity) h1
  have hN0 : (N : Int) ≠ 0 := by omega
  have hNn : decide ((N : Int) < 0) = false := by
    rw [decide_eq_false_iff_not]; omega
  rw [if_neg hN0, hNn, Int.natAbs_ofNat, roundPack_normal F false h1 h2 h3 h4 hov]
  simp

theorem magic_sum_bounds_f64 (P : Int) (D N : Nat) (h1 : -(1125899906842624 * (D : Int)) < P)
    (h2 : P < 1125899906842624 * (D : Int)) (hN : (N : Int) = P + 6755399441055744 * (D : Int)) :
    4503599627370496 * D ≤ N ∧ N < 9007199254740992 * D ∧ 5629499534213120 * D ≤ N ∧ N ≤ 7881299347898368 * D := by
  omega

theorem magic_nearest_f64 (P : Int) (D N q : Nat) (hN : (N : Int) = P + 6755399441055744 * (D : Int))
    (hs : 2 * N ≤ 2 * (q * D) + D ∧ 2 * (q * D) ≤ 2 * N + D ∧
      (2 * (q * D) = 2 * N + D → q % 2 = 0) ∧ (2 * N = 2 * (q * D) + D → q % 2 = 0)) :
    2 * |P - ((q : Int) - 6755399441055744) * (D : Int)| ≤ (D : Int) ∧
    (2 * |P - ((q : Int) - 6755399441055744) * (D : Int)| = (D : Int) → ((q : Int) - 6755399441055744) % 2 = 0) := by
  have hPn : P - ((q : Int) - 6755399441055744) * (D : Int) = (N : Int) - ((q * D : Nat) : Int) := by
    rw [hN, Nat.cast_mul]; ring
  rw [hPn]
  rcases abs_cases ((N : Int) - ((q * D : Nat) : Int)) with ⟨h, _⟩ | ⟨h, _⟩
  · rw [h]; constructor
    · omega
    · intro he; omega
  · rw [h]; constructor
    · omega
    · intro he; omega

theorem magic_const_f64 :
    intOf FP64 MAGIC_CONST_1_F64 = 6755399441055744 * 2 ^ 1074 ∧ magOf FP64 MAGIC_CONST_1_F64 < FP64.pinf ∧
    magOf FP64 INV_LOG2_2K_F64 < FP64.pinf := by
  have eM : MAGIC_CONST_1_F64 = 1075 * 2 ^ FP64.mb + 2 ^ 51 := by decide
  refine ⟨?_, by decide!, by decide!⟩
  rw [eM, (intOf_pos_pack FP64 (E := 1075) (m := 2 ^ 51) (by decide) (by decide) (by decide)).1]
  have e0 : (2 ^ FP64.mb + 2 ^ 51) = 6755399441055744 := by decide
  have e3 : 1075 - 1 = 1074 := by decide
  rw [e0, e3, Nat.cast_mul, Nat.cast_pow, Nat.cast_ofNat, Nat.cast_ofNat]

/-- The fused `x * INV_LOG2_2K + MAGIC` in f64: the pattern of `MAGIC` plus the
nearest integer `q - 6755399441055744` to the product. -/
theorem magic_fma_f64 (x : Nat) (hfin : magOf FP64 x < FP64.pinf)
    (hsmall : |intOf FP64 x * intOf FP64 INV_LOG2_2K_F64| < 1125899906842624 * 2 ^ 2148) :
    ∃ q : Nat, vfmadd FP64 x INV_LOG2_2K_F64 MAGIC_CONST_1_F64 = 4836865999795912704 + q ∧
      5629499534213120 ≤ q ∧ q ≤ 7881299347898368 ∧
      2 * |intOf FP64 x * intOf FP64 INV_LOG2_2K_F64 - ((q : Int) - 6755399441055744) * 2 ^ 2148| ≤ 2 ^ 2148 ∧
      (2 * |intOf FP64 x * intOf FP64 INV_LOG2_2K_F64 - ((q : Int) - 6755399441055744) * 2 ^ 2148| = 2 ^ 2148 →
        ((q : Int) - 6755399441055744) % 2 = 0) := by
  obtain ⟨cM, cf, ci⟩ := magic_const_f64
  have hDc : (2 : Int) ^ 2148 = ((2 ^ 2148 : Nat) : Int) := by
    rw [Nat.cast_pow, Nat.cast_ofNat]
  rw [hDc] at hsmall ⊢
  rw [abs_lt] at hsmall
  have hD0 : 0 < 2 ^ 2148 := by positivity
  have hnn : 0 ≤ intOf FP64 x * intOf FP64 INV_LOG2_2K_F64 + 6755399441055744 * ((2 ^ 2148 : Nat) : Int) := by
    omega
  have hN := Int.toNat_of_nonneg hnn
  obtain ⟨b1, b2, b3, b4⟩ := magic_sum_bounds_f64 _ _ _ hsmall.1 hsmall.2 hN
  have e1 : 2 ^ 2200 = 4503599627370496 * 2 ^ 2148 := by
    rw [show (4503599627370496 : Nat) = 2 ^ 52 by norm_num, ← Nat.pow_add]
  have e2 : 2 ^ (2200 + 1) = 9007199254740992 * 2 ^ 2148 := by
    rw [show (9007199254740992 : Nat) = 2 ^ 53 by norm_num, ← Nat.pow_add]
  have hq1 := le_rne_of_le b3
  have hq2 := rne_le_of_le b4
  have c1 : 2200 - FP64.mb = 2148 := by decide
  have c2 : (2148 - (FP64.bias + FP64.mb - 1)) * 2 ^ FP64.mb = 4836865999795912704 := by decide
  have c3 : FP64.pinf = 9218868437227405312 := by decide
  have hN' : ((intOf FP64 x * intOf FP64 INV_LOG2_2K_F64 + 6755399441055744 * ((2 ^ 2148 : Nat) : Int)).toNat : Int)
      = intOf FP64 x * intOf FP64 INV_LOG2_2K_F64 +
        intOf FP64 MAGIC_CONST_1_F64 * 2 ^ (FP64.bias + FP64.mb - 1) := by
    rw [hN, cM, show FP64.bias + FP64.mb - 1 = 1074 by decide, Nat.cast_pow, Nat.cast_ofNat,
      mul_assoc, ← pow_add]
  have hv := vfmadd_in_binade FP64 hfin ci cf hN' (l := 2200) (by rw [e1]; exact b1)
    (by rw [e2]; exact b2) (by norm_num) (by decide) (by rw [c1, c2, c3]; omega)
  rw [c1, c2] at hv
  exact ⟨_, hv, hq1, hq2, magic_nearest_f64 _ _ _ _ hN (rne_spec _ _)⟩

/-- What follows from the pattern of the rounded sum in f64. -/
theorem magic_unpack_f64 (h q : Nat) (hh : h = 4836865999795912704 + q) (hq1 : 5629499534213120 ≤ q)
    (hq2 : q ≤ 7881299347898368) :
    intOf FP64 (vfsub FP64 h MAGIC_CONST_1_F64) = ((q : Int) - 6755399441055744) * 2 ^ 1074 ∧
    magOf FP64 (vfsub FP64 h MAGIC_CONST_1_F64) < FP64.pinf ∧
    h &&& MASK_HI_BIT_F64 = (((q : Int) - 6755399441055744) % 262144).toNat := by
  obtain ⟨cM, cf, _⟩ := magic_const_f64
  have p52 : 2 ^ FP64.mb = 4503599627370496 := by decide
  have hpk : h = 1075 * 2 ^ FP64.mb + (q - 4503599627370496) := by rw [hh, p52]; omega
  have hm : q - 4503599627370496 < 2 ^ FP64.mb := by rw [p52]; omega
  obtain ⟨i1, _, i3⟩ := intOf_pos_pack FP64 (E := 1075) (m := q - 4503599627370496) (by decide)
    (by decide) hm
  rw [← hpk] at i1 i3
  have e4 : 2 ^ FP64.mb + (q - 4503599627370496) = q := by rw [p52]; omega
  rw [e4, show 1075 - 1 = 1074 by decide] at i1
  have c3 : FP64.pinf = 9218868437227405312 := by decide
  have hfh : magOf FP64 h < FP64.pinf := by rw [i3, hh, c3]; omega
  have hT : intOf FP64 h - intOf FP64 MAGIC_CONST_1_F64 = ((q : Int) - 6755399441055744) * 2 ^ 1074 := by
    rw [i1, cM, Nat.cast_mul, Nat.cast_pow, Nat.cast_ofNat]
    exact (sub_mul _ _ _).symm
  have hz2 : ((q : Int) - 6755399441055744).natAbs < 2 ^ (FP64.mb + 1) := by
    rw [show 2 ^ (FP64.mb + 1) = 9007199254740992 by decide]; omega
  have hv := vfsub_exact FP64 (by decide) hfh cf hT hz2 (by decide) (by decide)
  refine ⟨hv.1, hv.2.2.1, ?_⟩
  rw [show MASK_HI_BIT_F64 = 2 ^ 18 - 1 by decide, and_absmask, hh]
  norm_num
  omega

theorem magic_sum_bounds_f32 (P : Int) (D N : Nat) (h1 : -(2097152 * (D : Int)) < P)
    (h2 : P < 2097152 * (D : Int)) (hN : (N : Int) = P + 12582912 * (D : Int)) :
    8388608 * D ≤ N ∧ N < 16777216 * D ∧ 10485760 * D ≤ N ∧ N ≤ 14680064 * D := by
  omega

theorem magic_nearest_f32 (P : Int) (D N q : Nat) (hN : (N : Int) = P + 12582912 * (D : Int))
    (hs : 2 * N ≤ 2 * (q * D) + D ∧ 2 * (q * D) ≤ 2 * N + D ∧
      (2 * (q * D) = 2 * N + D → q % 2 = 0) ∧ (2 * N = 2 * (q * D) + D → q % 2 = 0)) :
    2 * |P - ((q : Int) - 12582912) * (D : Int)| ≤ (D : Int) ∧
    (2 * |P - ((q : Int) - 12582912) * (D : Int)| = (D : Int) → ((q : Int) - 12582912) % 2 = 0) := by
  have hPn : P - ((q : Int) - 12582912) * (D : Int) = (N : Int) - ((q * D : Nat) : Int) := by
    rw [hN, Nat.cast_mul]; ring
  rw [hPn]
  rcases abs_cases ((N : Int) - ((q * D : Nat) : Int)) with ⟨h, _⟩ | ⟨h, _⟩
  · rw [h]; constructor
    · omega
    · intro he; omega
  · rw [h]; constructor
    · omega
    · intro he; omega

theorem magic_const_f32 :
    intOf FP32 MAGIC_CONST_1_F32 = 12582912 * 2 ^ 149 ∧ magOf FP32 MAGIC_CONST_1_F32 < FP32.pinf ∧
    magOf FP32 INV_LOG2_2K_F32 < FP32.pinf := by
  have eM : MAGIC_CONST_1_F32 = 150 * 2 ^ FP32.mb + 2 ^ 22 := by decide
  refine ⟨?_, by decide!, by decide!⟩
  rw [eM, (intOf_pos_pack FP32 (E := 150) (m := 2 ^ 22) (by decide) (by decide) (by decide)).1]
  have e0 : (2 ^ FP32.mb + 2 ^ 22) = 12582912 := by decide
  have e3 : 150 - 1 = 149 := by decide
  rw [e0, e3, Nat.cast_mul, Nat.cast_pow, Nat.cast_ofNat, Nat.cast_ofNat]

/-- The fused `x * INV_LOG2_2K + MAGIC` in f32: the pattern of `MAGIC` plus the
nearest integer `q - 12582912` to the product. -/
theorem magic_fma_f32 (x : Nat) (hfin : magOf FP32 x < FP32.pinf)
    (hsmall : |intOf FP32 x * intOf FP32 INV_LOG2_2K_F32| < 2097152 * 2 ^ 298) :
    ∃ q : Nat, vfmadd FP32 x INV_LOG2_2K_F32 MAGIC_CONST_1_F32 = 1249902592 + q ∧
      10485760 ≤ q ∧ q ≤ 14680064 ∧
      2 * |intOf FP32 x * intOf FP32 INV_LOG2_2K_F32 - ((q : Int) - 12582912) * 2 ^ 298| ≤ 2 ^ 298 ∧
      (2 * |intOf FP32 x * intOf FP32 INV_LOG2_2K_F32 - ((q : Int) - 12582912) * 2 ^ 298| = 2 ^ 298 →
        ((q : Int) - 12582912) % 2 = 0) := by
  obtain ⟨cM, cf, ci⟩ := magic_const_f32
  have hDc : (2 : Int) ^ 298 = ((2 ^ 298 : Nat) : Int) := by
    rw [Nat.cast_pow, Nat.cast_ofNat]
  rw [hDc] at hsmall ⊢
  rw [abs_lt] at hsmall
  have hD0 : 0 < 2 ^ 298 := by positivity
  have hnn : 0 ≤ intOf FP32 x * intOf FP32 INV_LOG2_2K_F32 + 12582912 * ((2 ^ 298 : Nat) : Int) := by
    omega
  have hN := Int.toNat_of_nonneg hnn
  obtain ⟨b1, b2, b3, b4⟩ := magic_sum_bounds_f32 _ _ _ hsmall.1 hsmall.2 hN
  have e1 : 2 ^ 321 = 8388608 * 2 ^ 298 := by
    rw [show (8388608 : Nat) = 2 ^ 23 by norm_num, ← Nat.pow_add]
  have e2 : 2 ^ (321 + 1) = 16777216 * 2 ^ 298 := by
    rw [show (16777216 : Nat) = 2 ^ 24 by norm_num, ← Nat.pow_add]
  have hq1 := le_rne_of_le b3
  have hq2 := rne_le_of_le b4
  have c1 : 321 - FP32.mb = 298 := by decide
  have c2 : (298 - (FP32.bias + FP32.mb - 1)) * 2 ^ FP32.mb = 1249902592 := by decide
  have c3 : FP32.pinf = 2139095040 := by decide
  have hN' : ((intOf FP32 x * intOf FP32 INV_LOG2_2K_F32 + 12582912 * ((2 ^ 298 : Nat) : Int)).toNat : Int)
      = intOf FP32 x * intOf FP32 INV_LOG2_2K_F32 +
        intOf FP32 MAGIC_CONST_1_F32 * 2 ^ (FP32.bias + FP32.mb - 1) := by
    rw [hN, cM, show FP32.bias + FP32.mb - 1 = 149 by decide, Nat.cast_pow, Nat.cast_ofNat,
      mul_assoc, ← pow_add]
  have hv := vfmadd_in_binade FP32 hfin ci cf hN' (l := 321) (by rw [e1]; exact b1)
    (by rw [e2]; exact b2) (by norm_num) (by decide) (by rw [c1, c2, c3]; omega)
  rw [c1, c2] at hv
  exact ⟨_, hv, hq1, hq2, magic_nearest_f32 _ _ _ _ hN (rne_spec _ _)⟩

/-- What follows from the pattern of the rounded sum in f32. -/
theorem magic_unpack_f32 (h q : Nat) (hh : h = 1249902592 + q) (hq1 : 10485760 ≤ q)
    (hq2 : q ≤ 14680064) :
    intOf FP32 (vfsub FP32 h MAGIC_CONST_1_F32) = ((q : Int) - 12582912) * 2 ^ 149 ∧
    magOf FP32 (vfsub FP32 h MAGIC_CONST_1_F32) < FP32.pinf ∧
    h &&& MASK_HI_BIT_F32 = (((q : Int) - 12582912) % 8192).toNat := by
  obtain ⟨cM, cf, _⟩ := magic_const_f32
  have p52 : 2 ^ FP32.mb = 8388608 := by decide
  have hpk : h = 150 * 2 ^ FP32.mb + (q - 8388608) := by rw [hh, p52]; omega
  have hm : q - 8388608 < 2 ^ FP32.mb := by rw [p52]; omega
  obtain ⟨i1, _, i3⟩ := intOf_pos_pack FP32 (E := 150) (m := q - 8388608) (by decide)
    (by decide) hm
  rw [← hpk] at i1 i3
  have e4 : 2 ^ FP32.mb + (q - 8388608) = q := by rw [p52]; omega
  rw [e4, show 150 - 1 = 149 by decide] at i1
  have c3 : FP32.pinf = 2139095040 := by decide
  have hfh : magOf FP32 h < FP32.pinf := by rw [i3, hh, c3]; omega
  have hT : intOf FP32 h - intOf FP32 MAGIC_CONST_1_F32 = ((q : Int) - 12582912) * 2 ^ 149 := by
    rw [i1, cM, Nat.cast_mul, Nat.cast_pow, Nat.cast_ofNat]
    exact (sub_mul _ _ _).symm
  have hz2 : ((q : Int) - 12582912).natAbs < 2 ^ (FP32.mb + 1) := by
    rw [show 2 ^ (FP32.mb + 1) = 16777216 by decide]; omega
  have hv := vfsub_exact FP32 (by decide) hfh cf hT hz2 (by decide) (by decide)
  refine ⟨hv.1, hv.2.2.1, ?_⟩
  rw [show MASK_HI_BIT_F32 = 2 ^ 13 - 1 by decide, and_absmask, hh]
  norm_num
  omega

theorem magic_sum_bounds_f16 (P : Int) (D N : Nat) (h1 : -(256 * (D : Int)) < P)
    (h2 : P < 256 * (D : Int)) (hN : (N : Int) = P + 1536 * (D : Int)) :
    1024 * D ≤ N ∧ N < 2048 * D ∧ 1280 * D ≤ N ∧ N ≤ 1792 * D := by
  omega

theorem magic_nearest_f16 (P : Int) (D N q : Nat) (hN : (N : Int) = P + 1536 * (D : Int))
    (hs : 2 * N ≤ 2 * (q * D) + D ∧ 2 * (q * D) ≤ 2 * N + D ∧
      (2 * (q * D) = 2 * N + D → q % 2 = 0) ∧ (2 * N = 2 * (q * D) + D → q % 2 = 0)) :
    2 * |P - ((q : Int) - 1536) * (D : Int)| ≤ (D : Int) ∧
    (2 * |P - ((q : Int) - 1536) * (D : Int)| = (D : Int) → ((q : Int) - 1536) % 2 = 0) := by
  have hPn : P - ((q : Int) - 1536) * (D : Int) = (N : Int) - ((q * D : Nat) : Int) := by
    rw [hN, Nat.cast_mul]; ring
  rw [hPn]
  rcases abs_cases ((N : Int) - ((q * D : Nat) : Int)) with ⟨h, _⟩ | ⟨h, _⟩
  · rw [h]; constructor
    · omega
    · intro he; omega
  · rw [h]; constructor
    · omega
    · intro he; omega

theorem magic_const_f16 :
    intOf FP16 MAGIC_CONST_1_F16 = 1536 * 2 ^ 24 ∧ magOf FP16 MAGIC_CONST_1_F16 < FP16.pinf ∧
    magOf FP16 INV_LOG2_2K_F16 < FP16.pinf := by
  have eM : MAGIC_CONST_1_F16 = 25 * 2 ^ FP16.mb + 2 ^ 9 := by decide
  refine ⟨?_, by decide!, by decide!⟩
  rw [eM, (intOf_pos_pack FP16 (E := 25) (m := 2 ^ 9) (by decide) (by decide) (by decide)).1]
  have e0 : (2 ^ FP16.mb + 2 ^ 9) = 1536 := by decide
  have e3 : 25 - 1 = 24 := by decide
  rw [e0, e3, Nat.cast_mul, Nat.cast_pow, Nat.cast_ofNat, Nat.cast_ofNat]

/-- The fused `x * INV_LOG2_2K + MAGIC` in f16: the pattern of `MAGIC` plus the
nearest integer `q - 1536` to the product. -/
theorem magic_fma_f16 (x : Nat) (hfin : magOf FP16 x < FP16.pinf)
    (hsmall : |intOf FP16 x * intOf FP16 INV_LOG2_2K_F16| < 256 * 2 ^ 48) :
    ∃ q : Nat, vfmadd FP16 x INV_LOG2_2K_F16 MAGIC_CONST_1_F16 = 24576 + q ∧
      1280 ≤ q ∧ q ≤ 1792 ∧
      2 * |intOf FP16 x * intOf FP16 INV_LOG2_2K_F16 - ((q : Int) - 1536) * 2 ^ 48| ≤ 2 ^ 48 ∧
      (2 * |intOf FP16 x * intOf FP16 INV_LOG2_2K_F16 - ((q : Int) - 1536) * 2 ^ 48| = 2 ^ 48 →
        ((q : Int) - 1536) % 2 = 0) := by
  obtain ⟨cM, cf, ci⟩ := magic_const_f16
  have hDc : (2 : Int) ^ 48 = ((2 ^ 48 : Nat) : Int) := by
    rw [Nat.cast_pow, Nat.cast_ofNat]
  rw [hDc] at hsmall ⊢
  rw [abs_lt] at hsmall
  have hD0 : 0 < 2 ^ 48 := by positivity
  have hnn : 0 ≤ intOf FP16 x * intOf FP16 INV_LOG2_2K_F16 + 1536 * ((2 ^ 48 : Nat) : Int) := by
    omega
  have hN := Int.toNat_of_nonneg hnn
  obtain ⟨b1, b2, b3, b4⟩ := magic_sum_bounds_f16 _ _ _ hsmall.1 hsmall.2 hN
  have e1 : 2 ^ 58 = 1024 * 2 ^ 48 := by
    rw [show (1024 : Nat) = 2 ^ 10 by norm_num, ← Nat.pow_add]
  have e2 : 2 ^ (58 + 1) = 2048 * 2 ^ 48 := by
    rw [show (2048 : Nat) = 2 ^ 11 by norm_num, ← Nat.pow_add]
  have hq1 := le_rne_of_le b3
  have hq2 := rne_le_of_le b4
  have c1 : 58 - FP16.mb = 48 := by decide
  have c2 : (48 - (FP16.bias + FP16.mb - 1)) * 2 ^ FP16.mb = 24576 := by decide
  have c3 : FP16.pinf = 31744 := by decide
  have hN' : ((intOf FP16 x * intOf FP16 INV_LOG2_2K_F16 + 1536 * ((2 ^ 48 : Nat) : Int)).toNat : Int)
      = intOf FP16 x * intOf FP16 INV_LOG2_2K_F16 +
        intOf FP16 MAGIC_CONST_1_F16 * 2 ^ (FP16.bias + FP16.mb - 1) := by
    rw [hN, cM, show FP16.bias + FP16.mb - 1 = 24 by decide, Nat.cast_pow, Nat.cast_ofNat,
      mul_assoc, ← pow_add]
  have hv := vfmadd_in_binade FP16 hfin ci cf hN' (l := 58) (by rw [e1]; exact b1)
    (by rw [e2]; exact b2) (by norm_num) (by decide) (by rw [c1, c2, c3]; omega)
  rw [c1, c2] at hv
  exact ⟨_, hv, hq1, hq2, magic_nearest_f16 _ _ _ _ hN (rne_spec _ _)⟩

/-- What follows from the pattern of the rounded sum in f16. -/
theorem magic_unpack_f16 (h q : Nat) (hh : h = 24576 + q) (hq1 : 1280 ≤ q)
    (hq2 : q ≤ 1792) :
    intOf FP16 (vfsub FP16 h MAGIC_CONST_1_F16) = ((q : Int) - 1536) * 2 ^ 24 ∧
    magOf FP16 (vfsub FP16 h MAGIC_CONST_1_F16) < FP16.pinf ∧
    h &&& MASK_HI_BIT_F16 = (((q : Int) - 1536) % 512).toNat := by
  obtain ⟨cM, cf, _⟩ := magic_const_f16
  have p52 : 2 ^ FP16.mb = 1024 := by decide
  have hpk : h = 25 * 2 ^ FP16.mb + (q - 1024) := by rw [hh, p52]; omega
  have hm : q - 1024 < 2 ^ FP16.mb := by rw [p52]; omega
  obtain ⟨i1, _, i3⟩ := intOf_pos_pack FP16 (E := 25) (m := q - 1024) (by decide)
    (by decide) hm
  rw [← hpk] at i1 i3
  have e4 : 2 ^ FP16.mb + (q - 1024) = q := by rw [p52]; omega
  rw [e4, show 25 - 1 = 24 by decide] at i1
  have c3 : FP16.pinf = 31744 := by decide
  have hfh : magOf FP16 h < FP16.pinf := by rw [i3, hh, c3]; omega
  have hT : intOf FP16 h - intOf FP16 MAGIC_CONST_1_F16 = ((q : Int) - 1536) * 2 ^ 24 := by
    rw [i1, cM, Nat.cast_mul, Nat.cast_pow, Nat.cast_ofNat]
    exact (sub_mul _ _ _).symm
  have hz2 : ((q : Int) - 1536).natAbs < 2 ^ (FP16.mb + 1) := by
    rw [show 2 ^ (FP16.mb + 1) = 2048 by decide]; omega
  have hv := vfsub_exact FP16 (by decide) hfh cf hT hz2 (by decide) (by decide)
  refine ⟨hv.1, hv.2.2.1, ?_⟩
  rw [show MASK_HI_BIT_F16 = 2 ^ 9 - 1 by decide, and_absmask, hh]
  norm_num
  omega

theorem magic_rounding_f64 (x : Nat) (hfin : magOf FP64 x < FP64.pinf)
    (hsmall : |intOf FP64 x * intOf FP64 INV_LOG2_2K_F64| <
      2 ^ (FP64.mb - 2) * 2 ^ (2 * (FP64.bias + FP64.mb - 1))) :
    intOf FP64 MAGIC_CONST_1_F64 = 3 * 2 ^ (FP64.mb - 1) * 2 ^ (FP64.bias + FP64.mb - 1) ∧
    ∃ n : Int,
      2 * |intOf FP64 x * intOf FP64 INV_LOG2_2K_F64 - n * 2 ^ (2 * (FP64.bias + FP64.mb - 1))| ≤
        2 ^ (2 * (FP64.bias + FP64.mb - 1)) ∧
      (2 * |intOf FP64 x * intOf FP64 INV_LOG2_2K_F64 - n * 2 ^ (2 * (FP64.bias + FP64.mb - 1))| =
        2 ^ (2 * (FP64.bias + FP64.mb - 1)) → n % 2 = 0) ∧
      intOf FP64 (vfsub FP64 (vfmadd FP64 x INV_LOG2_2K_F64 MAGIC_CONST_1_F64) MAGIC_CONST_1_F64) =
        n * 2 ^ (FP64.bias + FP64.mb - 1) ∧
      magOf FP64 (vfsub FP64 (vfmadd FP64 x INV_LOG2_2K_F64 MAGIC_CONST_1_F64) MAGIC_CONST_1_F64) <
        FP64.pinf ∧
      vfmadd FP64 x INV_LOG2_2K_F64 MAGIC_CONST_1_F64 &&& MASK_HI_BIT_F64 =
        (n % ((MASK_HI_BIT_F64 + 1 : Nat) : Int)).toNat := by
  have k1 : FP64.mb - 2 = 50 := by decide
  have k2 : 2 * (FP64.bias + FP64.mb - 1) = 2148 := by decide
  have c4 : FP64.bias + FP64.mb - 1 = 1074 := by decide
  have k3 : FP64.mb - 1 = 51 := by decide
  have q50 : (2 : Int) ^ 50 = 1125899906842624 := by norm_num
  have q51 : (3 : Int) * 2 ^ 51 = 6755399441055744 := by norm_num
  have hm1 : ((MASK_HI_BIT_F64 + 1 : Nat) : Int) = 262144 := by decide
  rw [k1, k2, q50] at hsmall
  rw [k2, c4, k3, q51, hm1]
  obtain ⟨q, hq, hq1, hq2, hn1, hn2⟩ := magic_fma_f64 x hfin hsmall
  obtain ⟨u1, u2, u3⟩ := magic_unpack_f64 _ q hq hq1 hq2
  exact ⟨magic_const_f64.1, (q : Int) - 6755399441055744, hn1, hn2, u1, u2, u3⟩

theorem magic_rounding_f32 (x : Nat) (hfin : magOf FP32 x < FP32.pinf)
    (hsmall : |intOf FP32 x * intOf FP32 INV_LOG2_2K_F32| <
      2 ^ (FP32.mb - 2) * 2 ^ (2 * (FP32.bias + FP32.mb - 1))) :
    intOf FP32 MAGIC_CONST_1_F32 = 3 * 2 ^ (FP32.mb - 1) * 2 ^ (FP32.bias + FP32.mb - 1) ∧
    ∃ n : Int,
      2 * |intOf FP32 x * intOf FP32 INV_LOG2_2K_F32 - n * 2 ^ (2 * (FP32.bias + FP32.mb - 1))| ≤
        2 ^ (2 * (FP32.bias + FP32.mb - 1)) ∧
      (2 * |intOf FP32 x * intOf FP32 INV_LOG2_2K_F32 - n * 2 ^ (2 * (FP32.bias + FP32.mb - 1))| =
        2 ^ (2 * (FP32.bias + FP32.mb - 1)) → n % 2 = 0) ∧
      intOf FP32 (vfsub FP32 (vfmadd FP32 x INV_LOG2_2K_F32 MAGIC_CONST_1_F32) MAGIC_CONST_1_F32) =
        n * 2 ^ (FP32.bias + FP32.mb - 1) ∧
      magOf FP32 (vfsub FP32 (vfmadd FP32 x INV_LOG2_2K_F32 MAGIC_CONST_1_F32) MAGIC_CONST_1_F32) <
        FP32.pinf ∧
      vfmadd FP32 x INV_LOG2_2K_F32 MAGIC_CONST_1_F32 &&& MASK_HI_BIT_F32 =
        (n % ((MASK_HI_BIT_F32 + 1 : Nat) : Int)).toNat := by
  have k1 : FP32.mb - 2 = 21 := by decide
  have k2 : 2 * (FP32.bias + FP32.mb - 1) = 298 := by decide
  have c4 : FP32.bias + FP32.mb - 1 = 149 := by decide
  have k3 : FP32.mb - 1 = 22 := by decide
  have q50 : (2 : Int) ^ 21 = 2097152 := by norm_num
  have q51 : (3 : Int) * 2 ^ 22 = 12582912 := by norm_num
  have hm1 : ((MASK_HI_BIT_F32 + 1 : Nat) : Int) = 8192 := by decide
  rw [k1, k2, q50] at hsmall
  rw [k2, c4, k3, q51, hm1]
  obtain ⟨q, hq, hq1, hq2, hn1, hn2⟩ := magic_fma_f32 x hfin hsmall
  obtain ⟨u1, u2, u3⟩ := magic_unpack_f32 _ q hq hq1 hq2
  exact ⟨magic_const_f32.1, (q : Int) - 12582912, hn1, hn2, u1, u2, u3⟩

theorem magic_rounding_f16 (x : Nat) (hfin : magOf FP16 x < FP16.pinf)
    (hsmall : |intOf FP16 x * intOf FP16 INV_LOG2_2K_F16| <
      2 ^ (FP16.mb - 2) * 2 ^ (2 * (FP16.bias + FP16.mb - 1))) :
    intOf FP16 MAGIC_CONST_1_F16 = 3 * 2 ^ (FP16.mb - 1) * 2 ^ (FP16.bias + FP16.mb - 1) ∧
    ∃ n : Int,
      2 * |intOf FP16 x * intOf FP16 INV_LOG2_2K_F16 - n * 2 ^ (2 * (FP16.bias + FP16.mb - 1))| ≤
        2 ^ (2 * (FP16.bias + FP16.mb - 1)) ∧
      (2 * |intOf FP16 x * intOf FP16 INV_LOG2_2K_F16 - n * 2 ^ (2 * (FP16.bias + FP16.mb - 1))| =
        2 ^ (2 * (FP16.bias + FP16.mb - 1)) → n % 2 = 0) ∧
      intOf FP16 (vfsub FP16 (vfmadd FP16 x INV_LOG2_2K_F16 MAGIC_CONST_1_F16) MAGIC_CONST_1_F16) =
        n * 2 ^ (FP16.bias + FP16.mb - 1) ∧
      magOf FP16 (vfsub FP16 (vfmadd FP16 x INV_LOG2_2K_F16 MAGIC_CONST_1_F16) MAGIC_CONST_1_F16) <
        FP16.pinf ∧
      vfmadd FP16 x INV_LOG2_2K_F16 MAGIC_CONST_1_F16 &&& MASK_HI_BIT_F16 =
        (n % ((MASK_HI_BIT_F16 + 1 : Nat) : Int)).toNat := by
  have k1 : FP16.mb - 2 = 8 := by decide
  have k2 : 2 * (FP16.bias + FP16.mb - 1) = 48 := by decide
  have c4 : FP16.bias + FP16.mb - 1 = 24 := by decide
  have k3 : FP16.mb - 1 = 9 := by decide
  have q50 : (2 : Int) ^ 8 = 256 := by norm_num
  have q51 : (3 : Int) * 2 ^ 9 = 1536 := by norm_num
  have hm1 : ((MASK_HI_BIT_F16 + 1 : Nat) : Int) = 512 := by decide
  rw [k1, k2, q50] at hsmall
  rw [k2, c4, k3, q51, hm1]
  obtain ⟨q, hq, hq1, hq2, hn1, hn2⟩ := magic_fma_f16 x hfin hsmall
  obtain ⟨u1, u2, u3⟩ := magic_unpack_f16 _ q hq hq1 hq2
  exact ⟨magic_const_f16.1, (q : Int) - 1536, hn1, hn2, u1, u2, u3⟩

/-- C18: in every width, `MAGIC` is `1.5 * 2^(p-1)` (6755399441055744, 12582912,
1536), and for every finite `x` whose exact product with `INV_LOG2_2K` is below
`2^(p-3)` in magnitude there is an integer `n`, nearest to the exact product
with ties to even, such that the single-rounded `h = fma(x, INV_LOG2_2K, MAGIC)`
satisfies `h - MAGIC = n` exactly (the subtraction is finite and its value is
`n`) and `bits(h) AND MASK_HI_BIT = n mod 2^18 / 2^13 / 2^9`.  Values are
counted in units of the smallest subnormal, so `1.0` is
`2 ^ (bias + mb - 1)` and a product of two lanes is in units of its square. -/
theorem magic_constant_rounding_is_exact (w : Width) (x : Nat)
    (hfin : magOf w.fmt x < w.fmt.pinf)
    (hsmall : |intOf w.fmt x * intOf w.fmt (INV_LOG2_2K w)| <
      2 ^ (w.fmt.mb - 2) * 2 ^ (2 * (w.fmt.bias + w.fmt.mb - 1))) :
    intOf w.fmt (MAGIC_CONST_1 w) =
      3 * 2 ^ (w.fmt.mb - 1) * 2 ^ (w.fmt.bias + w.fmt.mb - 1) ∧
    (MASK_HI_BIT .f64 + 1 = 2 ^ 18 ∧ MASK_HI_BIT .f32 + 1 = 2 ^ 13 ∧
      MASK_HI_BIT .f16 + 1 = 2 ^ 9) ∧
    ∃ n : Int,
      2 * |intOf w.fmt x * intOf w.fmt (INV_LOG2_2K w) -
          n * 2 ^ (2 * (w.fmt.bias + w.fmt.mb - 1))| ≤
        2 ^ (2 * (w.fmt.bias + w.fmt.mb - 1)) ∧
      (2 * |intOf w.fmt x * intOf w.fmt (INV_LOG2_2K w) -
          n * 2 ^ (2 * (w.fmt.bias + w.fmt.mb - 1))| =
        2 ^ (2 * (w.fmt.bias + w.fmt.mb - 1)) → n % 2 = 0) ∧
      intOf w.fmt (vfsub w.fmt (vfmadd w.fmt x (INV_LOG2_2K w) (MAGIC_CONST_1 w))
          (MAGIC_CONST_1 w)) = n * 2 ^ (w.fmt.bias + w.fmt.mb - 1) ∧
      magOf w.fmt (vfsub w.fmt (vfmadd w.fmt x (INV_LOG2_2K w) (MAGIC_CONST_1 w))
          (MAGIC_CONST_1 w)) < w.fmt.pinf ∧
      vfmadd w.fmt x (INV_LOG2_2K w) (MAGIC_CONST_1 w) &&& MASK_HI_BIT w =
        (n % ((MASK_HI_BIT w + 1 : Nat) : Int)).toNat := by
  have hmask : MASK_HI_BIT .f64 + 1 = 2 ^ 18 ∧ MASK_HI_BIT .f32 + 1 = 2 ^ 13 ∧
      MASK_HI_BIT .f16 + 1 = 2 ^ 9 := by decide
  cases w
  · exact ⟨(magic_rounding_f64 x hfin hsmall).1, hmask, (magic_rounding_f64 x hfin hsmall).2⟩
  · exact ⟨(magic_rounding_f32 x hfin hsmall).1, hmask, (magic_rounding_f32 x hfin hsmall).2⟩
  · exact ⟨(magic_rounding_f16 x hfin hsmall).1, hmask, (magic_rounding_f16 x hfin hsmall).2⟩

theorem magic_constant_rounding_is_exact_witness :
    ∃ n : Int,
      2 * |intOf Width.f16.fmt 0x3c00 * intOf Width.f16.fmt (INV_LOG2_2K .f16) -
          n * 2 ^ (2 * (Width.f16.fmt.bias + Width.f16.fmt.mb - 1))| ≤
        2 ^ (2 * (Width.f16.fmt.bias + Width.f16.fmt.mb - 1)) ∧
      (2 * |intOf Width.f16.fmt 0x3c00 * intOf Width.f16.fmt (INV_LOG2_2K .f16) -
          n * 2 ^ (2 * (Width.f16.fmt.bias + Width.f16.fmt.mb - 1))| =
        2 ^ (2 * (Width.f16.fmt.bias + Width.f16.fmt.mb - 1)) → n % 2 = 0) ∧
      intOf Width.f16.fmt (vfsub Width.f16.fmt
          (vfmadd Width.f16.fmt 0x3c00 (INV_LOG2_2K .f16) (MAGIC_CONST_1 .f16))
          (MAGIC_CONST_1 .f16)) = n * 2 ^ (Width.f16.fmt.bias + Width.f16.fmt.mb - 1) ∧
      magOf Width.f16.fmt (vfsub Width.f16.fmt
          (vfmadd Width.f16.fmt 0x3c00 (INV_LOG2_2K .f16) (MAGIC_CONST_1 .f16))
          (MAGIC_CONST_1 .f16)) < Width.f16.fmt.pinf ∧
      vfmadd Width.f16.fmt 0x3c00 (INV_LOG2_2K .f16) (MAGIC_CONST_1 .f16) &&& MASK_HI_BIT .f16 =
        (n % ((MASK_HI_BIT .f16 + 1 : Nat) : Int)).toNat :=
  (magic_constant_rounding_is_exact .f16 0x3c00 (by decide!) (by decide!)).2.2

/-! ## Non-negative finite lanes -/

theorem nonneg_finite (F : Fmt) {t : Nat} (h : t < F.pinf) :
    magOf F t = t ∧ signOf F t = false ∧ intOf F t = (natOf F t : Int) ∧
    key F t = (t : Int) ∧ magOf F t < F.pinf := by
  have h2 : t < 2 ^ (F.eb + F.mb) := lt_trans h (pinf_lt F)
  obtain ⟨k1, k2, k3⟩ := key_of_lt (F := F) h2
  refine ⟨k2, k1, ?_, k3, by rw [k2]; exact h⟩
  unfold intOf
  rw [k1]; simp

theorem lt_of_sign_false (F : Fmt) {t : Nat} (hs : signOf F t = false)
    (ht : t < 2 ^ (F.eb + F.mb + 1)) : t < 2 ^ (F.eb + F.mb) := by
  by_contra hc
  have := (key_of_ge (F := F) (x := t) (by omega) ht).1
  rw [hs] at this
  exact Bool.false_ne_true this

/-- The magnitude is strictly increasing in the magnitude bits. -/
theorem natOf_lt_of_lt (F : Fmt) {p q : Nat} (hpq : p < q) (hq : q < 2 ^ (F.eb + F.mb)) :
    natOf F p < natOf F q := by
  have hp : p < 2 ^ (F.eb + F.mb) := lt_trans hpq hq
  have dp := magOf_decomp F p
  have dq := magOf_decomp F q
  rw [show magOf F p = p from Nat.mod_eq_of_lt hp] at dp
  rw [show magOf F q = q from Nat.mod_eq_of_lt hq] at dq
  have mp := manField_lt F p
  have mq := manField_lt F q
  have hB : 0 < 2 ^ F.mb := by positivity
  unfold natOf
  generalize expField F p = E at *
  generalize expField F q = E' at *
  generalize manField F p = m at *
  generalize manField F q = m' at *
  rcases Nat.lt_trichotomy E E' with hE | hE | hE
  · -- smaller exponent field
    have up : (if E = 0 then m else (2 ^ F.mb + m) * 2 ^ (E - 1)) < 2 ^ F.mb * 2 ^ E := by
      split
      · rename_i h0; subst h0; simpa using mp
      · rename_i h0
        have e : 2 ^ F.mb * 2 ^ E = (2 ^ F.mb + 2 ^ F.mb) * 2 ^ (E - 1) := by
          have : E = (E - 1) + 1 := by omega
          conv_lhs => rw [this, Nat.pow_succ]
          ring
        rw [e]
        exact Nat.mul_lt_mul_of_pos_right (by omega) (by positivity)
    have lo : 2 ^ F.mb * 2 ^ E ≤ (if E' = 0 then m' else (2 ^ F.mb + m') * 2 ^ (E' - 1)) := by
      rw [if_neg (by omega)]
      calc 2 ^ F.mb * 2 ^ E ≤ 2 ^ F.mb * 2 ^ (E' - 1) :=
            Nat.mul_le_mul_left _ (Nat.pow_le_pow_right (by norm_num) (by omega))
        _ ≤ (2 ^ F.mb + m') * 2 ^ (E' - 1) := Nat.mul_le_mul_right _ (by omega)
    omega
  · subst hE
    have hm : m < m' := by omega
    split
    · exact hm
    · exact Nat.mul_lt_mul_of_pos_right (by omega) (by positivity)
  · exfalso
    have h1 : (E' + 1) * 2 ^ F.mb ≤ E * 2 ^ F.mb := Nat.mul_le_mul_right _ hE
    rw [Nat.add_mul, Nat.one_mul] at h1
    omega

theorem natOf_lt_iff (F : Fmt) {p q : Nat} (hp : p < 2 ^ (F.eb + F.mb))
    (hq : q < 2 ^ (F.eb + F.mb)) : p < q ↔ natOf F p < natOf F q := by
  constructor
  · intro h; exact natOf_lt_of_lt F h hq
  · intro h
    by_contra hc
    rcases Nat.lt_or_ge q p with h1 | h1
    · have := natOf_lt_of_lt F h1 hp; omega
    · have : p = q := by omega
      subst this; omega

theorem natOf_le_iff (F : Fmt) {p q : Nat} (hp : p < 2 ^ (F.eb + F.mb))
    (hq : q < 2 ^ (F.eb + F.mb)) : p ≤ q ↔ natOf F p ≤ natOf F q := by
  have := natOf_lt_iff F hq hp
  constructor
  · intro h; by_contra hc; have := this.2 (by omega); omega
  · intro h; by_contra hc; have := this.1 (by omega); omega

/-- Magnitude of a power of two `2 ^ (E - 1)` (in units of the smallest subnormal
times `2 ^ mb`). -/
theorem natOf_pow (F : Fmt) {E : Nat} (hE : 0 < E) (hE2 : E < 2 ^ F.eb) :
    natOf F (E * 2 ^ F.mb) = 2 ^ F.mb * 2 ^ (E - 1) := by
  have := natOf_pack F (E := E) (m := 0) hE2 (by positivity)
  rw [Nat.add_zero, if_neg (by omega), Nat.add_zero] at this
  exact this

theorem pow_pattern_lt_pinf (F : Fmt) {E : Nat} (hE2 : E + 1 < 2 ^ F.eb) :
    E * 2 ^ F.mb < F.pinf := by
  unfold Fmt.pinf
  exact Nat.mul_lt_mul_of_pos_right (by omega) (by positivity)

/-- Exact sum of two non-negative finite lanes. -/
theorem vfadd_exact_pos (F : Fmt) (heb : 2 < 2 ^ F.eb) {a b : Nat} (ha : a < F.pinf)
    (hb : b < F.pinf) {z k : Nat} (hz : natOf F a + natOf F b = z * 2 ^ k)
    (hz2 : z < 2 ^ (F.mb + 1)) (hk : k + 2 < 2 ^ F.eb) (hk2 : k + F.mb + 2 ≤ 2 ^ 13) :
    vfadd F a b < F.pinf ∧ natOf F (vfadd F a b) = z * 2 ^ k := by
  obtain ⟨a1, a2, a3, _, a5⟩ := nonneg_finite F ha
  obtain ⟨b1, b2, b3, _, b5⟩ := nonneg_finite F hb
  have hz' : intOf F a + intOf F b = (z : Int) * 2 ^ k := by
    rw [a3, b3]; exact_mod_cast hz
  obtain ⟨_, v2, v3, v4, v5, v6⟩ := vfadd_exact F heb a5 b5 hz' (by simpa using hz2) hk hk2
  refine ⟨?_, by simpa using v2⟩
  by_cases h0 : z = 0
  · have := v6 (by exact_mod_cast h0)
    rw [a2, b2] at this
    rw [this]; exact pinf_pos F heb
  · have hs := v5 (by exact_mod_cast h0)
    have hs' : signOf F (vfadd F a b) = false := by
      rw [hs]; simp
    have := lt_of_sign_false F hs' v4
    unfold magOf at v3
    rw [Nat.mod_eq_of_lt this] at v3
    exact v3

/-- Exact difference of two non-negative finite lanes, the first the larger. -/
theorem vfsub_exact_pos (F : Fmt) (heb : 2 < 2 ^ F.eb) {a b : Nat} (ha : a < F.pinf)
    (hb : b < F.pinf) {z k : Nat} (hz : natOf F a = natOf F b + z * 2 ^ k)
    (hz2 : z < 2 ^ (F.mb + 1)) (hk : k + 2 < 2 ^ F.eb) (hk2 : k + F.mb + 2 ≤ 2 ^ 13) :
    vfsub F a b < F.pinf ∧ natOf F (vfsub F a b) = z * 2 ^ k := by
  obtain ⟨a1, a2, a3, _, a5⟩ := nonneg_finite F ha
  obtain ⟨b1, b2, b3, _, b5⟩ := nonneg_finite F hb
  have hz' : intOf F a - intOf F b = (z : Int) * 2 ^ k := by
    rw [a3, b3, hz]; push_cast; ring
  obtain ⟨_, v2, v3, v4, v5, v6⟩ := vfsub_exact F heb a5 b5 hz' (by simpa using hz2) hk hk2
  refine ⟨?_, by simpa using v2⟩
  by_cases h0 : z = 0
  · have := v6 (by exact_mod_cast h0)
    rw [a2] at this
    rw [this]; exact pinf_pos F heb
  · have hs := v5 (by exact_mod_cast h0)
    have hs' : signOf F (vfsub F a b) = false := by
      rw [hs]; simp
    have := lt_of_sign_false F hs' v4
    unfold magOf at v3
    rw [Nat.mod_eq_of_lt this] at v3
    exact v3

theorem vround_f64m1_eq (x : Nat) : __riscv_vround_f64m1 x = vround_lane FP64 x := by
  rfl

theorem vround_f32m1_eq (x : Nat) : __riscv_vround_f32m1 x = vround_lane FP32 x := by
  rfl

theorem vround_f16m1_eq (x : Nat) : __riscv_vround_f16m1 x = vround_lane FP16 x := by
  rfl

/-! ## The steps of `vround` -/

/-- Sum of two non-negative finite lanes whose exact value lies in binade `l`
above the subnormal range. -/
theorem vfadd_in_binade_pos (F : Fmt) {a b : Nat} (ha : a < F.pinf) (hb : b < F.pinf)
    {l : Nat} (h1 : 2 ^ l ≤ natOf F a + natOf F b) (h2 : natOf F a + natOf F b < 2 ^ (l + 1))
    (h3 : l + 1 ≤ 2 ^ 13) (h4 : F.mb < l)
    (hov : (l - F.mb) * 2 ^ F.mb + rne (natOf F a + natOf F b) (l - F.mb) < F.pinf) :
    vfadd F a b = (l - F.mb) * 2 ^ F.mb + rne (natOf F a + natOf F b) (l - F.mb) := by
  obtain ⟨_, _, a3, _, a5⟩ := nonneg_finite F ha
  obtain ⟨_, _, b3, _, b5⟩ := nonneg_finite F hb
  rw [vfadd_finite F a5 b5, a3, b3]
  have hpos : 0 < natOf F a + natOf F b := lt_of_lt_of_le (by positivity) h1
  have e : ((natOf F a : Int) + (natOf F b : Int)) = ((natOf F a + natOf F b : Nat) : Int) := by
    push_cast; rfl
  rw [e]
  have hN0 : ((natOf F a + natOf F b : Nat) : Int) ≠ 0 := by omega
  have hNn : decide (((natOf F a + natOf F b : Nat) : Int) < 0) = false := by
    rw [decide_eq_false_iff_not]; omega
  rw [if_neg hN0, hNn, Int.natAbs_ofNat,
    roundPack_normal F false h1 h2 h3 (by omega) (by rw [Nat.sub_zero]; exact hov)]
  simp

/-- The constants of `vround`: `2 ^ mb`, `1.0` and `0.5`. -/
theorem vround_consts (F : Fmt) (hb : 2 ≤ F.bias) (hE : F.bias + F.mb + 2 < 2 ^ F.eb) :
    (F.bias + F.mb) * 2 ^ F.mb < F.pinf ∧
    natOf F ((F.bias + F.mb) * 2 ^ F.mb) = 2 ^ F.mb * 2 ^ (F.bias + F.mb - 1) ∧
    F.bias * 2 ^ F.mb < F.pinf ∧ natOf F (F.bias * 2 ^ F.mb) = 2 ^ (F.bias + F.mb - 1) ∧
    (F.bias - 1) * 2 ^ F.mb < F.pinf ∧
    2 * natOf F ((F.bias - 1) * 2 ^ F.mb) = 2 ^ (F.bias + F.mb - 1) ∧
    0 < (F.bias - 1) * 2 ^ F.mb := by
  refine ⟨pow_pattern_lt_pinf F (by omega), natOf_pow F (by omega) (by omega),
    pow_pattern_lt_pinf F (by omega), ?_, pow_pattern_lt_pinf F (by omega), ?_,
    Nat.mul_pos (by omega) (by positivity)⟩
  · rw [natOf_pow F (by omega) (by omega), ← Nat.pow_add]
    congr 1; omega
  · rw [natOf_pow F (by omega) (by omega), ← Nat.pow_add, ← Nat.pow_succ']
    congr 1; omega

/-- Steps 1 and 2: adding and subtracting `2 ^ mb` rounds the magnitude to an
integer, ties to even. -/
theorem vround_step_rint (F : Fmt) (hb : 2 ≤ F.bias) (hmb : 1 ≤ F.mb)
    (hE : F.bias + F.mb + 2 < 2 ^ F.eb) (hsz : F.bias + 2 * F.mb + 2 ≤ 2 ^ 13) {ix : Nat}
    (hix : ix < (F.bias + F.mb) * 2 ^ F.mb) :
    vfsub F (vfadd F ix ((F.bias + F.mb) * 2 ^ F.mb)) ((F.bias + F.mb) * 2 ^ F.mb) < F.pinf ∧
    natOf F (vfsub F (vfadd F ix ((F.bias + F.mb) * 2 ^ F.mb)) ((F.bias + F.mb) * 2 ^ F.mb)) =
      rne (natOf F ix) (F.bias + F.mb - 1) * 2 ^ (F.bias + F.mb - 1) ∧
    natOf F ix < 2 ^ F.mb * 2 ^ (F.bias + F.mb - 1) := by
  obtain ⟨c1, c2, _, _, _, _, _⟩ := vround_consts F hb hE
  have heb : 2 < 2 ^ F.eb := by omega
  have hixp : ix < F.pinf := lt_trans hix c1
  have ha : natOf F ix < 2 ^ F.mb * 2 ^ (F.bias + F.mb - 1) := by
    rw [← c2]; exact natOf_lt_of_lt F hix (lt_trans c1 (pinf_lt F))
  have hB : 0 < 2 ^ F.mb := by positivity
  have hU : 0 < 2 ^ (F.bias + F.mb - 1) := by positivity
  have el : 2 ^ (F.mb + (F.bias + F.mb - 1)) = 2 ^ F.mb * 2 ^ (F.bias + F.mb - 1) :=
    Nat.pow_add _ _ _
  have el1 : 2 ^ (F.mb + (F.bias + F.mb - 1) + 1) = 2 * (2 ^ F.mb * 2 ^ (F.bias + F.mb - 1)) := by
    rw [Nat.pow_succ, el]; ring
  have hsub : F.mb + (F.bias + F.mb - 1) - F.mb = F.bias + F.mb - 1 := by omega
  have hR : rne (natOf F ix) (F.bias + F.mb - 1) ≤ 2 ^ F.mb := rne_le_of_le (le_of_lt ha)
  have heven : 2 ^ F.mb % 2 = 0 := by
    have : F.mb = (F.mb - 1) + 1 := by omega
    rw [this, Nat.pow_succ]; omega
  have hrn : rne (natOf F ix + natOf F ((F.bias + F.mb) * 2 ^ F.mb)) (F.bias + F.mb - 1) =
      2 ^ F.mb + rne (natOf F ix) (F.bias + F.mb - 1) := by
    rw [c2, Nat.add_comm, rne_add_mul _ _ _ heven]
  have hEb : (F.bias + F.mb + 1) * 2 ^ F.mb < F.pinf := pow_pattern_lt_pinf F (by omega)
  have e3 : (F.bias + F.mb + 1) * 2 ^ F.mb =
      (F.bias + F.mb - 1) * 2 ^ F.mb + 2 ^ F.mb + 2 ^ F.mb := by
    have : F.bias + F.mb + 1 = (F.bias + F.mb - 1) + 1 + 1 := by omega
    rw [this, Nat.add_mul, Nat.add_mul, Nat.one_mul]
  have h1 := vfadd_in_binade_pos F hixp c1 (l := F.mb + (F.bias + F.mb - 1))
    (by rw [el, c2]; omega) (by rw [el1, c2]; omega) (by omega) (by omega)
    (by rw [hsub, hrn]; omega)
  rw [hsub, hrn] at h1
  generalize rne (natOf F ix) (F.bias + F.mb - 1) = R at *
  -- the magnitude of the sum
  have ht1 : vfadd F ix ((F.bias + F.mb) * 2 ^ F.mb) < F.pinf := by rw [h1]; omega
  have hn1 : natOf F (vfadd F ix ((F.bias + F.mb) * 2 ^ F.mb)) =
      natOf F ((F.bias + F.mb) * 2 ^ F.mb) + R * 2 ^ (F.bias + F.mb - 1) := by
    rw [h1, c2]
    rcases Nat.lt_or_ge R (2 ^ F.mb) with hlt | hge
    · have e : (F.bias + F.mb - 1) * 2 ^ F.mb + (2 ^ F.mb + R) =
          (F.bias + F.mb) * 2 ^ F.mb + R := by
        have : F.bias + F.mb = (F.bias + F.mb - 1) + 1 := by omega
        conv_rhs => rw [this, Nat.add_mul, Nat.one_mul]
        omega
      rw [e, natOf_pack F (by omega) hlt, if_neg (by omega)]
      ring
    · have hRe : R = 2 ^ F.mb := by omega
      have e : (F.bias + F.mb - 1) * 2 ^ F.mb + (2 ^ F.mb + R) =
          (F.bias + F.mb + 1) * 2 ^ F.mb := by
        rw [e3, hRe]; omega
      rw [e, natOf_pow F (by omega) (by omega), hRe]
      have : F.bias + F.mb + 1 - 1 = (F.bias + F.mb - 1) + 1 := by omega
      rw [this, Nat.pow_succ]; ring
  have h2 := vfsub_exact_pos F heb ht1 c1 (z := R) (k := F.bias + F.mb - 1) hn1
    (by rw [Nat.pow_succ]; omega) (by omega) (by omega)
  exact ⟨h2.1, h2.2, ha⟩

theorem floor_of_nearest {a R U : Nat} (hU : 0 < U) (h1 : 2 * a ≤ 2 * (R * U) + U)
    (h2 : 2 * (R * U) ≤ 2 * a + U) :
    (a < R * U → 1 ≤ R ∧ a / U = R - 1) ∧ (¬ a < R * U → a / U = R) := by
  constructor
  · intro h
    cases R with
    | zero => simp at h
    | succ r =>
      have e : (r + 1) * U = r * U + U := by ring
      rw [e] at h h2
      refine ⟨by omega, ?_⟩
      rw [Nat.add_sub_cancel]
      exact Nat.div_eq_of_lt_le (by omega) (by rw [e]; exact h)
  · intro h
    have e : (R + 1) * U = R * U + U := by ring
    exact Nat.div_eq_of_lt_le (by omega) (by rw [e]; omega)

/-- Step 3: the tie-to-even integer is lowered by one where it exceeds the
magnitude, which leaves the floor. -/
theorem vround_step_floor (F : Fmt) (hb : 2 ≤ F.bias) (hmb : 1 ≤ F.mb)
    (hE : F.bias + F.mb + 2 < 2 ^ F.eb) (hsz : F.bias + 2 * F.mb + 2 ≤ 2 ^ 13) {ix t2 : Nat}
    (hix : ix < F.pinf) (ht2 : t2 < F.pinf)
    (hn2 : natOf F t2 = rne (natOf F ix) (F.bias + F.mb - 1) * 2 ^ (F.bias + F.mb - 1))
    (ha : natOf F ix < 2 ^ F.mb * 2 ^ (F.bias + F.mb - 1)) :
    vmerge_vvm t2 (vfsub F t2 (F.bias * 2 ^ F.mb)) (vmsltu ix t2) < F.pinf ∧
    natOf F (vmerge_vvm t2 (vfsub F t2 (F.bias * 2 ^ F.mb)) (vmsltu ix t2)) =
      natOf F ix / 2 ^ (F.bias + F.mb - 1) * 2 ^ (F.bias + F.mb - 1) := by
  obtain ⟨_, _, c3, c4, _, _, _⟩ := vround_consts F hb hE
  have heb : 2 < 2 ^ F.eb := by omega
  have hU : 0 < 2 ^ (F.bias + F.mb - 1) := by positivity
  obtain ⟨s1, s2, _, _⟩ := rne_spec (natOf F ix) (F.bias + F.mb - 1)
  have hR : rne (natOf F ix) (F.bias + F.mb - 1) ≤ 2 ^ F.mb := rne_le_of_le (le_of_lt ha)
  obtain ⟨f1, f2⟩ := floor_of_nearest hU s1 s2
  have hlt : ix < t2 ↔ natOf F ix < natOf F t2 :=
    natOf_lt_iff F (lt_trans hix (pinf_lt F)) (lt_trans ht2 (pinf_lt F))
  unfold vmerge_vvm vmsltu
  by_cases hc : ix < t2
  · simp only [hc, decide_True, if_true]
    have hc' := hlt.1 hc
    rw [hn2] at hc'
    obtain ⟨g1, g2⟩ := f1 hc'
    rw [g2]
    have hn : natOf F t2 = natOf F (F.bias * 2 ^ F.mb) +
        (rne (natOf F ix) (F.bias + F.mb - 1) - 1) * 2 ^ (F.bias + F.mb - 1) := by
      rw [hn2, c4, Nat.sub_mul, Nat.one_mul]
      have := Nat.mul_le_mul_right (2 ^ (F.bias + F.mb - 1)) g1
      rw [Nat.one_mul] at this
      omega
    exact vfsub_exact_pos F heb ht2 c3 hn (by rw [Nat.pow_succ]; omega) (by omega) (by omega)
  · simp only [hc, decide_False, Bool.false_eq_true, if_false]
    have hc' : ¬ natOf F ix < rne (natOf F ix) (F.bias + F.mb - 1) * 2 ^ (F.bias + F.mb - 1) := by
      rw [← hn2]; exact fun h => hc (hlt.2 h)
    rw [f2 hc']
    exact ⟨ht2, hn2⟩

/-- Step 4: the fraction `|x| - floor |x|` is computed exactly. -/
theorem vround_step_frac (F : Fmt) (hb : 2 ≤ F.bias)
    (hE : F.bias + F.mb + 2 < 2 ^ F.eb) (hsz : F.bias + 2 * F.mb + 2 ≤ 2 ^ 13) {ix t3 : Nat}
    (hix : ix < (F.bias + F.mb) * 2 ^ F.mb) (ht3 : t3 < F.pinf)
    (hn3 : natOf F t3 = natOf F ix / 2 ^ (F.bias + F.mb - 1) * 2 ^ (F.bias + F.mb - 1)) :
    vfsub F ix t3 < F.pinf ∧
    natOf F (vfsub F ix t3) = natOf F ix % 2 ^ (F.bias + F.mb - 1) := by
  obtain ⟨c1, _, _, _, _, _, _⟩ := vround_consts F hb hE
  have heb : 2 < 2 ^ F.eb := by omega
  have hixp : ix < F.pinf := lt_trans hix c1
  have hix2 : ix < 2 ^ (F.eb + F.mb) := lt_trans hixp (pinf_lt F)
  have hd := magOf_decomp F ix
  rw [show magOf F ix = ix from Nat.mod_eq_of_lt hix2] at hd
  have hm := manField_lt F ix
  have hB : 0 < 2 ^ F.mb := by positivity
  -- the exponent field is below that of `2 ^ mb`
  have he : expField F ix < F.bias + F.mb := by
    by_contra hc
    have := Nat.mul_le_mul_right (2 ^ F.mb) (Nat.le_of_not_lt hc)
    omega
  -- the magnitude as `c * 2 ^ k`
  obtain ⟨c, hc1, hc2⟩ : ∃ c, natOf F ix = c * 2 ^ (expField F ix - 1) ∧ c < 2 ^ (F.mb + 1) := by
    unfold natOf
    by_cases h0 : expField F ix = 0
    · refine ⟨manField F ix, ?_, by rw [Nat.pow_succ]; omega⟩
      rw [if_pos h0, h0]; simp
    · exact ⟨2 ^ F.mb + manField F ix, by rw [if_neg h0], by rw [Nat.pow_succ]; omega⟩
  have hkU : 2 ^ (expField F ix - 1) ∣ 2 ^ (F.bias + F.mb - 1) :=
    Nat.pow_dvd_pow 2 (by omega)
  have hka : 2 ^ (expField F ix - 1) ∣ natOf F ix := ⟨c, by rw [hc1, Nat.mul_comm]⟩
  have hkr : 2 ^ (expField F ix - 1) ∣ natOf F ix % 2 ^ (F.bias + F.mb - 1) :=
    (Nat.dvd_mod_iff hkU).2 hka
  have hz := Nat.div_mul_cancel hkr
  have hk0 : 0 < 2 ^ (expField F ix - 1) := by positivity
  have hzc : natOf F ix % 2 ^ (F.bias + F.mb - 1) / 2 ^ (expField F ix - 1) ≤ c := by
    have h1 : natOf F ix % 2 ^ (F.bias + F.mb - 1) ≤ natOf F ix := Nat.mod_le _ _
    have h2 := Nat.div_le_div_right (c := 2 ^ (expField F ix - 1)) h1
    rw [hc1, Nat.mul_div_cancel _ hk0] at h2
    rw [hc1]; exact h2
  have hn : natOf F ix = natOf F t3 +
      natOf F ix % 2 ^ (F.bias + F.mb - 1) / 2 ^ (expField F ix - 1) *
        2 ^ (expField F ix - 1) := by
    rw [hz, hn3]; exact (Nat.div_add_mod' _ _).symm
  have h := vfsub_exact_pos F heb hixp ht3 hn (by omega) (by omega) (by omega)
  rw [hz] at h
  exact h

/-- Step 5: the comparison with the largest value below `0.5` decides whether
the fraction is at least one half. -/
theorem vround_step_mask (F : Fmt) (hb : 2 ≤ F.bias) (hE : F.bias + F.mb + 2 < 2 ^ F.eb)
    {d : Nat} (hd : d < F.pinf) :
    vmfgt F d ((F.bias - 1) * 2 ^ F.mb - 1) =
      decide (2 ^ (F.bias + F.mb - 1) ≤ 2 * natOf F d) := by
  obtain ⟨_, _, _, _, c5, c6, c7⟩ := vround_consts F hb hE
  have hp : (F.bias - 1) * 2 ^ F.mb - 1 < F.pinf := by omega
  obtain ⟨_, _, _, k1, m1⟩ := nonneg_finite F hp
  obtain ⟨_, _, _, k2, m2⟩ := nonneg_finite F hd
  unfold vmfgt vmflt
  rw [isNaN_of_lt m1, isNaN_of_lt m2, k1, k2]
  simp only [Bool.not_false, Bool.true_and]
  rw [decide_eq_decide]
  have hle := natOf_le_iff F (lt_trans c5 (pinf_lt F)) (lt_trans hd (pinf_lt F))
  constructor
  · intro h
    have : (F.bias - 1) * 2 ^ F.mb ≤ d := by omega
    have := hle.1 this
    omega
  · intro h
    have : natOf F ((F.bias - 1) * 2 ^ F.mb) ≤ natOf F d := by omega
    have := hle.2 this
    omega

theorem half_up_arith {q r U : Nat} (hr : r < U) :
    (2 * (q * U + r) + U) / (2 * U) = if U ≤ 2 * r then q + 1 else q := by
  split
  · apply Nat.div_eq_of_lt_le
    · have e : (q + 1) * (2 * U) = 2 * (q * U) + 2 * U := by ring
      rw [e]; omega
    · have e : (q + 1 + 1) * (2 * U) = 2 * (q * U) + 4 * U := by ring
      rw [e]; omega
  · apply Nat.div_eq_of_lt_le
    · have e : q * (2 * U) = 2 * (q * U) := by ring
      rw [e]; omega
    · have e : (q + 1) * (2 * U) = 2 * (q * U) + 2 * U := by ring
      rw [e]; omega

/-- Step 6: one is added where the fraction is at least one half. -/
theorem vround_step_up (F : Fmt) (hb : 2 ≤ F.bias) (hE : F.bias + F.mb + 2 < 2 ^ F.eb)
    (hsz : F.bias + 2 * F.mb + 2 ≤ 2 ^ 13) {t3 a : Nat} (ht3 : t3 < F.pinf)
    (hn3 : natOf F t3 = a / 2 ^ (F.bias + F.mb - 1) * 2 ^ (F.bias + F.mb - 1))
    (ha : a < 2 ^ F.mb * 2 ^ (F.bias + F.mb - 1)) (m : Bool)
    (hm : m = decide (2 ^ (F.bias + F.mb - 1) ≤ 2 * (a % 2 ^ (F.bias + F.mb - 1)))) :
    vmerge_vvm t3 (vfadd F t3 (F.bias * 2 ^ F.mb)) m < F.pinf ∧
    natOf F (vmerge_vvm t3 (vfadd F t3 (F.bias * 2 ^ F.mb)) m) =
      (2 * a + 2 ^ (F.bias + F.mb - 1)) / (2 * 2 ^ (F.bias + F.mb - 1)) *
        2 ^ (F.bias + F.mb - 1) := by
  obtain ⟨_, _, c3, c4, _, _, _⟩ := vround_consts F hb hE
  have heb : 2 < 2 ^ F.eb := by omega
  have hU : 0 < 2 ^ (F.bias + F.mb - 1) := by positivity
  have hr := Nat.mod_lt a hU
  have hdm := Nat.div_add_mod' a (2 ^ (F.bias + F.mb - 1))
  have hFl : a / 2 ^ (F.bias + F.mb - 1) < 2 ^ F.mb :=
    Nat.div_lt_of_lt_mul (by rw [Nat.mul_comm]; exact ha)
  have hB : 0 < 2 ^ F.mb := by positivity
  have har := half_up_arith (q := a / 2 ^ (F.bias + F.mb - 1)) hr
  rw [hdm] at har
  rw [har]
  unfold vmerge_vvm
  subst hm
  by_cases hc : 2 ^ (F.bias + F.mb - 1) ≤ 2 * (a % 2 ^ (F.bias + F.mb - 1))
  · simp only [hc, decide_True, if_true]
    have hn : natOf F t3 + natOf F (F.bias * 2 ^ F.mb) =
        (a / 2 ^ (F.bias + F.mb - 1) + 1) * 2 ^ (F.bias + F.mb - 1) := by
      rw [hn3, c4, Nat.add_mul, Nat.one_mul]
    exact vfadd_exact_pos F heb ht3 c3 hn (by rw [Nat.pow_succ]; omega) (by omega) (by omega)
  · simp only [hc, decide_False, Bool.false_eq_true, if_false]
    exact ⟨ht3, hn3⟩

/-- Step 7: the sign bit of the input is put back. -/
theorem vround_step_sign (F : Fmt) {t x : Nat} (ht : t < F.pinf) :
    signOf F (vor t (vand x F.signMask)) = signOf F x ∧
    magOf F (vor t (vand x F.signMask)) = t ∧
    natOf F (vor t (vand x F.signMask)) = natOf F t := by
  have ht2 : t < 2 ^ (F.eb + F.mb) := lt_trans ht (pinf_lt F)
  have e : vor t (vand x F.signMask) = (if signOf F x then F.signMask else 0) + t := by
    unfold vor vand Fmt.signMask signOf
    rw [Nat.and_two_pow, Nat.or_comm, Nat.mul_comm, ← Nat.mul_add_lt_is_or ht2]
    cases Nat.testBit x (F.eb + F.mb) <;> simp
  obtain ⟨s1, s2, _⟩ := sign_mag_of_pack F (signOf F x) ht2
  rw [e]
  refine ⟨s1, s2, ?_⟩
  rw [← natOf_magOf, s2]

theorem vmerge_vvm_false (a b : Nat) : vmerge_vvm a b false = a := rfl

theorem vmerge_vvm_true (a b : Nat) : vmerge_vvm a b true = b := rfl

theorem vfmerge_vfm_false (a b : Nat) : vfmerge_vfm a b false = a := rfl

/-- A finite magnitude of at least `2 ^ mb` is an integer. -/
theorem natOf_integer_of_big (F : Fmt) (hb : 2 ≤ F.bias) {x : Nat}
    (hbig : (F.bias + F.mb) * 2 ^ F.mb ≤ magOf F x) :
    ∃ c, natOf F x = c * 2 ^ (F.bias + F.mb - 1) := by
  have hd := magOf_decomp F x
  have hm := manField_lt F x
  have he : F.bias + F.mb ≤ expField F x := by
    by_contra hc
    have h1 : expField F x + 1 ≤ F.bias + F.mb := by omega
    have := Nat.mul_le_mul_right (2 ^ F.mb) h1
    rw [Nat.add_mul, Nat.one_mul] at this
    omega
  refine ⟨(2 ^ F.mb + manField F x) * 2 ^ (expField F x - (F.bias + F.mb)), ?_⟩
  unfold natOf
  rw [if_neg (by omega), Nat.mul_assoc, ← Nat.pow_add]
  congr 2
  omega

/-- The shared body of `vround`: for a finite lane the result has the sign bit
of the input and the magnitude `floor(|x| + 1/2)`; a lane of magnitude at least
`2 ^ mb` is returned as it is. -/
theorem vround_lane_spec (F : Fmt) (hb : 2 ≤ F.bias) (hmb : 1 ≤ F.mb)
    (hE : F.bias + F.mb + 2 < 2 ^ F.eb) (hsz : F.bias + 2 * F.mb + 2 ≤ 2 ^ 13) (x : Nat)
    (hfin : magOf F x < F.pinf) :
    signOf F (vround_lane F x) = signOf F x ∧
    natOf F (vround_lane F x) =
      (2 * natOf F x + 2 ^ (F.bias + F.mb - 1)) / (2 * 2 ^ (F.bias + F.mb - 1)) *
        2 ^ (F.bias + F.mb - 1) ∧
    magOf F (vround_lane F x) < F.pinf ∧
    ((F.bias + F.mb) * 2 ^ F.mb ≤ magOf F x → vround_lane F x = x) := by
  have hix : vand x (2 ^ (F.eb + F.mb) - 1) = magOf F x := and_absmask _ _
  have hU : 0 < 2 ^ (F.bias + F.mb - 1) := by positivity
  by_cases hm : (F.bias + F.mb) * 2 ^ F.mb ≤ magOf F x
  · have hr : vround_lane F x = x := by
      unfold vround_lane
      simp only [hix, vmsgeu, hm, decide_True, vmerge_vvm_true]
    rw [hr]
    refine ⟨rfl, ?_, hfin, fun _ => rfl⟩
    obtain ⟨c, hc⟩ := natOf_integer_of_big F hb hm
    have h := half_up_arith (q := c) (r := 0) hU
    rw [Nat.add_zero, if_neg (by omega)] at h
    rw [hc, h]
  · have hmk : vmsgeu (magOf F x) ((F.bias + F.mb) * 2 ^ F.mb) = false := by
      unfold vmsgeu; simp [hm]
    have hlt : magOf F x < (F.bias + F.mb) * 2 ^ F.mb := not_le.1 hm
    obtain ⟨p1, p2, p3⟩ := vround_step_rint F hb hmb hE hsz hlt
    obtain ⟨q1, q2⟩ := vround_step_floor F hb hmb hE hsz hfin p1 p2 p3
    obtain ⟨r1, r2⟩ := vround_step_frac F hb hE hsz hlt q1 q2
    have hmask := vround_step_mask F hb hE r1
    rw [r2] at hmask
    obtain ⟨u1, u2⟩ := vround_step_up F hb hE hsz q1 q2 p3 _ hmask
    obtain ⟨s1, s2, s3⟩ := vround_step_sign F (x := x) u1
    have hr : vround_lane F x = vor (vmerge_vvm
        (vmerge_vvm
          (vfsub F (vfadd F (magOf F x) ((F.bias + F.mb) * 2 ^ F.mb)) ((F.bias + F.mb) * 2 ^ F.mb))
          (vfsub F
            (vfsub F (vfadd F (magOf F x) ((F.bias + F.mb) * 2 ^ F.mb))
              ((F.bias + F.mb) * 2 ^ F.mb))
            (F.bias * 2 ^ F.mb))
          (vmsltu (magOf F x)
            (vfsub F (vfadd F (magOf F x) ((F.bias + F.mb) * 2 ^ F.mb))
              ((F.bias + F.mb) * 2 ^ F.mb))))
        (vfadd F (vmerge_vvm
          (vfsub F (vfadd F (magOf F x) ((F.bias + F.mb) * 2 ^ F.mb)) ((F.bias + F.mb) * 2 ^ F.mb))
          (vfsub F
            (vfsub F (vfadd F (magOf F x) ((F.bias + F.mb) * 2 ^ F.mb))
              ((F.bias + F.mb) * 2 ^ F.mb))
            (F.bias * 2 ^ F.mb))
          (vmsltu (magOf F x)
            (vfsub F (vfadd F (magOf F x) ((F.bias + F.mb) * 2 ^ F.mb))
              ((F.bias + F.mb) * 2 ^ F.mb)))) (F.bias * 2 ^ F.mb))
        (vmfgt F (vfsub F (magOf F x) (vmerge_vvm
          (vfsub F (vfadd F (magOf F x) ((F.bias + F.mb) * 2 ^ F.mb)) ((F.bias + F.mb) * 2 ^ F.mb))
          (vfsub F
            (vfsub F (vfadd F (magOf F x) ((F.bias + F.mb) * 2 ^ F.mb))
              ((F.bias + F.mb) * 2 ^ F.mb))
            (F.bias * 2 ^ F.mb))
          (vmsltu (magOf F x)
            (vfsub F (vfadd F (magOf F x) ((F.bias + F.mb) * 2 ^ F.mb))
              ((F.bias + F.mb) * 2 ^ F.mb))))) ((F.bias - 1) * 2 ^ F.mb - 1)))
        (vand x F.signMask) := by
      unfold vround_lane
      simp only [hix, hmk, vmerge_vvm_false, vfmerge_vfm_false]
    rw [hr]
    refine ⟨s1, ?_, ?_, fun h => absurd h hm⟩
    · rw [s3, u2, natOf_magOf]
    · rw [s2]; exact u1

/-- C12: in every width, for every finite lane `x`, `__riscv_vround_*` returns
the lane with the sign bit of `x` and the magnitude `floor(|x| + 1/2)`, the
nearest integer with halfway cases away from zero (magnitudes are counted in
units of the smallest subnormal, where `1.0` is `2 ^ (bias + mb - 1)`); the
result is finite, and a lane with `|x| >= 2^52 / 2^23 / 2^10` is returned
unchanged.  In binary64, `round(-0.3) = -0.0`, `round(0.5) = 1` and
`round(2.5) = 3`. -/
theorem vround_is_nearest_half_away_from_zero (w : Width) (x : Nat)
    (hfin : magOf w.fmt x < w.fmt.pinf) :
    signOf w.fmt (vround w x) = signOf w.fmt x ∧
    natOf w.fmt (vround w x) =
      (2 * natOf w.fmt x + 2 ^ (w.fmt.bias + w.fmt.mb - 1)) /
        (2 * 2 ^ (w.fmt.bias + w.fmt.mb - 1)) * 2 ^ (w.fmt.bias + w.fmt.mb - 1) ∧
    magOf w.fmt (vround w x) < w.fmt.pinf ∧
    ((w.fmt.bias + w.fmt.mb) * 2 ^ w.fmt.mb ≤ magOf w.fmt x → vround w x = x) ∧
    ((FP64.bias + FP64.mb) * 2 ^ FP64.mb = 0x4330000000000000 ∧
      (FP32.bias + FP32.mb) * 2 ^ FP32.mb = 0x4b000000 ∧
      (FP16.bias + FP16.mb) * 2 ^ FP16.mb = 0x6400) ∧
    (vround .f64 0xbfd3333333333333 = 0x8000000000000000 ∧
      vround .f64 0x3fe0000000000000 = 0x3ff0000000000000 ∧
      vround .f64 0x4004000000000000 = 0x4008000000000000) := by
  have hspec : signOf w.fmt (vround w x) = signOf w.fmt x ∧
      natOf w.fmt (vround w x) =
        (2 * natOf w.fmt x + 2 ^ (w.fmt.bias + w.fmt.mb - 1)) /
          (2 * 2 ^ (w.fmt.bias + w.fmt.mb - 1)) * 2 ^ (w.fmt.bias + w.fmt.mb - 1) ∧
      magOf w.fmt (vround w x) < w.fmt.pinf ∧
      ((w.fmt.bias + w.fmt.mb) * 2 ^ w.fmt.mb ≤ magOf w.fmt x → vround w x = x) := by
    cases w
    · simp only [Width.fmt, vround] at hfin ⊢
      rw [vround_f64m1_eq]
      exact vround_lane_spec FP64 (by decide) (by decide) (by decide) (by decide) x hfin
    · simp only [Width.fmt, vround] at hfin ⊢
      rw [vround_f32m1_eq]
      exact vround_lane_spec FP32 (by decide) (by decide) (by decide) (by decide) x hfin
    · simp only [Width.fmt, vround] at hfin ⊢
      rw [vround_f16m1_eq]
      exact vround_lane_spec FP16 (by decide) (by decide) (by decide) (by decide) x hfin
  exact ⟨hspec.1, hspec.2.1, hspec.2.2.1, hspec.2.2.2, by decide,
    by refine ⟨?_, ?_, ?_⟩ <;> decide!⟩

theorem vround_is_nearest_half_away_from_zero_witness :
    signOf Width.f32.fmt (vround .f32 0xc0200000) = signOf Width.f32.fmt 0xc0200000 ∧
    natOf Width.f32.fmt (vround .f32 0xc0200000) =
      (2 * natOf Width.f32.fmt 0xc0200000 + 2 ^ (Width.f32.fmt.bias + Width.f32.fmt.mb - 1)) /
        (2 * 2 ^ (Width.f32.fmt.bias + Width.f32.fmt.mb - 1)) *
          2 ^ (Width.f32.fmt.bias + Width.f32.fmt.mb - 1) :=
  ⟨(vround_is_nearest_half_away_from_zero .f32 0xc0200000 (by decide!)).1,
   (vround_is_nearest_half_away_from_zero .f32 0xc0200000 (by decide!)).2.1⟩

theorem and_pinf (F : Fmt) (x : Nat) : x &&& F.pinf = expField F x * 2 ^ F.mb := by
  unfold expField Fmt.pinf
  apply Nat.eq_of_testBit_eq
  intro i
  rw [Nat.testBit_and, Nat.mul_comm (2 ^ F.eb - 1), Nat.mul_comm _ (2 ^ F.mb),
    Nat.testBit_mul_pow_two, Nat.testBit_mul_pow_two, Nat.testBit_two_pow_sub_one,
    Nat.testBit_mod_two_pow, ← Nat.shiftRight_eq_div_pow, Nat.testBit_shiftRight]
  by_cases h1 : F.mb ≤ i
  · have e : F.mb + (i - F.mb) = i := by omega
    simp only [h1, decide_True, Bool.true_and, e]
    exact Bool.and_comm _ _
  · simp [h1]

theorem sortMask_eq (F : Fmt) (sh : Nat) :
    vmsgtu (vand sh F.pinf) (F.bias * 2 ^ F.mb) = decide (F.bias < expField F sh) := by
  unfold vmsgtu vand
  rw [and_pinf]
  have hpos : 0 < 2 ^ F.mb := Nat.two_pow_pos _
  by_cases h : F.bias < expField F sh
  · simp only [h, decide_True, decide_eq_true_eq]
    exact Nat.mul_lt_mul_of_pos_right h hpos
  · simp only [h, decide_False, decide_eq_false_iff_not, not_lt]
    exact Nat.mul_le_mul_right _ (not_lt.1 h)

theorem sort_eq (w : Width) (sh : Nat) :
    reconstruct_expm1_sort w sh =
      if w.fmt.bias < expField w.fmt sh then (sh, EXPM1_UNDERFLOW_VALUE w)
      else (EXPM1_UNDERFLOW_VALUE w, sh) := by
  cases w
  · have h := sortMask_eq FP64 sh
    have e1 : FP64.pinf = 0x7ff0000000000000 := by decide
    have e2 : FP64.bias * 2 ^ FP64.mb = 0x3ff0000000000000 := by decide
    rw [e1, e2] at h
    simp only [reconstruct_expm1_sort, reconstruct_expm1_f64m1_sort, Width.fmt, h,
      EXPM1_UNDERFLOW_VALUE, vfmerge_vfm]
    by_cases c : FP64.bias < expField FP64 sh <;> simp [c]
  · have h := sortMask_eq FP32 sh
    have e1 : FP32.pinf = 0x7f800000 := by decide
    have e2 : FP32.bias * 2 ^ FP32.mb = 0x3f800000 := by decide
    rw [e1, e2] at h
    simp only [reconstruct_expm1_sort, reconstruct_expm1_f32m1_sort, Width.fmt, h,
      EXPM1_UNDERFLOW_VALUE, vfmerge_vfm]
    by_cases c : FP32.bias < expField FP32 sh <;> simp [c]
  · have h := sortMask_eq FP16 sh
    have e1 : FP16.pinf = 0x7c00 := by decide
    have e2 : FP16.bias * 2 ^ FP16.mb = 0x3c00 := by decide
    rw [e1, e2] at h
    simp only [reconstruct_expm1_sort, reconstruct_expm1_f16m1_sort, Width.fmt, h,
      EXPM1_UNDERFLOW_VALUE, vfmerge_vfm]
    by_cases c : FP16.bias < expField FP16 sh <;> simp [c]

theorem expField_m1 (w : Width) :
    expField w.fmt (EXPM1_UNDERFLOW_VALUE w) = w.fmt.bias ∧
    EXPM1_UNDERFLOW_VALUE w = w.fmt.signMask + w.fmt.bias * 2 ^ w.fmt.mb ∧
    natOf w.fmt (EXPM1_UNDERFLOW_VALUE w) = 2 ^ (w.fmt.bias + w.fmt.mb - 1) ∧
    signOf w.fmt (EXPM1_UNDERFLOW_VALUE w) = true ∧
    magOf w.fmt (EXPM1_UNDERFLOW_VALUE w) < w.fmt.pinf := by
  cases w <;> decide!

/-- C30: in `reconstruct_expm1_*` of every width and for every bit pattern of
the exponent-injected `sh`, the operands of `fast_2_sum_vv` are
`(maxs, mins) = (sh, -1.0)` when the biased exponent field of `sh` is strictly
greater than the bias (`0x3ff`, `0x7f`, `0xf`) and `(-1.0, sh)` otherwise, a
permutation of `(sh, -1.0)` in both cases, so the exponent field of `maxs`
is at least that of `mins`.  The function is the composition of the stage that
computes `sh`, this sort, `fast_2_sum_vv` and the final additions. -/
theorem expm1_sort_orders_by_exponent_field (w : Width) (sh : Nat) :
    reconstruct_expm1_sort w sh =
      (if w.fmt.bias < expField w.fmt sh then (sh, EXPM1_UNDERFLOW_VALUE w)
       else (EXPM1_UNDERFLOW_VALUE w, sh)) ∧
    (reconstruct_expm1_sort w sh = (sh, EXPM1_UNDERFLOW_VALUE w) ∨
      reconstruct_expm1_sort w sh = (EXPM1_UNDERFLOW_VALUE w, sh)) ∧
    expField w.fmt (reconstruct_expm1_sort w sh).2 ≤
      expField w.fmt (reconstruct_expm1_sort w sh).1 ∧
    (EXPM1_UNDERFLOW_VALUE w = w.fmt.signMask + w.fmt.bias * 2 ^ w.fmt.mb ∧
      expField w.fmt (EXPM1_UNDERFLOW_VALUE w) = w.fmt.bias) ∧
    (FP64.bias = 0x3ff ∧ FP32.bias = 0x7f ∧ FP16.bias = 0xf) ∧
    (∀ th tl pm1h pm1l ei : Nat,
      reconstruct_expm1 w th tl pm1h pm1l ei =
        vfadd w.fmt
          (fast_2_sum_vv w.fmt
            (reconstruct_expm1_sort w (reconstruct_expm1_sh w th tl pm1h pm1l ei)).1
            (reconstruct_expm1_sort w (reconstruct_expm1_sh w th tl pm1h pm1l ei)).2).1
          (vfadd w.fmt (reconstruct_expm1_sl w th tl pm1h pm1l ei)
            (fast_2_sum_vv w.fmt
              (reconstruct_expm1_sort w (reconstruct_expm1_sh w th tl pm1h pm1l ei)).1
              (reconstruct_expm1_sort w (reconstruct_expm1_sh w th tl pm1h pm1l ei)).2).2)) := by
  have hs := sort_eq w sh
  have hm := expField_m1 w
  refine ⟨hs, ?_, ?_, ⟨hm.2.1, hm.1⟩, by decide, ?_⟩
  · rw [hs]; by_cases c : w.fmt.bias < expField w.fmt sh <;> simp [c]
  · rw [hs]
    by_cases c : w.fmt.bias < expField w.fmt sh
    · simp only [c, if_true]; rw [hm.1]; omega
    · simp only [c, if_false]; rw [hm.1]; omega
  · intro th tl pm1h pm1l ei
    cases w <;> rfl

theorem natOf_lt_of_field (F : Fmt) (x : Nat) : natOf F x < 2 ^ (F.mb + expField F x) := by
  unfold natOf
  have hm : manField F x < 2 ^ F.mb := Nat.mod_lt _ (Nat.two_pow_pos _)
  by_cases h : expField F x = 0
  · simp only [h, if_true, Nat.add_zero]; exact hm
  · simp only [h, if_false]
    have e : F.mb + expField F x = (F.mb + 1) + (expField F x - 1) := by omega
    rw [e, Nat.pow_add (2) (F.mb + 1), Nat.pow_succ]
    exact Nat.mul_lt_mul_of_pos_right (by omega) (Nat.two_pow_pos _)

theorem natOf_ge_of_field (F : Fmt) (x : Nat) (h : 0 < expField F x) :
    2 ^ (F.mb + expField F x - 1) ≤ natOf F x := by
  unfold natOf
  have h0 : expField F x ≠ 0 := by omega
  simp only [h0, if_false]
  have e : F.mb + expField F x - 1 = F.mb + (expField F x - 1) := by omega
  rw [e, Nat.pow_add]
  exact Nat.mul_le_mul_right _ (Nat.le_add_right _ _)

theorem natOf_field_le (F : Fmt) {x E : Nat} (h : expField F x ≤ E) :
    natOf F x < 2 ^ (F.mb + E) :=
  lt_of_lt_of_le (natOf_lt_of_field F x) (Nat.pow_le_pow_right (by norm_num) (by omega))

theorem natOf_field_gt (F : Fmt) {x E : Nat} (h : E < expField F x) :
    2 ^ (F.mb + E) ≤ natOf F x :=
  le_trans (Nat.pow_le_pow_right (by norm_num) (by omega)) (natOf_ge_of_field F x (by omega))

/-- C21: with every multiply-add and product read as exact rational arithmetic
and `sqrx = x * x`, the macros `RVVMF_EXP_CALC_POLYNOM_DEG_1`, `_DEG_2` and the
even/odd-split `_DEG_3_PARALLEL` .. `_DEG_6_PARALLEL` return
`a0 + a1 * x + ... + aN * x ^ N`, which is also the value of plain Horner
evaluation (of `horner`, and for degree 3 of the Horner macro
`RVVMF_EXP_CALC_POLYNOM_DEG_3` of the source), for all `x` and all
coefficients; the lane functions `calc_polynom_deg_*` are these macros over
the soft-float `vfmadd` and `vfmul`. -/
theorem parallel_polynomials_equal_horner (x a0 a1 a2 a3 a4 a5 a6 : ℚ) :
    (RVVMF_EXP_CALC_POLYNOM_DEG_1 exact_vfmadd x a0 a1 = a0 + a1 * x ∧
     RVVMF_EXP_CALC_POLYNOM_DEG_2 exact_vfmadd x a0 a1 a2 = a0 + a1 * x + a2 * x ^ 2 ∧
     RVVMF_EXP_CALC_POLYNOM_DEG_3_PARALLEL exact_vfmadd x (x * x) a0 a1 a2 a3 =
       a0 + a1 * x + a2 * x ^ 2 + a3 * x ^ 3 ∧
     RVVMF_EXP_CALC_POLYNOM_DEG_4_PARALLEL exact_vfmadd x (x * x) a0 a1 a2 a3 a4 =
       a0 + a1 * x + a2 * x ^ 2 + a3 * x ^ 3 + a4 * x ^ 4 ∧
     RVVMF_EXP_CALC_POLYNOM_DEG_5_PARALLEL exact_vfmadd x (x * x) a0 a1 a2 a3 a4 a5 =
       a0 + a1 * x + a2 * x ^ 2 + a3 * x ^ 3 + a4 * x ^ 4 + a5 * x ^ 5 ∧
     RVVMF_EXP_CALC_POLYNOM_DEG_6_PARALLEL exact_vfmadd exact_vfmul x (x * x)
         a0 a1 a2 a3 a4 a5 a6 =
       a0 + a1 * x + a2 * x ^ 2 + a3 * x ^ 3 + a4 * x ^ 4 + a5 * x ^ 5 + a6 * x ^ 6) ∧
    (RVVMF_EXP_CALC_POLYNOM_DEG_1 exact_vfmadd x a0 a1 = horner [a0, a1] x ∧
     RVVMF_EXP_CALC_POLYNOM_DEG_2 exact_vfmadd x a0 a1 a2 = horner [a0, a1, a2] x ∧
     RVVMF_EXP_CALC_POLYNOM_DEG_3_PARALLEL exact_vfmadd x (x * x) a0 a1 a2 a3 =
       horner [a0, a1, a2, a3] x ∧
     RVVMF_EXP_CALC_POLYNOM_DEG_3_PARALLEL exact_vfmadd x (x * x) a0 a1 a2 a3 =
       RVVMF_EXP_CALC_POLYNOM_DEG_3 exact_vfmadd x a0 a1 a2 a3 ∧
     RVVMF_EXP_CALC_POLYNOM_DEG_4_PARALLEL exact_vfmadd x (x * x) a0 a1 a2 a3 a4 =
       horner [a0, a1, a2, a3, a4] x ∧
     RVVMF_EXP_CALC_POLYNOM_DEG_5_PARALLEL exact_vfmadd x (x * x) a0 a1 a2 a3 a4 a5 =
       horner [a0, a1, a2, a3, a4, a5] x ∧
     RVVMF_EXP_CALC_POLYNOM_DEG_6_PARALLEL exact_vfmadd exact_vfmul x (x * x)
         a0 a1 a2 a3 a4 a5 a6 =
       horner [a0, a1, a2, a3, a4, a5, a6] x) ∧
    (∀ F : Fmt,
      calc_polynom_deg_1 F = RVVMF_EXP_CALC_POLYNOM_DEG_1 (vfmadd F) ∧
      calc_polynom_deg_2 F = RVVMF_EXP_CALC_POLYNOM_DEG_2 (vfmadd F) ∧
      calc_polynom_deg_3_parallel F = RVVMF_EXP_CALC_POLYNOM_DEG_3_PARALLEL (vfmadd F) ∧
      calc_polynom_deg_4_parallel F = RVVMF_EXP_CALC_POLYNOM_DEG_4_PARALLEL (vfmadd F) ∧
      calc_polynom_deg_5_parallel F = RVVMF_EXP_CALC_POLYNOM_DEG_5_PARALLEL (vfmadd F) ∧
      calc_polynom_deg_6_parallel F =
        RVVMF_EXP_CALC_POLYNOM_DEG_6_PARALLEL (vfmadd F) (vfmul F)) := by
  refine ⟨⟨?_, ?_, ?_, ?_, ?_, ?_⟩, ⟨?_, ?_, ?_, ?_, ?_, ?_, ?_⟩,
    fun F => ⟨rfl, rfl, rfl, rfl, rfl, rfl⟩⟩ <;>
  simp only [RVVMF_EXP_CALC_POLYNOM_DEG_1, RVVMF_EXP_CALC_POLYNOM_DEG_2,
    RVVMF_EXP_CALC_POLYNOM_DEG_3, RVVMF_EXP_CALC_POLYNOM_DEG_3_PARALLEL,
    RVVMF_EXP_CALC_POLYNOM_DEG_4_PARALLEL, RVVMF_EXP_CALC_POLYNOM_DEG_5_PARALLEL,
    RVVMF_EXP_CALC_POLYNOM_DEG_6_PARALLEL, exact_vfmadd, exact_vfmul, horner,
    List.foldr_cons, List.foldr_nil] <;>
  ring

theorem abs_intOf (F : Fmt) (x : Nat) : |intOf F x| = (natOf F x : Int) := by
  unfold intOf
  split
  · rw [abs_neg]; exact abs_of_nonneg (Int.natCast_nonneg _)
  · exact abs_of_nonneg (Int.natCast_nonneg _)

theorem abs_ratOf (F : Fmt) (x : Nat) :
    |ratOf F x| = (natOf F x : ℚ) / 2 ^ (F.bias + F.mb - 1) := by
  unfold ratOf
  have hU : (0 : ℚ) < 2 ^ (F.bias + F.mb - 1) := by positivity
  rw [abs_div, abs_of_pos hU, ← Int.cast_abs, abs_intOf, Int.cast_natCast]

theorem ratOf_of_sign_false (F : Fmt) {x : Nat} (h : signOf F x = false) :
    ratOf F x = (natOf F x : ℚ) / 2 ^ (F.bias + F.mb - 1) := by
  unfold ratOf intOf
  rw [h]; simp

theorem rat_pow_close {h l : Int} {k n i e : Nat}
    (H : 2 ^ e * ((h + l) ^ n - 2 ^ i * (2 ^ k) ^ n).natAbs ≤ 2 ^ i * (2 ^ k) ^ n) :
    |((h : ℚ) / 2 ^ k + (l : ℚ) / 2 ^ k) ^ n - 2 ^ i| ≤ 2 ^ i / 2 ^ e := by
  have hU : (0 : ℚ) < 2 ^ k := by positivity
  have hUn : (0 : ℚ) < (2 ^ k) ^ n := by positivity
  have he : (0 : ℚ) < 2 ^ e := by positivity
  have e1 : ((h : ℚ) / 2 ^ k + (l : ℚ) / 2 ^ k) ^ n - 2 ^ i =
      ((((h + l) ^ n - 2 ^ i * (2 ^ k) ^ n : Int)) : ℚ) / (2 ^ k) ^ n := by
    rw [← add_div, div_pow]
    rw [Int.cast_sub, Int.cast_pow, Int.cast_add, Int.cast_mul, Int.cast_pow, Int.cast_pow,
      Int.cast_pow, Int.cast_ofNat, sub_div, mul_div_assoc, div_self (ne_of_gt hUn), mul_one]
  rw [e1, abs_div, abs_of_pos hUn, div_le_div_iff₀ hUn he, ← Int.cast_abs]
  have H2 : ((2 ^ e * ((h + l) ^ n - 2 ^ i * (2 ^ k) ^ n).natAbs : Nat) : ℚ) ≤
      ((2 ^ i * (2 ^ k) ^ n : Nat) : ℚ) := Nat.cast_le.2 H
  simp only [Nat.cast_mul, Nat.cast_pow, Nat.cast_ofNat, Nat.cast_natAbs] at H2
  rw [mul_comm]
  exact H2

theorem table_rows_close (w : Width) : ∀ i, i < 2 ^ TABLE_SIZE_DEG w →
    (magOf w.fmt ((LOOK_UP_TABLE_HIGH w).getD i 0) < w.fmt.pinf ∧
     magOf w.fmt ((LOOK_UP_TABLE_LOW w).getD i 0) < w.fmt.pinf) ∧
    2 ^ (w.fmt.mb + 1 + 5) *
      ((intOf w.fmt ((LOOK_UP_TABLE_HIGH w).getD i 0) +
          intOf w.fmt ((LOOK_UP_TABLE_LOW w).getD i 0)) ^ (2 ^ TABLE_SIZE_DEG w) -
        2 ^ i * (2 ^ (w.fmt.bias + w.fmt.mb - 1)) ^ (2 ^ TABLE_SIZE_DEG w)).natAbs ≤
      2 ^ i * (2 ^ (w.fmt.bias + w.fmt.mb - 1)) ^ (2 ^ TABLE_SIZE_DEG w) := by
  cases w <;> decide!

theorem table_rows_normal (w : Width) : ∀ i, i < 2 ^ TABLE_SIZE_DEG w →
    signOf w.fmt ((LOOK_UP_TABLE_HIGH w).getD i 0) = false ∧
    expField w.fmt ((LOOK_UP_TABLE_HIGH w).getD i 0) = w.fmt.bias ∧
    2 ^ (w.fmt.bias + w.fmt.mb - 1) ≤ natOf w.fmt ((LOOK_UP_TABLE_HIGH w).getD i 0) ∧
    natOf w.fmt ((LOOK_UP_TABLE_HIGH w).getD i 0) < 2 * 2 ^ (w.fmt.bias + w.fmt.mb - 1) ∧
    natOf w.fmt ((LOOK_UP_TABLE_LOW w).getD i 0) * 2 ^ (w.fmt.mb + 1) ≤
      2 ^ (w.fmt.bias + w.fmt.mb - 1) ∧
    magOf w.fmt ((LOOK_UP_TABLE_HIGH w).getD i 0) < w.fmt.pinf ∧
    magOf w.fmt ((LOOK_UP_TABLE_LOW w).getD i 0) < w.fmt.pinf := by
  cases w <;> decide!

theorem table_shape (w : Width) :
    (LOOK_UP_TABLE_HIGH w).length = 2 ^ TABLE_SIZE_DEG w ∧
    (LOOK_UP_TABLE_LOW w).length = 2 ^ TABLE_SIZE_DEG w ∧
    (LOOK_UP_TABLE_HIGH w).getD 0 0 = ONE w ∧ (LOOK_UP_TABLE_LOW w).getD 0 0 = 0 ∧
    intOf w.fmt (ONE w) = 2 ^ (w.fmt.bias + w.fmt.mb - 1) ∧ intOf w.fmt 0 = 0 := by
  cases w <;> decide!

/-- C22: in every width the tables `LOOK_UP_TABLE_HIGH` and `LOOK_UP_TABLE_LOW`
have exactly `2 ^ k` rows (64, 16, 8), row 0 is `(1, 0)`, and for every row
`i < 2 ^ k` both entries are finite and their exact rational sum `s` satisfies
`|s ^ (2 ^ k) - 2 ^ i| <= 2 ^ i * 2 ^ -(p + 5)` with `p = mb + 1` the precision
(53, 24, 11). -/
theorem lookup_table_rows_approximate_powers (w : Width) :
    ((LOOK_UP_TABLE_HIGH w).length = 2 ^ TABLE_SIZE_DEG w ∧
      (LOOK_UP_TABLE_LOW w).length = 2 ^ TABLE_SIZE_DEG w) ∧
    (2 ^ TABLE_SIZE_DEG .f64 = 64 ∧ 2 ^ TABLE_SIZE_DEG .f32 = 16 ∧
      2 ^ TABLE_SIZE_DEG .f16 = 8) ∧
    (FP64.mb + 1 = 53 ∧ FP32.mb + 1 = 24 ∧ FP16.mb + 1 = 11) ∧
    (ratOf w.fmt ((LOOK_UP_TABLE_HIGH w).getD 0 0) = 1 ∧
      ratOf w.fmt ((LOOK_UP_TABLE_LOW w).getD 0 0) = 0) ∧
    ∀ i, i < 2 ^ TABLE_SIZE_DEG w →
      magOf w.fmt ((LOOK_UP_TABLE_HIGH w).getD i 0) < w.fmt.pinf ∧
      magOf w.fmt ((LOOK_UP_TABLE_LOW w).getD i 0) < w.fmt.pinf ∧
      |(ratOf w.fmt ((LOOK_UP_TABLE_HIGH w).getD i 0) +
          ratOf w.fmt ((LOOK_UP_TABLE_LOW w).getD i 0)) ^ (2 ^ TABLE_SIZE_DEG w) - 2 ^ i| ≤
        2 ^ i / 2 ^ (w.fmt.mb + 1 + 5) := by
  obtain ⟨s1, s2, s3, s4, s5, s6⟩ := table_shape w
  refine ⟨⟨s1, s2⟩, by decide, by decide, ⟨?_, ?_⟩, ?_⟩
  · unfold ratOf
    rw [s3, s5, Int.cast_pow, Int.cast_ofNat]
    exact div_self (by positivity)
  · unfold ratOf
    rw [s4, s6, Int.cast_zero, zero_div]
  · intro i hi
    obtain ⟨⟨f1, f2⟩, hc⟩ := table_rows_close w i hi
    exact ⟨f1, f2, rat_pow_close hc⟩

/-- C23: in every width and for every row `i < 2 ^ k`, the pair is a
normalized double-FP pair: `1 <= LOOK_UP_TABLE_HIGH[i] < 2` (the entry is
positive with exponent field equal to the bias, so its ulp is `2 ^ -mb`), and
`|LOOK_UP_TABLE_LOW[i]| <= 2 ^ -(mb + 1)`, half that ulp: `2 ^ -53`, `2 ^ -24`,
`2 ^ -11`. -/
theorem lookup_table_rows_are_normalized (w : Width) :
    (FP64.mb + 1 = 53 ∧ FP32.mb + 1 = 24 ∧ FP16.mb + 1 = 11) ∧
    ∀ i, i < 2 ^ TABLE_SIZE_DEG w →
      1 ≤ ratOf w.fmt ((LOOK_UP_TABLE_HIGH w).getD i 0) ∧
      ratOf w.fmt ((LOOK_UP_TABLE_HIGH w).getD i 0) < 2 ∧
      (signOf w.fmt ((LOOK_UP_TABLE_HIGH w).getD i 0) = false ∧
        expField w.fmt ((LOOK_UP_TABLE_HIGH w).getD i 0) = w.fmt.bias) ∧
      |ratOf w.fmt ((LOOK_UP_TABLE_LOW w).getD i 0)| ≤ 1 / 2 ^ (w.fmt.mb + 1) ∧
      magOf w.fmt ((LOOK_UP_TABLE_HIGH w).getD i 0) < w.fmt.pinf ∧
      magOf w.fmt ((LOOK_UP_TABLE_LOW w).getD i 0) < w.fmt.pinf := by
  refine ⟨by decide, ?_⟩
  intro i hi
  obtain ⟨n1, n2, n3, n4, n5, n6, n7⟩ := table_rows_normal w i hi
  have hU : (0 : ℚ) < 2 ^ (w.fmt.bias + w.fmt.mb - 1) := by positivity
  have hp : (0 : ℚ) < 2 ^ (w.fmt.mb + 1) := by positivity
  have c3 : ((2 ^ (w.fmt.bias + w.fmt.mb - 1) : Nat) : ℚ) ≤
      (natOf w.fmt ((LOOK_UP_TABLE_HIGH w).getD i 0) : ℚ) := Nat.cast_le.2 n3
  have c4 : (natOf w.fmt ((LOOK_UP_TABLE_HIGH w).getD i 0) : ℚ) <
      ((2 * 2 ^ (w.fmt.bias + w.fmt.mb - 1) : Nat) : ℚ) := Nat.cast_lt.2 n4
  have c5 : ((natOf w.fmt ((LOOK_UP_TABLE_LOW w).getD i 0) * 2 ^ (w.fmt.mb + 1) : Nat) : ℚ) ≤
      ((2 ^ (w.fmt.bias + w.fmt.mb - 1) : Nat) : ℚ) := Nat.cast_le.2 n5
  simp only [Nat.cast_mul, Nat.cast_pow, Nat.cast_ofNat] at c3 c4 c5
  refine ⟨?_, ?_, ⟨n1, n2⟩, ?_, n6, n7⟩
  · rw [ratOf_of_sign_false _ n1, le_div_iff₀ hU, one_mul]; exact c3
  · rw [ratOf_of_sign_false _ n1, div_lt_iff₀ hU]; exact c4
  · rw [abs_ratOf, div_le_div_iff₀ hU hp, one_mul]; exact c5

theorem vsqrt_nan_mask_f64_eq (x : Nat) : vsqrt_nan_mask .f64 x = isNaN FP64 x := by
  have e : x &&& 0x7fffffffffffffff = x % 2 ^ 63 := and_absmask 63 x
  simp only [vsqrt_nan_mask, vsqrt_nan_mask_f64m1, vmsgtu, vand, isNaN, magOf, e]
  rfl

theorem vsqrt_nan_mask_f32_eq (x : Nat) : vsqrt_nan_mask .f32 x = isNaN FP32 x := by
  have e : x &&& 0x7fffffff = x % 2 ^ 31 := and_absmask 31 x
  simp only [vsqrt_nan_mask, vsqrt_nan_mask_f32m1, vmsgtu, vand, isNaN, magOf, e]
  rfl

theorem vsqrt_nan_mask_f16_eq (x : Nat) :
    vsqrt_nan_mask .f16 x = decide (0x7e00 < magOf FP16 x) := by
  have e : x &&& 0x7fff = x % 2 ^ 15 := and_absmask 15 x
  simp only [vsqrt_nan_mask, vsqrt_nan_mask_f16m1, vmsgtu, vand, magOf, e]
  rfl

theorem vsqrt_of_nan_mask (w : Width) (x : Nat) (h : vsqrt_nan_mask w x = true) :
    vsqrt w x = w.fmt.qnan := by
  cases w
  · simp only [vsqrt_nan_mask, vsqrt_nan_mask_f64m1] at h
    simp only [vsqrt, __riscv_vsqrt_f64m1, vfmerge_vfm, h, if_true]
    decide
  · simp only [vsqrt_nan_mask, vsqrt_nan_mask_f32m1] at h
    simp only [vsqrt, __riscv_vsqrt_f32m1, vfmerge_vfm, h, if_true]
    decide
  · simp only [vsqrt_nan_mask, vsqrt_nan_mask_f16m1] at h
    simp only [vsqrt, __riscv_vsqrt_f16m1, vfmerge_vfm, h, if_true]
    decide

/-- C26 fails in binary16: the mask `nan_mask` of `__riscv_vsqrt_*` is the
NaN test in binary64 and binary32 (magnitude bits above the infinity pattern),
but in binary16 it compares the magnitude bits with `0x7e00`, the quiet-NaN
constant, not with the infinity pattern `0x7c00`: the NaN patterns
`0x7c01 .. 0x7e00` and their negatives leave the mask clear.  A lane with the
mask set receives the NaN constant; the NaN lanes `0x7e00`, `0xfe00` and
`0x7c01` run through the pipeline and return the finite values `0x5ce6`
(313.5) and `0x5c00` (256). -/
theorem sqrt_f16_nan_mask_misses_nans :
    (∀ x, vsqrt_nan_mask .f64 x = isNaN FP64 x) ∧
    (∀ x, vsqrt_nan_mask .f32 x = isNaN FP32 x) ∧
    (∀ x, vsqrt_nan_mask .f16 x = decide (0x7e00 < magOf FP16 x)) ∧
    (∀ x, 0x7c00 < magOf FP16 x → magOf FP16 x ≤ 0x7e00 →
      isNaN FP16 x = true ∧ vsqrt_nan_mask .f16 x = false) ∧
    (∀ w x, vsqrt_nan_mask w x = true → vsqrt w x = w.fmt.qnan) ∧
    (isNaN FP16 0x7e00 = true ∧ vsqrt_nan_mask .f16 0x7e00 = false ∧
      vsqrt .f16 0x7e00 = 0x5ce6 ∧ isNaN FP16 0x5ce6 = false) ∧
    (isNaN FP16 0xfe00 = true ∧ vsqrt .f16 0xfe00 = 0x5ce6) ∧
    (isNaN FP16 0x7c01 = true ∧ vsqrt .f16 0x7c01 = 0x5c00) ∧
    (vsqrt .f32 0x7fc00000 = 0x7fc00000 ∧ vsqrt .f32 0x7f800001 = 0x7fc00000 ∧
      vsqrt .f64 0x7ff8000000000000 = 0x7ff8000000000000 ∧
      vsqrt .f64 0x7ff0000000000001 = 0x7ff8000000000000) := by
  refine ⟨vsqrt_nan_mask_f64_eq, vsqrt_nan_mask_f32_eq, vsqrt_nan_mask_f16_eq, ?_,
    vsqrt_of_nan_mask, ?_, ?_, ?_, ?_⟩
  · intro x h1 h2
    rw [vsqrt_nan_mask_f16_eq]
    refine ⟨?_, ?_⟩
    · unfold isNaN
      have : FP16.pinf = 0x7c00 := by decide
      rw [this]; exact decide_eq_true h1
    · exact decide_eq_false (by omega)
  · refine ⟨?_, ?_, ?_, ?_⟩ <;> decide!
  · refine ⟨?_, ?_⟩ <;> decide!
  · refine ⟨?_, ?_⟩ <;> decide!
  · refine ⟨?_, ?_, ?_, ?_⟩ <;> decide!

theorem getD_congr_index {tab : List Nat} {a b : Nat} (h : a = b) : tab.getD a 0 = tab.getD b 0 := by
  rw [h]

theorem magOf_or_sign (F : Fmt) (p x : Nat) :
    magOf F (p ||| (x &&& F.signMask)) = magOf F p := by
  unfold magOf Fmt.signMask
  apply Nat.eq_of_testBit_eq
  intro i
  rw [Nat.testBit_mod_two_pow, Nat.testBit_mod_two_pow, Nat.testBit_or, Nat.testBit_and,
    Nat.testBit_two_pow]
  by_cases h : i < F.eb + F.mb
  · have : ¬ (F.eb + F.mb = i) := by omega
    simp [h, this]
  · simp [h]

theorem signOf_or_sign (F : Fmt) (p x : Nat) :
    signOf F (p ||| (x &&& F.signMask)) = (signOf F p || signOf F x) := by
  unfold signOf Fmt.signMask
  rw [Nat.testBit_or, Nat.testBit_and, Nat.testBit_two_pow]
  simp

theorem and_signMask_of_lt (F : Fmt) {m : Nat} (h : m < 2 ^ (F.eb + F.mb)) :
    m &&& F.signMask = 0 := by
  unfold Fmt.signMask
  apply Nat.eq_of_testBit_eq
  intro i
  rw [Nat.testBit_and, Nat.testBit_two_pow, Nat.zero_testBit]
  by_cases e : F.eb + F.mb = i
  · subst e
    rw [Nat.testBit_lt_two_pow h]; rfl
  · simp [e]

theorem tanh_index_f64_spec (x : Nat) :
    tanh_index .f64 x ≤ tanh_last .f64 ∧
    (magOf FP64 x < tanh_first_bound .f64 → tanh_index .f64 x = 0) ∧
    (tanh_index .f64 x = tanh_last .f64 ↔ tanh_saturation_bound .f64 < magOf FP64 x) ∧
    (tanh_first_bound .f64 ≤ magOf FP64 x → magOf FP64 x ≤ tanh_saturation_bound .f64 →
      1 ≤ tanh_index .f64 x ∧ tanh_index .f64 x ≤ tanh_last .f64 - 1) := by
  have e : x &&& 0x7fffffffffffffff = magOf FP64 x := and_absmask 63 x
  have hlt : magOf FP64 x < 2 ^ 63 := Nat.mod_lt _ (by norm_num)
  simp only [tanh_index, tanh_index_f64m1, tanh_last, tanh_first_bound, tanh_saturation_bound,
    vand, vsrl, vsub, vmsltu, vmsgtu, vmerge_vxm, e, Nat.shiftRight_eq_div_pow]
  clear e
  generalize magOf FP64 x = m at hlt ⊢
  simp only [decide_eq_true_eq]
  refine ⟨?_, ?_, ?_, ?_⟩
  · split_ifs <;> omega
  · intro h; split_ifs <;> omega
  · constructor
    · intro h; split_ifs at h <;> omega
    · intro h; split_ifs; omega
  · intro h1 h2; split_ifs <;> omega

theorem tanh_gather_f64 (tab : List Nat) (x j : Nat) :
    vloxei 8 tab j (vsll 64 (tanh_index_f64m1 x) 7) =
      tab.getD (tanh_index_f64m1 x * 16 + j) 0 := by
  have h := (tanh_index_f64_spec x).1
  simp only [tanh_index, tanh_last] at h
  unfold vloxei vsll
  apply getD_congr_index
  rw [Nat.shiftLeft_eq]
  norm_num
  omega

theorem vtanh_f64_row (tab tab2 : List Nat) (x : Nat)
    (h : ∀ j, j < 16 → tab.getD (tanh_index_f64m1 x * 16 + j) 0 =
      tab2.getD (tanh_index_f64m1 x * 16 + j) 0) :
    __riscv_vtanh_f64m1 tab x = __riscv_vtanh_f64m1 tab2 x := by
  have g : ∀ j, j < 16 → vloxei 8 tab j (vsll 64 (tanh_index_f64m1 x) 7) =
      vloxei 8 tab2 j (vsll 64 (tanh_index_f64m1 x) 7) := by
    intro j hj
    rw [tanh_gather_f64, tanh_gather_f64, h j hj]
  have g0 := g 0 (by norm_num)
  have g1 := g 1 (by norm_num)
  have g2 := g 2 (by norm_num)
  have g3 := g 3 (by norm_num)
  have g4 := g 4 (by norm_num)
  have g5 := g 5 (by norm_num)
  have g6 := g 6 (by norm_num)
  have g7 := g 7 (by norm_num)
  have g8 := g 8 (by norm_num)
  have g9 := g 9 (by norm_num)
  have g10 := g 10 (by norm_num)
  have g11 := g 11 (by norm_num)
  have g12 := g 12 (by norm_num)
  have g13 := g 13 (by norm_num)
  have g14 := g 14 (by norm_num)
  have g15 := g 15 (by norm_num)
  simp only [tanh_index_f64m1] at g0 g1 g2 g3 g4 g5 g6 g7 g8 g9 g10 g11 g12 g13 g14 g15
  simp only [__riscv_vtanh_f64m1, g0, g1, g2, g3, g4, g5, g6, g7, g8, g9, g10, g11, g12, g13, g14, g15]

theorem vtanh_f64_odd (tab : List Nat) (x : Nat) (hn : isNaN FP64 x = false) :
    __riscv_vtanh_f64m1 tab x =
      __riscv_vtanh_f64m1 tab (magOf FP64 x) ||| (x &&& FP64.signMask) := by
  have e1 : x &&& 0x7fffffffffffffff = magOf FP64 x := and_absmask 63 x
  have hlt : magOf FP64 x < 2 ^ (FP64.eb + FP64.mb) := Nat.mod_lt _ (Nat.two_pow_pos _)
  have e2 : magOf FP64 x &&& 0x7fffffffffffffff = magOf FP64 x := by
    have h2 : magOf FP64 x &&& 0x7fffffffffffffff = magOf FP64 x % 2 ^ 63 := and_absmask 63 (magOf FP64 x)
    rw [h2]; exact Nat.mod_eq_of_lt hlt
  have e3 : magOf FP64 x &&& FP64.signMask = 0 := and_signMask_of_lt FP64 hlt
  have e4 : vmsgtu (magOf FP64 x) 0x7ff0000000000000 = false := by
    unfold isNaN at hn
    unfold vmsgtu
    exact hn
  have e5 : (0x8000000000000000 : Nat) = FP64.signMask := by decide
  simp only [__riscv_vtanh_f64m1, vand, e1, e2, e3, e4, vor, Nat.or_zero, vmerge_vvm,
    vfmerge_vfm, Bool.false_and, Bool.false_eq_true, if_false, e5]

theorem tanh_index_f32_spec (x : Nat) :
    tanh_index .f32 x ≤ tanh_last .f32 ∧
    (magOf FP32 x < tanh_first_bound .f32 → tanh_index .f32 x = 0) ∧
    (tanh_index .f32 x = tanh_last .f32 ↔ tanh_saturation_bound .f32 < magOf FP32 x) ∧
    (tanh_first_bound .f32 ≤ magOf FP32 x → magOf FP32 x ≤ tanh_saturation_bound .f32 →
      1 ≤ tanh_index .f32 x ∧ tanh_index .f32 x ≤ tanh_last .f32 - 1) := by
  have e : x &&& 0x7fffffff = magOf FP32 x := and_absmask 31 x
  have hlt : magOf FP32 x < 2 ^ 31 := Nat.mod_lt _ (by norm_num)
  simp only [tanh_index, tanh_index_f32m1, tanh_last, tanh_first_bound, tanh_saturation_bound,
    vand, vsrl, vsub, vmsltu, vmsgtu, vmerge_vxm, e, Nat.shiftRight_eq_div_pow]
  clear e
  generalize magOf FP32 x = m at hlt ⊢
  simp only [decide_eq_true_eq]
  refine ⟨?_, ?_, ?_, ?_⟩
  · split_ifs <;> omega
  · intro h; split_ifs <;> omega
  · constructor
    · intro h; split_ifs at h <;> omega
    · intro h; split_ifs; omega
  · intro h1 h2; split_ifs <;> omega

theorem tanh_gather_f32 (tab : List Nat) (x j : Nat) :
    vloxei 4 tab j (vsll 32 (tanh_index_f32m1 x) 5) =
      tab.getD (tanh_index_f32m1 x * 8 + j) 0 := by
  have h := (tanh_index_f32_spec x).1
  simp only [tanh_index, tanh_last] at h
  unfold vloxei vsll
  apply getD_congr_index
  rw [Nat.shiftLeft_eq]
  norm_num
  omega

theorem vtanh_f32_row (tab tab2 : List Nat) (x : Nat)
    (h : ∀ j, j < 8 → tab.getD (tanh_index_f32m1 x * 8 + j) 0 =
      tab2.getD (tanh_index_f32m1 x * 8 + j) 0) :
    __riscv_vtanh_f32m1 tab x = __riscv_vtanh_f32m1 tab2 x := by
  have g : ∀ j, j < 8 → vloxei 4 tab j (vsll 32 (tanh_index_f32m1 x) 5) =
      vloxei 4 tab2 j (vsll 32 (tanh_index_f32m1 x) 5) := by
    intro j hj
    rw [tanh_gather_f32, tanh_gather_f32, h j hj]
  have g0 := g 0 (by norm_num)
  have g1 := g 1 (by norm_num)
  have g2 := g 2 (by norm_num)
  have g3 := g 3 (by norm_num)
  have g4 := g 4 (by norm_num)
  have g5 := g 5 (by norm_num)
  have g6 := g 6 (by norm_num)
  have g7 := g 7 (by norm_num)
  simp only [tanh_index_f32m1] at g0 g1 g2 g3 g4 g5 g6 g7
  simp only [__riscv_vtanh_f32m1, g0, g1, g2, g3, g4, g5, g6, g7]

theorem vtanh_f32_odd (tab : List Nat) (x : Nat) (hn : isNaN FP32 x = false) :
    __riscv_vtanh_f32m1 tab x =
      __riscv_vtanh_f32m1 tab (magOf FP32 x) ||| (x &&& FP32.signMask) := by
  have e1 : x &&& 0x7fffffff = magOf FP32 x := and_absmask 31 x
  have hlt : magOf FP32 x < 2 ^ (FP32.eb + FP32.mb) := Nat.mod_lt _ (Nat.two_pow_pos _)
  have e2 : magOf FP32 x &&& 0x7fffffff = magOf FP32 x := by
    have h2 : magOf FP32 x &&& 0x7fffffff = magOf FP32 x % 2 ^ 31 := and_absmask 31 (magOf FP32 x)
    rw [h2]; exact Nat.mod_eq_of_lt hlt
  have e3 : magOf FP32 x &&& FP32.signMask = 0 := and_signMask_of_lt FP32 hlt
  have e4 : vmsgtu (magOf FP32 x) 0x7f800000 = false := by
    unfold isNaN at hn
    unfold vmsgtu
    exact hn
  have e5 : (0x80000000 : Nat) = FP32.signMask := by decide
  simp only [__riscv_vtanh_f32m1, vand, e1, e2, e3, e4, vor, Nat.or_zero, vmerge_vvm,
    vfmerge_vfm, Bool.false_and, Bool.false_eq_true, if_false, e5]

theorem tanh_index_f16_spec (x : Nat) :
    tanh_index .f16 x ≤ tanh_last .f16 ∧
    (magOf FP16 x < tanh_first_bound .f16 → tanh_index .f16 x = 0) ∧
    (tanh_index .f16 x = tanh_last .f16 ↔ tanh_saturation_bound .f16 < magOf FP16 x) ∧
    (tanh_first_bound .f16 ≤ magOf FP16 x → magOf FP16 x ≤ tanh_saturation_bound .f16 →
      1 ≤ tanh_index .f16 x ∧ tanh_index .f16 x ≤ tanh_last .f16 - 1) := by
  have e : x &&& 0x7fff = magOf FP16 x := and_absmask 15 x
  have hlt : magOf FP16 x < 2 ^ 15 := Nat.mod_lt _ (by norm_num)
  simp only [tanh_index, tanh_index_f16m1, tanh_last, tanh_first_bound, tanh_saturation_bound,
    vand, vsrl, vsub, vmsltu, vmsgtu, vmerge_vxm, e, Nat.shiftRight_eq_div_pow]
  clear e
  generalize magOf FP16 x = m at hlt ⊢
  simp only [decide_eq_true_eq]
  refine ⟨?_, ?_, ?_, ?_⟩
  · split_ifs <;> omega
  · intro h; split_ifs <;> omega
  · constructor
    · intro h; split_ifs at h <;> omega
    · intro h; split_ifs; omega
  · intro h1 h2; split_ifs <;> omega

theorem tanh_gather_f16 (tab : List Nat) (x j : Nat) :
    vloxei 2 tab j (vsll 16 (tanh_index_f16m1 x) 4) =
      tab.getD (tanh_index_f16m1 x * 8 + j) 0 := by
  have h := (tanh_index_f16_spec x).1
  simp only [tanh_index, tanh_last] at h
  unfold vloxei vsll
  apply getD_congr_index
  rw [Nat.shiftLeft_eq]
  norm_num
  omega

theorem vtanh_f16_row (tab tab2 : List Nat) (x : Nat)
    (h : ∀ j, j < 8 → tab.getD (tanh_index_f16m1 x * 8 + j) 0 =
      tab2.getD (tanh_index_f16m1 x * 8 + j) 0) :
    __riscv_vtanh_f16m1 tab x = __riscv_vtanh_f16m1 tab2 x := by
  have g : ∀ j, j < 8 → vloxei 2 tab j (vsll 16 (tanh_index_f16m1 x) 4) =
      vloxei 2 tab2 j (vsll 16 (tanh_index_f16m1 x) 4) := by
    intro j hj
    rw [tanh_gather_f16, tanh_gather_f16, h j hj]
  have g0 := g 0 (by norm_num)
  have g1 := g 1 (by norm_num)
  have g2 := g 2 (by norm_num)
  have g3 := g 3 (by norm_num)
  have g4 := g 4 (by norm_num)
  have g5 := g 5 (by norm_num)
  have g6 := g 6 (by norm_num)
  have g7 := g 7 (by norm_num)
  simp only [tanh_index_f16m1] at g0 g1 g2 g3 g4 g5 g6 g7
  simp only [__riscv_vtanh_f16m1, g0, g1, g2, g3, g4, g5, g6, g7]

theorem vtanh_f16_odd (tab : List Nat) (x : Nat) (hn : isNaN FP16 x = false) :
    __riscv_vtanh_f16m1 tab x =
      __riscv_vtanh_f16m1 tab (magOf FP16 x) ||| (x &&& FP16.signMask) := by
  have e1 : x &&& 0x7fff = magOf FP16 x := and_absmask 15 x
  have hlt : magOf FP16 x < 2 ^ (FP16.eb + FP16.mb) := Nat.mod_lt _ (Nat.two_pow_pos _)
  have e2 : magOf FP16 x &&& 0x7fff = magOf FP16 x := by
    have h2 : magOf FP16 x &&& 0x7fff = magOf FP16 x % 2 ^ 15 := and_absmask 15 (magOf FP16 x)
    rw [h2]; exact Nat.mod_eq_of_lt hlt
  have e3 : magOf FP16 x &&& FP16.signMask = 0 := and_signMask_of_lt FP16 hlt
  have e4 : vmsgtu (magOf FP16 x) 0x7c00 = false := by
    unfold isNaN at hn
    unfold vmsgtu
    exact hn
  have e5 : (0x8000 : Nat) = FP16.signMask := by decide
  simp only [__riscv_vtanh_f16m1, vand, e1, e2, e3, e4, vor, Nat.or_zero, vmerge_vvm,
    vfmerge_vfm, Bool.false_and, Bool.false_eq_true, if_false, e5]

/-- C27: for every input bit pattern (NaN, infinities, zero and subnormals
included), the segment index that `__riscv_vtanh_*` computes is at most 94
(f64), 83 (f32), 10 (f16): it is 0 when the magnitude bits are below the first
segment bound, the last row exactly when they exceed the saturation bound
(`0x40330fc1931f09c9`, `0x41102cb3`, `0x4429`), and between 1 and 93 / 82 / 9
otherwise; each gather of the kernel reads the element `index * 16 + j`
(`j < 16`) resp. `index * 8 + j` (`j < 8`), which lies inside the 1520- / 672- /
88-element array, and the returned lane depends on the coefficient table only
through that row. -/
theorem tanh_index_stays_in_table (w : Width) (x : Nat) :
    tanh_index w x ≤ tanh_last w ∧
    (magOf w.fmt x < tanh_first_bound w → tanh_index w x = 0) ∧
    (tanh_index w x = tanh_last w ↔ tanh_saturation_bound w < magOf w.fmt x) ∧
    (tanh_first_bound w ≤ magOf w.fmt x → magOf w.fmt x ≤ tanh_saturation_bound w →
      1 ≤ tanh_index w x ∧ tanh_index w x ≤ tanh_last w - 1) ∧
    (∀ j, j < tanh_row w → tanh_index w x * tanh_row w + j < tanh_table_size w) ∧
    ((tanh_last .f64 = 94 ∧ tanh_last .f32 = 83 ∧ tanh_last .f16 = 10) ∧
      (tanh_table_size .f64 = 1520 ∧ tanh_table_size .f32 = 672 ∧ tanh_table_size .f16 = 88) ∧
      (tanh_saturation_bound .f64 = 0x40330fc1931f09c9 ∧
        tanh_saturation_bound .f32 = 0x41102cb3 ∧ tanh_saturation_bound .f16 = 0x4429)) ∧
    (∀ tab j, vloxei 8 tab j (vsll 64 (tanh_index .f64 x) 7) =
        tab.getD (tanh_index .f64 x * 16 + j) 0) ∧
    (∀ tab j, vloxei 4 tab j (vsll 32 (tanh_index .f32 x) 5) =
        tab.getD (tanh_index .f32 x * 8 + j) 0) ∧
    (∀ tab j, vloxei 2 tab j (vsll 16 (tanh_index .f16 x) 4) =
        tab.getD (tanh_index .f16 x * 8 + j) 0) ∧
    (∀ tab tab2 : List Nat,
      (∀ j, j < tanh_row w → tab.getD (tanh_index w x * tanh_row w + j) 0 =
        tab2.getD (tanh_index w x * tanh_row w + j) 0) →
      vtanh w tab x = vtanh w tab2 x) := by
  have hspec : tanh_index w x ≤ tanh_last w ∧
      (magOf w.fmt x < tanh_first_bound w → tanh_index w x = 0) ∧
      (tanh_index w x = tanh_last w ↔ tanh_saturation_bound w < magOf w.fmt x) ∧
      (tanh_first_bound w ≤ magOf w.fmt x → magOf w.fmt x ≤ tanh_saturation_bound w →
        1 ≤ tanh_index w x ∧ tanh_index w x ≤ tanh_last w - 1) := by
    cases w
    · exact tanh_index_f64_spec x
    · exact tanh_index_f32_spec x
    · exact tanh_index_f16_spec x
  refine ⟨hspec.1, hspec.2.1, hspec.2.2.1, hspec.2.2.2, ?_, by decide,
    fun tab j => tanh_gather_f64 tab x j, fun tab j => tanh_gather_f32 tab x j,
    fun tab j => tanh_gather_f16 tab x j, ?_⟩
  · intro j hj
    have h := hspec.1
    cases w <;> simp only [tanh_row, tanh_last, tanh_table_size] at h hj ⊢ <;> omega
  · intro tab tab2 h
    cases w
    · exact vtanh_f64_row tab tab2 x h
    · exact vtanh_f32_row tab tab2 x h
    · exact vtanh_f16_row tab tab2 x h

/-- C28: for every non-NaN lane `x` and every coefficient table, the lane
returned by `__riscv_vtanh_*` is `P(bits(|x|)) OR signbit(x)`, where `P` is the
kernel applied to the magnitude bits alone; hence the results for `-x` and `x`
have the same bits below the sign bit, and the result for a lane with the sign
bit set has its sign bit set. -/
theorem tanh_is_odd_at_bit_level (w : Width) (tab : List Nat) (x : Nat)
    (hn : isNaN w.fmt x = false) :
    vtanh w tab x = vtanh w tab (magOf w.fmt x) ||| (x &&& w.fmt.signMask) ∧
    magOf w.fmt (vtanh w tab (vfneg_v w.fmt x)) = magOf w.fmt (vtanh w tab x) ∧
    (signOf w.fmt x = true → signOf w.fmt (vtanh w tab x) = true) := by
  have key : ∀ y, isNaN w.fmt y = false →
      vtanh w tab y = vtanh w tab (magOf w.fmt y) ||| (y &&& w.fmt.signMask) := by
    intro y hy
    cases w
    · exact vtanh_f64_odd tab y hy
    · exact vtanh_f32_odd tab y hy
    · exact vtanh_f16_odd tab y hy
  have hneg : isNaN w.fmt (vfneg_v w.fmt x) = false := by
    unfold isNaN at hn ⊢
    rw [magOf_neg]; exact hn
  refine ⟨key x hn, ?_, ?_⟩
  · rw [key _ hneg, key x hn, magOf_or_sign, magOf_or_sign, magOf_neg]
  · intro hs
    rw [key x hn, signOf_or_sign, hs, Bool.or_true]

theorem tanh_is_odd_at_bit_level_witness :
    magOf Width.f16.fmt (vtanh .f16 (List.replicate 88 0x3c00) (vfneg_v Width.f16.fmt 0x3c00)) =
      magOf Width.f16.fmt (vtanh .f16 (List.replicate 88 0x3c00) 0x3c00) :=
  (tanh_is_odd_at_bit_level .f16 (List.replicate 88 0x3c00) 0x3c00 (by decide)).2.1

theorem ratOf_two_pow (F : Fmt) {x k : Nat} (hs : signOf F x = false) (hn : natOf F x = 2 ^ k) :
    ratOf F x = (2 : ℚ) ^ ((k : Int) - ((F.bias + F.mb - 1 : Nat) : Int)) := by
  unfold ratOf intOf
  rw [hs, if_neg (by simp), hn, zpow_sub₀ (by norm_num : (2 : ℚ) ≠ 0), zpow_natCast, zpow_natCast]
  rw [Int.cast_natCast, Nat.cast_pow, Nat.cast_ofNat]

theorem vloxei_scaled (tab : List Nat) {w sz i : Nat} (hsz : 0 < sz) (hi : i * sz < 2 ^ w) :
    vloxei sz tab 0 (vmul w i sz) = tab.getD i 0 := by
  unfold vloxei vmul
  rw [Nat.mod_eq_of_lt hi, Nat.mul_div_cancel _ hsz, Nat.zero_add]

theorem mid_index : ∀ E, E < 2048 → (E &&& (0xf <<< 4)) >>> 4 = E / 16 % 16 := by decide!

theorem order_tab_f64_values :
    (∀ h, h < 8 → signOf FP64 (order_tab_high.getD h 0) = false ∧
      natOf FP64 (order_tab_high.getD h 0) = 2 ^ (128 * h + 690)) ∧
    (∀ m, m < 16 → signOf FP64 (order_tab_mid.getD m 0) = false ∧
      natOf FP64 (order_tab_mid.getD m 0) = 2 ^ (8 * m + 954)) ∧
    (∀ l, l < 16 → l % 2 = 1 → signOf FP64 (order_tab_low.getD l 0) = false ∧
      natOf FP64 (order_tab_low.getD l 0) = 2 ^ ((l + 2133) / 2) ∧
      order_tab_low_.getD l 0 = 0) := by
  refine ⟨?_, ?_, ?_⟩ <;> decide!

theorem order_tab_f32_values :
    (∀ h, h < 16 → signOf FP32 (order_tab_high_flt.getD h 0) = false ∧
      natOf FP32 (order_tab_high_flt.getD h 0) = 2 ^ (8 * h + 93)) ∧
    (∀ l, l < 16 → l % 2 = 1 → signOf FP32 (order_tab_low_flt.getD l 0) = false ∧
      natOf FP32 (order_tab_low_flt.getD l 0) = 2 ^ ((l + 283) / 2) ∧
      order_tab_low_flt_.getD l 0 = 0) := by
  refine ⟨?_, ?_⟩ <;> decide!

theorem order_tab_f16_values :
    (∀ h, h < 2 → signOf FP16 (order_tab_high_f16.getD h 0) = false ∧
      natOf FP16 (order_tab_high_f16.getD h 0) = 2 ^ (8 * h + 24)) ∧
    (∀ l, l < 16 → l % 2 = 1 → signOf FP16 (order_tab_low_f16.getD l 0) = false ∧
      natOf FP16 (order_tab_low_f16.getD l 0) = 2 ^ ((l + 33) / 2) ∧
      order_tab_low_f16_.getD l 0 = 0) := by
  refine ⟨?_, ?_⟩ <;> decide!

theorem vsqrt_indices_f64_eq (x : Nat) :
    vsqrt_indices_f64m1 x =
      (expField FP64 x / 256, expField FP64 x / 16 % 16, expField FP64 x % 16) := by
  have hE : expField FP64 x < 2048 := expField_lt FP64 x
  have e1 : x &&& 0x7ff0000000000000 = expField FP64 x * 2 ^ 52 := and_pinf FP64 x
  have e2 : expField FP64 x &&& 0xf = expField FP64 x % 2 ^ 4 := and_absmask 4 _
  simp only [vsqrt_indices_f64m1, vand, vsrl, e1, Nat.shiftRight_eq_div_pow,
    Nat.mul_div_cancel _ (Nat.two_pow_pos 52), e2]
  have e3 := mid_index _ hE
  rw [Nat.shiftRight_eq_div_pow] at e3
  rw [e3]
  norm_num

theorem vsqrt_indices_f32_eq (x : Nat) :
    vsqrt_indices_f32m1 x = (expField FP32 x / 16, expField FP32 x % 16) := by
  have e1 : x &&& 0x7f800000 = expField FP32 x * 2 ^ 23 := and_pinf FP32 x
  have e2 : expField FP32 x &&& 0xf = expField FP32 x % 2 ^ 4 := and_absmask 4 _
  simp only [vsqrt_indices_f32m1, vand, vsrl, e1, Nat.shiftRight_eq_div_pow,
    Nat.mul_div_cancel _ (Nat.two_pow_pos 23), e2]
  norm_num

theorem vsqrt_indices_f16_eq (x : Nat) :
    vsqrt_indices_f16m1 x = (expField FP16 x / 16, expField FP16 x % 16) := by
  have e1 : x &&& 0x7c00 = expField FP16 x * 2 ^ 10 := and_pinf FP16 x
  have e2 : expField FP16 x &&& 0xf = expField FP16 x % 2 ^ 4 := and_absmask 4 _
  simp only [vsqrt_indices_f16m1, vand, vsrl, e1, Nat.shiftRight_eq_div_pow,
    Nat.mul_div_cancel _ (Nat.two_pow_pos 10), e2]
  norm_num

theorem vsqrt_order_f64_eq (x : Nat) :
    vsqrt_order_f64m1 x =
      (order_tab_high.getD (expField FP64 x / 256) 0,
       order_tab_mid.getD (expField FP64 x / 16 % 16) 0,
       order_tab_low.getD (expField FP64 x % 16) 0,
       order_tab_low_.getD (expField FP64 x % 16) 0) := by
  have hE : expField FP64 x < 2048 := expField_lt FP64 x
  simp only [vsqrt_order_f64m1, vsqrt_indices_f64_eq]
  rw [vloxei_scaled _ (by norm_num) (by omega), vloxei_scaled _ (by norm_num) (by omega),
    vloxei_scaled _ (by norm_num) (by omega), vloxei_scaled _ (by norm_num) (by omega)]

theorem vsqrt_order_f32_eq (x : Nat) :
    vsqrt_order_f32m1 x =
      (order_tab_high_flt.getD (expField FP32 x / 16) 0,
       order_tab_low_flt.getD (expField FP32 x % 16) 0,
       order_tab_low_flt_.getD (expField FP32 x % 16) 0) := by
  have hE : expField FP32 x < 256 := expField_lt FP32 x
  simp only [vsqrt_order_f32m1, vsqrt_indices_f32_eq]
  rw [vloxei_scaled _ (by norm_num) (by omega), vloxei_scaled _ (by norm_num) (by omega),
    vloxei_scaled _ (by norm_num) (by omega)]

theorem vsqrt_order_f16_eq (x : Nat) :
    vsqrt_order_f16m1 x =
      (order_tab_high_f16.getD (expField FP16 x / 16) 0,
       order_tab_low_f16.getD (expField FP16 x % 16) 0,
       order_tab_low_f16_.getD (expField FP16 x % 16) 0) := by
  have hE : expField FP16 x < 32 := expField_lt FP16 x
  simp only [vsqrt_order_f16m1, vsqrt_indices_f16_eq]
  rw [vloxei_scaled _ (by norm_num) (by omega), vloxei_scaled _ (by norm_num) (by omega),
    vloxei_scaled _ (by norm_num) (by omega)]

theorem vsqrt_scale_f64 (x : Nat) (hev : ((expField FP64 x : Int) - (FP64.bias : Int)) % 2 = 0) :
    (vsqrt_order_f64m1 x).2.2.2 = 0 ∧
    ratOf FP64 (vsqrt_order_f64m1 x).1 * ratOf FP64 (vsqrt_order_f64m1 x).2.1 *
      ratOf FP64 (vsqrt_order_f64m1 x).2.2.1 =
      (2 : ℚ) ^ (((expField FP64 x : Int) - (FP64.bias : Int)) / 2) := by
  have hE : expField FP64 x < 2048 := expField_lt FP64 x
  have hb : FP64.bias = 1023 := by decide
  have hU : FP64.bias + FP64.mb - 1 = 1074 := by decide
  rw [hb] at hev ⊢
  obtain ⟨t1, t2, t3⟩ := order_tab_f64_values
  obtain ⟨a1, a2⟩ := t1 (expField FP64 x / 256) (by omega)
  obtain ⟨b1, b2⟩ := t2 (expField FP64 x / 16 % 16) (by omega)
  obtain ⟨c1, c2, c3⟩ := t3 (expField FP64 x % 16) (by omega) (by omega)
  rw [vsqrt_order_f64_eq]
  refine ⟨c3, ?_⟩
  show ratOf FP64 _ * ratOf FP64 _ * ratOf FP64 _ = _
  rw [ratOf_two_pow FP64 a1 a2, ratOf_two_pow FP64 b1 b2, ratOf_two_pow FP64 c1 c2, hU,
    ← zpow_add₀ (by norm_num : (2 : ℚ) ≠ 0), ← zpow_add₀ (by norm_num : (2 : ℚ) ≠ 0)]
  exact congrArg (fun z : Int => (2 : ℚ) ^ z) (by push_cast; omega)

theorem vsqrt_scale_f32 (x : Nat) (hev : ((expField FP32 x : Int) - (FP32.bias : Int)) % 2 = 0) :
    (vsqrt_order_f32m1 x).2.2 = 0 ∧
    ratOf FP32 (vsqrt_order_f32m1 x).1 * ratOf FP32 (vsqrt_order_f32m1 x).2.1 =
      (2 : ℚ) ^ (((expField FP32 x : Int) - (FP32.bias : Int)) / 2) := by
  have hE : expField FP32 x < 256 := expField_lt FP32 x
  have hb : FP32.bias = 127 := by decide
  have hU : FP32.bias + FP32.mb - 1 = 149 := by decide
  rw [hb] at hev ⊢
  obtain ⟨t1, t3⟩ := order_tab_f32_values
  obtain ⟨a1, a2⟩ := t1 (expField FP32 x / 16) (by omega)
  obtain ⟨c1, c2, c3⟩ := t3 (expField FP32 x % 16) (by omega) (by omega)
  rw [vsqrt_order_f32_eq]
  refine ⟨c3, ?_⟩
  show ratOf FP32 _ * ratOf FP32 _ = _
  rw [ratOf_two_pow FP32 a1 a2, ratOf_two_pow FP32 c1 c2, hU,
    ← zpow_add₀ (by norm_num : (2 : ℚ) ≠ 0)]
  exact congrArg (fun z : Int => (2 : ℚ) ^ z) (by push_cast; omega)

theorem vsqrt_scale_f16 (x : Nat) (hev : ((expField FP16 x : Int) - (FP16.bias : Int)) % 2 = 0) :
    (vsqrt_order_f16m1 x).2.2 = 0 ∧
    ratOf FP16 (vsqrt_order_f16m1 x).1 * ratOf FP16 (vsqrt_order_f16m1 x).2.1 =
      (2 : ℚ) ^ (((expField FP16 x : Int) - (FP16.bias : Int)) / 2) := by
  have hE : expField FP16 x < 32 := expField_lt FP16 x
  have hb : FP16.bias = 15 := by decide
  have hU : FP16.bias + FP16.mb - 1 = 24 := by decide
  rw [hb] at hev ⊢
  obtain ⟨t1, t3⟩ := order_tab_f16_values
  obtain ⟨a1, a2⟩ := t1 (expField FP16 x / 16) (by omega)
  obtain ⟨c1, c2, c3⟩ := t3 (expField FP16 x % 16) (by omega) (by omega)
  rw [vsqrt_order_f16_eq]
  refine ⟨c3, ?_⟩
  show ratOf FP16 _ * ratOf FP16 _ = _
  rw [ratOf_two_pow FP16 a1 a2, ratOf_two_pow FP16 c1 c2, hU,
    ← zpow_add₀ (by norm_num : (2 : ℚ) ≠ 0)]
  exact congrArg (fun z : Int => (2 : ℚ) ^ z) (by push_cast; omega)

/-- Lane of `__riscv_vsqrt_f64m1` as the composition of its stages: the pattern
`x_int`, the root `(zh, zl)` of its mantissa, the scaling by the entries that
`vsqrt_order_f64m1` gathers for `x_int`, and the final merges. -/
theorem vsqrt_f64m1_stages (x : Nat) :
    __riscv_vsqrt_f64m1 x =
      vsqrt_merges_f64m1 x
        (vsqrt_scaled_f64m1 (vsqrt_zh_zl_f64m1 (vsqrt_x_int_f64m1 x)).1
          (vsqrt_zh_zl_f64m1 (vsqrt_x_int_f64m1 x)).2
          (vsqrt_order_f64m1 (vsqrt_x_int_f64m1 x))) := by
  simp only [__riscv_vsqrt_f64m1, vsqrt_merges_f64m1, vsqrt_scaled_f64m1, vsqrt_zh_zl_f64m1,
    vsqrt_x_int_f64m1, vsqrt_order_f64m1, vsqrt_indices_f64m1]
  rfl

/-- Lane of `__riscv_vsqrt_f32m1` as the composition of its stages: the pattern
`x_int`, the root `(zh, zl)` of its mantissa, the scaling by the entries that
`vsqrt_order_f32m1` gathers for `x_int`, and the final merges. -/
theorem vsqrt_f32m1_stages (x : Nat) :
    __riscv_vsqrt_f32m1 x =
      vsqrt_merges_f32m1 x
        (vsqrt_scaled_f32m1 (vsqrt_zh_zl_f32m1 (vsqrt_x_int_f32m1 x)).1
          (vsqrt_zh_zl_f32m1 (vsqrt_x_int_f32m1 x)).2
          (vsqrt_order_f32m1 (vsqrt_x_int_f32m1 x))) := by
  simp only [__riscv_vsqrt_f32m1, vsqrt_merges_f32m1, vsqrt_scaled_f32m1, vsqrt_zh_zl_f32m1,
    vsqrt_x_int_f32m1, vsqrt_order_f32m1, vsqrt_indices_f32m1]

/-- Lane of `__riscv_vsqrt_f16m1` as the composition of its stages: the pattern
`x_int`, the root `(zh, zl)` of its mantissa, the scaling by the entries that
`vsqrt_order_f16m1` gathers for `x_int`, and the final merges. -/
theorem vsqrt_f16m1_stages (x : Nat) :
    __riscv_vsqrt_f16m1 x =
      vsqrt_merges_f16m1 x
        (vsqrt_scaled_f16m1 (vsqrt_zh_zl_f16m1 (vsqrt_x_int_f16m1 x)).1
          (vsqrt_zh_zl_f16m1 (vsqrt_x_int_f16m1 x)).2
          (vsqrt_order_f16m1 (vsqrt_x_int_f16m1 x))) := by
  simp only [__riscv_vsqrt_f16m1, vsqrt_merges_f16m1, vsqrt_scaled_f16m1, vsqrt_zh_zl_f16m1,
    vsqrt_x_int_f16m1, vsqrt_order_f16m1, vsqrt_indices_f16m1]

/-- C29: for every pattern `x` fed to the pipeline of `__riscv_vsqrt_*`, with `E`
its biased exponent field, the indices are `high = E >> 8`,
`mid = (E >> 4) AND 15`, `low = E AND 15` in binary64 and `high = E >> 4`,
`low = E AND 15` in binary32 and binary16; they lie within the tables
(8, 16, 16 entries; 16, 16; 2, 16), the scaled byte offsets gather exactly the
entries at these indices, and whenever `E - bias` is even the gathered
`order_tab_low_` correction is `0` and the product of the gathered
`order_tab` entries is exactly `2 ^ ((E - bias) / 2)`.  The kernels use
exactly these gathers: for every input lane `v`, `__riscv_vsqrt_*` is the
final merges over the root `(zh, zl)` of the mantissa scaled by the entries
gathered for the pattern `x_int` of `v`. -/
theorem sqrt_order_tables_scale_by_half_exponent (x : Nat) :
    (vsqrt_indices_f64m1 x =
        (expField FP64 x / 2 ^ 8, expField FP64 x / 2 ^ 4 % 16, expField FP64 x % 16) ∧
      (vsqrt_indices_f64m1 x).1 < order_tab_high.length ∧
      (vsqrt_indices_f64m1 x).2.1 < order_tab_mid.length ∧
      (vsqrt_indices_f64m1 x).2.2 < order_tab_low.length ∧
      (vsqrt_indices_f64m1 x).2.2 < order_tab_low_.length ∧
      (order_tab_high.length = 8 ∧ order_tab_mid.length = 16 ∧ order_tab_low.length = 16 ∧
        order_tab_low_.length = 16) ∧
      vsqrt_order_f64m1 x =
        (order_tab_high.getD (vsqrt_indices_f64m1 x).1 0,
         order_tab_mid.getD (vsqrt_indices_f64m1 x).2.1 0,
         order_tab_low.getD (vsqrt_indices_f64m1 x).2.2 0,
         order_tab_low_.getD (vsqrt_indices_f64m1 x).2.2 0) ∧
      (((expField FP64 x : Int) - (FP64.bias : Int)) % 2 = 0 →
        (vsqrt_order_f64m1 x).2.2.2 = 0 ∧
        ratOf FP64 (vsqrt_order_f64m1 x).1 * ratOf FP64 (vsqrt_order_f64m1 x).2.1 *
            ratOf FP64 (vsqrt_order_f64m1 x).2.2.1 =
          (2 : ℚ) ^ (((expField FP64 x : Int) - (FP64.bias : Int)) / 2))) ∧
    (vsqrt_indices_f32m1 x = (expField FP32 x / 2 ^ 4, expField FP32 x % 16) ∧
      (vsqrt_indices_f32m1 x).1 < order_tab_high_flt.length ∧
      (vsqrt_indices_f32m1 x).2 < order_tab_low_flt.length ∧
      (vsqrt_indices_f32m1 x).2 < order_tab_low_flt_.length ∧
      (order_tab_high_flt.length = 16 ∧ order_tab_low_flt.length = 16 ∧
        order_tab_low_flt_.length = 16) ∧
      vsqrt_order_f32m1 x =
        (order_tab_high_flt.getD (vsqrt_indices_f32m1 x).1 0,
         order_tab_low_flt.getD (vsqrt_indices_f32m1 x).2 0,
         order_tab_low_flt_.getD (vsqrt_indices_f32m1 x).2 0) ∧
      (((expField FP32 x : Int) - (FP32.bias : Int)) % 2 = 0 →
        (vsqrt_order_f32m1 x).2.2 = 0 ∧
        ratOf FP32 (vsqrt_order_f32m1 x).1 * ratOf FP32 (vsqrt_order_f32m1 x).2.1 =
          (2 : ℚ) ^ (((expField FP32 x : Int) - (FP32.bias : Int)) / 2))) ∧
    (vsqrt_indices_f16m1 x = (expField FP16 x / 2 ^ 4, expField FP16 x % 16) ∧
      (vsqrt_indices_f16m1 x).1 < order_tab_high_f16.length ∧
      (vsqrt_indices_f16m1 x).2 < order_tab_low_f16.length ∧
      (vsqrt_indices_f16m1 x).2 < order_tab_low_f16_.length ∧
      (order_tab_high_f16.length = 2 ∧ order_tab_low_f16.length = 16 ∧
        order_tab_low_f16_.length = 16) ∧
      vsqrt_order_f16m1 x =
        (order_tab_high_f16.getD (vsqrt_indices_f16m1 x).1 0,
         order_tab_low_f16.getD (vsqrt_indices_f16m1 x).2 0,
         order_tab_low_f16_.getD (vsqrt_indices_f16m1 x).2 0) ∧
      (((expField FP16 x : Int) - (FP16.bias : Int)) % 2 = 0 →
        (vsqrt_order_f16m1 x).2.2 = 0 ∧
        ratOf FP16 (vsqrt_order_f16m1 x).1 * ratOf FP16 (vsqrt_order_f16m1 x).2.1 =
          (2 : ℚ) ^ (((expField FP16 x : Int) - (FP16.bias : Int)) / 2))) ∧
    (FP64.bias = 1023 ∧ FP32.bias = 127 ∧ FP16.bias = 15) ∧
    (∀ v : Nat,
      __riscv_vsqrt_f64m1 v =
        vsqrt_merges_f64m1 v
          (vsqrt_scaled_f64m1 (vsqrt_zh_zl_f64m1 (vsqrt_x_int_f64m1 v)).1
            (vsqrt_zh_zl_f64m1 (vsqrt_x_int_f64m1 v)).2
            (vsqrt_order_f64m1 (vsqrt_x_int_f64m1 v))) ∧
      __riscv_vsqrt_f32m1 v =
        vsqrt_merges_f32m1 v
          (vsqrt_scaled_f32m1 (vsqrt_zh_zl_f32m1 (vsqrt_x_int_f32m1 v)).1
            (vsqrt_zh_zl_f32m1 (vsqrt_x_int_f32m1 v)).2
            (vsqrt_order_f32m1 (vsqrt_x_int_f32m1 v))) ∧
      __riscv_vsqrt_f16m1 v =
        vsqrt_merges_f16m1 v
          (vsqrt_scaled_f16m1 (vsqrt_zh_zl_f16m1 (vsqrt_x_int_f16m1 v)).1
            (vsqrt_zh_zl_f16m1 (vsqrt_x_int_f16m1 v)).2
            (vsqrt_order_f16m1 (vsqrt_x_int_f16m1 v)))) := by
  have h64 : expField FP64 x < 2048 := expField_lt FP64 x
  have h32 : expField FP32 x < 256 := expField_lt FP32 x
  have h16 : expField FP16 x < 32 := expField_lt FP16 x
  have l64 : order_tab_high.length = 8 ∧ order_tab_mid.length = 16 ∧
      order_tab_low.length = 16 ∧ order_tab_low_.length = 16 := by decide
  have l32 : order_tab_high_flt.length = 16 ∧ order_tab_low_flt.length = 16 ∧
      order_tab_low_flt_.length = 16 := by decide
  have l16 : order_tab_high_f16.length = 2 ∧ order_tab_low_f16.length = 16 ∧
      order_tab_low_f16_.length = 16 := by decide
  refine ⟨⟨?_, ?_, ?_, ?_, ?_, l64, ?_, vsqrt_scale_f64 x⟩,
    ⟨?_, ?_, ?_, ?_, l32, ?_, vsqrt_scale_f32 x⟩,
    ⟨?_, ?_, ?_, ?_, l16, ?_, vsqrt_scale_f16 x⟩, by decide,
    fun v => ⟨vsqrt_f64m1_stages v, vsqrt_f32m1_stages v, vsqrt_f16m1_stages v⟩⟩
  · rw [vsqrt_indices_f64_eq]; norm_num
  · rw [vsqrt_indices_f64_eq, l64.1]; show expField FP64 x / 256 < 8; omega
  · rw [vsqrt_indices_f64_eq, l64.2.1]; show expField FP64 x / 16 % 16 < 16; omega
  · rw [vsqrt_indices_f64_eq, l64.2.2.1]; show expField FP64 x % 16 < 16; omega
  · rw [vsqrt_indices_f64_eq, l64.2.2.2]; show expField FP64 x % 16 < 16; omega
  · rw [vsqrt_order_f64_eq, vsqrt_indices_f64_eq]
  · rw [vsqrt_indices_f32_eq]; norm_num
  · rw [vsqrt_indices_f32_eq, l32.1]; show expField FP32 x / 16 < 16; omega
  · rw [vsqrt_indices_f32_eq, l32.2.1]; show expField FP32 x % 16 < 16; omega
  · rw [vsqrt_indices_f32_eq, l32.2.2]; show expField FP32 x % 16 < 16; omega
  · rw [vsqrt_order_f32_eq, vsqrt_indices_f32_eq]
  · rw [vsqrt_indices_f16_eq]; norm_num
  · rw [vsqrt_indices_f16_eq, l16.1]; show expField FP16 x / 16 < 2; omega
  · rw [vsqrt_indices_f16_eq, l16.2.1]; show expField FP16 x % 16 < 16; omega
  · rw [vsqrt_indices_f16_eq, l16.2.2]; show expField FP16 x % 16 < 16; omega
  · rw [vsqrt_order_f16_eq, vsqrt_indices_f16_eq]

/-! ## Grids of powers of two: the arithmetic behind Fast2Sum -/

/-- A multiple of `2 ^ k` below `2 ^ p * 2 ^ k` in magnitude is `z * 2 ^ k` with `|z| < 2 ^ p`. -/
theorem rep_of_dvd_lt {n : Int} {k p : Nat} (h1 : (2 : Int) ^ k ∣ n)
    (h2 : |n| < 2 ^ p * 2 ^ k) : ∃ z : Int, n = z * 2 ^ k ∧ z.natAbs < 2 ^ p := by
  obtain ⟨z, rfl⟩ := h1
  have hk : (0 : Int) < 2 ^ k := by positivity
  refine ⟨z, by ring, ?_⟩
  rw [abs_mul, abs_of_pos hk, mul_comm] at h2
  have h3 : |z| < 2 ^ p := lt_of_mul_lt_mul_right h2 (le_of_lt hk)
  have h4 : ((z.natAbs : Nat) : Int) < ((2 ^ p : Nat) : Int) := by
    rw [Int.natCast_natAbs, Nat.cast_pow, Nat.cast_ofNat]; exact h3
  exact Int.ofNat_lt.1 h4

/-- The same with the bound `2 * |n| < (2 ^ p + 1) * 2 ^ k`. -/
theorem rep_of_dvd_lt_half {n : Int} {k p : Nat} (hp : 1 ≤ p) (h1 : (2 : Int) ^ k ∣ n)
    (h2 : 2 * |n| < (2 ^ p + 1) * 2 ^ k) : ∃ z : Int, n = z * 2 ^ k ∧ z.natAbs < 2 ^ p := by
  apply rep_of_dvd_lt h1
  obtain ⟨z, rfl⟩ := h1
  have hk : (0 : Int) < 2 ^ k := by positivity
  rw [abs_mul, abs_of_pos hk] at h2 ⊢
  have h3 : (2 * |z|) * 2 ^ k < (2 ^ p + 1) * 2 ^ k := by linarith
  have h4 : 2 * |z| < 2 ^ p + 1 := lt_of_mul_lt_mul_right h3 (le_of_lt hk)
  have h5 : (2 : Int) ^ p = 2 * 2 ^ (p - 1) := by
    rw [← pow_succ']; congr 1; omega
  have h6 : |z| < 2 ^ p := by
    have : (0 : Int) < 2 ^ (p - 1) := by positivity
    omega
  rw [mul_comm]
  exact mul_lt_mul_of_pos_right h6 hk

/-- The rounded value is a nearest point of the grid of multiples of `2 ^ d`. -/
theorem grid_nearest {N q d : Nat} (h1 : 2 * N ≤ 2 * (q * 2 ^ d) + 2 ^ d)
    (h2 : 2 * (q * 2 ^ d) ≤ 2 * N + 2 ^ d) (g : Int) :
    |(N : Int) - q * 2 ^ d| ≤ |(N : Int) - g * 2 ^ d| := by
  have hD : (0 : Int) < 2 ^ d := by positivity
  have c1 : 2 * (N : Int) ≤ 2 * (q * 2 ^ d) + 2 ^ d := by exact_mod_cast h1
  have c2 : 2 * ((q : Int) * 2 ^ d) ≤ 2 * N + 2 ^ d := by exact_mod_cast h2
  rcases lt_trichotomy g (q : Int) with hg | hg | hg
  · have h3 : (g + 1) * 2 ^ d ≤ (q : Int) * 2 ^ d :=
      mul_le_mul_of_nonneg_right (by omega) (le_of_lt hD)
    have h4 : (g + 1) * (2 : Int) ^ d = g * 2 ^ d + 2 ^ d := by ring
    rcases abs_cases ((N : Int) - q * 2 ^ d) with ⟨e1, _⟩ | ⟨e1, _⟩ <;>
    rcases abs_cases ((N : Int) - g * 2 ^ d) with ⟨e2, _⟩ | ⟨e2, _⟩ <;>
    rw [e1, e2] <;> linarith
  · rw [hg]
  · have h3 : ((q : Int) + 1) * 2 ^ d ≤ g * 2 ^ d :=
      mul_le_mul_of_nonneg_right (by omega) (le_of_lt hD)
    have h4 : ((q : Int) + 1) * (2 : Int) ^ d = q * 2 ^ d + 2 ^ d := by ring
    rcases abs_cases ((N : Int) - q * 2 ^ d) with ⟨e1, _⟩ | ⟨e1, _⟩ <;>
    rcases abs_cases ((N : Int) - g * 2 ^ d) with ⟨e2, _⟩ | ⟨e2, _⟩ <;>
    rw [e1, e2] <;> linarith

/-- The rounded value is at least as close to `N` as any value `C` of the
floating-point grid (a multiple of `2 ^ e` below `2 ^ p * 2 ^ e`). -/
theorem nearest_float {p N q d : Nat} (hp : 1 ≤ p) (h1 : 2 * N ≤ 2 * (q * 2 ^ d) + 2 ^ d)
    (h2 : 2 * (q * 2 ^ d) ≤ 2 * N + 2 ^ d) (hd : d = 0 ∨ 2 ^ (d + p - 1) ≤ N)
    {C : Int} {e : Nat} (hC1 : (2 : Int) ^ e ∣ C) (hC2 : |C| < 2 ^ p * 2 ^ e) :
    |(N : Int) - q * 2 ^ d| ≤ |(N : Int) - C| := by
  rcases Nat.lt_or_ge e d with hed | hed
  · have hG : 2 ^ (d + p - 1) ≤ N := by
      rcases hd with h | h
      · omega
      · exact h
    have hG2 : ((2 : Int) ^ (p - 1)) * 2 ^ d ≤ N := by
      have : ((2 ^ (d + p - 1) : Nat) : Int) ≤ (N : Int) := Int.ofNat_le.2 hG
      rw [Nat.cast_pow, Nat.cast_ofNat] at this
      rw [← pow_add]
      have e2 : p - 1 + d = d + p - 1 := by omega
      rw [e2]; exact this
    have hC3 : |C| < ((2 : Int) ^ (p - 1)) * 2 ^ d := by
      have h3 : (2 : Int) ^ p * 2 ^ e ≤ 2 ^ (p - 1) * 2 ^ d := by
        rw [← pow_add, ← pow_add]
        exact pow_le_pow_right₀ (by norm_num) (by omega)
      exact lt_of_lt_of_le hC2 h3
    have hg := grid_nearest h1 h2 ((2 : Int) ^ (p - 1))
    rw [abs_of_nonneg (a := (N : Int) - 2 ^ (p - 1) * 2 ^ d) (by linarith)] at hg
    have h5 : (N : Int) - |C| ≤ |(N : Int) - C| := by
      rcases abs_cases C with ⟨e1, _⟩ | ⟨e1, _⟩ <;>
      rcases abs_cases ((N : Int) - C) with ⟨e2, _⟩ | ⟨e2, _⟩ <;>
      rw [e1, e2] <;> linarith
    linarith
  · obtain ⟨g, hg⟩ := dvd_trans (pow_dvd_pow (2 : Int) hed) hC1
    have := grid_nearest h1 h2 g
    rw [hg, mul_comm ((2 : Int) ^ d) g]
    exact this

/-- The arithmetic core of Fast2Sum.  `A` and `B` are values of the
floating-point grid with `ulp` exponents `eb ≤ ea`, `N = A + B`, and `q * 2 ^ d`
is `N` rounded to the grid of its binade.  Then both `q * 2 ^ d - A` and the
rounding error `N - q * 2 ^ d` are values of the grid. -/
theorem fast2sum_core {p ea eb d : Nat} {A B : Int} {N q : Nat} (hp : 1 ≤ p)
    (hA1 : (2 : Int) ^ ea ∣ A) (hA2 : |A| < 2 ^ p * 2 ^ ea)
    (hB1 : (2 : Int) ^ eb ∣ B) (hB2 : |B| < 2 ^ p * 2 ^ eb) (hab : eb ≤ ea)
    (hN : (N : Int) = A + B)
    (h1 : 2 * N ≤ 2 * (q * 2 ^ d) + 2 ^ d) (h2 : 2 * (q * 2 ^ d) ≤ 2 * N + 2 ^ d)
    (hex : ∀ m : Nat, N = m * 2 ^ d → q = m)
    (hd : d = 0 ∨ 2 ^ (d + p - 1) ≤ N) :
    (∃ z : Int, ∃ k : Nat, (q : Int) * 2 ^ d - A = z * 2 ^ k ∧ z.natAbs < 2 ^ p ∧
      (k = eb ∨ k = ea ∨ k = d)) ∧
    (∃ t : Int, (N : Int) - q * 2 ^ d = t * 2 ^ eb ∧ t.natAbs < 2 ^ p) := by
  have hEa : (0 : Int) < 2 ^ ea := by positivity
  have hEb : (0 : Int) < 2 ^ eb := by positivity
  have hD : (0 : Int) < 2 ^ d := by positivity
  have hP : (0 : Int) < 2 ^ p := by positivity
  have c1 : 2 * (N : Int) ≤ 2 * (q * 2 ^ d) + 2 ^ d := by exact_mod_cast h1
  have c2 : 2 * ((q : Int) * 2 ^ d) ≤ 2 * N + 2 ^ d := by exact_mod_cast h2
  have herr : |(N : Int) - q * 2 ^ d| ≤ |B| := by
    have := nearest_float hp h1 h2 hd hA1 hA2
    have e : (N : Int) - A = B := by linarith
    rwa [e] at this
  have hBN : (2 : Int) ^ eb ∣ (N : Int) := by
    rw [hN]; exact dvd_add (dvd_trans (pow_dvd_pow 2 hab) hA1) hB1
  have hgrid : d ≤ eb → (q : Int) * 2 ^ d = N := by
    intro h
    have h3 : ((2 ^ d : Nat) : Int) ∣ (N : Int) := by
      rw [Nat.cast_pow, Nat.cast_ofNat]; exact dvd_trans (pow_dvd_pow 2 h) hBN
    obtain ⟨m, hm⟩ := Int.natCast_dvd_natCast.1 h3
    have hq := hex m (by rw [hm, Nat.mul_comm])
    rw [hq, hm]; push_cast; ring
  constructor
  · have key : (q : Int) * 2 ^ d - A = B - ((N : Int) - q * 2 ^ d) := by linarith
    rcases Nat.lt_or_ge eb d with hbd | hbd
    · have h2e : 2 * |(N : Int) - q * 2 ^ d| ≤ 2 ^ d := by
        rcases abs_cases ((N : Int) - q * 2 ^ d) with ⟨e1, _⟩ | ⟨e1, _⟩ <;> rw [e1] <;> linarith
      have htri : |(q : Int) * 2 ^ d - A| ≤ |B| + |(N : Int) - q * 2 ^ d| := by
        rw [key]; exact abs_sub _ _
      rcases Nat.lt_or_ge ea d with had | had
      · -- the sum is one binade above `A`
        have hG : 2 ^ (d + p - 1) ≤ N := by
          rcases hd with h | h
          · omega
          · exact h
        have hNlt : (N : Int) < 2 ^ (p + ea + 1) := by
          have t1 : (N : Int) ≤ |A| + |B| := by rw [hN]; exact le_trans (le_abs_self _) (abs_add _ _)
          have t2 : (2 : Int) ^ p * 2 ^ eb ≤ 2 ^ p * 2 ^ ea :=
            mul_le_mul_of_nonneg_left (pow_le_pow_right₀ (by norm_num) hab) (le_of_lt hP)
          have t3 : (2 : Int) ^ (p + ea + 1) = 2 * (2 ^ p * 2 ^ ea) := by ring
          rw [t3]; linarith
        have hde : d = ea + 1 := by
          have t4 : ((2 ^ (d + p - 1) : Nat) : Int) < ((2 ^ (p + ea + 1) : Nat) : Int) := by
            rw [Nat.cast_pow, Nat.cast_pow, Nat.cast_ofNat]
            have : ((2 ^ (d + p - 1) : Nat) : Int) ≤ (N : Int) := Int.ofNat_le.2 hG
            rw [Nat.cast_pow, Nat.cast_ofNat] at this
            linarith
          have t5 : 2 ^ (d + p - 1) < 2 ^ (p + ea + 1) := Int.ofNat_lt.1 t4
          have t6 := (Nat.pow_lt_pow_iff_right (by norm_num : 1 < 2)).1 t5
          omega
        subst hde
        have hDE : (2 : Int) ^ (ea + 1) = 2 * 2 ^ ea := by ring
        have hdz : (2 : Int) ^ ea ∣ (q : Int) * 2 ^ (ea + 1) - A :=
          dvd_sub (Dvd.dvd.mul_left (pow_dvd_pow 2 (Nat.le_succ ea)) _) hA1
        have hBle : |B| ≤ (2 ^ p - 1) * 2 ^ ea := by
          obtain ⟨b, rfl⟩ := hB1
          rw [abs_mul, abs_of_pos hEb] at hB2 ⊢
          have t7 : |b| < 2 ^ p := by
            rw [mul_comm] at hB2
            exact lt_of_mul_lt_mul_right hB2 (le_of_lt hEb)
          have t8 : (2 : Int) ^ eb * |b| ≤ 2 ^ ea * |b| :=
            mul_le_mul_of_nonneg_right (pow_le_pow_right₀ (by norm_num) hab) (abs_nonneg _)
          have t9 : (2 : Int) ^ ea * |b| ≤ 2 ^ ea * (2 ^ p - 1) :=
            mul_le_mul_of_nonneg_left (by omega) (le_of_lt hEa)
          linarith
        obtain ⟨z, hz⟩ := hdz
        have hzle : |z| ≤ 2 ^ p := by
          have t10 : |(q : Int) * 2 ^ (ea + 1) - A| ≤ 2 ^ p * 2 ^ ea := by linarith
          rw [hz, abs_mul, abs_of_pos hEa, mul_comm] at t10
          exact le_of_mul_le_mul_right t10 hEa
        rcases lt_or_eq_of_le hzle with hlt | heq
        · refine ⟨z, ea, by rw [hz]; ring, ?_, Or.inr (Or.inl rfl)⟩
          have h4 : ((z.natAbs : Nat) : Int) < ((2 ^ p : Nat) : Int) := by
            rw [Int.natCast_natAbs, Nat.cast_pow, Nat.cast_ofNat]; exact hlt
          exact Int.ofNat_lt.1 h4
        · have hP2 : (2 : Int) ^ p = 2 * 2 ^ (p - 1) := by
            rw [← pow_succ']; congr 1; omega
          have hPn : (2 : Nat) ^ (p - 1) < 2 ^ p :=
            Nat.pow_lt_pow_right (by norm_num) (by omega)
          rcases abs_cases z with ⟨e1, _⟩ | ⟨e1, _⟩
          · refine ⟨2 ^ (p - 1), ea + 1, ?_, ?_, Or.inr (Or.inr rfl)⟩
            · rw [hz, hDE]
              have : z = 2 * 2 ^ (p - 1) := by rw [← hP2, ← heq, e1]
              rw [this]; ring
            · have : ((2 : Int) ^ (p - 1)).natAbs = 2 ^ (p - 1) := by
                rw [Int.natAbs_pow]; rfl
              rw [this]; exact hPn
          · refine ⟨-2 ^ (p - 1), ea + 1, ?_, ?_, Or.inr (Or.inr rfl)⟩
            · rw [hz, hDE]
              have : z = -(2 * 2 ^ (p - 1)) := by rw [← hP2, ← heq, e1]; ring
              rw [this]; ring
            · have : (-(2 : Int) ^ (p - 1)).natAbs = 2 ^ (p - 1) := by
                rw [Int.natAbs_neg, Int.natAbs_pow]; rfl
              rw [this]; exact hPn
      · -- the grid of the sum is not finer than that of `A`
        have hdz : (2 : Int) ^ d ∣ (q : Int) * 2 ^ d - A :=
          dvd_sub (Dvd.intro_left _ rfl) (dvd_trans (pow_dvd_pow 2 had) hA1)
        have t2 : 2 * ((2 : Int) ^ p * 2 ^ eb) ≤ 2 ^ p * 2 ^ d := by
          have : (2 : Int) ^ (eb + 1) ≤ 2 ^ d := pow_le_pow_right₀ (by norm_num) hbd
          have e3 : (2 : Int) ^ (eb + 1) = 2 * 2 ^ eb := by ring
          rw [e3] at this
          have := mul_le_mul_of_nonneg_left this (le_of_lt hP)
          linarith
        obtain ⟨z, hz, hz2⟩ := rep_of_dvd_lt_half hp hdz (by
          have e4 : ((2 : Int) ^ p + 1) * 2 ^ d = 2 ^ p * 2 ^ d + 2 ^ d := by ring
          rw [e4]; linarith)
        exact ⟨z, d, hz, hz2, Or.inr (Or.inr rfl)⟩
    · -- the sum is on the grid: no rounding
      rw [hgrid hbd]
      have e : (N : Int) - A = B := by linarith
      rw [e]
      obtain ⟨z, hz, hz2⟩ := rep_of_dvd_lt hB1 hB2
      exact ⟨z, eb, hz, hz2, Or.inl rfl⟩
  · have hdv : (2 : Int) ^ eb ∣ (N : Int) - q * 2 ^ d := by
      rcases Nat.lt_or_ge eb d with hbd | hbd
      · exact dvd_sub hBN (Dvd.dvd.mul_left (pow_dvd_pow 2 (le_of_lt hbd)) _)
      · rw [hgrid hbd, sub_self]; exact dvd_zero _
    exact rep_of_dvd_lt hdv (lt_of_le_of_lt herr hB2)

theorem expField_lt_of_finite (F : Fmt) {a : Nat} (ha : magOf F a < F.pinf) :
    expField F a + 1 < 2 ^ F.eb := by
  rw [magOf_decomp] at ha
  unfold Fmt.pinf at ha
  by_contra h
  have h2 : (2 ^ F.eb - 1) * 2 ^ F.mb ≤ expField F a * 2 ^ F.mb :=
    Nat.mul_le_mul_right _ (by omega)
  omega

/-- A finite lane is a value of the grid: a multiple of its `ulp`, below
`2 ^ (mb + 1)` ulps. -/
theorem finite_rep (F : Fmt) (heb : 2 < 2 ^ F.eb) {a : Nat} (ha : magOf F a < F.pinf) :
    (2 : Int) ^ (expField F a - 1) ∣ intOf F a ∧
    |intOf F a| < 2 ^ (F.mb + 1) * 2 ^ (expField F a - 1) ∧
    expField F a - 1 + 2 < 2 ^ F.eb := by
  have hE := expField_lt_of_finite F ha
  have hm : manField F a < 2 ^ F.mb := Nat.mod_lt _ (Nat.two_pow_pos _)
  have hdvn : 2 ^ (expField F a - 1) ∣ natOf F a := by
    unfold natOf
    split
    · rename_i h0; rw [h0]; exact one_dvd _
    · exact Dvd.intro_left _ rfl
  have hdvi : (2 : Int) ^ (expField F a - 1) ∣ (natOf F a : Int) := by
    have := Int.natCast_dvd_natCast.2 hdvn
    rwa [Nat.cast_pow, Nat.cast_ofNat] at this
  have hlt : natOf F a < 2 ^ (F.mb + 1) * 2 ^ (expField F a - 1) := by
    have h1 := natOf_lt_of_field F a
    rw [← Nat.pow_add]
    exact lt_of_lt_of_le h1 (Nat.pow_le_pow_right (by norm_num) (by omega))
  refine ⟨?_, ?_, by omega⟩
  · unfold intOf
    split
    · exact (dvd_neg).2 hdvi
    · exact hdvi
  · rw [abs_intOf]
    have := Int.ofNat_lt.2 hlt
    rwa [Nat.cast_mul, Nat.cast_pow, Nat.cast_pow, Nat.cast_ofNat] at this

theorem natOf_small (F : Fmt) (heb : 2 < 2 ^ F.eb) {N : Nat} (hN : N < 2 ^ (F.mb + 1)) :
    natOf F N = N ∧ N < F.pinf := by
  have hpinf : 2 ^ (F.mb + 1) ≤ F.pinf := by
    unfold Fmt.pinf
    have : 2 * 2 ^ F.mb ≤ (2 ^ F.eb - 1) * 2 ^ F.mb := Nat.mul_le_mul_right _ (by omega)
    rw [Nat.pow_succ]; omega
  refine ⟨?_, by omega⟩
  rcases Nat.lt_or_ge N (2 ^ F.mb) with hs | hs
  · have := natOf_pack F (E := 0) (m := N) (by omega) hs
    simpa using this
  · have hm : N - 2 ^ F.mb < 2 ^ F.mb := by rw [Nat.pow_succ] at hN; omega
    have := natOf_pack F (E := 1) (m := N - 2 ^ F.mb) (by omega) hm
    rw [Nat.one_mul, if_neg (by omega)] at this
    have e : 2 ^ F.mb + (N - 2 ^ F.mb) = N := by omega
    rw [e] at this
    simpa using this

/-- The pattern `d * 2 ^ mb + q` with `2 ^ mb ≤ q ≤ 2 ^ (mb + 1)` (a mantissa
carry included) has the magnitude `q * 2 ^ d`. -/
theorem natOf_binade (F : Fmt) {d q : Nat} (hd : 1 ≤ d) (hq1 : 2 ^ F.mb ≤ q)
    (hq2 : q ≤ 2 ^ (F.mb + 1)) (hfin : d * 2 ^ F.mb + q < F.pinf) :
    natOf F (d * 2 ^ F.mb + q) = q * 2 ^ d ∧ d + 2 < 2 ^ F.eb := by
  have hpm : 0 < 2 ^ F.mb := Nat.two_pow_pos _
  have hE : d + 2 < 2 ^ F.eb := by
    unfold Fmt.pinf at hfin
    by_contra h
    have h2 : (2 ^ F.eb - 1) * 2 ^ F.mb ≤ (d + 1) * 2 ^ F.mb := Nat.mul_le_mul_right _ (by omega)
    have e5 : (d + 1) * 2 ^ F.mb = d * 2 ^ F.mb + 2 ^ F.mb := by ring
    omega
  refine ⟨?_, hE⟩
  rcases Nat.lt_or_ge q (2 ^ (F.mb + 1)) with h | h
  · have hm : q - 2 ^ F.mb < 2 ^ F.mb := by rw [Nat.pow_succ] at h; omega
    have e : d * 2 ^ F.mb + q = (d + 1) * 2 ^ F.mb + (q - 2 ^ F.mb) := by
      rw [Nat.add_mul, Nat.one_mul]; omega
    rw [e, natOf_pack F (by omega) hm, if_neg (by omega)]
    have e2 : 2 ^ F.mb + (q - 2 ^ F.mb) = q := by omega
    rw [e2, Nat.add_sub_cancel]
  · have hq : q = 2 ^ (F.mb + 1) := le_antisymm hq2 h
    have e : d * 2 ^ F.mb + q = (d + 2) * 2 ^ F.mb + 0 := by
      rw [hq, Nat.pow_succ]; ring
    rw [e, natOf_pack F (by omega) hpm, if_neg (by omega), hq]
    have e3 : d + 2 - 1 = d + 1 := by omega
    rw [e3, Nat.add_zero, Nat.pow_succ, Nat.pow_succ]; ring

/-- Shape of a finite rounding result: `q * 2 ^ d` with `q` the rounded
quotient, and either no rounding (`d = 0`) or `N` in the binade of `ulp`
exponent `d`. -/
theorem roundPack_form (F : Fmt) (heb : 2 < 2 ^ F.eb) (s : Bool) {N : Nat} (hN : 0 < N)
    (hNlt : N < 2 ^ 2 ^ 13) (hfin : magOf F (roundPack F s N 0) < F.pinf) :
    ∃ d q : Nat,
      intOf F (roundPack F s N 0) =
        (if s then -((q * 2 ^ d : Nat) : Int) else ((q * 2 ^ d : Nat) : Int)) ∧
      q = rne N d ∧ (d = 0 ∨ 2 ^ (d + F.mb) ≤ N) ∧ d + 2 < 2 ^ F.eb := by
  have h1 : 2 ^ Nat.log 2 N ≤ N := Nat.pow_log_le_self 2 (by omega)
  have h2 : N < 2 ^ (Nat.log 2 N + 1) := Nat.lt_pow_succ_log_self (by norm_num) N
  have h3 : Nat.log 2 N + 1 ≤ 2 ^ 13 := by
    have : 2 ^ Nat.log 2 N < 2 ^ 2 ^ 13 := lt_of_le_of_lt h1 hNlt
    have := (Nat.pow_lt_pow_iff_right (by norm_num : 1 < 2)).1 this
    omega
  generalize Nat.log 2 N = l at h1 h2 h3
  rcases Nat.lt_or_ge F.mb l with hl | hl
  · -- rounding in the binade of `ulp` exponent `l - mb`
    have hq1 : 2 ^ F.mb ≤ rne N (l - F.mb) := by
      apply le_rne_of_le
      rw [← Nat.pow_add]
      have : F.mb + (l - F.mb) = l := by omega
      rw [this]; exact h1
    have hq2 : rne N (l - F.mb) ≤ 2 ^ (F.mb + 1) := by
      apply rne_le_of_le
      rw [← Nat.pow_add]
      have : F.mb + 1 + (l - F.mb) = l + 1 := by omega
      rw [this]; exact le_of_lt h2
    by_cases hov : (l - F.mb - 0) * 2 ^ F.mb + rne N (l - F.mb) < F.pinf
    · have hr := @roundPack_normal F s N 0 l h1 h2 h3 (by omega) hov
      rw [Nat.sub_zero] at hov hr
      obtain ⟨n1, n2⟩ := natOf_binade F (by omega) hq1 hq2 hov
      refine ⟨l - F.mb, rne N (l - F.mb), ?_, rfl, Or.inr ?_, n2⟩
      · rw [hr, intOf_of_pack F s (lt_trans hov (pinf_lt F)), n1]
      · have : l - F.mb + F.mb = l := by omega
        rw [this]; exact h1
    · exfalso
      have hr : roundPack F s N 0 = (if s then F.signMask else 0) + F.pinf := by
        unfold roundPack
        simp only [ilog2_of_bounds h1 h2 h3, if_neg (show ¬ l ≤ 0 + F.mb by omega),
          if_pos (not_lt.1 hov)]
      rw [hr, (sign_mag_of_pack F s (pinf_lt F)).2.1] at hfin
      omega
  · have hNs : N < 2 ^ (F.mb + 1) :=
      lt_of_lt_of_le h2 (Nat.pow_le_pow_right (by norm_num) (by omega))
    obtain ⟨n1, n2⟩ := natOf_small F heb hNs
    have hr := @roundPack_small F s N 0 l h1 h2 h3 (by omega) (by rw [rne_zero]; exact n2)
    rw [rne_zero] at hr
    refine ⟨0, N, ?_, (rne_zero N).symm, Or.inl rfl, by omega⟩
    rw [hr, intOf_of_pack F s (lt_trans n2 (pinf_lt F)), n1, pow_zero, Nat.mul_one]

theorem natAbs_sum_lt (F : Fmt) (hsz : F.mb + 2 ^ F.eb + 1 ≤ 2 ^ 13) {a b : Nat}
    (ha : magOf F a < F.pinf) (hb : magOf F b < F.pinf) :
    (intOf F a + intOf F b).natAbs < 2 ^ 2 ^ 13 := by
  have h1 := Int.natAbs_add_le (intOf F a) (intOf F b)
  rw [natAbs_intOf, natAbs_intOf] at h1
  have ea := expField_lt_of_finite F ha
  have eb := expField_lt_of_finite F hb
  have ba : natOf F a < 2 ^ (F.mb + 2 ^ F.eb) :=
    lt_of_lt_of_le (natOf_lt_of_field F a) (Nat.pow_le_pow_right (by norm_num) (by omega))
  have bb : natOf F b < 2 ^ (F.mb + 2 ^ F.eb) :=
    lt_of_lt_of_le (natOf_lt_of_field F b) (Nat.pow_le_pow_right (by norm_num) (by omega))
  have h2 : 2 ^ (F.mb + 2 ^ F.eb + 1) ≤ 2 ^ 2 ^ 13 := Nat.pow_le_pow_right (by norm_num) hsz
  rw [Nat.pow_succ] at h2
  omega

/-- Shape of a finite sum: up to the common sign, the exact sum is `N`, the
result is `q * 2 ^ d` with `q` the rounded quotient. -/
theorem vfadd_form (F : Fmt) (heb : 2 < 2 ^ F.eb) (hsz : F.mb + 2 ^ F.eb + 1 ≤ 2 ^ 13)
    {a b : Nat} (ha : magOf F a < F.pinf) (hb : magOf F b < F.pinf)
    (hfin : magOf F (vfadd F a b) < F.pinf) :
    ∃ d q : Nat,
      ((intOf F (vfadd F a b) = (q : Int) * 2 ^ d ∧
          (((intOf F a + intOf F b).natAbs : Nat) : Int) = intOf F a + intOf F b) ∨
        (intOf F (vfadd F a b) = -((q : Int) * 2 ^ d) ∧
          (((intOf F a + intOf F b).natAbs : Nat) : Int) = -(intOf F a + intOf F b))) ∧
      q = rne (intOf F a + intOf F b).natAbs d ∧
      (d = 0 ∨ 2 ^ (d + F.mb) ≤ (intOf F a + intOf F b).natAbs) ∧ d + 2 < 2 ^ F.eb := by
  rw [vfadd_finite F ha hb] at hfin ⊢
  by_cases hS : intOf F a + intOf F b = 0
  · rw [if_pos hS]
    refine ⟨0, 0, Or.inl ⟨?_, ?_⟩, ?_, Or.inl rfl, by omega⟩
    · split
      · rw [intOf_signMask]; simp
      · rw [intOf_zero]; simp
    · rw [hS]; rfl
    · rw [hS]; exact (rne_zero 0).symm
  · rw [if_neg hS] at hfin ⊢
    have hN : 0 < (intOf F a + intOf F b).natAbs := Int.natAbs_pos.2 hS
    obtain ⟨d, q, h1, h2, h3, h4⟩ :=
      roundPack_form F heb (decide (intOf F a + intOf F b < 0)) hN
        (natAbs_sum_lt F hsz ha hb) hfin
    refine ⟨d, q, ?_, h2, h3, h4⟩
    rw [h1, Nat.cast_mul, Nat.cast_pow, Nat.cast_ofNat]
    by_cases hneg : intOf F a + intOf F b < 0
    · right
      simp only [hneg, decide_True, if_true, true_and]
      exact Int.ofNat_natAbs_of_nonpos (le_of_lt hneg)
    · left
      simp only [hneg, decide_False, Bool.false_eq_true, if_false, true_and]
      exact Int.natAbs_of_nonneg (not_lt.1 hneg)

/-- For finite `a`, `b` with the exponent field of `a` at least that of
`b` and a finite rounded sum `s`, both `s - a` and the rounding error
`a + b - s` are representable, and `s` is a nearest finite value to `a + b`. -/
theorem vfadd_error_rep (F : Fmt) (heb : 2 < 2 ^ F.eb) (hsz : F.mb + 2 ^ F.eb + 1 ≤ 2 ^ 13)
    {a b : Nat} (ha : magOf F a < F.pinf) (hb : magOf F b < F.pinf)
    (hexp : expField F b ≤ expField F a) (hfin : magOf F (vfadd F a b) < F.pinf) :
    (∃ z : Int, ∃ k : Nat, intOf F (vfadd F a b) - intOf F a = z * 2 ^ k ∧
      z.natAbs < 2 ^ (F.mb + 1) ∧ k + 2 < 2 ^ F.eb) ∧
    (∃ t : Int, ∃ k : Nat, intOf F a + intOf F b - intOf F (vfadd F a b) = t * 2 ^ k ∧
      t.natAbs < 2 ^ (F.mb + 1) ∧ k + 2 < 2 ^ F.eb) ∧
    (∀ c, magOf F c < F.pinf →
      |intOf F a + intOf F b - intOf F (vfadd F a b)| ≤ |intOf F a + intOf F b - intOf F c|) := by
  obtain ⟨a1, a2, a3⟩ := finite_rep F heb ha
  obtain ⟨b1, b2, b3⟩ := finite_rep F heb hb
  have hue : expField F b - 1 ≤ expField F a - 1 := by omega
  obtain ⟨d, q, hsh, hq, hd, hd2⟩ := vfadd_form F heb hsz ha hb hfin
  have hp : 1 ≤ F.mb + 1 := by omega
  obtain ⟨r1, r2, _, _⟩ := rne_spec (intOf F a + intOf F b).natAbs d
  rw [← hq] at r1 r2
  have hex : ∀ m : Nat, (intOf F a + intOf F b).natAbs = m * 2 ^ d → q = m := by
    intro m hm
    rw [hq, hm, rne_mul]
  have hd3 : d = 0 ∨ 2 ^ (d + (F.mb + 1) - 1) ≤ (intOf F a + intOf F b).natAbs := by
    rcases hd with h | h
    · exact Or.inl h
    · right
      have : d + (F.mb + 1) - 1 = d + F.mb := by omega
      rw [this]; exact h
  generalize (intOf F a + intOf F b).natAbs = N at hsh r1 r2 hex hd3
  generalize intOf F (vfadd F a b) = s at hsh ⊢
  rcases hsh with ⟨hs, hN⟩ | ⟨hs, hN⟩
  · obtain ⟨⟨z, k, hz, hz2, hk⟩, ⟨t, ht, ht2⟩⟩ :=
      fast2sum_core hp a1 a2 b1 b2 hue hN r1 r2 hex hd3
    refine ⟨⟨z, k, by rw [hs]; exact hz, hz2, ?_⟩,
      ⟨t, expField F b - 1, by rw [hs, ← hN]; exact ht, ht2, b3⟩, ?_⟩
    · rcases hk with h | h | h <;> rw [h] <;> assumption
    · intro c hc
      obtain ⟨c1, c2, _⟩ := finite_rep F heb hc
      have := nearest_float hp r1 r2 hd3 c1 c2
      rw [hs, ← hN]; exact this
  · have hN2 : (N : Int) = -intOf F a + -intOf F b := by rw [hN]; ring
    obtain ⟨⟨z, k, hz, hz2, hk⟩, ⟨t, ht, ht2⟩⟩ :=
      fast2sum_core hp ((dvd_neg).2 a1) (by rw [abs_neg]; exact a2) ((dvd_neg).2 b1)
        (by rw [abs_neg]; exact b2) hue hN2 r1 r2 hex hd3
    refine ⟨⟨-z, k, ?_, by rw [Int.natAbs_neg]; exact hz2, ?_⟩,
      ⟨-t, expField F b - 1, ?_, by rw [Int.natAbs_neg]; exact ht2, b3⟩, ?_⟩
    · rw [hs]; linarith
    · rcases hk with h | h | h <;> rw [h] <;> assumption
    · rw [hs]; linarith
    · intro c hc
      obtain ⟨c1, c2, _⟩ := finite_rep F heb hc
      have h5 := nearest_float hp r1 r2 hd3 ((dvd_neg).2 c1) (by rw [abs_neg]; exact c2)
      have e1 : intOf F a + intOf F b - s = -((N : Int) - q * 2 ^ d) := by rw [hs, hN]; ring
      have e2 : intOf F a + intOf F b - intOf F c = -((N : Int) - -intOf F c) := by
        rw [hN]; ring
      rw [e1, e2, abs_neg, abs_neg]; exact h5

theorem vfadd_comm_finite (F : Fmt) {a b : Nat} (ha : magOf F a < F.pinf)
    (hb : magOf F b < F.pinf) : vfadd F b a = vfadd F a b := by
  rw [vfadd_finite F ha hb, vfadd_finite F hb ha, add_comm (intOf F b), Bool.and_comm]

/-- Fast2Sum on the soft-float model: under the exponent precondition the pair
`(sh, sl)` is finite and `sh + sl = a + b` exactly. -/
theorem fast_2_sum_exact (F : Fmt) (heb : 2 < 2 ^ F.eb) (hsz : F.mb + 2 ^ F.eb + 1 ≤ 2 ^ 13)
    {a b : Nat} (ha : magOf F a < F.pinf) (hb : magOf F b < F.pinf)
    (hexp : expField F b ≤ expField F a) (hfin : magOf F (vfadd F a b) < F.pinf) :
    magOf F (fast_2_sum_vv F a b).2 < F.pinf ∧
    intOf F (fast_2_sum_vv F a b).1 + intOf F (fast_2_sum_vv F a b).2 =
      intOf F a + intOf F b := by
  obtain ⟨⟨z, k, hz, hz2, hk⟩, ⟨t, k2, ht, ht2, hk2⟩, _⟩ :=
    vfadd_error_rep F heb hsz ha hb hexp hfin
  obtain ⟨r1, _, r3, _⟩ := vfsub_exact F heb hfin ha hz hz2 hk (by omega)
  have hz3 : intOf F b - intOf F (vfsub F (vfadd F a b) a) = t * 2 ^ k2 := by
    rw [r1, ← hz, ← ht]; ring
  obtain ⟨s1, _, s3, _⟩ := vfsub_exact F heb hb r3 hz3 ht2 hk2 (by omega)
  show magOf F (vfsub F b (vfsub F (vfadd F a b) a)) < F.pinf ∧
    intOf F (vfadd F a b) + intOf F (vfsub F b (vfsub F (vfadd F a b) a)) = _
  refine ⟨s3, ?_⟩
  rw [s1, ← ht]; ring

theorem expField_le_of_natOf_le (F : Fmt) {a b : Nat} (h : natOf F b ≤ natOf F a) :
    expField F b ≤ expField F a := by
  by_contra hc
  have h1 := natOf_field_le F (le_refl (expField F a))
  have h2 := natOf_field_gt F (not_le.1 hc)
  omega

/-- C25: fast2sum is error-free.  In every width, for finite lanes `a`, `b` with
`|a| >= |b|` whose rounded sum does not overflow, `fast_2_sum_vv` and
`fast_2_sum_fv` return the same pair `(sh, sl)`: `sh` is the rounded sum
`vfadd(a, b)`, which is a nearest finite value to the exact `a + b`, `sl` is
finite, and `sh + sl = a + b` exactly (values counted as integers in units of
the smallest subnormal). -/
theorem fast_2_sum_is_error_free (w : Width) (a b : Nat)
    (ha : magOf w.fmt a < w.fmt.pinf) (hb : magOf w.fmt b < w.fmt.pinf)
    (hab : natOf w.fmt b ≤ natOf w.fmt a)
    (hov : magOf w.fmt (vfadd w.fmt a b) < w.fmt.pinf) :
    (fast_2_sum_vv w.fmt a b).1 = vfadd w.fmt a b ∧
    fast_2_sum_fv w.fmt a b = fast_2_sum_vv w.fmt a b ∧
    (∀ c, magOf w.fmt c < w.fmt.pinf →
      |intOf w.fmt a + intOf w.fmt b - intOf w.fmt (fast_2_sum_vv w.fmt a b).1| ≤
        |intOf w.fmt a + intOf w.fmt b - intOf w.fmt c|) ∧
    magOf w.fmt (fast_2_sum_vv w.fmt a b).2 < w.fmt.pinf ∧
    intOf w.fmt (fast_2_sum_vv w.fmt a b).1 + intOf w.fmt (fast_2_sum_vv w.fmt a b).2 =
      intOf w.fmt a + intOf w.fmt b := by
  have heb : 2 < 2 ^ w.fmt.eb := by cases w <;> decide
  have hsz : w.fmt.mb + 2 ^ w.fmt.eb + 1 ≤ 2 ^ 13 := by cases w <;> decide
  have hexp := expField_le_of_natOf_le w.fmt hab
  obtain ⟨e1, e2⟩ := fast_2_sum_exact w.fmt heb hsz ha hb hexp hov
  refine ⟨rfl, ?_, (vfadd_error_rep w.fmt heb hsz ha hb hexp hov).2.2, e1, e2⟩
  show (vfadd w.fmt b a, vfsub w.fmt b (vfsub w.fmt (vfadd w.fmt b a) a)) =
    (vfadd w.fmt a b, vfsub w.fmt b (vfsub w.fmt (vfadd w.fmt a b) a))
  rw [vfadd_comm_finite w.fmt ha hb]

theorem fast_2_sum_is_error_free_witness :
    intOf Width.f16.fmt (fast_2_sum_vv Width.f16.fmt 0x3c00 0x1001).1 +
        intOf Width.f16.fmt (fast_2_sum_vv Width.f16.fmt 0x3c00 0x1001).2 =
      intOf Width.f16.fmt 0x3c00 + intOf Width.f16.fmt 0x1001 :=
  (fast_2_sum_is_error_free .f16 0x3c00 0x1001 (by decide!) (by decide!) (by decide!)
    (by decide!)).2.2.2.2

theorem natOf_le_max (F : Fmt) (heb : 2 < 2 ^ F.eb) {a : Nat} (ha : magOf F a < F.pinf) :
    natOf F a ≤ (2 ^ (F.mb + 1) - 1) * 2 ^ (2 ^ F.eb - 3) := by
  obtain ⟨h1, h2, h3⟩ := finite_rep F heb ha
  rw [abs_intOf] at h2
  obtain ⟨c, hc⟩ := h1
  have hn : natOf F a = 2 ^ (expField F a - 1) * c.natAbs := by
    have := congrArg Int.natAbs hc
    rw [natAbs_intOf, Int.natAbs_mul, Int.natAbs_pow] at this
    exact this
  have hpos : 0 < 2 ^ (expField F a - 1) := Nat.two_pow_pos _
  have hlt : natOf F a < 2 ^ (F.mb + 1) * 2 ^ (expField F a - 1) := by
    have : ((natOf F a : Nat) : Int) < ((2 ^ (F.mb + 1) * 2 ^ (expField F a - 1) : Nat) : Int) := by
      rw [Nat.cast_mul, Nat.cast_pow, Nat.cast_pow, Nat.cast_ofNat]; exact h2
    exact Int.ofNat_lt.1 this
  have hc2 : c.natAbs < 2 ^ (F.mb + 1) := by
    rw [hn, Nat.mul_comm] at hlt
    exact Nat.lt_of_mul_lt_mul_right hlt
  have hle : 2 ^ (expField F a - 1) ≤ 2 ^ (2 ^ F.eb - 3) :=
    Nat.pow_le_pow_right (by norm_num) (by omega)
  calc natOf F a = c.natAbs * 2 ^ (expField F a - 1) := by rw [hn, Nat.mul_comm]
    _ ≤ (2 ^ (F.mb + 1) - 1) * 2 ^ (expField F a - 1) := Nat.mul_le_mul_right _ (by omega)
    _ ≤ (2 ^ (F.mb + 1) - 1) * 2 ^ (2 ^ F.eb - 3) := Nat.mul_le_mul_left _ hle

/-- A magnitude below the largest finite value plus half an `ulp` rounds to a
finite pattern. -/
theorem roundPack_finite_of_lt (F : Fmt) (heb : 2 < 2 ^ F.eb)
    (hsz : F.mb + 2 ^ F.eb + 1 ≤ 2 ^ 13) (s : Bool) {N : Nat} (hN : 0 < N)
    (h : 2 * N < (2 ^ (F.mb + 2) - 1) * 2 ^ (2 ^ F.eb - 3)) :
    magOf F (roundPack F s N 0) < F.pinf := by
  have hpm : 0 < 2 ^ F.mb := Nat.two_pow_pos _
  have hK : 0 < 2 ^ (2 ^ F.eb - 3) := Nat.two_pow_pos _
  have h1 : 2 ^ Nat.log 2 N ≤ N := Nat.pow_log_le_self 2 (by omega)
  have h2 : N < 2 ^ (Nat.log 2 N + 1) := Nat.lt_pow_succ_log_self (by norm_num) N
  have hNlt : N < 2 ^ (F.mb + 1 + (2 ^ F.eb - 3)) := by
    have e : 2 ^ (F.mb + 1 + (2 ^ F.eb - 3)) = 2 ^ (F.mb + 1) * 2 ^ (2 ^ F.eb - 3) := Nat.pow_add _ _ _
    have h5 : (2 ^ (F.mb + 2) - 1) * 2 ^ (2 ^ F.eb - 3) ≤
        2 * (2 ^ (F.mb + 1) * 2 ^ (2 ^ F.eb - 3)) := by
      calc (2 ^ (F.mb + 2) - 1) * 2 ^ (2 ^ F.eb - 3)
          ≤ 2 ^ (F.mb + 2) * 2 ^ (2 ^ F.eb - 3) := Nat.mul_le_mul_right _ (Nat.sub_le _ _)
        _ = 2 * (2 ^ (F.mb + 1) * 2 ^ (2 ^ F.eb - 3)) := by
          rw [Nat.pow_succ 2 (F.mb + 1), Nat.mul_comm (2 ^ (F.mb + 1)) 2, Nat.mul_assoc]
    rw [e]; omega
  have hl : Nat.log 2 N < F.mb + 1 + (2 ^ F.eb - 3) :=
    (Nat.pow_lt_pow_iff_right (by norm_num : 1 < 2)).1 (lt_of_le_of_lt h1 hNlt)
  have h3 : Nat.log 2 N + 1 ≤ 2 ^ 13 := by omega
  generalize Nat.log 2 N = l at h1 h2 h3 hl
  rcases Nat.lt_or_ge F.mb l with hlm | hlm
  · have hq2 : rne N (l - F.mb) ≤ 2 ^ (F.mb + 1) := by
      apply rne_le_of_le
      rw [← Nat.pow_add]
      have : F.mb + 1 + (l - F.mb) = l + 1 := by omega
      rw [this]; exact le_of_lt h2
    have hbits : (l - F.mb - 0) * 2 ^ F.mb + rne N (l - F.mb) < F.pinf := by
      unfold Fmt.pinf
      rw [Nat.sub_zero]
      rcases Nat.lt_or_ge (l - F.mb) (2 ^ F.eb - 3) with hd | hd
      · have h6 : (l - F.mb + 2) * 2 ^ F.mb ≤ (2 ^ F.eb - 2) * 2 ^ F.mb :=
          Nat.mul_le_mul_right _ (by omega)
        have e6 : (l - F.mb + 2) * 2 ^ F.mb = (l - F.mb) * 2 ^ F.mb + 2 ^ (F.mb + 1) := by
          rw [Nat.add_mul, Nat.pow_succ, Nat.mul_comm 2]
        have h7 : (2 ^ F.eb - 2) * 2 ^ F.mb < (2 ^ F.eb - 1) * 2 ^ F.mb :=
          Nat.mul_lt_mul_of_pos_right (by omega) hpm
        omega
      · have hd2 : l - F.mb = 2 ^ F.eb - 3 := by omega
        rw [hd2] at hq2 ⊢
        obtain ⟨_, r2, _, _⟩ := rne_spec N (2 ^ F.eb - 3)
        have hq3 : rne N (2 ^ F.eb - 3) < 2 ^ (F.mb + 1) := by
          have e7 : (2 ^ (F.mb + 2) - 1) * 2 ^ (2 ^ F.eb - 3) + 2 ^ (2 ^ F.eb - 3) =
              2 * (2 ^ (F.mb + 1) * 2 ^ (2 ^ F.eb - 3)) := by
            have : 1 ≤ 2 ^ (F.mb + 2) := Nat.one_le_two_pow
            rw [← Nat.succ_mul, Nat.succ_eq_add_one, Nat.sub_add_cancel this, Nat.pow_succ]
            ring
          have h8 : rne N (2 ^ F.eb - 3) * 2 ^ (2 ^ F.eb - 3) <
              2 ^ (F.mb + 1) * 2 ^ (2 ^ F.eb - 3) := by omega
          exact Nat.lt_of_mul_lt_mul_right h8
        have e8 : (2 ^ F.eb - 1) * 2 ^ F.mb = (2 ^ F.eb - 3) * 2 ^ F.mb + 2 ^ (F.mb + 1) := by
          have : 2 ^ F.eb - 1 = (2 ^ F.eb - 3) + 2 := by omega
          rw [this, Nat.add_mul, Nat.pow_succ, Nat.mul_comm 2]
        omega
    rw [@roundPack_normal F s N 0 l h1 h2 h3 (by omega) hbits,
      (sign_mag_of_pack F s (lt_trans hbits (pinf_lt F))).2.1]
    exact hbits
  · have hNs : N < 2 ^ (F.mb + 1) :=
      lt_of_lt_of_le h2 (Nat.pow_le_pow_right (by norm_num) (by omega))
    obtain ⟨_, n2⟩ := natOf_small F heb hNs
    rw [@roundPack_small F s N 0 l h1 h2 h3 (by omega) (by rw [rne_zero]; exact n2), rne_zero,
      (sign_mag_of_pack F s (lt_trans n2 (pinf_lt F))).2.1]
    exact n2

/-- The sum of two finite lanes is finite when the sum of the magnitudes stays
below the largest finite value plus half an `ulp`. -/
theorem vfadd_finite_of_bound (F : Fmt) (heb : 2 < 2 ^ F.eb)
    (hsz : F.mb + 2 ^ F.eb + 1 ≤ 2 ^ 13) {a b : Nat} (ha : magOf F a < F.pinf)
    (hb : magOf F b < F.pinf)
    (h : 2 * (natOf F a + natOf F b) < (2 ^ (F.mb + 2) - 1) * 2 ^ (2 ^ F.eb - 3)) :
    magOf F (vfadd F a b) < F.pinf := by
  rw [vfadd_finite F ha hb]
  by_cases hS : intOf F a + intOf F b = 0
  · rw [if_pos hS]
    split
    · rw [magOf_signMask]; exact pinf_pos F heb
    · simp only [magOf, Nat.zero_mod]; exact pinf_pos F heb
  · rw [if_neg hS]
    have h1 := Int.natAbs_add_le (intOf F a) (intOf F b)
    rw [natAbs_intOf, natAbs_intOf] at h1
    exact roundPack_finite_of_lt F heb hsz _ (Int.natAbs_pos.2 hS) (by omega)

theorem sort_pair_sum (w : Width) (sh : Nat) :
    natOf w.fmt (reconstruct_expm1_sort w sh).1 + natOf w.fmt (reconstruct_expm1_sort w sh).2 =
      natOf w.fmt sh + 2 ^ (w.fmt.bias + w.fmt.mb - 1) ∧
    intOf w.fmt (reconstruct_expm1_sort w sh).1 + intOf w.fmt (reconstruct_expm1_sort w sh).2 =
      intOf w.fmt sh + intOf w.fmt (EXPM1_UNDERFLOW_VALUE w) := by
  obtain ⟨_, _, m3, _, _⟩ := expField_m1 w
  rw [sort_eq]
  by_cases c : w.fmt.bias < expField w.fmt sh
  · simp only [c, if_true, m3, and_self]
  · simp only [c, if_false, m3]
    exact ⟨Nat.add_comm _ _, add_comm _ _⟩

theorem one_below_half_top_ulp (w : Width) :
    w.fmt.bias + w.fmt.mb < 2 ^ w.fmt.eb - 3 ∧ 2 < 2 ^ w.fmt.eb ∧
    w.fmt.mb + 2 ^ w.fmt.eb + 1 ≤ 2 ^ 13 ∧ 1 ≤ w.fmt.bias := by
  cases w <;> decide

/-- C24, as stated, fails: the exponent-injected `sh = 1.5` (reached by
`reconstruct_expm1_*` from `th = 1.5`, `tl = pm1h = pm1l = 0`, `ei = 0`) is
finite, its exponent field equals the bias, so `sortMask` is clear and
`fast_2_sum_vv` receives `maxs = -1.0`, `mins = 1.5` with `|maxs| < |mins|`;
the same happens inside the kernels, e.g. for the lane `x = 0.5`, whose `sh`
is about `1.6487`. -/
theorem expm1_fast2sum_first_operand_not_dominant :
    (reconstruct_expm1_sh .f64 0x3ff8000000000000 0 0 0 0 = 0x3ff8000000000000 ∧
      magOf FP64 0x3ff8000000000000 < FP64.pinf ∧
      reconstruct_expm1_sort .f64 0x3ff8000000000000 =
        (0xbff0000000000000, 0x3ff8000000000000) ∧
      natOf FP64 (reconstruct_expm1_sort .f64 0x3ff8000000000000).1 <
        natOf FP64 (reconstruct_expm1_sort .f64 0x3ff8000000000000).2) ∧
    (reconstruct_expm1_sh .f32 0x3fc00000 0 0 0 0 = 0x3fc00000 ∧
      reconstruct_expm1_sort .f32 0x3fc00000 = (0xbf800000, 0x3fc00000) ∧
      natOf FP32 (reconstruct_expm1_sort .f32 0x3fc00000).1 <
        natOf FP32 (reconstruct_expm1_sort .f32 0x3fc00000).2) ∧
    (reconstruct_expm1_sh .f16 0x3e00 0 0 0 0 = 0x3e00 ∧
      reconstruct_expm1_sort .f16 0x3e00 = (0xbc00, 0x3e00) ∧
      natOf FP16 (reconstruct_expm1_sort .f16 0x3e00).1 <
        natOf FP16 (reconstruct_expm1_sort .f16 0x3e00).2) ∧
    (vexpm1_sh .f64 0x3fe0000000000000 = 0x3ffa61298e1e069c ∧
      reconstruct_expm1_sort .f64 (vexpm1_sh .f64 0x3fe0000000000000) =
        (0xbff0000000000000, 0x3ffa61298e1e069c) ∧
      natOf FP64 (reconstruct_expm1_sort .f64 (vexpm1_sh .f64 0x3fe0000000000000)).1 <
        natOf FP64 (reconstruct_expm1_sort .f64 (vexpm1_sh .f64 0x3fe0000000000000)).2) := by
  refine ⟨⟨?_, ?_, ?_, ?_⟩, ⟨?_, ?_, ?_⟩, ⟨?_, ?_, ?_⟩, ⟨?_, ?_, ?_⟩⟩ <;> decide!

/-- C24 amended: in `reconstruct_expm1_*` of every width, for every finite
exponent-injected `sh`, both operands of `fast_2_sum_vv(maxs, mins)` are
finite, the exponent field of `maxs` is at least that of `mins` (the
precondition that `exp_utilities.inl` documents), and so `|mins| < 2 * |maxs|`;
the magnitude order `|maxs| >= |mins|` holds exactly when `|sh|` is not
strictly between `1` and `2`.  The exponent order is enough: the call is
error-free, its results `rh`, `rl` are finite and `rh + rl = sh - 1` exactly.
Magnitudes are counted in units of the smallest subnormal, where `1.0` is
`2 ^ (bias + mb - 1)`. -/
theorem expm1_fast2sum_operands_exponent_ordered (w : Width) (sh : Nat)
    (hfin : magOf w.fmt sh < w.fmt.pinf) :
    magOf w.fmt (reconstruct_expm1_sort w sh).1 < w.fmt.pinf ∧
    magOf w.fmt (reconstruct_expm1_sort w sh).2 < w.fmt.pinf ∧
    expField w.fmt (reconstruct_expm1_sort w sh).2 ≤
      expField w.fmt (reconstruct_expm1_sort w sh).1 ∧
    natOf w.fmt (reconstruct_expm1_sort w sh).2 <
      2 * natOf w.fmt (reconstruct_expm1_sort w sh).1 ∧
    (natOf w.fmt (reconstruct_expm1_sort w sh).2 ≤ natOf w.fmt (reconstruct_expm1_sort w sh).1 ↔
      ¬ (2 ^ (w.fmt.bias + w.fmt.mb - 1) < natOf w.fmt sh ∧
         natOf w.fmt sh < 2 * 2 ^ (w.fmt.bias + w.fmt.mb - 1))) ∧
    (magOf w.fmt (fast_2_sum_vv w.fmt (reconstruct_expm1_sort w sh).1
        (reconstruct_expm1_sort w sh).2).1 < w.fmt.pinf ∧
      magOf w.fmt (fast_2_sum_vv w.fmt (reconstruct_expm1_sort w sh).1
        (reconstruct_expm1_sort w sh).2).2 < w.fmt.pinf ∧
      intOf w.fmt (fast_2_sum_vv w.fmt (reconstruct_expm1_sort w sh).1
          (reconstruct_expm1_sort w sh).2).1 +
        intOf w.fmt (fast_2_sum_vv w.fmt (reconstruct_expm1_sort w sh).1
          (reconstruct_expm1_sort w sh).2).2 =
        intOf w.fmt sh - 2 ^ (w.fmt.bias + w.fmt.mb - 1)) := by
  have hs := sort_eq w sh
  obtain ⟨m1, _, m3, m4, m5⟩ := expField_m1 w
  obtain ⟨k1, heb, hsz, hb⟩ := one_below_half_top_ulp w
  have e2 : 2 * 2 ^ (w.fmt.bias + w.fmt.mb - 1) = 2 ^ (w.fmt.mb + w.fmt.bias) := by
    have : w.fmt.mb + w.fmt.bias = (w.fmt.bias + w.fmt.mb - 1) + 1 := by omega
    rw [this, Nat.pow_succ, Nat.mul_comm]
  have hg : 0 < 2 ^ (w.fmt.bias + w.fmt.mb - 1) := Nat.two_pow_pos _
  -- the first five parts, by the two cases of the sort
  have part : magOf w.fmt (reconstruct_expm1_sort w sh).1 < w.fmt.pinf ∧
      magOf w.fmt (reconstruct_expm1_sort w sh).2 < w.fmt.pinf ∧
      expField w.fmt (reconstruct_expm1_sort w sh).2 ≤
        expField w.fmt (reconstruct_expm1_sort w sh).1 ∧
      natOf w.fmt (reconstruct_expm1_sort w sh).2 <
        2 * natOf w.fmt (reconstruct_expm1_sort w sh).1 ∧
      (natOf w.fmt (reconstruct_expm1_sort w sh).2 ≤
          natOf w.fmt (reconstruct_expm1_sort w sh).1 ↔
        ¬ (2 ^ (w.fmt.bias + w.fmt.mb - 1) < natOf w.fmt sh ∧
           natOf w.fmt sh < 2 * 2 ^ (w.fmt.bias + w.fmt.mb - 1))) := by
    rw [hs]
    by_cases c : w.fmt.bias < expField w.fmt sh
    · simp only [c, if_true]
      have h1 := natOf_field_gt w.fmt c
      rw [← e2] at h1
      rw [m1, m3]
      refine ⟨hfin, m5, by omega, by omega, ?_⟩
      constructor
      · intro _ h; omega
      · intro _; omega
    · simp only [c, if_false]
      have h1 := natOf_field_le w.fmt (not_lt.1 c)
      rw [← e2] at h1
      rw [m1, m3]
      refine ⟨m5, hfin, by omega, by omega, ?_⟩
      constructor
      · intro h h2; omega
      · intro h; by_contra h3; exact h ⟨by omega, by omega⟩
  obtain ⟨p1, p2, p3, p4, p5⟩ := part
  refine ⟨p1, p2, p3, p4, p5, ?_⟩
  -- the rounded sum is finite: `1.0` is below half an ulp of the top binade
  obtain ⟨q1, q2⟩ := sort_pair_sum w sh
  have hmax := natOf_le_max w.fmt heb hfin
  have hU : 2 * 2 ^ (w.fmt.bias + w.fmt.mb - 1) < 2 ^ (2 ^ w.fmt.eb - 3) := by
    rw [e2]; exact Nat.pow_lt_pow_right (by norm_num) (by omega)
  have hsum : magOf w.fmt (vfadd w.fmt (reconstruct_expm1_sort w sh).1
      (reconstruct_expm1_sort w sh).2) < w.fmt.pinf := by
    apply vfadd_finite_of_bound w.fmt heb hsz p1 p2
    rw [q1]
    have e3 : (2 ^ (w.fmt.mb + 2) - 1) * 2 ^ (2 ^ w.fmt.eb - 3) =
        2 * ((2 ^ (w.fmt.mb + 1) - 1) * 2 ^ (2 ^ w.fmt.eb - 3)) + 2 ^ (2 ^ w.fmt.eb - 3) := by
      have t1 : 2 ^ (w.fmt.mb + 2) - 1 = 2 * (2 ^ (w.fmt.mb + 1) - 1) + 1 := by
        have : 1 ≤ 2 ^ (w.fmt.mb + 1) := Nat.one_le_two_pow
        rw [Nat.pow_succ]; omega
      rw [t1, Nat.add_mul, Nat.one_mul, Nat.mul_assoc]
    rw [e3]; omega
  obtain ⟨f1, f2⟩ := fast_2_sum_exact w.fmt heb hsz p1 p2 p3 hsum
  refine ⟨hsum, f1, ?_⟩
  rw [f2, q2]
  have hm : intOf w.fmt (EXPM1_UNDERFLOW_VALUE w) = -(2 ^ (w.fmt.bias + w.fmt.mb - 1) : Int) := by
    unfold intOf
    rw [m4, if_pos rfl, m3, Nat.cast_pow, Nat.cast_ofNat]
  rw [hm]; ring

/-- C24 amended, at the binary64 lane `sh = 2.0`, which goes to the first slot. -/
theorem expm1_fast2sum_operands_exponent_ordered_witness :
    natOf Width.f64.fmt (reconstruct_expm1_sort .f64 0x4000000000000000).2 <
      2 * natOf Width.f64.fmt (reconstruct_expm1_sort .f64 0x4000000000000000).1 :=
  (expm1_fast2sum_operands_exponent_ordered .f64 0x4000000000000000 (by decide!)).2.2.2.1

end RVVMF
